import Mathlib

/-!
# Geometrically constrained hydrogens (smtbx) and the bond restraint (cctbx)

A shallow embedding of `smtbx/refinement/constraints/geometric_hydrogen.h` and of the class
`bond` of `cctbx/restraints/bond.h`.

Conventions of the embedding.

* `FloatType` is an arbitrary linear ordered field `R` (exact arithmetic); the
  functions of `<cmath>` that the code calls are the fields of `std_math R`.
  Theorems that need the laws of square root, sine and cosine are stated over
  `ℝ` with `real_math`.
* `af::ref<T>` and `af::const_ref<T>` are unchecked views of memory: they are
  total maps `Nat → T`.  Index validity is the caller's contract.
* `af::shared<T>` (the reparametrization gradients) is a `List T`; `push_back`
  appends at the end.
* A member function that mutates its object returns the new object; one that
  can throw returns an `outcome`, which holds the exception (if any) together
  with the objects as the call left them.
* The curiously recurring template pattern is the class `heir`: the member
  functions of the template `geometrical_hydrogens` are written once, over any
  heir type, and call the heir through the instance.
-/

namespace smtbx

/-! ## Collaborators that are not part of the translated header -/

/-- Modelled from the spec: the functions of the C++ standard math library used by the
header (`std::sqrt`, `std::cos`, `std::sin`, `std::acos`) and `scitbx::constants::pi`. -/
structure std_math (R : Type) where
  sqrt : R → R
  cos : R → R
  sin : R → R
  acos : R → R
  pi : R

/-- Modelled from the spec: `cartesian<FloatType>` and `fractional<FloatType>`, both
three-component vectors (`scitbx::vec3`). -/
structure Vec3 (R : Type) where
  x : R
  y : R
  z : R
deriving DecidableEq

namespace Vec3

variable {R : Type} [LinearOrderedField R]

/-- Modelled from the spec: `vec3 + vec3`. -/
def add (a b : Vec3 R) : Vec3 R := ⟨a.x + b.x, a.y + b.y, a.z + b.z⟩

/-- Modelled from the spec: `vec3 - vec3`. -/
def sub (a b : Vec3 R) : Vec3 R := ⟨a.x - b.x, a.y - b.y, a.z - b.z⟩

/-- Modelled from the spec: unary minus of a `vec3`. -/
def neg (a : Vec3 R) : Vec3 R := ⟨-a.x, -a.y, -a.z⟩

/-- Modelled from the spec: `scalar * vec3`. -/
def smul (c : R) (a : Vec3 R) : Vec3 R := ⟨c * a.x, c * a.y, c * a.z⟩

/-- Modelled from the spec: `vec3 / scalar`. -/
def div (a : Vec3 R) (c : R) : Vec3 R := ⟨a.x / c, a.y / c, a.z / c⟩

/-- Modelled from the spec: `vec3 * vec3`, the dot product. -/
def dot (a b : Vec3 R) : R := a.x * b.x + a.y * b.y + a.z * b.z

/-- Modelled from the spec: `vec3::cross`. -/
def cross (a b : Vec3 R) : Vec3 R :=
  ⟨a.y * b.z - a.z * b.y, a.z * b.x - a.x * b.z, a.x * b.y - a.y * b.x⟩

/-- Modelled from the spec: `vec3::length_sq`. -/
def length_sq (a : Vec3 R) : R := a.dot a

/-- Modelled from the spec: `vec3::length`, the square root of `length_sq`. -/
def length (m : std_math R) (a : Vec3 R) : R := m.sqrt a.length_sq

/-- Modelled from the spec: `vec3::normalize`, the vector divided by its length.  On a vector of
zero length the C++ divides by zero and yields NaN components, whereas the division of a field
returns the null vector here; the two agree exactly on the vectors of non-zero length. -/
def normalize (m : std_math R) (a : Vec3 R) : Vec3 R := a.div (a.length m)

/-- Modelled from the spec: `vec3::ortho(true)` is not in the translated header; the spec
asks for "an arbitrary vector orthogonal to e2 (any deterministic choice)", of unit length.
The choice made here drops the component of least magnitude and swaps the other two. -/
def ortho (m : std_math R) (a : Vec3 R) : Vec3 R :=
  if |a.x| ≤ |a.y| ∧ |a.x| ≤ |a.z| then normalize m ⟨0, -a.z, a.y⟩
  else if |a.y| ≤ |a.x| ∧ |a.y| ≤ |a.z| then normalize m ⟨-a.z, 0, a.x⟩
  else normalize m ⟨-a.y, a.x, 0⟩

/-- The cosine of the angle between two vectors: their dot product over the product of their
lengths. -/
def cos_angle (m : std_math R) (a b : Vec3 R) : R := a.dot b / (a.length m * b.length m)

end Vec3

/-- Modelled from the spec: the unit-cell collaborator, `orthogonalize(fractional) -> cartesian`,
`fractionalize(cartesian) -> fractional` and
`orthogonalize_gradient(fractional_gradient) -> cartesian_gradient`. -/
structure unit_cell (R : Type) where
  orthogonalize : Vec3 R → Vec3 R
  fractionalize : Vec3 R → Vec3 R
  orthogonalize_gradient : Vec3 R → Vec3 R

/-- Modelled from the spec: `xray::scatterer_flags`, the per-atom flag word.  Only the
"owns its site gradient" bit is read or written by the header; `other_bits` stands for the rest
of the word. -/
structure scatterer_flags where
  grad_site : Bool
  other_bits : Nat
deriving DecidableEq

/-- Modelled from the spec: `scatterer_flags::set_grad_site`. -/
def scatterer_flags.set_grad_site (f : scatterer_flags) (b : Bool) : scatterer_flags :=
  { f with grad_site := b }

/-- Modelled from the spec: `XrayScattererType`, of which the header uses the fractional `site`
and the `flags`. -/
structure scatterer (R : Type) where
  site : Vec3 R
  flags : scatterer_flags

/-- Modelled from the spec: an entry of the parameter map, `slot_for(atom_index)`; `site` is the
offset of the three site-gradient components in the crystallographic gradient vector. -/
structure parameter_indices where
  site : Nat
deriving DecidableEq

/-- The result of a call that may throw: the exception, if one left the call, and the objects
as the call left them. -/
structure outcome (σ : Type) where
  thrown : Option String
  state : σ

/-- A call that returned normally. -/
def outcome.ok {σ : Type} (s : σ) : outcome σ := ⟨none, s⟩

/-- A call left by an exception with message `msg`. -/
def outcome.throw {σ : Type} (msg : String) (s : σ) : outcome σ := ⟨some msg, s⟩

/-- Transport of the objects held by an outcome. -/
def outcome.map {σ τ : Type} (f : σ → τ) (o : outcome σ) : outcome τ := ⟨o.thrown, f o.state⟩

/-! ## `namespace constants` -/

namespace constants

variable {R : Type} [LinearOrderedField R]

/-- `tetrahedral_angle = std::acos(-1./3.)`. -/
def tetrahedral_angle (m : std_math R) : R := m.acos (-1 / 3)

/-- `sin_tetrahedral_angle = std::sin(tetrahedral_angle)`. -/
def sin_tetrahedral_angle (m : std_math R) : R := m.sin (tetrahedral_angle m)

end constants

/-! ## `class geometrical_hydrogens` -/

/-- The data members of `geometrical_hydrogens` (the member `dF_over_dx` is shadowed by a local
of `compute_gradients` and never used). -/
structure geometrical_hydrogens (R : Type) where
  on_ : Bool
  i_pivot : Nat
  i_hydrogens : List Nat
  stretching_ : Bool
  l : R
  i_reparametrization_begin : Nat
  dx_over_dl : Nat → Vec3 R

/-- The heir of the curiously recurring template pattern: `base` and `set_base` read and write
the `geometrical_hydrogens` sub-object, the other fields are the member functions that
`geometrical_hydrogens` calls through `heir()`. -/
class heir (R : outParam Type) (D : Type) where
  base : D → geometrical_hydrogens R
  set_base : D → geometrical_hydrogens R → D
  do_initialise_in_context : std_math R → unit_cell R → (Nat → scatterer R) → D → D
  place_constrained_scatterers :
    std_math R → unit_cell R → D → (Nat → scatterer R) → outcome (D × (Nat → scatterer R))
  has_active_reparametrizations : D → Bool
  compute_reparametrisation_gradients : std_math R → D → List (Vec3 R) → List R → List R
  do_apply_reparametrization_shifts : D → (Nat → R) → D

namespace geometrical_hydrogens

variable {R : Type} [LinearOrderedField R]

/-- The constructor; the members it does not initialise are indeterminate in C++ and are
passed in as `garbage`. -/
def mk_ctor (garbage : geometrical_hydrogens R) (pivot : Nat) (hydrogens : List Nat)
    (bond_length : R) (stretching : Bool) : geometrical_hydrogens R :=
  { garbage with
    on_ := true, i_pivot := pivot, i_hydrogens := hydrogens,
    stretching_ := stretching, l := bond_length }

/-- `stretching()`. -/
def stretching (self : geometrical_hydrogens R) : Bool := self.stretching_

/-- `bond_length()`. -/
def bond_length (self : geometrical_hydrogens R) : R := self.l

/-- The loop of `initialise_in_context` over the dependents still to visit: a dependent whose
`grad_site` flag is already off is recorded in `already_constrained` and switches the constraint
off; in every case the flag is then cleared. -/
def initialise_loop :
    List Nat → Bool → (Nat → scatterer_flags) → (Nat → Option scatterer_flags) →
      Bool × (Nat → scatterer_flags) × (Nat → Option scatterer_flags)
  | [], on_, constraint_flags, already_constrained => (on_, constraint_flags, already_constrained)
  | i_h :: rest, on_, constraint_flags, already_constrained =>
    let f := constraint_flags i_h
    let flags1 := Function.update constraint_flags i_h ((constraint_flags i_h).set_grad_site false)
    if !f.grad_site then
      initialise_loop rest false flags1 (Function.update already_constrained i_h (some f))
    else
      initialise_loop rest on_ flags1 already_constrained

/-- `initialise_in_context`. -/
def initialise_in_context {D : Type} [heir R D] (m : std_math R) (self : D) (uc : unit_cell R)
    (scatterers : Nat → scatterer R) (constraint_flags : Nat → scatterer_flags)
    (already_constrained : Nat → Option scatterer_flags) :
    D × (Nat → scatterer_flags) × (Nat → Option scatterer_flags) :=
  let b := heir.base self
  let r := initialise_loop b.i_hydrogens b.on_ constraint_flags already_constrained
  let self1 := heir.set_base self { b with on_ := r.1 }
  if !r.1 then (self1, r.2.1, r.2.2)
  else (heir.do_initialise_in_context m uc scatterers self1, r.2.1, r.2.2)

/-- The inner loop of the riding step, `for j in 0..2: g[i_pivot_site + j] += g[i_h_site + j]`,
one component after the other. -/
def add_site_gradient (g : Nat → R) (i_grad_site_pivot i_grad_site_h : Nat) : Nat → R :=
  let g0 := Function.update g (i_grad_site_pivot + 0)
    (g (i_grad_site_pivot + 0) + g (i_grad_site_h + 0))
  let g1 := Function.update g0 (i_grad_site_pivot + 1)
    (g0 (i_grad_site_pivot + 1) + g0 (i_grad_site_h + 1))
  Function.update g1 (i_grad_site_pivot + 2)
    (g1 (i_grad_site_pivot + 2) + g1 (i_grad_site_h + 2))

/-- The riding loop of `compute_gradients` over the dependents still to visit; the assertion
`SMTBX_ASSERT(scatterers[i_h].flags.grad_site())` throws when it fails. -/
def riding (scatterers : Nat → scatterer R) (pm : Nat → parameter_indices) (i_pivot : Nat) :
    List Nat → (Nat → R) → outcome (Nat → R)
  | [], g => outcome.ok g
  | i_h :: rest, g =>
    if (scatterers i_h).flags.grad_site then
      riding scatterers pm i_pivot rest (add_site_gradient g (pm i_pivot).site (pm i_h).site)
    else
      outcome.throw "SMTBX_ASSERT(scatterers[i_h].flags.grad_site()) failure" g

/-- `frac_t dF_over_dx_frac(&crystallographic_gradients[i_grad_site_h])`. -/
def gradient_at (g : Nat → R) (i_grad_site_h : Nat) : Vec3 R :=
  ⟨g i_grad_site_h, g (i_grad_site_h + 1), g (i_grad_site_h + 2)⟩

/-- The local array `dF_over_dx` of `compute_gradients`: the Cartesian gradient of each
dependent. -/
def cartesian_gradients (uc : unit_cell R) (pm : Nat → parameter_indices) (g : Nat → R)
    (i_hydrogens : List Nat) : List (Vec3 R) :=
  i_hydrogens.map (fun i_h => uc.orthogonalize_gradient (gradient_at g (pm i_h).site))

/-- The stretching loop of `compute_gradients` from index `i` on:
`dF_over_dl += dF_over_dx * dx_over_dl[i]`. -/
def stretching_sum (uc : unit_cell R) (pm : Nat → parameter_indices) (g : Nat → R)
    (dx_over_dl : Nat → Vec3 R) : List Nat → Nat → R → R
  | [], _, dF_over_dl => dF_over_dl
  | i_h :: rest, i, dF_over_dl =>
    stretching_sum uc pm g dx_over_dl rest (i + 1)
      (dF_over_dl + (uc.orthogonalize_gradient (gradient_at g (pm i_h).site)).dot (dx_over_dl i))

/-- `compute_gradients`: the constraint, the crystallographic gradients and the
reparametrization gradients after the call. -/
def compute_gradients {D : Type} [heir R D] (m : std_math R) (self : D) (uc : unit_cell R)
    (scatterers : Nat → scatterer R) (crystallographic_parameter_map : Nat → parameter_indices)
    (crystallographic_gradients : Nat → R) (reparametrization_gradients : List R) :
    outcome (D × (Nat → R) × List R) :=
  let b := heir.base self
  if !b.on_ then outcome.ok (self, crystallographic_gradients, reparametrization_gradients)
  else
    let rid := riding scatterers crystallographic_parameter_map b.i_pivot b.i_hydrogens
      crystallographic_gradients
    match rid.thrown with
    | some e => outcome.throw e (self, rid.state, reparametrization_gradients)
    | none =>
      let g := rid.state
      if !heir.has_active_reparametrizations self then
        outcome.ok (self, g, reparametrization_gradients)
      else
        let self1 := heir.set_base self
          { b with i_reparametrization_begin := reparametrization_gradients.length }
        let dF_over_dx := cartesian_gradients uc crystallographic_parameter_map g b.i_hydrogens
        let rg1 :=
          if b.stretching then
            reparametrization_gradients ++
              [stretching_sum uc crystallographic_parameter_map g b.dx_over_dl b.i_hydrogens 0 0]
          else reparametrization_gradients
        outcome.ok (self1, g, heir.compute_reparametrisation_gradients m self1 dF_over_dx rg1)

/-- `geometrical_hydrogens::has_active_reparametrizations`. -/
def has_active_reparametrizations (self : geometrical_hydrogens R) : Bool := self.stretching

/-- `geometrical_hydrogens::compute_reparametrisation_gradients`, which does nothing. -/
def compute_reparametrisation_gradients (_dF_over_dx : List (Vec3 R))
    (reparametrization_gradients : List R) : List R := reparametrization_gradients

/-- `geometrical_hydrogens::do_initialise_in_context`, which does nothing. -/
def do_initialise_in_context {D : Type} (self : D) : D := self

/-- `geometrical_hydrogens::do_apply_reparametrization_shifts`, which does nothing. -/
def do_apply_reparametrization_shifts {D : Type} (self : D)
    (_reparametrization_shifts : Nat → R) : D := self

/-- `scatterers[i].site = site`. -/
def set_site (scatterers : Nat → scatterer R) (i : Nat) (site : Vec3 R) : Nat → scatterer R :=
  Function.update scatterers i { scatterers i with site := site }

/-- `apply_shifts` (the crystallographic shifts are not used by the code). -/
def apply_shifts {D : Type} [heir R D] (m : std_math R) (self : D) (uc : unit_cell R)
    (scatterers : Nat → scatterer R) (reparametrization_shifts : Nat → R) :
    outcome (D × (Nat → scatterer R)) :=
  if !(heir.base self).on_ then outcome.ok (self, scatterers)
  else
    heir.place_constrained_scatterers m uc
      (heir.do_apply_reparametrization_shifts self reparametrization_shifts) scatterers

end geometrical_hydrogens

/-! ## `class terminal_X_Hn` -/

/-- The data members of `terminal_X_Hn`, on top of those of its base. -/
structure terminal_X_Hn (R : Type) extends geometrical_hydrogens R where
  i_pivot_neighbour : Nat
  rotating_ : Bool
  e0 : Vec3 R
  e1 : Vec3 R
  e2 : Vec3 R
  phi : R
  dx_over_dphi : Nat → Vec3 R

namespace terminal_X_Hn

variable {R : Type} [LinearOrderedField R]

/-- The constructor (`azimuth_` in degrees); the members it does not initialise are
indeterminate in C++ and are passed in as `garbage`. -/
def mk_ctor (m : std_math R) (garbage : terminal_X_Hn R) (pivot pivot_neighbour : Nat)
    (hydrogens : List Nat) (azimuth_ bond_length : R) (rotating stretching : Bool) :
    terminal_X_Hn R :=
  { garbage with
    togeometrical_hydrogens := geometrical_hydrogens.mk_ctor garbage.togeometrical_hydrogens
      pivot hydrogens bond_length stretching,
    i_pivot_neighbour := pivot_neighbour,
    rotating_ := rotating,
    phi := azimuth_ * m.pi / 180 }

/-- The constructor call as an outcome: the initialiser list and the empty body of the C++
constructor contain no `throw` and no test of the number of dependents, so the call returns
normally with the object built by `mk_ctor`. -/
def construct (m : std_math R) (garbage : terminal_X_Hn R) (pivot pivot_neighbour : Nat)
    (hydrogens : List Nat) (azimuth_ bond_length : R) (rotating stretching : Bool) :
    outcome (terminal_X_Hn R) :=
  outcome.ok
    (mk_ctor m garbage pivot pivot_neighbour hydrogens azimuth_ bond_length rotating stretching)

/-- `rotating()`. -/
def rotating (self : terminal_X_Hn R) : Bool := self.rotating_

/-- `local_cartesian_frame()`. -/
def local_cartesian_frame (self : terminal_X_Hn R) : Vec3 R × Vec3 R × Vec3 R :=
  (self.e0, self.e1, self.e2)

/-- `azimuth()`, in degrees. -/
def azimuth (m : std_math R) (self : terminal_X_Hn R) : R := self.phi * 180 / m.pi

/-- `set_azimuth(phi_)`, `phi_` in degrees. -/
def set_azimuth (m : std_math R) (self : terminal_X_Hn R) (phi_ : R) : terminal_X_Hn R :=
  { self with phi := phi_ * m.pi / 180 }

/-- `terminal_X_Hn::do_initialise_in_context`. -/
def do_initialise_in_context (m : std_math R) (uc : unit_cell R)
    (scatterers : Nat → scatterer R) (self : terminal_X_Hn R) : terminal_X_Hn R :=
  let x_pn := uc.orthogonalize (scatterers self.i_pivot_neighbour).site
  let x_p := uc.orthogonalize (scatterers self.i_pivot).site
  let e2 := (x_p.sub x_pn).normalize m
  let e1 := e2.ortho m
  let e0 := e1.cross e2
  { self with e0 := e0, e1 := e1, e2 := e2 }

/-- The array `cos_phi` filled by the `switch` of `place_constrained_scatterers` (entries that
the `switch` does not fill are never read). -/
def cos_phi (m : std_math R) (phi : R) : Nat → R
  | 0 => m.cos phi
  | 1 => m.cos (phi + 2 * m.pi / 3)
  | 2 => m.cos (phi + 4 * m.pi / 3)
  | _ => 0

/-- The array `sin_phi` filled by the `switch` of `place_constrained_scatterers`. -/
def sin_phi (m : std_math R) (phi : R) : Nat → R
  | 0 => m.sin phi
  | 1 => m.sin (phi + 2 * m.pi / 3)
  | 2 => m.sin (phi + 4 * m.pi / 3)
  | _ => 0

/-- The loop "Place hydrogen's" from index `i` on:
`scatterers[i_h].site = unit_cell.fractionalize(x_h)`. -/
def place_hydrogens (uc : unit_cell R) (x_h : Nat → Vec3 R) :
    List Nat → Nat → (Nat → scatterer R) → (Nat → scatterer R)
  | [], _, scatterers => scatterers
  | i_h :: rest, i, scatterers =>
    place_hydrogens uc x_h rest (i + 1)
      (geometrical_hydrogens.set_site scatterers i_h (uc.fractionalize (x_h i)))

/-- `terminal_X_Hn::place_constrained_scatterers`. -/
def place_constrained_scatterers (m : std_math R) (uc : unit_cell R) (self : terminal_X_Hn R)
    (scatterers : Nat → scatterer R) : outcome (terminal_X_Hn R × (Nat → scatterer R)) :=
  let x_pn := uc.orthogonalize (scatterers self.i_pivot_neighbour).site
  let x_p := uc.orthogonalize (scatterers self.i_pivot).site
  let e_bond := x_p.sub x_pn
  let f2 := e_bond.normalize m
  let e1 := f2.cross self.e0
  let e2 := f2
  let e0 := e1.cross e2
  let self1 := { self with e0 := e0, e1 := e1, e2 := e2 }
  let n := self.i_hydrogens.length
  if n = 1 ∨ n = 2 ∨ n = 3 then
    let c := cos_phi m self.phi
    let s := sin_phi m self.phi
    let sin_tetrahedral_angle := constants.sin_tetrahedral_angle m
    let x_h : Nat → Vec3 R := fun i =>
      x_p.add (Vec3.smul self.l
        ((Vec3.smul sin_tetrahedral_angle
            ((Vec3.smul (c i) e0).add (Vec3.smul (s i) e1))).add (e2.div 3)))
    let scatterers1 := place_hydrogens uc x_h self.i_hydrogens 0 scatterers
    let dx_over_dphi1 : Nat → Vec3 R := fun i =>
      if i < n ∧ self.rotating_ = true then
        Vec3.smul (self.l * sin_tetrahedral_angle)
          ((Vec3.smul (-(s i)) e0).add (Vec3.smul (c i) e1))
      else self.dx_over_dphi i
    let dx_over_dl1 : Nat → Vec3 R := fun i =>
      if i < n ∧ self.stretching_ = true then
        (Vec3.smul sin_tetrahedral_angle
          ((Vec3.smul (c i) e0).add (Vec3.smul (s i) e1))).add (e2.div 3)
      else self.dx_over_dl i
    outcome.ok
      ({ self1 with dx_over_dphi := dx_over_dphi1, dx_over_dl := dx_over_dl1 }, scatterers1)
  else
    outcome.throw "smtbx: number of geometric hydrogens must be 1,2 or 3" (self1, scatterers)

/-- `terminal_X_Hn::has_active_reparametrizations`. -/
def has_active_reparametrizations (self : terminal_X_Hn R) : Bool :=
  self.togeometrical_hydrogens.has_active_reparametrizations || self.rotating

/-- The loop of `compute_reparametrisation_gradients` from index `i` on:
`dF_over_dphi += dF_over_dx[i] * dx_over_dphi[i]`. -/
def rotation_sum (dx_over_dphi : Nat → Vec3 R) : List (Vec3 R) → Nat → R → R
  | [], _, dF_over_dphi => dF_over_dphi
  | dF_over_dx_i :: rest, i, dF_over_dphi =>
    rotation_sum dx_over_dphi rest (i + 1) (dF_over_dphi + dF_over_dx_i.dot (dx_over_dphi i))

/-- `terminal_X_Hn::compute_reparametrisation_gradients` ("Azimuthal rotation"). -/
def compute_reparametrisation_gradients (m : std_math R) (self : terminal_X_Hn R)
    (dF_over_dx : List (Vec3 R)) (reparametrization_gradients : List R) : List R :=
  if !self.rotating then reparametrization_gradients
  else
    let dF_over_dphi := rotation_sum self.dx_over_dphi dF_over_dx 0 0
    reparametrization_gradients ++ [dF_over_dphi * (m.pi / 180)]

/-- `terminal_X_Hn::do_apply_reparametrization_shifts`. -/
def do_apply_reparametrization_shifts (self : terminal_X_Hn R)
    (reparametrization_shifts : Nat → R) : terminal_X_Hn R :=
  let self1 :=
    if self.rotating then
      let i := self.i_reparametrization_begin
      let i := if self.stretching then i + 1 else i
      let delta_phi := reparametrization_shifts i
      { self with phi := self.phi + delta_phi }
    else self
  if self1.stretching then
    let i := self1.i_reparametrization_begin
    let delta_l := reparametrization_shifts i
    { self1 with l := self1.l + delta_l }
  else self1

/-- The placement formula of the specification for dependent `i`, as a function of the azimuth
`phi` (in radians) at a fixed frame and bond length:
`pivot + l * (sin(tetra) * (cos(phi_i) * e0 + sin(phi_i) * e1) + e2 / 3)` with
`phi_i = phi + i * 2 pi / 3`, that is `phi + i * 120 degrees`. -/
def placement_formula (m : std_math R) (x_p e0 e1 e2 : Vec3 R) (l : R) (i : Nat) (phi : R) :
    Vec3 R :=
  x_p.add (Vec3.smul l
    ((Vec3.smul (constants.sin_tetrahedral_angle m)
      ((Vec3.smul (m.cos (phi + i * (2 * m.pi / 3))) e0).add
        (Vec3.smul (m.sin (phi + i * (2 * m.pi / 3))) e1))).add (e2.div 3)))

/-- The bracket of the specification for dependent `i`:
`l * sin(tetra) * (-sin(phi_i) * e0 + cos(phi_i) * e1)` with `phi_i = phi + i * 2 pi / 3`. -/
def azimuth_derivative (m : std_math R) (e0 e1 : Vec3 R) (l : R) (i : Nat) (phi : R) : Vec3 R :=
  Vec3.smul (l * constants.sin_tetrahedral_angle m)
    ((Vec3.smul (-(m.sin (phi + i * (2 * m.pi / 3)))) e0).add
      (Vec3.smul (m.cos (phi + i * (2 * m.pi / 3))) e1))

instance : heir R (terminal_X_Hn R) where
  base := fun self => self.togeometrical_hydrogens
  set_base := fun self b => { self with togeometrical_hydrogens := b }
  do_initialise_in_context := do_initialise_in_context
  place_constrained_scatterers := place_constrained_scatterers
  has_active_reparametrizations := has_active_reparametrizations
  compute_reparametrisation_gradients := compute_reparametrisation_gradients
  do_apply_reparametrization_shifts := do_apply_reparametrization_shifts

/-- The end-to-end scenario for one dependent `h`: a non-rotating, non-stretching constraint is
constructed, `initialise_in_context` runs on it, and `place_constrained_scatterers` runs on the
result with the same scatterers. -/
def end_to_end (m : std_math R) (garbage : terminal_X_Hn R) (uc : unit_cell R)
    (scatterers : Nat → scatterer R) (constraint_flags : Nat → scatterer_flags)
    (already_constrained : Nat → Option scatterer_flags) (pivot pivot_neighbour h : Nat)
    (azimuth_ bond_length : R) : outcome (terminal_X_Hn R × (Nat → scatterer R)) :=
  place_constrained_scatterers m uc
    (geometrical_hydrogens.initialise_in_context m
      (mk_ctor m garbage pivot pivot_neighbour [h] azimuth_ bond_length false false)
      uc scatterers constraint_flags already_constrained).1 scatterers

end terminal_X_Hn

/-! ## `class secondary_CH2` -/

/-- The data members of `secondary_CH2`, on top of those of its base.  `i_hydrogens` is an
`af::tiny<int, 2>`: entry `i` is read as `i_hydrogens.getD i 0`. -/
structure secondary_CH2 (R : Type) extends geometrical_hydrogens R where
  i_pivot_neighbours : Nat × Nat

namespace secondary_CH2

variable {R : Type} [LinearOrderedField R]

/-- The static member `theta0 = 1.0376`. -/
def theta0 : R := 1.0376

/-- The static member `dtheta_over_dXY_sq = -0.0349`. -/
def dtheta_over_dXY_sq : R := -0.0349

/-- The constructor. -/
def mk_ctor (garbage : secondary_CH2 R) (pivot : Nat) (pivot_neighbours : Nat × Nat)
    (hydrogens : Nat × Nat) (bond_length : R) (stretching : Bool) : secondary_CH2 R :=
  { togeometrical_hydrogens := geometrical_hydrogens.mk_ctor garbage.togeometrical_hydrogens
      pivot [hydrogens.1, hydrogens.2] bond_length stretching,
    i_pivot_neighbours := pivot_neighbours }

/-- The angle `theta` of `place_constrained_scatterers` ("Compute cosine and sine"), from the
squared distance `d_XY_sq` of the two neighbours. -/
def theta (d_XY_sq : R) : R := theta0 - dtheta_over_dXY_sq * d_XY_sq

/-- `secondary_CH2::place_constrained_scatterers`. -/
def place_constrained_scatterers (m : std_math R) (uc : unit_cell R) (self : secondary_CH2 R)
    (scatterers : Nat → scatterer R) : outcome (secondary_CH2 R × (Nat → scatterer R)) :=
  let x_p := uc.orthogonalize (scatterers self.i_pivot).site
  let x_pn_1 := uc.orthogonalize (scatterers self.i_pivot_neighbours.1).site
  let x_pn_2 := uc.orthogonalize (scatterers self.i_pivot_neighbours.2).site
  let u_pn_1 := (x_p.sub x_pn_1).normalize m
  let u_pn_2 := (x_p.sub x_pn_2).normalize m
  let e0 := (u_pn_1.add u_pn_2).normalize m
  let e2 := (u_pn_2.sub u_pn_1).normalize m
  let e1 := e2.cross e0
  let d_XY_sq := (x_pn_2.sub x_pn_1).length_sq
  let theta := theta d_XY_sq
  let c := m.cos theta
  let s := m.sin theta
  let site_h_1 := x_p.add (Vec3.smul self.l ((Vec3.smul c e0).add (Vec3.smul s e1)))
  let site_h_2 := x_p.add (Vec3.smul self.l ((Vec3.smul c e0).sub (Vec3.smul s e1)))
  let scatterers1 := geometrical_hydrogens.set_site scatterers (self.i_hydrogens.getD 0 0)
    (uc.fractionalize site_h_1)
  let scatterers2 := geometrical_hydrogens.set_site scatterers1 (self.i_hydrogens.getD 1 0)
    (uc.fractionalize site_h_2)
  let dx_over_dl1 := Function.update self.dx_over_dl 0 ((Vec3.smul c e0).add (Vec3.smul s e1))
  let dx_over_dl2 := Function.update dx_over_dl1 1 ((Vec3.smul c e0).sub (Vec3.smul s e1))
  outcome.ok ({ self with dx_over_dl := dx_over_dl2 }, scatterers2)

/-- The local `x_p` of `place_constrained_scatterers`: the Cartesian position of the pivot. -/
def x_p (uc : unit_cell R) (self : secondary_CH2 R) (scatterers : Nat → scatterer R) : Vec3 R :=
  uc.orthogonalize (scatterers self.i_pivot).site

/-- The local `x_pn_1`: the Cartesian position of the first neighbour. -/
def x_pn_1 (uc : unit_cell R) (self : secondary_CH2 R) (scatterers : Nat → scatterer R) :
    Vec3 R :=
  uc.orthogonalize (scatterers self.i_pivot_neighbours.1).site

/-- The local `x_pn_2`: the Cartesian position of the second neighbour. -/
def x_pn_2 (uc : unit_cell R) (self : secondary_CH2 R) (scatterers : Nat → scatterer R) :
    Vec3 R :=
  uc.orthogonalize (scatterers self.i_pivot_neighbours.2).site

/-- The local `u_pn_1 = (x_p - x_pn_1).normalize()`. -/
def u_pn_1 (m : std_math R) (uc : unit_cell R) (self : secondary_CH2 R)
    (scatterers : Nat → scatterer R) : Vec3 R :=
  ((x_p uc self scatterers).sub (x_pn_1 uc self scatterers)).normalize m

/-- The local `u_pn_2 = (x_p - x_pn_2).normalize()`. -/
def u_pn_2 (m : std_math R) (uc : unit_cell R) (self : secondary_CH2 R)
    (scatterers : Nat → scatterer R) : Vec3 R :=
  ((x_p uc self scatterers).sub (x_pn_2 uc self scatterers)).normalize m

/-- The local `e0 = (u_pn_1 + u_pn_2).normalize()`, the bisector. -/
def e0 (m : std_math R) (uc : unit_cell R) (self : secondary_CH2 R)
    (scatterers : Nat → scatterer R) : Vec3 R :=
  ((u_pn_1 m uc self scatterers).add (u_pn_2 m uc self scatterers)).normalize m

/-- The local `e2 = (u_pn_2 - u_pn_1).normalize()`. -/
def e2 (m : std_math R) (uc : unit_cell R) (self : secondary_CH2 R)
    (scatterers : Nat → scatterer R) : Vec3 R :=
  ((u_pn_2 m uc self scatterers).sub (u_pn_1 m uc self scatterers)).normalize m

/-- The local `e1 = e2.cross(e0)`. -/
def e1 (m : std_math R) (uc : unit_cell R) (self : secondary_CH2 R)
    (scatterers : Nat → scatterer R) : Vec3 R :=
  (e2 m uc self scatterers).cross (e0 m uc self scatterers)

/-- The local `theta` for the neighbours as they stand in `scatterers`. -/
def theta_of (uc : unit_cell R) (self : secondary_CH2 R) (scatterers : Nat → scatterer R) : R :=
  theta ((x_pn_2 uc self scatterers).sub (x_pn_1 uc self scatterers)).length_sq

/-- The Cartesian position of dependent `i` after `place_constrained_scatterers`. -/
def placed_site (m : std_math R) (uc : unit_cell R) (self : secondary_CH2 R)
    (scatterers : Nat → scatterer R) (i : Nat) : Vec3 R :=
  uc.orthogonalize
    ((place_constrained_scatterers m uc self scatterers).state.2
      (self.i_hydrogens.getD i 0)).site

/-- The member `dx_over_dl[i]` after `place_constrained_scatterers`. -/
def placed_direction (m : std_math R) (uc : unit_cell R) (self : secondary_CH2 R)
    (scatterers : Nat → scatterer R) (i : Nat) : Vec3 R :=
  (place_constrained_scatterers m uc self scatterers).state.1.dx_over_dl i

instance : heir R (secondary_CH2 R) where
  base := fun self => self.togeometrical_hydrogens
  set_base := fun self b => { self with togeometrical_hydrogens := b }
  do_initialise_in_context := fun _ _ _ self => geometrical_hydrogens.do_initialise_in_context self
  place_constrained_scatterers := place_constrained_scatterers
  has_active_reparametrizations := fun self =>
    self.togeometrical_hydrogens.has_active_reparametrizations
  compute_reparametrisation_gradients := fun _ _ =>
    geometrical_hydrogens.compute_reparametrisation_gradients
  do_apply_reparametrization_shifts := geometrical_hydrogens.do_apply_reparametrization_shifts

end secondary_CH2

/-! ## `class tertiary_CH` -/

/-- The data members of `tertiary_CH`, on top of those of its base.  `i_hydrogens` is an
`af::tiny<int, 1>`. -/
structure tertiary_CH (R : Type) extends geometrical_hydrogens R where
  i_pivot_neighbours : Nat × Nat × Nat

namespace tertiary_CH

variable {R : Type} [LinearOrderedField R]

/-- The constructor. -/
def mk_ctor (garbage : tertiary_CH R) (pivot : Nat) (pivot_neighbours : Nat × Nat × Nat)
    (hydrogen : Nat) (bond_length : R) (stretching : Bool) : tertiary_CH R :=
  { togeometrical_hydrogens := geometrical_hydrogens.mk_ctor garbage.togeometrical_hydrogens
      pivot [hydrogen] bond_length stretching,
    i_pivot_neighbours := pivot_neighbours }

/-- `tertiary_CH::place_constrained_scatterers`. -/
def place_constrained_scatterers (m : std_math R) (uc : unit_cell R) (self : tertiary_CH R)
    (scatterers : Nat → scatterer R) : outcome (tertiary_CH R × (Nat → scatterer R)) :=
  let x_p := uc.orthogonalize (scatterers self.i_pivot).site
  let x_X := uc.orthogonalize (scatterers self.i_pivot_neighbours.1).site
  let x_Y := uc.orthogonalize (scatterers self.i_pivot_neighbours.2.1).site
  let x_Z := uc.orthogonalize (scatterers self.i_pivot_neighbours.2.2).site
  let u_XC := (x_p.sub x_X).normalize m
  let u_YC := (x_p.sub x_Y).normalize m
  let u_ZC := (x_p.sub x_Z).normalize m
  let u := u_XC.sub u_YC
  let v := u_YC.sub u_ZC
  let e0 := (u.cross v).normalize m
  let e0 := if e0.dot ((u_XC.add u_YC).add u_ZC) < 0 then e0.neg else e0
  let x_h := x_p.add (Vec3.smul self.l e0)
  let scatterers1 := geometrical_hydrogens.set_site scatterers (self.i_hydrogens.getD 0 0)
    (uc.fractionalize x_h)
  outcome.ok ({ self with dx_over_dl := Function.update self.dx_over_dl 0 e0 }, scatterers1)

/-- The direction built from three unit vectors as the specification words it: the normalised
`(u1 - u2) × (u2 - u3)`, negated when its dot product with the resultant `u1 + u2 + u3` is
negative. -/
def direction_of_units (m : std_math R) (u1 u2 u3 : Vec3 R) : Vec3 R :=
  if (((u1.sub u2).cross (u2.sub u3)).normalize m).dot ((u1.add u2).add u3) < 0 then
    (((u1.sub u2).cross (u2.sub u3)).normalize m).neg
  else ((u1.sub u2).cross (u2.sub u3)).normalize m

/-- The direction of the specification: `direction_of_units` of the unit vectors pointing from
the pivot toward each of the three neighbours. -/
def direction_toward_neighbours (m : std_math R) (x_p x_X x_Y x_Z : Vec3 R) : Vec3 R :=
  direction_of_units m ((x_X.sub x_p).normalize m) ((x_Y.sub x_p).normalize m)
    ((x_Z.sub x_p).normalize m)

/-- The direction with the unit vectors reversed: `direction_of_units` of the unit vectors
pointing from each of the three neighbours toward the pivot. -/
def direction_from_neighbours (m : std_math R) (x_p x_X x_Y x_Z : Vec3 R) : Vec3 R :=
  direction_of_units m ((x_p.sub x_X).normalize m) ((x_p.sub x_Y).normalize m)
    ((x_p.sub x_Z).normalize m)

/-- The local `x_p` of `place_constrained_scatterers`: the Cartesian position of the pivot. -/
def x_p (uc : unit_cell R) (self : tertiary_CH R) (scatterers : Nat → scatterer R) : Vec3 R :=
  uc.orthogonalize (scatterers self.i_pivot).site

/-- The local `x_X`: the Cartesian position of the first neighbour. -/
def x_X (uc : unit_cell R) (self : tertiary_CH R) (scatterers : Nat → scatterer R) : Vec3 R :=
  uc.orthogonalize (scatterers self.i_pivot_neighbours.1).site

/-- The local `x_Y`: the Cartesian position of the second neighbour. -/
def x_Y (uc : unit_cell R) (self : tertiary_CH R) (scatterers : Nat → scatterer R) : Vec3 R :=
  uc.orthogonalize (scatterers self.i_pivot_neighbours.2.1).site

/-- The local `x_Z`: the Cartesian position of the third neighbour. -/
def x_Z (uc : unit_cell R) (self : tertiary_CH R) (scatterers : Nat → scatterer R) : Vec3 R :=
  uc.orthogonalize (scatterers self.i_pivot_neighbours.2.2).site

/-- The local `u_XC = (x_p - x_X).normalize()`. -/
def u_XC (m : std_math R) (uc : unit_cell R) (self : tertiary_CH R)
    (scatterers : Nat → scatterer R) : Vec3 R :=
  ((x_p uc self scatterers).sub (x_X uc self scatterers)).normalize m

/-- The local `u_YC = (x_p - x_Y).normalize()`. -/
def u_YC (m : std_math R) (uc : unit_cell R) (self : tertiary_CH R)
    (scatterers : Nat → scatterer R) : Vec3 R :=
  ((x_p uc self scatterers).sub (x_Y uc self scatterers)).normalize m

/-- The local `u_ZC = (x_p - x_Z).normalize()`. -/
def u_ZC (m : std_math R) (uc : unit_cell R) (self : tertiary_CH R)
    (scatterers : Nat → scatterer R) : Vec3 R :=
  ((x_p uc self scatterers).sub (x_Z uc self scatterers)).normalize m

/-- The Cartesian position of the dependent after `place_constrained_scatterers`. -/
def placed_site (m : std_math R) (uc : unit_cell R) (self : tertiary_CH R)
    (scatterers : Nat → scatterer R) : Vec3 R :=
  uc.orthogonalize
    ((place_constrained_scatterers m uc self scatterers).state.2
      (self.i_hydrogens.getD 0 0)).site

/-- The member `dx_over_dl[0]` after `place_constrained_scatterers`. -/
def placed_direction (m : std_math R) (uc : unit_cell R) (self : tertiary_CH R)
    (scatterers : Nat → scatterer R) : Vec3 R :=
  (place_constrained_scatterers m uc self scatterers).state.1.dx_over_dl 0

instance : heir R (tertiary_CH R) where
  base := fun self => self.togeometrical_hydrogens
  set_base := fun self b => { self with togeometrical_hydrogens := b }
  do_initialise_in_context := fun _ _ _ self => geometrical_hydrogens.do_initialise_in_context self
  place_constrained_scatterers := place_constrained_scatterers
  has_active_reparametrizations := fun self =>
    self.togeometrical_hydrogens.has_active_reparametrizations
  compute_reparametrisation_gradients := fun _ _ =>
    geometrical_hydrogens.compute_reparametrisation_gradients
  do_apply_reparametrization_shifts := geometrical_hydrogens.do_apply_reparametrization_shifts

end tertiary_CH

/-! ## `class aromatic_CH_or_amide_NH` -/

/-- The data members of `aromatic_CH_or_amide_NH`, on top of those of its base.  `i_hydrogens`
is an `af::tiny<int, 1>`. -/
structure aromatic_CH_or_amide_NH (R : Type) extends geometrical_hydrogens R where
  i_pivot_neighbours : Nat × Nat

namespace aromatic_CH_or_amide_NH

variable {R : Type} [LinearOrderedField R]

/-- The constructor. -/
def mk_ctor (garbage : aromatic_CH_or_amide_NH R) (pivot : Nat) (pivot_neighbours : Nat × Nat)
    (hydrogen : Nat) (bond_length : R) (stretching : Bool) : aromatic_CH_or_amide_NH R :=
  { togeometrical_hydrogens := geometrical_hydrogens.mk_ctor garbage.togeometrical_hydrogens
      pivot [hydrogen] bond_length stretching,
    i_pivot_neighbours := pivot_neighbours }

/-- `aromatic_CH_or_amide_NH::place_constrained_scatterers`. -/
def place_constrained_scatterers (m : std_math R) (uc : unit_cell R)
    (self : aromatic_CH_or_amide_NH R) (scatterers : Nat → scatterer R) :
    outcome (aromatic_CH_or_amide_NH R × (Nat → scatterer R)) :=
  let x_p := uc.orthogonalize (scatterers self.i_pivot).site
  let x_X := uc.orthogonalize (scatterers self.i_pivot_neighbours.1).site
  let x_Y := uc.orthogonalize (scatterers self.i_pivot_neighbours.2).site
  let u_XC := (x_p.sub x_X).normalize m
  let u_YC := (x_p.sub x_Y).normalize m
  let e0 := (u_XC.add u_YC).normalize m
  let x_h := x_p.add (Vec3.smul self.l e0)
  let scatterers1 := geometrical_hydrogens.set_site scatterers (self.i_hydrogens.getD 0 0)
    (uc.fractionalize x_h)
  outcome.ok ({ self with dx_over_dl := Function.update self.dx_over_dl 0 e0 }, scatterers1)

/-- The direction of the specification: the normalised sum of the two unit vectors pointing
from the pivot toward each of its two neighbours. -/
def direction_toward_neighbours (m : std_math R) (x_p x_X x_Y : Vec3 R) : Vec3 R :=
  (((x_X.sub x_p).normalize m).add ((x_Y.sub x_p).normalize m)).normalize m

/-- The direction with the unit vectors reversed: the normalised sum of the two unit vectors
pointing from each of the two neighbours toward the pivot. -/
def direction_from_neighbours (m : std_math R) (x_p x_X x_Y : Vec3 R) : Vec3 R :=
  (((x_p.sub x_X).normalize m).add ((x_p.sub x_Y).normalize m)).normalize m

/-- The local `x_p` of `place_constrained_scatterers`: the Cartesian position of the pivot. -/
def x_p (uc : unit_cell R) (self : aromatic_CH_or_amide_NH R)
    (scatterers : Nat → scatterer R) : Vec3 R :=
  uc.orthogonalize (scatterers self.i_pivot).site

/-- The local `x_X`: the Cartesian position of the first neighbour. -/
def x_X (uc : unit_cell R) (self : aromatic_CH_or_amide_NH R)
    (scatterers : Nat → scatterer R) : Vec3 R :=
  uc.orthogonalize (scatterers self.i_pivot_neighbours.1).site

/-- The local `x_Y`: the Cartesian position of the second neighbour. -/
def x_Y (uc : unit_cell R) (self : aromatic_CH_or_amide_NH R)
    (scatterers : Nat → scatterer R) : Vec3 R :=
  uc.orthogonalize (scatterers self.i_pivot_neighbours.2).site

/-- The local `u_XC = (x_p - x_X).normalize()`. -/
def u_XC (m : std_math R) (uc : unit_cell R) (self : aromatic_CH_or_amide_NH R)
    (scatterers : Nat → scatterer R) : Vec3 R :=
  ((x_p uc self scatterers).sub (x_X uc self scatterers)).normalize m

/-- The local `u_YC = (x_p - x_Y).normalize()`. -/
def u_YC (m : std_math R) (uc : unit_cell R) (self : aromatic_CH_or_amide_NH R)
    (scatterers : Nat → scatterer R) : Vec3 R :=
  ((x_p uc self scatterers).sub (x_Y uc self scatterers)).normalize m

/-- The Cartesian position of the dependent after `place_constrained_scatterers`. -/
def placed_site (m : std_math R) (uc : unit_cell R) (self : aromatic_CH_or_amide_NH R)
    (scatterers : Nat → scatterer R) : Vec3 R :=
  uc.orthogonalize
    ((place_constrained_scatterers m uc self scatterers).state.2
      (self.i_hydrogens.getD 0 0)).site

instance : heir R (aromatic_CH_or_amide_NH R) where
  base := fun self => self.togeometrical_hydrogens
  set_base := fun self b => { self with togeometrical_hydrogens := b }
  do_initialise_in_context := fun _ _ _ self => geometrical_hydrogens.do_initialise_in_context self
  place_constrained_scatterers := place_constrained_scatterers
  has_active_reparametrizations := fun self =>
    self.togeometrical_hydrogens.has_active_reparametrizations
  compute_reparametrisation_gradients := fun _ _ =>
    geometrical_hydrogens.compute_reparametrisation_gradients
  do_apply_reparametrization_shifts := geometrical_hydrogens.do_apply_reparametrization_shifts

end aromatic_CH_or_amide_NH

/-! ## A constraint of any of the four variants -/

/-- A constraint of one of the four geometry variants.  The header has no common run-time type
(the variants are unrelated instantiations of the base template); this sum is the device that
lets a statement range over "every variant". -/
inductive any_hydrogens (R : Type) where
  | terminal (c : terminal_X_Hn R)
  | secondary (c : secondary_CH2 R)
  | tertiary (c : tertiary_CH R)
  | aromatic (c : aromatic_CH_or_amide_NH R)

namespace any_hydrogens

variable {R : Type} [LinearOrderedField R]

/-- The neighbours of the pivot that the placement of the variant reads. -/
def pivot_neighbours : any_hydrogens R → List Nat
  | terminal c => [c.i_pivot_neighbour]
  | secondary c => [c.i_pivot_neighbours.1, c.i_pivot_neighbours.2]
  | tertiary c => [c.i_pivot_neighbours.1, c.i_pivot_neighbours.2.1, c.i_pivot_neighbours.2.2]
  | aromatic c => [c.i_pivot_neighbours.1, c.i_pivot_neighbours.2]

/-- The number of dependents fits the index array of the variant: `af::small<int, 3>` holds at
most three, `af::tiny<int, N>` exactly `N`. -/
def well_formed : any_hydrogens R → Prop
  | terminal c => c.i_hydrogens.length ≤ 3
  | secondary c => c.i_hydrogens.length = 2
  | tertiary c => c.i_hydrogens.length = 1
  | aromatic c => c.i_hydrogens.length = 1

instance : heir R (any_hydrogens R) where
  base
    | terminal c => heir.base c
    | secondary c => heir.base c
    | tertiary c => heir.base c
    | aromatic c => heir.base c
  set_base
    | terminal c, b => terminal (heir.set_base c b)
    | secondary c, b => secondary (heir.set_base c b)
    | tertiary c, b => tertiary (heir.set_base c b)
    | aromatic c, b => aromatic (heir.set_base c b)
  do_initialise_in_context
    | m, uc, sc, terminal c => terminal (heir.do_initialise_in_context m uc sc c)
    | m, uc, sc, secondary c => secondary (heir.do_initialise_in_context m uc sc c)
    | m, uc, sc, tertiary c => tertiary (heir.do_initialise_in_context m uc sc c)
    | m, uc, sc, aromatic c => aromatic (heir.do_initialise_in_context m uc sc c)
  place_constrained_scatterers
    | m, uc, terminal c, sc =>
      (heir.place_constrained_scatterers m uc c sc).map (fun r => (terminal r.1, r.2))
    | m, uc, secondary c, sc =>
      (heir.place_constrained_scatterers m uc c sc).map (fun r => (secondary r.1, r.2))
    | m, uc, tertiary c, sc =>
      (heir.place_constrained_scatterers m uc c sc).map (fun r => (tertiary r.1, r.2))
    | m, uc, aromatic c, sc =>
      (heir.place_constrained_scatterers m uc c sc).map (fun r => (aromatic r.1, r.2))
  has_active_reparametrizations
    | terminal c => heir.has_active_reparametrizations c
    | secondary c => heir.has_active_reparametrizations c
    | tertiary c => heir.has_active_reparametrizations c
    | aromatic c => heir.has_active_reparametrizations c
  compute_reparametrisation_gradients
    | m, terminal c => heir.compute_reparametrisation_gradients m c
    | m, secondary c => heir.compute_reparametrisation_gradients m c
    | m, tertiary c => heir.compute_reparametrisation_gradients m c
    | m, aromatic c => heir.compute_reparametrisation_gradients m c
  do_apply_reparametrization_shifts
    | terminal c, sh => terminal (heir.do_apply_reparametrization_shifts c sh)
    | secondary c, sh => secondary (heir.do_apply_reparametrization_shifts c sh)
    | tertiary c, sh => tertiary (heir.do_apply_reparametrization_shifts c sh)
    | aromatic c, sh => aromatic (heir.do_apply_reparametrization_shifts c sh)

/-- `rotating()` for the variant that has it; the other variants have no azimuth. -/
def rotating : any_hydrogens R → Bool
  | terminal c => c.rotating
  | _ => false

/-- The number of enabled reparametrization modes: stretching, and rotating for
`terminal_X_Hn`. -/
def enabled_modes (c : any_hydrogens R) : Nat :=
  (if (heir.base c).stretching then 1 else 0) + (if c.rotating then 1 else 0)

/-- The constraints of a list initialised one after the other against the same flags array and
the same registry, as the caller of `initialise_in_context` does. -/
def initialise_all (m : std_math R) (uc : unit_cell R) (scatterers : Nat → scatterer R) :
    List (any_hydrogens R) → (Nat → scatterer_flags) → (Nat → Option scatterer_flags) →
      List (any_hydrogens R) × (Nat → scatterer_flags) × (Nat → Option scatterer_flags)
  | [], constraint_flags, already_constrained => ([], constraint_flags, already_constrained)
  | c :: rest, constraint_flags, already_constrained =>
    let r := geometrical_hydrogens.initialise_in_context m c uc scatterers constraint_flags
      already_constrained
    let rs := initialise_all m uc scatterers rest r.2.1 r.2.2
    (r.1 :: rs.1, rs.2.1, rs.2.2)

end any_hydrogens

/-! ## Exact real arithmetic -/

/-- The standard math library over the real numbers. -/
noncomputable def real_math : std_math ℝ :=
  { sqrt := Real.sqrt, cos := Real.cos, sin := Real.sin, acos := Real.arccos, pi := Real.pi }

/-- The unit cell with orthonormal axes of unit length, for which fractional and Cartesian
coordinates coincide. -/
def unit_cell.cubic_unit (R : Type) : unit_cell R :=
  { orthogonalize := id, fractionalize := id, orthogonalize_gradient := id }

/-! ## Concrete objects for the worked instances -/

namespace sample

/-- The null vector. -/
def zero3 (R : Type) [LinearOrderedField R] : Vec3 R := ⟨0, 0, 0⟩

/-- Flags of an atom that owns its site gradient. -/
def free_flags : scatterer_flags := ⟨true, 0⟩

/-- Indeterminate members of a base object: every numeric member zero. -/
def garbage_base (R : Type) [LinearOrderedField R] : geometrical_hydrogens R :=
  { on_ := false, i_pivot := 0, i_hydrogens := [], stretching_ := false, l := 0,
    i_reparametrization_begin := 0, dx_over_dl := fun _ => zero3 R }

/-- Indeterminate members of a `terminal_X_Hn`: every numeric member zero. -/
def garbage_terminal (R : Type) [LinearOrderedField R] : terminal_X_Hn R :=
  { togeometrical_hydrogens := garbage_base R, i_pivot_neighbour := 0, rotating_ := false,
    e0 := zero3 R, e1 := zero3 R, e2 := zero3 R, phi := 0, dx_over_dphi := fun _ => zero3 R }

/-- The parameter map that gives atom `a` the slots `3 a`, `3 a + 1`, `3 a + 2`. -/
def packed_map : Nat → parameter_indices := fun a => ⟨3 * a⟩

/-- A stand-in math library over the rationals, for instances whose stated results do not depend
on the values of its functions. -/
def no_math : std_math ℚ := { sqrt := id, cos := id, sin := id, acos := id, pi := 3 }

/-- A methyl group over the rationals: pivot 0, neighbour 4, dependents 1, 2, 3, azimuth 0,
bond length 1, rotating and stretching. -/
def methyl : terminal_X_Hn ℚ :=
  terminal_X_Hn.mk_ctor no_math (garbage_terminal ℚ) 0 4 [1, 2, 3] 0 1 true true

/-- Scatterers at the origin that all own their site gradient. -/
def free_scatterers (R : Type) [LinearOrderedField R] : Nat → scatterer R :=
  fun _ => ⟨zero3 R, free_flags⟩

/-- The gradient vector whose entry `k` is `k + 1`. -/
def ramp : Nat → ℚ := fun k => (k : ℚ) + 1

/-- Indeterminate members of a `secondary_CH2`. -/
def garbage_secondary (R : Type) [LinearOrderedField R] : secondary_CH2 R :=
  { togeometrical_hydrogens := garbage_base R, i_pivot_neighbours := (0, 0) }

/-- A stretching methylene group over the rationals: pivot 0, neighbours 3 and 4, dependents
1 and 2, bond length 1. -/
def methylene : secondary_CH2 ℚ :=
  secondary_CH2.mk_ctor (garbage_secondary ℚ) 0 (3, 4) (1, 2) 1 true

/-- The shift vector whose entry 0 is `1/2` and whose other entries are 0. -/
def half_shift : Nat → ℚ := fun i => if i = 0 then 1 / 2 else 0

/-- A rotating, non-stretching group with one dependent: pivot 0, neighbour 1, dependent 2,
azimuth 0 degrees, bond length 1. -/
def rotor {R : Type} [LinearOrderedField R] (m : std_math R) : terminal_X_Hn R :=
  terminal_X_Hn.mk_ctor m (garbage_terminal R) 0 1 [2] 0 1 true false

/-- The constraint `rotor` after `compute_gradients` on an empty reparametrization vector and
null crystallographic gradients: the offset 0 is recorded. -/
def rotor_propagated {R : Type} [LinearOrderedField R] (m : std_math R) :
    terminal_X_Hn R × (Nat → R) × List R :=
  (geometrical_hydrogens.compute_gradients m (rotor m) (unit_cell.cubic_unit R)
    (free_scatterers R) packed_map (fun _ => 0) []).state

/-- Flags that are all free except those of atom 2, which is already constrained and carries
the other bits `7`. -/
def flags_with_2_taken : Nat → scatterer_flags :=
  fun k => if k = 2 then ⟨false, 7⟩ else free_flags

/-- Flags that are all free. -/
def all_free : Nat → scatterer_flags := fun _ => free_flags

/-- The empty registry. -/
def empty_registry : Nat → Option scatterer_flags := fun _ => none

/-- A rotating, non-stretching methyl group: pivot 0, neighbour 4, dependents 1, 2, 3, azimuth
0 degrees, bond length 1. -/
def methyl_of {R : Type} [LinearOrderedField R] (m : std_math R) : terminal_X_Hn R :=
  terminal_X_Hn.mk_ctor m (garbage_terminal R) 0 4 [1, 2, 3] 0 1 true false

/-- Scatterers for `methyl_of` in the cubic unit cell: the neighbour, atom 4, at `(0, 0, -1)`,
every other atom (the pivot among them) at the origin. -/
def axis_sites (R : Type) [LinearOrderedField R] : Nat → scatterer R :=
  fun k => if k = 4 then ⟨⟨0, 0, -1⟩, free_flags⟩ else ⟨zero3 R, free_flags⟩

/-- The constraint `methyl_of` after `initialise_in_context` on `axis_sites`, all flags free. -/
def methyl_initialised {R : Type} [LinearOrderedField R] (m : std_math R) : terminal_X_Hn R :=
  (geometrical_hydrogens.initialise_in_context m (methyl_of m) (unit_cell.cubic_unit R)
    (axis_sites R) all_free empty_registry).1

/-- The constraint and the scatterers after the first placement, the geometry being that of the
initialisation. -/
def methyl_placed {R : Type} [LinearOrderedField R] (m : std_math R) :
    terminal_X_Hn R × (Nat → scatterer R) :=
  (terminal_X_Hn.place_constrained_scatterers m (unit_cell.cubic_unit R) (methyl_initialised m)
    (axis_sites R)).state

/-- The constraint and the scatterers after the neighbour, atom 4, has moved to `(-2, -1, -2)`
and the constraint has been placed again. -/
def methyl_placed_again {R : Type} [LinearOrderedField R] (m : std_math R) :
    terminal_X_Hn R × (Nat → scatterer R) :=
  (terminal_X_Hn.place_constrained_scatterers m (unit_cell.cubic_unit R) (methyl_placed m).1
    (geometrical_hydrogens.set_site (methyl_placed m).2 4 ⟨-2, -1, -2⟩)).state

/-- Scatterers for `rotor` in the cubic unit cell: the pivot, atom 0, at the origin, the
neighbour, atom 1, at `(0, 0, -1)` and the dependent, atom 2, at `(5, 5, 5)`. -/
def rotor_sites (R : Type) [LinearOrderedField R] : Nat → scatterer R :=
  fun k => if k = 1 then ⟨⟨0, 0, -1⟩, free_flags⟩
    else if k = 2 then ⟨⟨5, 5, 5⟩, free_flags⟩ else ⟨zero3 R, free_flags⟩

/-- The constraint `rotor` after `initialise_in_context` when its dependent, atom 2, is already
constrained: it is Disabled. -/
def rotor_disabled {R : Type} [LinearOrderedField R] (m : std_math R) : terminal_X_Hn R :=
  (geometrical_hydrogens.initialise_in_context m (rotor m) (unit_cell.cubic_unit R)
    (rotor_sites R) flags_with_2_taken empty_registry).1

/-- A second methyl group on pivot 5 that claims atom 3, a dependent of `methyl`, and atom 6. -/
def rival : terminal_X_Hn ℚ :=
  terminal_X_Hn.mk_ctor no_math (garbage_terminal ℚ) 5 4 [3, 6] 0 1 true false

/-- Indeterminate members of a `tertiary_CH`. -/
def garbage_tertiary (R : Type) [LinearOrderedField R] : tertiary_CH R :=
  { togeometrical_hydrogens := garbage_base R, i_pivot_neighbours := (0, 0, 0) }

/-- A methine group: pivot 0, neighbours 1, 2 and 3, dependent 4, bond length 1, not
stretching. -/
def methine (R : Type) [LinearOrderedField R] : tertiary_CH R :=
  tertiary_CH.mk_ctor (garbage_tertiary R) 0 (1, 2, 3) 4 1 false

/-- Scatterers for `methine` in the cubic unit cell: the neighbours, atoms 1, 2 and 3, at
`(-1, 0, 0)`, `(0, -1, 0)` and `(0, -3/5, -4/5)`, every other atom (the pivot among them) at the
origin. -/
def methine_sites (R : Type) [LinearOrderedField R] : Nat → scatterer R :=
  fun k => if k = 1 then ⟨⟨-1, 0, 0⟩, free_flags⟩
    else if k = 2 then ⟨⟨0, -1, 0⟩, free_flags⟩
    else if k = 3 then ⟨⟨0, -3 / 5, -4 / 5⟩, free_flags⟩ else ⟨zero3 R, free_flags⟩

/-- A stretching methylene group: pivot 0, neighbours 3 and 4, dependents 1 and 2, bond
length 1. -/
def methylene_of (R : Type) [LinearOrderedField R] : secondary_CH2 R :=
  secondary_CH2.mk_ctor (garbage_secondary R) 0 (3, 4) (1, 2) 1 true

/-- Scatterers for `methylene_of` in the cubic unit cell: the neighbours, atoms 3 and 4, at
`(-1, 0, 0)` and `(0, -1, 0)`, every other atom (the pivot among them) at the origin. -/
def methylene_sites (R : Type) [LinearOrderedField R] : Nat → scatterer R :=
  fun k => if k = 3 then ⟨⟨-1, 0, 0⟩, free_flags⟩
    else if k = 4 then ⟨⟨0, -1, 0⟩, free_flags⟩ else ⟨zero3 R, free_flags⟩

/-- Scatterers in the cubic unit cell with atom 1 at `(0, 0, 1)` and every other atom at the
origin. -/
def bond_sites (R : Type) [LinearOrderedField R] : Nat → scatterer R :=
  fun k => if k = 1 then ⟨⟨0, 0, 1⟩, free_flags⟩ else ⟨zero3 R, free_flags⟩

/-- A riding-only group on the pivot of `methyl`: pivot 0, neighbour 4, dependents 5 and 6. -/
def sibling : terminal_X_Hn ℚ :=
  terminal_X_Hn.mk_ctor no_math (garbage_terminal ℚ) 0 4 [5, 6] 0 1 false false

/-- A riding-only group with the dependents of `methyl`: pivot 0, neighbour 4, dependents 1, 2
and 3. -/
def methyl_riding : terminal_X_Hn ℚ :=
  terminal_X_Hn.mk_ctor no_math (garbage_terminal ℚ) 0 4 [1, 2, 3] 0 1 false false

/-- The upper constraint of a cascade: pivot 0, neighbour 4, dependent 1. -/
def cascade_upper : terminal_X_Hn ℚ :=
  terminal_X_Hn.mk_ctor no_math (garbage_terminal ℚ) 0 4 [1] 0 1 false false

/-- The lower constraint of a cascade: pivot 1, the dependent of `cascade_upper`, neighbour 0,
dependent 2. -/
def cascade_lower : terminal_X_Hn ℚ :=
  terminal_X_Hn.mk_ctor no_math (garbage_terminal ℚ) 1 0 [2] 0 1 false false

/-- Indeterminate members of an `aromatic_CH_or_amide_NH`. -/
def garbage_aromatic (R : Type) [LinearOrderedField R] : aromatic_CH_or_amide_NH R :=
  { togeometrical_hydrogens := garbage_base R, i_pivot_neighbours := (0, 0) }

/-- An amide group: pivot 0, neighbours 1 and 2, dependent 3, bond length 1, not stretching. -/
def amide (R : Type) [LinearOrderedField R] : aromatic_CH_or_amide_NH R :=
  aromatic_CH_or_amide_NH.mk_ctor (garbage_aromatic R) 0 (1, 2) 3 1 false

/-- Scatterers for `amide` in the cubic unit cell: the neighbours, atoms 1 and 2, at
`(-3/5, -4/5, 0)` and `(-3/5, 4/5, 0)`, every other atom (the pivot among them) at the
origin. -/
def amide_sites (R : Type) [LinearOrderedField R] : Nat → scatterer R :=
  fun k => if k = 1 then ⟨⟨-3 / 5, -4 / 5, 0⟩, free_flags⟩
    else if k = 2 then ⟨⟨-3 / 5, 4 / 5, 0⟩, free_flags⟩ else ⟨zero3 R, free_flags⟩

/-- A rotating and stretching methyl group: pivot 0, neighbour 4, dependents 1, 2, 3, azimuth
0 degrees, bond length 1. -/
def methyl_full {R : Type} [LinearOrderedField R] (m : std_math R) : terminal_X_Hn R :=
  terminal_X_Hn.mk_ctor m (garbage_terminal R) 0 4 [1, 2, 3] 0 1 true true

/-- The constraint `methyl_full` after `initialise_in_context` on `axis_sites`, all flags
free. -/
def methyl_full_initialised {R : Type} [LinearOrderedField R] (m : std_math R) :
    terminal_X_Hn R :=
  (geometrical_hydrogens.initialise_in_context m (methyl_full m) (unit_cell.cubic_unit R)
    (axis_sites R) all_free empty_registry).1

/-- The gradient vector over any field whose entry `k` is `k + 1`. -/
def ramp_of (R : Type) [LinearOrderedField R] : Nat → R := fun k => (k : R) + 1

end sample

end smtbx

/-! ## `cctbx/restraints/bond.h` -/

namespace cctbx

namespace restraints

open smtbx

/-- Modelled from the spec: `scitbx::fn::pow2`, the square of its argument. -/
def pow2 {R : Type} [LinearOrderedField R] (x : R) : R := x * x

/-- The data members of `bond`; `sites` is an `af::tiny<scitbx::vec3<double>, 2>`. -/
structure bond (R : Type) where
  sites : Vec3 R × Vec3 R
  distance_ideal : R
  weight : R
  distance_model : R
  delta : R

namespace bond

variable {R : Type} [LinearOrderedField R]

/-- `bond::init_distance_model`. -/
def init_distance_model (m : std_math R) (self : bond R) : bond R :=
  let distance_model := (self.sites.1.sub self.sites.2).length m
  { self with distance_model := distance_model, delta := self.distance_ideal - distance_model }

/-- The constructor `bond(sites_, distance_ideal_, weight_)`; the members it leaves to
`init_distance_model` are passed in as `garbage`. -/
def mk_ctor (m : std_math R) (garbage : bond R) (sites_ : Vec3 R × Vec3 R)
    (distance_ideal_ weight_ : R) : bond R :=
  init_distance_model m
    { garbage with sites := sites_, distance_ideal := distance_ideal_, weight := weight_ }

/-- `bond::residual`. -/
def residual (self : bond R) : R := self.weight * pow2 self.delta

/-- `bond::gradient_0`.  With `distance_model = 0` the C++ divides by zero and yields
non-finite components, whereas the division of a field returns the null vector here; the two
agree exactly when `distance_model ≠ 0`. -/
def gradient_0 (self : bond R) : Vec3 R :=
  Vec3.smul (-self.weight * 2 * self.delta / self.distance_model)
    (self.sites.1.sub self.sites.2)

/-- `bond::gradients`. -/
def gradients (self : bond R) : Vec3 R × Vec3 R :=
  let result0 := self.gradient_0
  (result0, result0.neg)

/-- `bond::add_gradients(gradient_array, i_seqs)`. -/
def add_gradients (self : bond R) (gradient_array : Nat → Vec3 R) (i_seqs : Nat × Nat) :
    Nat → Vec3 R :=
  let g0 := self.gradient_0
  let gradient_array1 :=
    Function.update gradient_array i_seqs.1 ((gradient_array i_seqs.1).add g0)
  Function.update gradient_array1 i_seqs.2 ((gradient_array1 i_seqs.2).add g0.neg)

/-- The vector sum of the first `n` entries of a gradient array. -/
def array_sum (gradient_array : Nat → Vec3 R) (n : Nat) : Vec3 R :=
  ⟨∑ k in Finset.range n, (gradient_array k).x, ∑ k in Finset.range n, (gradient_array k).y,
    ∑ k in Finset.range n, (gradient_array k).z⟩

/-- Indeterminate members of a `bond`, for the worked instances: every numeric member zero. -/
def garbage_bond (R : Type) [LinearOrderedField R] : bond R :=
  { sites := (⟨0, 0, 0⟩, ⟨0, 0, 0⟩), distance_ideal := 0, weight := 0, distance_model := 0,
    delta := 0 }

end bond

end restraints

end cctbx

namespace smtbx

/-! ## Lemmas on the riding step -/

section riding_lemmas

variable {R : Type} [LinearOrderedField R]

open geometrical_hydrogens

theorem add_site_gradient_pivot (g : Nat → R) (p h j : Nat) (hd : h + 3 ≤ p ∨ p + 3 ≤ h)
    (hj : j < 3) : add_site_gradient g p h (p + j) = g (p + j) + g (h + j) := by
  have h3 : h + 1 ≠ p := by omega
  have h4 : h + 2 ≠ p := by omega
  have h5 : h + 2 ≠ p + 1 := by omega
  interval_cases j <;> simp [add_site_gradient, Function.update, h3, h4, h5]

theorem add_site_gradient_other (g : Nat → R) (p h k : Nat) (hk : k < p ∨ p + 3 ≤ k) :
    add_site_gradient g p h k = g k := by
  have h0 : k ≠ p := by omega
  have h1 : k ≠ p + 1 := by omega
  have h2 : k ≠ p + 2 := by omega
  simp [add_site_gradient, Function.update, h0, h1, h2]

theorem riding_spec (scatterers : Nat → scatterer R) (pm : Nat → parameter_indices) (p : Nat) :
    ∀ (hs : List Nat) (g : Nat → R),
      (∀ i_h ∈ hs, (scatterers i_h).flags.grad_site = true) →
      (∀ i_h ∈ hs, (pm i_h).site + 3 ≤ (pm p).site ∨ (pm p).site + 3 ≤ (pm i_h).site) →
      (riding scatterers pm p hs g).thrown = none ∧
      (∀ j, j < 3 → (riding scatterers pm p hs g).state ((pm p).site + j)
          = g ((pm p).site + j) + (hs.map (fun i_h => g ((pm i_h).site + j))).sum) ∧
      (∀ k, k < (pm p).site ∨ (pm p).site + 3 ≤ k →
          (riding scatterers pm p hs g).state k = g k) := by
  intro hs
  induction hs with
  | nil => intro g _ _; simp [riding, outcome.ok]
  | cons i_h rest ih =>
    intro g hflag hdis
    have hf : (scatterers i_h).flags.grad_site = true := hflag i_h (List.mem_cons_self _ _)
    have hd := hdis i_h (List.mem_cons_self _ _)
    have ih1 := ih (add_site_gradient g (pm p).site (pm i_h).site)
      (fun a ha => hflag a (List.mem_cons_of_mem _ ha))
      (fun a ha => hdis a (List.mem_cons_of_mem _ ha))
    simp only [riding, hf, if_true]
    refine ⟨ih1.1, ?_, ?_⟩
    · intro j hj
      rw [ih1.2.1 j hj, add_site_gradient_pivot g _ _ j hd hj]
      have hrest : rest.map (fun a => add_site_gradient g (pm p).site (pm i_h).site
          ((pm a).site + j)) = rest.map (fun a => g ((pm a).site + j)) := by
        apply List.map_congr_left
        intro a ha
        apply add_site_gradient_other
        have := hdis a (List.mem_cons_of_mem _ ha)
        omega
      rw [hrest, List.map_cons, List.sum_cons, add_assoc]
    · intro k hk
      rw [ih1.2.2 k hk, add_site_gradient_other g _ _ k hk]

theorem compute_gradients_of_riding {D : Type} [heir R D] (m : std_math R) (self : D)
    (uc : unit_cell R) (scatterers : Nat → scatterer R) (pm : Nat → parameter_indices)
    (g : Nat → R) (rg : List R) (hon : (heir.base self).on_ = true)
    (hrid : (riding scatterers pm (heir.base self).i_pivot (heir.base self).i_hydrogens
      g).thrown = none) :
    (compute_gradients m self uc scatterers pm g rg).thrown = none ∧
    (compute_gradients m self uc scatterers pm g rg).state.2.1
      = (riding scatterers pm (heir.base self).i_pivot (heir.base self).i_hydrogens g).state := by
  unfold compute_gradients
  simp only [hon, Bool.not_true, Bool.false_eq_true, if_false]
  rw [hrid]
  by_cases ha : heir.has_active_reparametrizations self = true
  · simp [ha, outcome.ok]
  · simp [ha, outcome.ok]

end riding_lemmas

/-! ## Lemmas on `initialise_in_context` -/

section initialise_lemmas

variable {R : Type} [LinearOrderedField R]

open geometrical_hydrogens

theorem set_grad_site_false_of_false (f : scatterer_flags) (h : f.grad_site = false) :
    f.set_grad_site false = f := by
  cases f
  simp only [scatterer_flags.set_grad_site] at h ⊢
  subst h
  rfl

theorem initialise_loop_cons (i_h : Nat) (rest : List Nat) (on_ : Bool)
    (flags : Nat → scatterer_flags) (reg : Nat → Option scatterer_flags) :
    initialise_loop (i_h :: rest) on_ flags reg
      = initialise_loop rest (if (flags i_h).grad_site then on_ else false)
          (Function.update flags i_h ((flags i_h).set_grad_site false))
          (if (flags i_h).grad_site then reg else Function.update reg i_h (some (flags i_h))) := by
  cases h : (flags i_h).grad_site <;> simp [initialise_loop, h]

/-- The flags after the loop: cleared on the dependents, untouched elsewhere. -/
theorem initialise_loop_flags :
    ∀ (hs : List Nat) (on_ : Bool) (flags : Nat → scatterer_flags)
      (reg : Nat → Option scatterer_flags) (k : Nat),
      (initialise_loop hs on_ flags reg).2.1 k
        = if k ∈ hs then (flags k).set_grad_site false else flags k := by
  intro hs
  induction hs with
  | nil => intro on_ flags reg k; simp [initialise_loop]
  | cons i_h rest ih =>
    intro on_ flags reg k
    rw [initialise_loop_cons, ih]
    by_cases hk : k = i_h
    · subst hk
      by_cases hr : k ∈ rest <;> simp [hr, scatterer_flags.set_grad_site]
    · by_cases hr : k ∈ rest <;> simp [hr, hk, Function.update]

/-- A flag that is off stays off. -/
theorem initialise_loop_flags_off (hs : List Nat) (on_ : Bool) (flags : Nat → scatterer_flags)
    (reg : Nat → Option scatterer_flags) (k : Nat) (h : (flags k).grad_site = false) :
    ((initialise_loop hs on_ flags reg).2.1 k).grad_site = false := by
  rw [initialise_loop_flags]
  by_cases hk : k ∈ hs <;> simp [hk, h, scatterer_flags.set_grad_site]

/-- The flag of a dependent is off after the loop. -/
theorem initialise_loop_flags_mem (hs : List Nat) (on_ : Bool) (flags : Nat → scatterer_flags)
    (reg : Nat → Option scatterer_flags) (k : Nat) (h : k ∈ hs) :
    ((initialise_loop hs on_ flags reg).2.1 k).grad_site = false := by
  rw [initialise_loop_flags]
  simp [h, scatterer_flags.set_grad_site]

/-- The constraint is switched off exactly when it was off already or some dependent is found
with its flag off at the moment the loop visits it. -/
theorem initialise_loop_off_iff :
    ∀ (hs : List Nat) (on_ : Bool) (flags : Nat → scatterer_flags)
      (reg : Nat → Option scatterer_flags),
      (initialise_loop hs on_ flags reg).1 = false ↔
        (on_ = false ∨ ∃ pre i_h post, hs = pre ++ i_h :: post ∧
          ((initialise_loop pre on_ flags reg).2.1 i_h).grad_site = false) := by
  intro hs
  induction hs with
  | nil =>
    intro on_ flags reg
    simp [initialise_loop]
  | cons a rest ih =>
    intro on_ flags reg
    rw [initialise_loop_cons, ih]
    cases hg : (flags a).grad_site
    · simp only [Bool.false_eq_true, if_false, true_or, true_iff]
      right
      exact ⟨[], a, rest, rfl, by simp [initialise_loop, hg]⟩
    · simp only [if_true]
      constructor
      · rintro (h | ⟨pre, i_h, post, hdec, hfl⟩)
        · exact Or.inl h
        · right
          refine ⟨a :: pre, i_h, post, by simp [hdec], ?_⟩
          rw [initialise_loop_cons]
          simpa [hg] using hfl
      · rintro (h | ⟨pre, i_h, post, hdec, hfl⟩)
        · exact Or.inl h
        · right
          cases pre with
          | nil =>
            simp only [List.nil_append, List.cons.injEq] at hdec
            obtain ⟨rfl, -⟩ := hdec
            simp [initialise_loop, hg] at hfl
          | cons b pre2 =>
            simp only [List.cons_append, List.cons.injEq] at hdec
            obtain ⟨rfl, hrest⟩ := hdec
            refine ⟨pre2, i_h, post, hrest, ?_⟩
            rw [initialise_loop_cons] at hfl
            simpa [hg] using hfl

/-- An entry of the registry that already holds the (switched-off) flags of its atom keeps
them. -/
theorem initialise_loop_registry_keep :
    ∀ (hs : List Nat) (on_ : Bool) (flags : Nat → scatterer_flags)
      (reg : Nat → Option scatterer_flags) (k : Nat) (f : scatterer_flags),
      reg k = some f → flags k = f → f.grad_site = false →
      (initialise_loop hs on_ flags reg).2.2 k = some f := by
  intro hs
  induction hs with
  | nil => intro on_ flags reg k f hr _ _; simpa [initialise_loop] using hr
  | cons a rest ih =>
    intro on_ flags reg k f hr hf hg
    rw [initialise_loop_cons]
    apply ih
    · by_cases hk : k = a
      · subst hk
        cases hga : (flags k).grad_site
        · simp [hf]
        · rw [hf] at hga; rw [hg] at hga; cases hga
      · cases hga : (flags a).grad_site <;> simp [Function.update, hk, hr]
    · by_cases hk : k = a
      · subst hk
        simp only [Function.update_same]
        rw [hf]
        exact set_grad_site_false_of_false f hg
      · simp [Function.update, hk, hf]
    · exact hg

/-- The registry entry of a dependent found with its flag off holds the flags it had at that
moment. -/
theorem initialise_loop_registry :
    ∀ (hs : List Nat) (on_ : Bool) (flags : Nat → scatterer_flags)
      (reg : Nat → Option scatterer_flags) (pre : List Nat) (i_h : Nat) (post : List Nat),
      hs = pre ++ i_h :: post →
      ((initialise_loop pre on_ flags reg).2.1 i_h).grad_site = false →
      (initialise_loop hs on_ flags reg).2.2 i_h
        = some ((initialise_loop pre on_ flags reg).2.1 i_h) := by
  intro hs
  induction hs with
  | nil => intro on_ flags reg pre i_h post hdec; simp at hdec
  | cons a rest ih =>
    intro on_ flags reg pre i_h post hdec hfl
    cases pre with
    | nil =>
      simp only [List.nil_append, List.cons.injEq] at hdec
      obtain ⟨rfl, -⟩ := hdec
      have hnil : initialise_loop [] on_ flags reg = (on_, flags, reg) := rfl
      rw [hnil] at hfl ⊢
      have hfl2 : (flags a).grad_site = false := hfl
      rw [initialise_loop_cons]
      apply initialise_loop_registry_keep
      · simp [hfl2]
      · simp only [Function.update_same]
        exact set_grad_site_false_of_false _ hfl2
      · exact hfl2
    | cons b pre2 =>
      simp only [List.cons_append, List.cons.injEq] at hdec
      obtain ⟨rfl, hrest⟩ := hdec
      rw [initialise_loop_cons] at hfl
      rw [initialise_loop_cons a rest, initialise_loop_cons a pre2]
      exact ih _ _ _ pre2 i_h post hrest hfl

theorem any_base_set_base (c : any_hydrogens R) (b : geometrical_hydrogens R) :
    heir.base (heir.set_base c b) = b := by
  cases c <;> rfl

theorem any_base_do_initialise (m : std_math R) (uc : unit_cell R)
    (scatterers : Nat → scatterer R) (c : any_hydrogens R) :
    heir.base (heir.do_initialise_in_context m uc scatterers c) = heir.base c := by
  cases c <;> rfl

theorem any_set_base_self (c : any_hydrogens R) : heir.set_base c (heir.base c) = c := by
  cases c <;> rfl

/-- The base sub-object after `initialise_in_context`: only `on_` may have changed. -/
theorem any_initialise_base (m : std_math R) (c : any_hydrogens R) (uc : unit_cell R)
    (scatterers : Nat → scatterer R) (flags : Nat → scatterer_flags)
    (reg : Nat → Option scatterer_flags) :
    heir.base (initialise_in_context m c uc scatterers flags reg).1
      = { heir.base c with
          on_ := (initialise_loop (heir.base c).i_hydrogens (heir.base c).on_ flags reg).1 } := by
  unfold initialise_in_context
  cases h : (initialise_loop (heir.base c).i_hydrogens (heir.base c).on_ flags reg).1
  · simp [h, any_base_set_base]
  · simp [h, any_base_set_base, any_base_do_initialise]

/-- The flags and the registry after `initialise_in_context` are those the loop leaves. -/
theorem any_initialise_flags (m : std_math R) (c : any_hydrogens R) (uc : unit_cell R)
    (scatterers : Nat → scatterer R) (flags : Nat → scatterer_flags)
    (reg : Nat → Option scatterer_flags) :
    (initialise_in_context m c uc scatterers flags reg).2
      = (initialise_loop (heir.base c).i_hydrogens (heir.base c).on_ flags reg).2 := by
  unfold initialise_in_context
  cases h : (initialise_loop (heir.base c).i_hydrogens (heir.base c).on_ flags reg).1 <;>
    simp [h]

theorem any_initialise_all_cons (m : std_math R) (uc : unit_cell R)
    (scatterers : Nat → scatterer R) (c : any_hydrogens R) (rest : List (any_hydrogens R))
    (flags : Nat → scatterer_flags) (reg : Nat → Option scatterer_flags) :
    any_hydrogens.initialise_all m uc scatterers (c :: rest) flags reg
      = ((initialise_in_context m c uc scatterers flags reg).1 ::
          (any_hydrogens.initialise_all m uc scatterers rest
            (initialise_in_context m c uc scatterers flags reg).2.1
            (initialise_in_context m c uc scatterers flags reg).2.2).1,
         (any_hydrogens.initialise_all m uc scatterers rest
            (initialise_in_context m c uc scatterers flags reg).2.1
            (initialise_in_context m c uc scatterers flags reg).2.2).2) := rfl

/-- A constraint that has a dependent whose flag is off is switched off by
`initialise_in_context`. -/
theorem any_initialise_off_of_flag (m : std_math R) (c : any_hydrogens R) (uc : unit_cell R)
    (scatterers : Nat → scatterer R) (flags : Nat → scatterer_flags)
    (reg : Nat → Option scatterer_flags) (a : Nat) (ha : a ∈ (heir.base c).i_hydrogens)
    (hf : (flags a).grad_site = false) :
    (heir.base (initialise_in_context m c uc scatterers flags reg).1).on_ = false := by
  rw [any_initialise_base]
  show (initialise_loop (heir.base c).i_hydrogens (heir.base c).on_ flags reg).1 = false
  rw [initialise_loop_off_iff]
  right
  obtain ⟨pre, post, hdec⟩ := List.append_of_mem ha
  exact ⟨pre, a, post, hdec, initialise_loop_flags_off pre _ flags reg a hf⟩

/-- The invariant of a pass of `initialise_all`: the dependents are those of the input, a
constraint that meets a flag already off is switched off, and so is the later of two
constraints that share a dependent. -/
theorem any_initialise_all_spec (m : std_math R) (uc : unit_cell R)
    (scatterers : Nat → scatterer R) :
    ∀ (cs : List (any_hydrogens R)) (flags : Nat → scatterer_flags)
      (reg : Nat → Option scatterer_flags),
      ((any_hydrogens.initialise_all m uc scatterers cs flags reg).1.map
          (fun c => (heir.base c).i_hydrogens) = cs.map (fun c => (heir.base c).i_hydrogens)) ∧
      (∀ (j : Nat) (cj : any_hydrogens R) (a : Nat), (any_hydrogens.initialise_all m uc scatterers cs flags reg).1[j]? = some cj →
          a ∈ (heir.base cj).i_hydrogens → (flags a).grad_site = false →
          (heir.base cj).on_ = false) ∧
      (∀ (i j : Nat) (ci cj : any_hydrogens R) (a : Nat), i < j →
          (any_hydrogens.initialise_all m uc scatterers cs flags reg).1[i]? = some ci →
          (any_hydrogens.initialise_all m uc scatterers cs flags reg).1[j]? = some cj →
          a ∈ (heir.base ci).i_hydrogens → a ∈ (heir.base cj).i_hydrogens →
          (heir.base cj).on_ = false) := by
  intro cs
  induction cs with
  | nil =>
    intro flags reg
    simp [any_hydrogens.initialise_all]
  | cons c rest ih =>
    intro flags reg
    rw [any_initialise_all_cons]
    have ih1 := ih (initialise_in_context m c uc scatterers flags reg).2.1
      (initialise_in_context m c uc scatterers flags reg).2.2
    have hhyd : (heir.base (initialise_in_context m c uc scatterers flags reg).1).i_hydrogens
        = (heir.base c).i_hydrogens := by rw [any_initialise_base]
    have hfl : (initialise_in_context m c uc scatterers flags reg).2.1
        = (initialise_loop (heir.base c).i_hydrogens (heir.base c).on_ flags reg).2.1 := by
      rw [any_initialise_flags]
    refine ⟨?_, ?_, ?_⟩
    · simp only [List.map_cons, ih1.1, hhyd]
    · intro j cj a hj ha hf
      cases j with
      | zero =>
        simp only [List.getElem?_cons_zero, Option.some.injEq] at hj
        subst hj
        rw [hhyd] at ha
        exact any_initialise_off_of_flag m c uc scatterers flags reg a ha hf
      | succ j2 =>
        simp only [List.getElem?_cons_succ] at hj
        apply ih1.2.1 j2 cj a hj ha
        rw [hfl]
        exact initialise_loop_flags_off _ _ flags reg a hf
    · intro i j ci cj a hij hi hj hai haj
      cases j with
      | zero => omega
      | succ j2 =>
        simp only [List.getElem?_cons_succ] at hj
        cases i with
        | zero =>
          simp only [List.getElem?_cons_zero, Option.some.injEq] at hi
          subst hi
          rw [hhyd] at hai
          apply ih1.2.1 j2 cj a hj haj
          rw [hfl]
          exact initialise_loop_flags_mem _ _ flags reg a hai
        | succ i2 =>
          simp only [List.getElem?_cons_succ] at hi
          exact ih1.2.2 i2 j2 ci cj a (by omega) hi hj hai haj

end initialise_lemmas

/-! ## Lemmas on placement -/

section site_lemmas

variable {R : Type}

open geometrical_hydrogens

theorem set_site_ne (sc : Nat → scatterer R) (i k : Nat) (v : Vec3 R) (h : k ≠ i) :
    set_site sc i v k = sc k := by
  simp [set_site, Function.update, h]

theorem set_site_flags (sc : Nat → scatterer R) (i k : Nat) (v : Vec3 R) :
    (set_site sc i v k).flags = (sc k).flags := by
  by_cases h : k = i
  · subst h; simp [set_site, Function.update]
  · rw [set_site_ne sc i k v h]

theorem set_site_idem (sc : Nat → scatterer R) (a : Nat) (va : Vec3 R) :
    set_site (set_site sc a va) a va = set_site sc a va := by
  funext k
  by_cases ha : k = a
  · subst ha; simp [set_site, Function.update]
  · simp [set_site, Function.update, ha]

theorem set_site_twice (sc : Nat → scatterer R) (a b : Nat) (va vb : Vec3 R) :
    set_site (set_site (set_site (set_site sc a va) b vb) a va) b vb
      = set_site (set_site sc a va) b vb := by
  funext k
  by_cases hb : k = b <;> by_cases ha : k = a
  · subst hb; subst ha; simp [set_site, Function.update]
  · subst hb
    have : ¬ a = k := fun h => ha h.symm
    simp [set_site, Function.update, ha, this]
  · subst ha
    have : ¬ b = k := fun h => hb h.symm
    simp [set_site, Function.update, hb, this]
  · simp [set_site, Function.update, hb, ha]

theorem update_twice {α : Type} (f : Nat → α) (va vb : α) :
    Function.update (Function.update (Function.update (Function.update f 0 va) 1 vb) 0 va) 1 vb
      = Function.update (Function.update f 0 va) 1 vb := by
  funext k
  by_cases h1 : k = 1 <;> by_cases h0 : k = 0 <;> simp [Function.update, h1, h0]

theorem ite_absorb {α : Type} (c : Prop) [Decidable c] (a b : α) :
    (if c then a else if c then a else b) = if c then a else b := by
  by_cases h : c <;> simp [h]

theorem outcome_eq_ok {σ : Type} (o : outcome σ) (h : o.thrown = none) :
    o = outcome.ok o.state := by
  cases o
  simp only [outcome.ok] at h ⊢
  subst h
  rfl

/-- The loop that places the dependents leaves every other scatterer alone. -/
theorem place_hydrogens_not_mem (uc : unit_cell R) (x_h : Nat → Vec3 R) :
    ∀ (hs : List Nat) (i : Nat) (sc : Nat → scatterer R) (k : Nat), k ∉ hs →
      terminal_X_Hn.place_hydrogens uc x_h hs i sc k = sc k := by
  intro hs
  induction hs with
  | nil => intro i sc k _; rfl
  | cons a rest ih =>
    intro i sc k hk
    simp only [List.mem_cons, not_or] at hk
    simp only [terminal_X_Hn.place_hydrogens]
    rw [ih _ _ _ hk.2, set_site_ne _ _ _ _ hk.1]

theorem place_hydrogens_flags (uc : unit_cell R) (x_h : Nat → Vec3 R) :
    ∀ (hs : List Nat) (i : Nat) (sc : Nat → scatterer R) (k : Nat),
      (terminal_X_Hn.place_hydrogens uc x_h hs i sc k).flags = (sc k).flags := by
  intro hs
  induction hs with
  | nil => intro i sc k; rfl
  | cons a rest ih =>
    intro i sc k
    simp only [terminal_X_Hn.place_hydrogens]
    rw [ih, set_site_flags]

/-- The loop that places the dependents reads nothing of the sites it writes. -/
theorem place_hydrogens_agree (uc : unit_cell R) (x_h : Nat → Vec3 R) :
    ∀ (hs : List Nat) (i : Nat) (sc sc2 : Nat → scatterer R),
      (∀ k, (sc k).flags = (sc2 k).flags) → (∀ k, k ∉ hs → (sc k).site = (sc2 k).site) →
      terminal_X_Hn.place_hydrogens uc x_h hs i sc
        = terminal_X_Hn.place_hydrogens uc x_h hs i sc2 := by
  intro hs
  induction hs with
  | nil =>
    intro i sc sc2 hf hs
    funext k
    simp only [terminal_X_Hn.place_hydrogens]
    have h1 := hf k
    have h2 := hs k (List.not_mem_nil k)
    cases hk : sc k; cases hk2 : sc2 k
    simp_all
  | cons a rest ih =>
    intro i sc sc2 hf hs
    simp only [terminal_X_Hn.place_hydrogens]
    apply ih
    · intro k
      rw [set_site_flags, set_site_flags, hf]
    · intro k hk
      by_cases hka : k = a
      · subst hka; simp [set_site, Function.update]
      · rw [set_site_ne _ _ _ _ hka, set_site_ne _ _ _ _ hka]
        apply hs
        simp [hka, hk]

theorem place_hydrogens_idem (uc : unit_cell R) (x_h : Nat → Vec3 R) (hs : List Nat) (i : Nat)
    (sc : Nat → scatterer R) :
    terminal_X_Hn.place_hydrogens uc x_h hs i (terminal_X_Hn.place_hydrogens uc x_h hs i sc)
      = terminal_X_Hn.place_hydrogens uc x_h hs i sc := by
  apply place_hydrogens_agree
  · intro k; rw [place_hydrogens_flags]
  · intro k hk; rw [place_hydrogens_not_mem uc x_h hs i sc k hk]

theorem place_hydrogens_site (uc : unit_cell R) (x_h : Nat → Vec3 R) :
    ∀ (hs : List Nat) (i : Nat) (sc : Nat → scatterer R), hs.Nodup →
      ∀ q ∈ hs.enumFrom i,
        (terminal_X_Hn.place_hydrogens uc x_h hs i sc q.2).site = uc.fractionalize (x_h q.1) := by
  intro hs
  induction hs with
  | nil => intro i sc _ q hq; simp at hq
  | cons h rest ih =>
    intro i sc hnd q hq
    rw [List.nodup_cons] at hnd
    simp only [List.enumFrom_cons, List.mem_cons] at hq
    simp only [terminal_X_Hn.place_hydrogens]
    rcases hq with hq | hq
    · subst hq
      rw [place_hydrogens_not_mem _ _ _ _ _ _ hnd.1]
      simp [set_site]
    · exact ih (i + 1) _ hnd.2 q hq

end site_lemmas

section placement_lemmas

variable {R : Type} [LinearOrderedField R]

open geometrical_hydrogens

/-- Once the primary axis `f` has unit length (or is null), rebuilding the frame on it a second
time gives the same in-plane axis. -/
theorem cross_frame_fix (f e : Vec3 R) (h : f.length_sq = 1 ∨ f = ⟨0, 0, 0⟩) :
    f.cross ((f.cross e).cross f) = f.cross e := by
  rcases h with h | h
  · simp only [Vec3.length_sq, Vec3.dot] at h
    simp only [Vec3.cross, Vec3.mk.injEq]
    refine ⟨?_, ?_, ?_⟩
    · linear_combination (f.y * e.z - f.z * e.y) * h
    · linear_combination (f.z * e.x - f.x * e.z) * h
    · linear_combination (f.x * e.y - f.y * e.x) * h
  · subst h
    simp [Vec3.cross]

theorem terminal_do_apply_zero (self : terminal_X_Hn R) :
    terminal_X_Hn.do_apply_reparametrization_shifts self (fun _ => 0) = self := by
  unfold terminal_X_Hn.do_apply_reparametrization_shifts
  cases hr : self.rotating <;> cases hs : self.stretching <;>
    simp [hr, hs, geometrical_hydrogens.stretching]

/-- The frame that `terminal_X_Hn::place_constrained_scatterers` leaves, thrown or not. -/
theorem terminal_place_frame (m : std_math R) (uc : unit_cell R) (self : terminal_X_Hn R)
    (sc : Nat → scatterer R) :
    (terminal_X_Hn.place_constrained_scatterers m uc self sc).state.1.e2
      = ((uc.orthogonalize (sc self.i_pivot).site).sub
          (uc.orthogonalize (sc self.i_pivot_neighbour).site)).normalize m ∧
    (terminal_X_Hn.place_constrained_scatterers m uc self sc).state.1.e1
      = (((uc.orthogonalize (sc self.i_pivot).site).sub
          (uc.orthogonalize (sc self.i_pivot_neighbour).site)).normalize m).cross self.e0 ∧
    (terminal_X_Hn.place_constrained_scatterers m uc self sc).state.1.e0
      = ((((uc.orthogonalize (sc self.i_pivot).site).sub
          (uc.orthogonalize (sc self.i_pivot_neighbour).site)).normalize m).cross self.e0).cross
        (((uc.orthogonalize (sc self.i_pivot).site).sub
          (uc.orthogonalize (sc self.i_pivot_neighbour).site)).normalize m) := by
  unfold terminal_X_Hn.place_constrained_scatterers
  by_cases h : self.i_hydrogens.length = 1 ∨ self.i_hydrogens.length = 2 ∨
      self.i_hydrogens.length = 3 <;> simp [h, outcome.ok, outcome.throw]

/-- The members that `terminal_X_Hn::place_constrained_scatterers` does not touch. -/
theorem terminal_place_fields (m : std_math R) (uc : unit_cell R) (self : terminal_X_Hn R)
    (sc : Nat → scatterer R) :
    (terminal_X_Hn.place_constrained_scatterers m uc self sc).state.1.i_pivot = self.i_pivot ∧
    (terminal_X_Hn.place_constrained_scatterers m uc self sc).state.1.i_pivot_neighbour
      = self.i_pivot_neighbour ∧
    (terminal_X_Hn.place_constrained_scatterers m uc self sc).state.1.i_hydrogens
      = self.i_hydrogens ∧
    (terminal_X_Hn.place_constrained_scatterers m uc self sc).state.1.l = self.l ∧
    (terminal_X_Hn.place_constrained_scatterers m uc self sc).state.1.phi = self.phi ∧
    (terminal_X_Hn.place_constrained_scatterers m uc self sc).state.1.on_ = self.on_ := by
  unfold terminal_X_Hn.place_constrained_scatterers
  by_cases h : self.i_hydrogens.length = 1 ∨ self.i_hydrogens.length = 2 ∨
      self.i_hydrogens.length = 3 <;> simp [h, outcome.ok, outcome.throw]

theorem terminal_place_other (m : std_math R) (uc : unit_cell R) (self : terminal_X_Hn R)
    (sc : Nat → scatterer R) (k : Nat) (hk : k ∉ self.i_hydrogens) :
    (terminal_X_Hn.place_constrained_scatterers m uc self sc).state.2 k = sc k := by
  unfold terminal_X_Hn.place_constrained_scatterers
  by_cases h : self.i_hydrogens.length = 1 ∨ self.i_hydrogens.length = 2 ∨
      self.i_hydrogens.length = 3
  · simp only [h, if_true, outcome.ok]
    exact place_hydrogens_not_mem _ _ _ _ _ _ hk
  · simp [h, outcome.throw]

/-- The site written for the first dependent, in terms of the frame the placement leaves. -/
theorem terminal_place_site_head (m : std_math R) (uc : unit_cell R) (self : terminal_X_Hn R)
    (sc : Nat → scatterer R) (a : Nat) (rest : List Nat) (h : self.i_hydrogens = a :: rest)
    (ha : a ∉ rest)
    (hn : self.i_hydrogens.length = 1 ∨ self.i_hydrogens.length = 2 ∨
      self.i_hydrogens.length = 3) :
    ((terminal_X_Hn.place_constrained_scatterers m uc self sc).state.2 a).site
      = uc.fractionalize ((uc.orthogonalize (sc self.i_pivot).site).add
          (Vec3.smul self.l
            ((Vec3.smul (constants.sin_tetrahedral_angle m)
              ((Vec3.smul (terminal_X_Hn.cos_phi m self.phi 0)
                  (terminal_X_Hn.place_constrained_scatterers m uc self sc).state.1.e0).add
                (Vec3.smul (terminal_X_Hn.sin_phi m self.phi 0)
                  (terminal_X_Hn.place_constrained_scatterers m uc self sc).state.1.e1))).add
              ((terminal_X_Hn.place_constrained_scatterers m uc self sc).state.1.e2.div 3)))) := by
  unfold terminal_X_Hn.place_constrained_scatterers
  simp only [hn, if_true, outcome.ok]
  rw [h]
  simp only [terminal_X_Hn.place_hydrogens]
  rw [place_hydrogens_not_mem _ _ _ _ _ _ ha]
  simp [set_site]

/-- Placing a `secondary_CH2` a second time on unmoved pivot and neighbours changes nothing. -/
theorem secondary_idem (m : std_math R) (uc : unit_cell R) (self : secondary_CH2 R)
    (sc : Nat → scatterer R) (hwf : self.i_hydrogens.length = 2)
    (hp : self.i_pivot ∉ self.i_hydrogens)
    (h1 : self.i_pivot_neighbours.1 ∉ self.i_hydrogens)
    (h2 : self.i_pivot_neighbours.2 ∉ self.i_hydrogens) :
    secondary_CH2.place_constrained_scatterers m uc
      (secondary_CH2.place_constrained_scatterers m uc self sc).state.1
      (secondary_CH2.place_constrained_scatterers m uc self sc).state.2
    = outcome.ok (secondary_CH2.place_constrained_scatterers m uc self sc).state := by
  obtain ⟨a, b, hh⟩ : ∃ a b, self.i_hydrogens = [a, b] := by
    match hl : self.i_hydrogens, hwf with
    | [a, b], _ => exact ⟨a, b, rfl⟩
  rw [hh] at hp h1 h2
  simp only [List.mem_cons, List.mem_singleton, List.not_mem_nil, or_false, not_or] at hp h1 h2
  simp only [secondary_CH2.place_constrained_scatterers, outcome.ok, hh, List.getD_cons_zero,
    List.getD_cons_succ, set_site_ne _ _ _ _ hp.1, set_site_ne _ _ _ _ hp.2,
    set_site_ne _ _ _ _ h1.1, set_site_ne _ _ _ _ h1.2, set_site_ne _ _ _ _ h2.1,
    set_site_ne _ _ _ _ h2.2, set_site_twice, update_twice]

/-- Placing a `tertiary_CH` a second time on unmoved pivot and neighbours changes nothing. -/
theorem tertiary_idem (m : std_math R) (uc : unit_cell R) (self : tertiary_CH R)
    (sc : Nat → scatterer R) (hwf : self.i_hydrogens.length = 1)
    (hp : self.i_pivot ∉ self.i_hydrogens)
    (h1 : self.i_pivot_neighbours.1 ∉ self.i_hydrogens)
    (h2 : self.i_pivot_neighbours.2.1 ∉ self.i_hydrogens)
    (h3 : self.i_pivot_neighbours.2.2 ∉ self.i_hydrogens) :
    tertiary_CH.place_constrained_scatterers m uc
      (tertiary_CH.place_constrained_scatterers m uc self sc).state.1
      (tertiary_CH.place_constrained_scatterers m uc self sc).state.2
    = outcome.ok (tertiary_CH.place_constrained_scatterers m uc self sc).state := by
  obtain ⟨h0, hh⟩ : ∃ h0, self.i_hydrogens = [h0] := by
    match hl : self.i_hydrogens, hwf with
    | [a], _ => exact ⟨a, rfl⟩
  have hp0 : self.i_pivot ≠ h0 := by rw [hh] at hp; simpa using hp
  have h10 : self.i_pivot_neighbours.1 ≠ h0 := by rw [hh] at h1; simpa using h1
  have h20 : self.i_pivot_neighbours.2.1 ≠ h0 := by rw [hh] at h2; simpa using h2
  have h30 : self.i_pivot_neighbours.2.2 ≠ h0 := by rw [hh] at h3; simpa using h3
  simp only [tertiary_CH.place_constrained_scatterers, outcome.ok, hh, List.getD_cons_zero,
    set_site_ne _ _ _ _ hp0, set_site_ne _ _ _ _ h10, set_site_ne _ _ _ _ h20,
    set_site_ne _ _ _ _ h30, set_site_idem, Function.update_idem]

/-- Placing an `aromatic_CH_or_amide_NH` a second time on unmoved pivot and neighbours changes
nothing. -/
theorem aromatic_idem (m : std_math R) (uc : unit_cell R) (self : aromatic_CH_or_amide_NH R)
    (sc : Nat → scatterer R) (hwf : self.i_hydrogens.length = 1)
    (hp : self.i_pivot ∉ self.i_hydrogens)
    (h1 : self.i_pivot_neighbours.1 ∉ self.i_hydrogens)
    (h2 : self.i_pivot_neighbours.2 ∉ self.i_hydrogens) :
    aromatic_CH_or_amide_NH.place_constrained_scatterers m uc
      (aromatic_CH_or_amide_NH.place_constrained_scatterers m uc self sc).state.1
      (aromatic_CH_or_amide_NH.place_constrained_scatterers m uc self sc).state.2
    = outcome.ok (aromatic_CH_or_amide_NH.place_constrained_scatterers m uc self sc).state := by
  obtain ⟨h0, hh⟩ : ∃ h0, self.i_hydrogens = [h0] := by
    match hl : self.i_hydrogens, hwf with
    | [a], _ => exact ⟨a, rfl⟩
  have hp0 : self.i_pivot ≠ h0 := by rw [hh] at hp; simpa using hp
  have h10 : self.i_pivot_neighbours.1 ≠ h0 := by rw [hh] at h1; simpa using h1
  have h20 : self.i_pivot_neighbours.2 ≠ h0 := by rw [hh] at h2; simpa using h2
  simp only [aromatic_CH_or_amide_NH.place_constrained_scatterers, outcome.ok, hh,
    List.getD_cons_zero, set_site_ne _ _ _ _ hp0, set_site_ne _ _ _ _ h10,
    set_site_ne _ _ _ _ h20, set_site_idem, Function.update_idem]

theorem tertiary_place_direction (m : std_math R) (uc : unit_cell R) (t : tertiary_CH R)
    (sc : Nat → scatterer R) :
    (tertiary_CH.place_constrained_scatterers m uc t sc).thrown = none ∧
    ((tertiary_CH.place_constrained_scatterers m uc t sc).state.2
        (t.i_hydrogens.getD 0 0)).site
      = uc.fractionalize ((uc.orthogonalize (sc t.i_pivot).site).add (Vec3.smul t.l
          (tertiary_CH.direction_from_neighbours m (uc.orthogonalize (sc t.i_pivot).site)
            (uc.orthogonalize (sc t.i_pivot_neighbours.1).site)
            (uc.orthogonalize (sc t.i_pivot_neighbours.2.1).site)
            (uc.orthogonalize (sc t.i_pivot_neighbours.2.2).site)))) ∧
    (tertiary_CH.place_constrained_scatterers m uc t sc).state.1.dx_over_dl 0
      = tertiary_CH.direction_from_neighbours m (uc.orthogonalize (sc t.i_pivot).site)
          (uc.orthogonalize (sc t.i_pivot_neighbours.1).site)
          (uc.orthogonalize (sc t.i_pivot_neighbours.2.1).site)
          (uc.orthogonalize (sc t.i_pivot_neighbours.2.2).site) := by
  unfold tertiary_CH.place_constrained_scatterers tertiary_CH.direction_from_neighbours
    tertiary_CH.direction_of_units
  simp only [outcome.ok]
  refine ⟨trivial, ?_, ?_⟩
  · simp [set_site, Function.update]
  · simp [Function.update]

theorem normalize_reversed (m : std_math R) (a b : Vec3 R) :
    (a.sub b).normalize m = ((b.sub a).normalize m).neg := by
  have hl : (a.sub b).length_sq = (b.sub a).length_sq := by
    simp only [Vec3.length_sq, Vec3.dot, Vec3.sub]
    ring
  simp only [Vec3.normalize, Vec3.length, hl]
  simp only [Vec3.div, Vec3.neg, Vec3.sub, Vec3.mk.injEq]
  refine ⟨by ring, by ring, by ring⟩

theorem direction_of_units_neg (m : std_math R) (u1 u2 u3 : Vec3 R)
    (h : (((u1.sub u2).cross (u2.sub u3)).normalize m).dot ((u1.add u2).add u3) ≠ 0) :
    tertiary_CH.direction_of_units m u1.neg u2.neg u3.neg
      = (tertiary_CH.direction_of_units m u1 u2 u3).neg := by
  have hc : (u1.neg.sub u2.neg).cross (u2.neg.sub u3.neg) = (u1.sub u2).cross (u2.sub u3) := by
    simp only [Vec3.cross, Vec3.sub, Vec3.neg, Vec3.mk.injEq]
    refine ⟨by ring, by ring, by ring⟩
  have hd : ∀ e : Vec3 R, e.dot ((u1.neg.add u2.neg).add u3.neg)
      = -(e.dot ((u1.add u2).add u3)) := by
    intro e
    simp only [Vec3.dot, Vec3.add, Vec3.neg]
    ring
  have hnn : ∀ e : Vec3 R, e.neg.neg = e := by
    intro e
    simp [Vec3.neg]
  simp only [tertiary_CH.direction_of_units, hc, hd]
  rcases lt_or_gt_of_ne h with hlt | hgt
  · have h1 : ¬ (-((((u1.sub u2).cross (u2.sub u3)).normalize m).dot ((u1.add u2).add u3)) < 0) := by
      intro hcon; linarith
    simp only [h1, hlt, if_true, if_false, hnn]
  · have h1 : -((((u1.sub u2).cross (u2.sub u3)).normalize m).dot ((u1.add u2).add u3)) < 0 := by
      linarith
    have h2 : ¬ ((((u1.sub u2).cross (u2.sub u3)).normalize m).dot ((u1.add u2).add u3) < 0) := by
      intro hcon; linarith
    simp only [h1, h2, if_true, if_false]

/-- Unless the normalised cross product is perpendicular to the resultant, the direction built
on the unit vectors toward the neighbours is the opposite of the one built on the unit vectors
from the neighbours. -/
theorem tertiary_directions_opposite (m : std_math R) (x_p x_X x_Y x_Z : Vec3 R)
    (h : (((((x_p.sub x_X).normalize m).sub ((x_p.sub x_Y).normalize m)).cross
        (((x_p.sub x_Y).normalize m).sub ((x_p.sub x_Z).normalize m))).normalize m).dot
      ((((x_p.sub x_X).normalize m).add ((x_p.sub x_Y).normalize m)).add
        ((x_p.sub x_Z).normalize m)) ≠ 0) :
    tertiary_CH.direction_toward_neighbours m x_p x_X x_Y x_Z
      = (tertiary_CH.direction_from_neighbours m x_p x_X x_Y x_Z).neg := by
  unfold tertiary_CH.direction_toward_neighbours tertiary_CH.direction_from_neighbours
  rw [normalize_reversed m x_X x_p, normalize_reversed m x_Y x_p, normalize_reversed m x_Z x_p]
  exact direction_of_units_neg m _ _ _ h

theorem secondary_place_eq (m : std_math R) (uc : unit_cell R) (t : secondary_CH2 R)
    (sc : Nat → scatterer R) :
    secondary_CH2.placed_direction m uc t sc 0
      = (Vec3.smul (m.cos (secondary_CH2.theta_of uc t sc)) (secondary_CH2.e0 m uc t sc)).add
          (Vec3.smul (m.sin (secondary_CH2.theta_of uc t sc)) (secondary_CH2.e1 m uc t sc)) ∧
    secondary_CH2.placed_direction m uc t sc 1
      = (Vec3.smul (m.cos (secondary_CH2.theta_of uc t sc)) (secondary_CH2.e0 m uc t sc)).sub
          (Vec3.smul (m.sin (secondary_CH2.theta_of uc t sc)) (secondary_CH2.e1 m uc t sc)) ∧
    (t.i_hydrogens.getD 0 0 ≠ t.i_hydrogens.getD 1 0 →
      ((secondary_CH2.place_constrained_scatterers m uc t sc).state.2
          (t.i_hydrogens.getD 0 0)).site
        = uc.fractionalize ((secondary_CH2.x_p uc t sc).add
            (Vec3.smul t.l (secondary_CH2.placed_direction m uc t sc 0)))) ∧
    ((secondary_CH2.place_constrained_scatterers m uc t sc).state.2
        (t.i_hydrogens.getD 1 0)).site
      = uc.fractionalize ((secondary_CH2.x_p uc t sc).add
          (Vec3.smul t.l (secondary_CH2.placed_direction m uc t sc 1))) ∧
    (∀ k, k ≠ t.i_hydrogens.getD 0 0 → k ≠ t.i_hydrogens.getD 1 0 →
      (secondary_CH2.place_constrained_scatterers m uc t sc).state.2 k = sc k) := by
  unfold secondary_CH2.placed_direction secondary_CH2.place_constrained_scatterers
  simp only [outcome.ok]
  refine ⟨?_, ?_, ?_, ?_, ?_⟩
  · simp [Function.update]; rfl
  · simp [Function.update]; rfl
  · intro hne
    rw [set_site_ne _ _ _ _ hne]
    simp [set_site, Function.update]; rfl
  · simp [set_site, Function.update]; rfl
  · intro k h0 h1
    rw [set_site_ne _ _ _ _ h1, set_site_ne _ _ _ _ h0]

theorem cross_lagrange (a b : Vec3 R) :
    (a.cross b).dot (a.cross b) = a.dot a * b.dot b - a.dot b * a.dot b := by
  simp only [Vec3.cross, Vec3.dot]
  ring

theorem cross_dot_left (a b : Vec3 R) : (a.cross b).dot a = 0 := by
  simp only [Vec3.cross, Vec3.dot]
  ring

theorem cross_dot_right (a b : Vec3 R) : (a.cross b).dot b = 0 := by
  simp only [Vec3.cross, Vec3.dot]
  ring

theorem dot_comm (a b : Vec3 R) : a.dot b = b.dot a := by
  simp only [Vec3.dot]
  ring

/-- The dot product of two combinations of a pair of vectors. -/
theorem dot_combination (f0 f1 : Vec3 R) (c s c2 s2 : R) :
    ((Vec3.smul c f0).add (Vec3.smul s f1)).dot ((Vec3.smul c2 f0).add (Vec3.smul s2 f1))
      = c * c2 * f0.dot f0 + (c * s2 + s * c2) * f0.dot f1 + s * s2 * f1.dot f1 := by
  simp only [Vec3.dot, Vec3.add, Vec3.smul]
  ring

theorem sub_smul_eq (f0 f1 : Vec3 R) (c s : R) :
    (Vec3.smul c f0).sub (Vec3.smul s f1) = (Vec3.smul c f0).add (Vec3.smul (-s) f1) := by
  simp only [Vec3.sub, Vec3.add, Vec3.smul, Vec3.mk.injEq]
  refine ⟨by ring, by ring, by ring⟩

theorem dot_combination_left (f0 f1 w : Vec3 R) (c s : R) :
    ((Vec3.smul c f0).add (Vec3.smul s f1)).dot w = c * f0.dot w + s * f1.dot w := by
  simp only [Vec3.dot, Vec3.add, Vec3.smul]
  ring

theorem add_smul_sub (p d : Vec3 R) (l : R) : ((p.add (Vec3.smul l d)).sub p) = Vec3.smul l d := by
  simp only [Vec3.sub, Vec3.add, Vec3.smul, Vec3.mk.injEq]
  refine ⟨by ring, by ring, by ring⟩

theorem smul_length_sq (l : R) (d : Vec3 R) :
    (Vec3.smul l d).length_sq = l * l * d.length_sq := by
  simp only [Vec3.length_sq, Vec3.dot, Vec3.smul]
  ring

theorem smul_dot (l : R) (d w : Vec3 R) : (Vec3.smul l d).dot w = l * d.dot w := by
  simp only [Vec3.dot, Vec3.smul]
  ring

theorem dot_smul (l : R) (d w : Vec3 R) : w.dot (Vec3.smul l d) = l * w.dot d := by
  simp only [Vec3.dot, Vec3.smul]
  ring

theorem end_to_end_eq (m : std_math R) (garbage : terminal_X_Hn R) (uc : unit_cell R)
    (sc : Nat → scatterer R) (cf : Nat → scatterer_flags) (ac : Nat → Option scatterer_flags)
    (pivot neighbour h : Nat) (azimuth_ l : R) (h_free : (cf h).grad_site = true) :
    terminal_X_Hn.end_to_end m garbage uc sc cf ac pivot neighbour h azimuth_ l
      = terminal_X_Hn.place_constrained_scatterers m uc
          (terminal_X_Hn.do_initialise_in_context m uc sc
            (terminal_X_Hn.mk_ctor m garbage pivot neighbour [h] azimuth_ l false false)) sc := by
  unfold terminal_X_Hn.end_to_end initialise_in_context
  have hb : (heir.base (terminal_X_Hn.mk_ctor m garbage pivot neighbour [h] azimuth_ l
      false false)).i_hydrogens = [h] := rfl
  have ho : (heir.base (terminal_X_Hn.mk_ctor m garbage pivot neighbour [h] azimuth_ l
      false false)).on_ = true := rfl
  simp only [hb, ho, initialise_loop, h_free, Bool.not_true, Bool.false_eq_true, if_false]
  rfl

/-- A unit vector crossed with the cross product of an orthogonal vector and itself gives the
orthogonal vector back. -/
theorem cross_cross_unit (f e : Vec3 R) (hf : f.dot f = 1) (he : e.dot f = 0) :
    f.cross (e.cross f) = e := by
  simp only [Vec3.dot] at hf he
  obtain ⟨ex, ey, ez⟩ := e
  obtain ⟨fx, fy, fz⟩ := f
  simp only [Vec3.cross, Vec3.mk.injEq] at *
  refine ⟨?_, ?_, ?_⟩
  · linear_combination ex * hf - fx * he
  · linear_combination ey * hf - fy * he
  · linear_combination ez * hf - fz * he

/-- The direction `k (c e0 + s e1) + e2 / 3` in an orthonormal frame, with `c² + s² = 1` and
`k² = 8/9`, has unit length and component `1/3` along `e2`. -/
theorem tetrahedral_direction (e0 e1 e2 : Vec3 R) (c s k : R)
    (h00 : e0.dot e0 = 1) (h11 : e1.dot e1 = 1) (h22 : e2.dot e2 = 1)
    (h01 : e0.dot e1 = 0) (h02 : e0.dot e2 = 0) (h12 : e1.dot e2 = 0)
    (hcs : c * c + s * s = 1) (hk : k * k = 8 / 9) :
    ((Vec3.smul k ((Vec3.smul c e0).add (Vec3.smul s e1))).add (e2.div 3)).dot
      ((Vec3.smul k ((Vec3.smul c e0).add (Vec3.smul s e1))).add (e2.div 3)) = 1 ∧
    ((Vec3.smul k ((Vec3.smul c e0).add (Vec3.smul s e1))).add (e2.div 3)).dot e2 = 1 / 3 := by
  simp only [Vec3.dot, Vec3.add, Vec3.smul, Vec3.div] at *
  constructor
  · linear_combination k ^ 2 * c ^ 2 * h00 + 2 * k ^ 2 * c * s * h01 + k ^ 2 * s ^ 2 * h11
      + (2 * k / 3) * c * h02 + (2 * k / 3) * s * h12 + (1 / 9) * h22 + k ^ 2 * hcs + hk
  · linear_combination k * c * h02 + k * s * h12 + (1 / 3) * h22

theorem neg_dot_neg (a : Vec3 R) : a.neg.dot a.neg = a.dot a := by
  simp only [Vec3.dot, Vec3.neg]
  ring

theorem neg_dot (a b : Vec3 R) : a.neg.dot b = -(a.dot b) := by
  simp only [Vec3.dot, Vec3.neg]
  ring

theorem dot_sub (a b c : Vec3 R) : a.dot (b.sub c) = a.dot b - a.dot c := by
  simp only [Vec3.dot, Vec3.sub]
  ring

theorem aromatic_place_direction (m : std_math R) (uc : unit_cell R)
    (t : aromatic_CH_or_amide_NH R) (sc : Nat → scatterer R) :
    (aromatic_CH_or_amide_NH.place_constrained_scatterers m uc t sc).thrown = none ∧
    ((aromatic_CH_or_amide_NH.place_constrained_scatterers m uc t sc).state.2
        (t.i_hydrogens.getD 0 0)).site
      = uc.fractionalize ((aromatic_CH_or_amide_NH.x_p uc t sc).add (Vec3.smul t.l
          (aromatic_CH_or_amide_NH.direction_from_neighbours m
            (aromatic_CH_or_amide_NH.x_p uc t sc) (aromatic_CH_or_amide_NH.x_X uc t sc)
            (aromatic_CH_or_amide_NH.x_Y uc t sc)))) ∧
    (aromatic_CH_or_amide_NH.place_constrained_scatterers m uc t sc).state.1.dx_over_dl 0
      = aromatic_CH_or_amide_NH.direction_from_neighbours m
          (aromatic_CH_or_amide_NH.x_p uc t sc) (aromatic_CH_or_amide_NH.x_X uc t sc)
          (aromatic_CH_or_amide_NH.x_Y uc t sc) := by
  unfold aromatic_CH_or_amide_NH.place_constrained_scatterers
    aromatic_CH_or_amide_NH.direction_from_neighbours aromatic_CH_or_amide_NH.x_p
    aromatic_CH_or_amide_NH.x_X aromatic_CH_or_amide_NH.x_Y
  simp only [outcome.ok]
  refine ⟨trivial, ?_, ?_⟩
  · simp [set_site, Function.update]
  · simp [Function.update]

theorem normalize_neg (m : std_math R) (v : Vec3 R) :
    v.neg.normalize m = (v.normalize m).neg := by
  have hl : v.neg.length_sq = v.length_sq := by
    simp only [Vec3.length_sq, Vec3.dot, Vec3.neg]
    ring
  simp only [Vec3.normalize, Vec3.length, hl]
  simp only [Vec3.div, Vec3.neg, Vec3.mk.injEq]
  refine ⟨by ring, by ring, by ring⟩

/-- The normalised sum of the unit vectors toward the neighbours is the opposite of the
normalised sum of the unit vectors from the neighbours. -/
theorem aromatic_directions_opposite (m : std_math R) (x_p x_X x_Y : Vec3 R) :
    aromatic_CH_or_amide_NH.direction_toward_neighbours m x_p x_X x_Y
      = (aromatic_CH_or_amide_NH.direction_from_neighbours m x_p x_X x_Y).neg := by
  unfold aromatic_CH_or_amide_NH.direction_toward_neighbours
    aromatic_CH_or_amide_NH.direction_from_neighbours
  have hsum : ∀ a b : Vec3 R, a.neg.add b.neg = (a.add b).neg := by
    intro a b
    simp only [Vec3.add, Vec3.neg, Vec3.mk.injEq]
    refine ⟨by ring, by ring, by ring⟩
  rw [normalize_reversed m x_X x_p, normalize_reversed m x_Y x_p, hsum, normalize_neg]

/-- The derivatives `dx_over_dl` that a placement which returned normally stores in a stretching
`terminal_X_Hn`, in terms of the frame it leaves. -/
theorem terminal_place_dx_over_dl (m : std_math R) (uc : unit_cell R) (t : terminal_X_Hn R)
    (sc : Nat → scatterer R) (h_str : t.stretching_ = true)
    (hn3 : t.i_hydrogens.length = 1 ∨ t.i_hydrogens.length = 2 ∨ t.i_hydrogens.length = 3) :
    ∀ i, i < t.i_hydrogens.length →
      (terminal_X_Hn.place_constrained_scatterers m uc t sc).state.1.dx_over_dl i
        = (Vec3.smul (constants.sin_tetrahedral_angle m)
            ((Vec3.smul (terminal_X_Hn.cos_phi m t.phi i)
                (terminal_X_Hn.place_constrained_scatterers m uc t sc).state.1.e0).add
              (Vec3.smul (terminal_X_Hn.sin_phi m t.phi i)
                (terminal_X_Hn.place_constrained_scatterers m uc t sc).state.1.e1))).add
          ((terminal_X_Hn.place_constrained_scatterers m uc t sc).state.1.e2.div 3) := by
  intro i hi
  unfold terminal_X_Hn.place_constrained_scatterers
  simp only [hn3, if_true, outcome.ok, hi, h_str, and_self]

/-- The derivatives `dx_over_dphi` that a placement which returned normally stores in a rotating
`terminal_X_Hn`, in terms of the frame it leaves. -/
theorem terminal_place_dx_over_dphi (m : std_math R) (uc : unit_cell R) (t : terminal_X_Hn R)
    (sc : Nat → scatterer R) (h_rot : t.rotating_ = true)
    (hn3 : t.i_hydrogens.length = 1 ∨ t.i_hydrogens.length = 2 ∨ t.i_hydrogens.length = 3) :
    ∀ i, i < t.i_hydrogens.length →
      (terminal_X_Hn.place_constrained_scatterers m uc t sc).state.1.dx_over_dphi i
        = Vec3.smul (t.l * constants.sin_tetrahedral_angle m)
            ((Vec3.smul (-(terminal_X_Hn.sin_phi m t.phi i))
                (terminal_X_Hn.place_constrained_scatterers m uc t sc).state.1.e0).add
              (Vec3.smul (terminal_X_Hn.cos_phi m t.phi i)
                (terminal_X_Hn.place_constrained_scatterers m uc t sc).state.1.e1)) := by
  intro i hi
  unfold terminal_X_Hn.place_constrained_scatterers
  simp only [hn3, if_true, outcome.ok, hi, h_rot, and_self]

end placement_lemmas

/-! ## Lemmas over the real numbers -/

section real_lemmas

open geometrical_hydrogens

/-- A normalised real vector has unit length, or is null when the vector was null. -/
theorem real_normalize_cases (v : Vec3 ℝ) :
    (v.normalize real_math).length_sq = 1 ∨ v.normalize real_math = ⟨0, 0, 0⟩ := by
  by_cases h : v.length_sq = 0
  · right
    simp [Vec3.normalize, Vec3.length, Vec3.div, real_math, h]
  · left
    have hnn : 0 ≤ v.length_sq := by
      simp only [Vec3.length_sq, Vec3.dot]
      have hx := mul_self_nonneg v.x
      have hy := mul_self_nonneg v.y
      have hz := mul_self_nonneg v.z
      linarith
    have hs : Real.sqrt v.length_sq * Real.sqrt v.length_sq = v.length_sq :=
      Real.mul_self_sqrt hnn
    have hne : Real.sqrt v.length_sq ≠ 0 := by
      intro h0
      rw [h0] at hs
      exact h (by linarith)
    simp only [Vec3.normalize, Vec3.length, Vec3.div, real_math, Vec3.length_sq,
      Vec3.dot] at hs hne ⊢
    field_simp
    linarith

theorem real_normalize_of_length (v : Vec3 ℝ) (r : ℝ) (hr : 0 ≤ r) (h : v.length_sq = r * r) :
    v.normalize real_math = ⟨v.x / r, v.y / r, v.z / r⟩ := by
  simp only [Vec3.normalize, Vec3.length, Vec3.div, real_math, h, Real.sqrt_mul_self hr]

theorem real_length_of_sq (v : Vec3 ℝ) (r : ℝ) (hr : 0 ≤ r) (h : v.length_sq = r * r) :
    v.length real_math = r := by
  simp only [Vec3.length, real_math, h, Real.sqrt_mul_self hr]

theorem real_sin_tetrahedral_sq :
    constants.sin_tetrahedral_angle real_math * constants.sin_tetrahedral_angle real_math
      = 8 / 9 := by
  simp only [constants.sin_tetrahedral_angle, constants.tetrahedral_angle, real_math]
  rw [Real.sin_arccos]
  rw [Real.mul_self_sqrt (by norm_num)]
  norm_num

/-- Placing a `terminal_X_Hn` a second time on unmoved pivot and neighbour repeats the outcome
of the first placement. -/
theorem terminal_idem (uc : unit_cell ℝ) (self : terminal_X_Hn ℝ) (sc : Nat → scatterer ℝ)
    (hp : self.i_pivot ∉ self.i_hydrogens) (hn : self.i_pivot_neighbour ∉ self.i_hydrogens) :
    terminal_X_Hn.place_constrained_scatterers real_math uc
      (terminal_X_Hn.place_constrained_scatterers real_math uc self sc).state.1
      (terminal_X_Hn.place_constrained_scatterers real_math uc self sc).state.2
    = terminal_X_Hn.place_constrained_scatterers real_math uc self sc := by
  have hfix := cross_frame_fix
    (((uc.orthogonalize (sc self.i_pivot).site).sub
      (uc.orthogonalize (sc self.i_pivot_neighbour).site)).normalize real_math) self.e0
    (real_normalize_cases _)
  by_cases hn3 : self.i_hydrogens.length = 1 ∨ self.i_hydrogens.length = 2 ∨
      self.i_hydrogens.length = 3
  · simp only [terminal_X_Hn.place_constrained_scatterers, hn3, if_true, outcome.ok,
      place_hydrogens_not_mem _ _ _ _ _ _ hp, place_hydrogens_not_mem _ _ _ _ _ _ hn, hfix,
      place_hydrogens_idem, ite_absorb]
  · simp only [terminal_X_Hn.place_constrained_scatterers, hn3, if_false, outcome.throw, hfix]

theorem real_normalize_z : Vec3.normalize real_math (⟨0, 0, 1⟩ : Vec3 ℝ) = ⟨0, 0, 1⟩ := by
  rw [real_normalize_of_length _ 1 (by norm_num) (by norm_num [Vec3.length_sq, Vec3.dot])]
  norm_num

theorem methyl_initialised_eq :
    sample.methyl_initialised real_math
    = { sample.methyl_of real_math with
        e0 := ⟨-1, 0, 0⟩, e1 := ⟨0, -1, 0⟩, e2 := ⟨0, 0, 1⟩ } := by
  have h1 : Vec3.normalize real_math (⟨0, -1, 0⟩ : Vec3 ℝ) = ⟨0, -1, 0⟩ := by
    rw [real_normalize_of_length _ 1 (by norm_num) (by norm_num [Vec3.length_sq, Vec3.dot])]
    norm_num
  have hinit : terminal_X_Hn.do_initialise_in_context real_math (unit_cell.cubic_unit ℝ)
      (sample.axis_sites ℝ) (sample.methyl_of real_math)
      = { sample.methyl_of real_math with
          e0 := ⟨-1, 0, 0⟩, e1 := ⟨0, -1, 0⟩, e2 := ⟨0, 0, 1⟩ } := by
    simp only [terminal_X_Hn.do_initialise_in_context, sample.methyl_of, terminal_X_Hn.mk_ctor,
      geometrical_hydrogens.mk_ctor, sample.axis_sites, unit_cell.cubic_unit, id, sample.zero3,
      Vec3.sub]
    norm_num [real_normalize_z, Vec3.ortho, h1, Vec3.cross]
  rw [← hinit]
  rfl

theorem methyl_placed_fields :
    (sample.methyl_placed real_math).1.i_pivot = 0 ∧
    (sample.methyl_placed real_math).1.i_pivot_neighbour = 4 ∧
    (sample.methyl_placed real_math).1.i_hydrogens = [1, 2, 3] ∧
    (sample.methyl_placed real_math).1.l = 1 ∧
    (sample.methyl_placed real_math).1.phi = 0 ∧
    (sample.methyl_placed real_math).2 0 = sample.axis_sites ℝ 0 ∧
    (sample.methyl_placed real_math).2 4 = sample.axis_sites ℝ 4 := by
  have hfld := terminal_place_fields real_math (unit_cell.cubic_unit ℝ)
    (sample.methyl_initialised real_math) (sample.axis_sites ℝ)
  unfold sample.methyl_placed
  refine ⟨?_, ?_, ?_, ?_, ?_, ?_, ?_⟩
  · rw [hfld.1, methyl_initialised_eq]; rfl
  · rw [hfld.2.1, methyl_initialised_eq]; rfl
  · rw [hfld.2.2.1, methyl_initialised_eq]; rfl
  · rw [hfld.2.2.2.1, methyl_initialised_eq]; rfl
  · rw [hfld.2.2.2.2.1, methyl_initialised_eq]
    simp [sample.methyl_of, terminal_X_Hn.mk_ctor]
  · apply terminal_place_other
    rw [methyl_initialised_eq]
    simp [sample.methyl_of, terminal_X_Hn.mk_ctor, geometrical_hydrogens.mk_ctor]
  · apply terminal_place_other
    rw [methyl_initialised_eq]
    simp [sample.methyl_of, terminal_X_Hn.mk_ctor, geometrical_hydrogens.mk_ctor]

theorem methyl_placed_frame :
    (sample.methyl_placed real_math).1.e0 = ⟨-1, 0, 0⟩ ∧
    (sample.methyl_placed real_math).1.e1 = ⟨0, -1, 0⟩ ∧
    (sample.methyl_placed real_math).1.e2 = ⟨0, 0, 1⟩ := by
  have hf := terminal_place_frame real_math (unit_cell.cubic_unit ℝ)
    (sample.methyl_initialised real_math) (sample.axis_sites ℝ)
  have hb : ((unit_cell.cubic_unit ℝ).orthogonalize
      (sample.axis_sites ℝ (sample.methyl_initialised real_math).i_pivot).site).sub
      ((unit_cell.cubic_unit ℝ).orthogonalize
        (sample.axis_sites ℝ (sample.methyl_initialised real_math).i_pivot_neighbour).site)
      = ⟨0, 0, 1⟩ := by
    rw [methyl_initialised_eq]
    norm_num [sample.methyl_of, terminal_X_Hn.mk_ctor, geometrical_hydrogens.mk_ctor,
      sample.axis_sites, unit_cell.cubic_unit, sample.zero3, Vec3.sub]
  rw [hb, real_normalize_z] at hf
  have he0 : (sample.methyl_initialised real_math).e0 = ⟨-1, 0, 0⟩ := by
    rw [methyl_initialised_eq]
  rw [he0] at hf
  unfold sample.methyl_placed
  refine ⟨?_, ?_, ?_⟩
  · rw [hf.2.2]; norm_num [Vec3.cross]
  · rw [hf.2.1]; norm_num [Vec3.cross]
  · rw [hf.1]

theorem methyl_placed_site :
    ((sample.methyl_placed real_math).2 1).site
      = ⟨-constants.sin_tetrahedral_angle real_math, 0, 1 / 3⟩ := by
  have hi : (sample.methyl_initialised real_math).i_hydrogens = [1, 2, 3] := by
    rw [methyl_initialised_eq]; rfl
  have hp : (sample.methyl_initialised real_math).i_pivot = 0 := by
    rw [methyl_initialised_eq]; rfl
  have hl : (sample.methyl_initialised real_math).l = 1 := by
    rw [methyl_initialised_eq]; rfl
  have hphi : (sample.methyl_initialised real_math).phi = 0 := by
    rw [methyl_initialised_eq]
    simp [sample.methyl_of, terminal_X_Hn.mk_ctor]
  have hsite := terminal_place_site_head real_math (unit_cell.cubic_unit ℝ)
    (sample.methyl_initialised real_math) (sample.axis_sites ℝ) 1 [2, 3] hi (by decide)
    (by rw [hi]; decide)
  have hfr := methyl_placed_frame
  unfold sample.methyl_placed at hfr ⊢
  rw [hsite, hfr.1, hfr.2.1, hfr.2.2, hp, hl, hphi]
  simp [terminal_X_Hn.cos_phi, terminal_X_Hn.sin_phi, real_math, unit_cell.cubic_unit,
    sample.axis_sites, sample.zero3, Vec3.add, Vec3.smul, Vec3.div]

theorem methyl_placed_again_frame :
    (sample.methyl_placed_again real_math).1.e0 = ⟨-5/9, 2/9, 4/9⟩ ∧
    (sample.methyl_placed_again real_math).1.e1 = ⟨0, -2/3, 1/3⟩ ∧
    (sample.methyl_placed_again real_math).1.e2 = ⟨2/3, 1/3, 2/3⟩ := by
  have h2 : Vec3.normalize real_math (⟨2, 1, 2⟩ : Vec3 ℝ) = ⟨2/3, 1/3, 2/3⟩ := by
    rw [real_normalize_of_length _ 3 (by norm_num) (by norm_num [Vec3.length_sq, Vec3.dot])]
  have hfld := methyl_placed_fields
  have hf := terminal_place_frame real_math (unit_cell.cubic_unit ℝ)
    (sample.methyl_placed real_math).1
    (set_site (sample.methyl_placed real_math).2 4 ⟨-2, -1, -2⟩)
  have hb : ((unit_cell.cubic_unit ℝ).orthogonalize
      (set_site (sample.methyl_placed real_math).2 4 ⟨-2, -1, -2⟩
        (sample.methyl_placed real_math).1.i_pivot).site).sub
      ((unit_cell.cubic_unit ℝ).orthogonalize
        (set_site (sample.methyl_placed real_math).2 4 ⟨-2, -1, -2⟩
          (sample.methyl_placed real_math).1.i_pivot_neighbour).site)
      = ⟨2, 1, 2⟩ := by
    rw [hfld.1, hfld.2.1, set_site_ne _ _ _ _ (by decide), hfld.2.2.2.2.2.1]
    norm_num [set_site, sample.axis_sites, unit_cell.cubic_unit, sample.zero3, Vec3.sub]
  rw [hb, h2, methyl_placed_frame.1] at hf
  unfold sample.methyl_placed_again
  refine ⟨?_, ?_, ?_⟩
  · rw [hf.2.2]; norm_num [Vec3.cross]
  · rw [hf.2.1]; norm_num [Vec3.cross]
  · rw [hf.1]

theorem methyl_placed_again_site :
    ((sample.methyl_placed_again real_math).2 1).site
      = ⟨constants.sin_tetrahedral_angle real_math * (-5/9) + 2/9,
         constants.sin_tetrahedral_angle real_math * (2/9) + 1/9,
         constants.sin_tetrahedral_angle real_math * (4/9) + 2/9⟩ := by
  have hfld := methyl_placed_fields
  have hsite := terminal_place_site_head real_math (unit_cell.cubic_unit ℝ)
    (sample.methyl_placed real_math).1
    (set_site (sample.methyl_placed real_math).2 4 ⟨-2, -1, -2⟩)
    1 [2, 3] hfld.2.2.1 (by decide) (by rw [hfld.2.2.1]; decide)
  have hfr := methyl_placed_again_frame
  unfold sample.methyl_placed_again at hfr ⊢
  rw [hsite, hfr.1, hfr.2.1, hfr.2.2, hfld.1, hfld.2.2.2.1, hfld.2.2.2.2.1,
    set_site_ne _ _ _ _ (by decide), hfld.2.2.2.2.2.1]
  simp [terminal_X_Hn.cos_phi, terminal_X_Hn.sin_phi, real_math, unit_cell.cubic_unit,
    sample.axis_sites, sample.zero3, Vec3.add, Vec3.smul, Vec3.div]
  refine ⟨?_, ?_, ?_⟩ <;> ring

theorem methyl_placed_again_others :
    ((sample.methyl_placed_again real_math).2 0).site = ⟨0, 0, 0⟩ ∧
    ((sample.methyl_placed_again real_math).2 4).site = ⟨-2, -1, -2⟩ := by
  have hfld := methyl_placed_fields
  unfold sample.methyl_placed_again
  constructor
  · rw [terminal_place_other _ _ _ _ 0 (by rw [hfld.2.2.1]; decide),
      set_site_ne _ _ _ _ (by decide), hfld.2.2.2.2.2.1]
    simp [sample.axis_sites, sample.zero3]
  · rw [terminal_place_other _ _ _ _ 4 (by rw [hfld.2.2.1]; decide)]
    simp [set_site]

theorem real_normalize_unit (v : Vec3 ℝ) (h : v.length_sq = 1) : v.normalize real_math = v := by
  rw [real_normalize_of_length v 1 (by norm_num) (by rw [h]; norm_num)]
  simp

theorem methine_cross_normalize :
    Vec3.normalize real_math (⟨4 / 5, 4 / 5, 2 / 5⟩ : Vec3 ℝ) = ⟨2 / 3, 2 / 3, 1 / 3⟩ := by
  rw [real_normalize_of_length _ (6 / 5) (by norm_num)
    (by norm_num [Vec3.length_sq, Vec3.dot])]
  norm_num

theorem methine_code_direction :
    tertiary_CH.direction_from_neighbours real_math (⟨0, 0, 0⟩ : Vec3 ℝ) ⟨-1, 0, 0⟩ ⟨0, -1, 0⟩
      ⟨0, -3 / 5, -4 / 5⟩ = ⟨2 / 3, 2 / 3, 1 / 3⟩ := by
  have h1 : Vec3.normalize real_math (Vec3.sub (⟨0, 0, 0⟩ : Vec3 ℝ) ⟨-1, 0, 0⟩) = ⟨1, 0, 0⟩ := by
    rw [real_normalize_unit _ (by norm_num [Vec3.length_sq, Vec3.dot, Vec3.sub])]
    norm_num [Vec3.sub]
  have h2 : Vec3.normalize real_math (Vec3.sub (⟨0, 0, 0⟩ : Vec3 ℝ) ⟨0, -1, 0⟩) = ⟨0, 1, 0⟩ := by
    rw [real_normalize_unit _ (by norm_num [Vec3.length_sq, Vec3.dot, Vec3.sub])]
    norm_num [Vec3.sub]
  have h3 : Vec3.normalize real_math (Vec3.sub (⟨0, 0, 0⟩ : Vec3 ℝ) ⟨0, -3 / 5, -4 / 5⟩)
      = ⟨0, 3 / 5, 4 / 5⟩ := by
    rw [real_normalize_unit _ (by norm_num [Vec3.length_sq, Vec3.dot, Vec3.sub])]
    norm_num [Vec3.sub]
  have hc : Vec3.cross (Vec3.sub (⟨1, 0, 0⟩ : Vec3 ℝ) ⟨0, 1, 0⟩)
      (Vec3.sub ⟨0, 1, 0⟩ ⟨0, 3 / 5, 4 / 5⟩) = ⟨4 / 5, 4 / 5, 2 / 5⟩ := by
    norm_num [Vec3.cross, Vec3.sub]
  simp only [tertiary_CH.direction_from_neighbours, tertiary_CH.direction_of_units, h1, h2, h3,
    hc, methine_cross_normalize]
  norm_num [Vec3.dot, Vec3.add]

theorem methine_spec_direction :
    tertiary_CH.direction_toward_neighbours real_math (⟨0, 0, 0⟩ : Vec3 ℝ) ⟨-1, 0, 0⟩ ⟨0, -1, 0⟩
      ⟨0, -3 / 5, -4 / 5⟩ = ⟨-2 / 3, -2 / 3, -1 / 3⟩ := by
  have h1 : Vec3.normalize real_math (Vec3.sub (⟨-1, 0, 0⟩ : Vec3 ℝ) ⟨0, 0, 0⟩) = ⟨-1, 0, 0⟩ := by
    rw [real_normalize_unit _ (by norm_num [Vec3.length_sq, Vec3.dot, Vec3.sub])]
    norm_num [Vec3.sub]
  have h2 : Vec3.normalize real_math (Vec3.sub (⟨0, -1, 0⟩ : Vec3 ℝ) ⟨0, 0, 0⟩) = ⟨0, -1, 0⟩ := by
    rw [real_normalize_unit _ (by norm_num [Vec3.length_sq, Vec3.dot, Vec3.sub])]
    norm_num [Vec3.sub]
  have h3 : Vec3.normalize real_math (Vec3.sub (⟨0, -3 / 5, -4 / 5⟩ : Vec3 ℝ) ⟨0, 0, 0⟩)
      = ⟨0, -3 / 5, -4 / 5⟩ := by
    rw [real_normalize_unit _ (by norm_num [Vec3.length_sq, Vec3.dot, Vec3.sub])]
    norm_num [Vec3.sub]
  have hc : Vec3.cross (Vec3.sub (⟨-1, 0, 0⟩ : Vec3 ℝ) ⟨0, -1, 0⟩)
      (Vec3.sub ⟨0, -1, 0⟩ ⟨0, -3 / 5, -4 / 5⟩) = ⟨4 / 5, 4 / 5, 2 / 5⟩ := by
    norm_num [Vec3.cross, Vec3.sub]
  simp only [tertiary_CH.direction_toward_neighbours, tertiary_CH.direction_of_units, h1, h2, h3,
    hc, methine_cross_normalize]
  norm_num [Vec3.dot, Vec3.add, Vec3.neg]

theorem real_length_sq_nonneg (v : Vec3 ℝ) : 0 ≤ v.length_sq := by
  simp only [Vec3.length_sq, Vec3.dot]
  have hx := mul_self_nonneg v.x
  have hy := mul_self_nonneg v.y
  have hz := mul_self_nonneg v.z
  linarith

theorem real_length_sq_eq_zero (v : Vec3 ℝ) (h : v.length_sq = 0) : v = ⟨0, 0, 0⟩ := by
  simp only [Vec3.length_sq, Vec3.dot] at h
  have hx := mul_self_nonneg v.x
  have hy := mul_self_nonneg v.y
  have hz := mul_self_nonneg v.z
  have h1 : v.x * v.x = 0 := by linarith
  have h2 : v.y * v.y = 0 := by linarith
  have h3 : v.z * v.z = 0 := by linarith
  obtain ⟨x, y, z⟩ := v
  simp only [Vec3.mk.injEq]
  exact ⟨mul_self_eq_zero.mp h1, mul_self_eq_zero.mp h2, mul_self_eq_zero.mp h3⟩

theorem real_sub_length_sq_ne (a b : Vec3 ℝ) (h : a ≠ b) : (a.sub b).length_sq ≠ 0 := by
  intro hz
  have h0 := real_length_sq_eq_zero _ hz
  apply h
  obtain ⟨ax, ay, az⟩ := a
  obtain ⟨bx, by_, bz⟩ := b
  simp only [Vec3.sub, Vec3.mk.injEq] at h0 ⊢
  exact ⟨by linarith [h0.1], by linarith [h0.2.1], by linarith [h0.2.2]⟩

theorem real_normalize_smul (v : Vec3 ℝ) :
    v.normalize real_math = Vec3.smul (Real.sqrt v.length_sq)⁻¹ v := by
  simp only [Vec3.normalize, Vec3.length, Vec3.div, Vec3.smul, real_math, Vec3.mk.injEq]
  refine ⟨by ring, by ring, by ring⟩

theorem real_sqrt_length_pos (v : Vec3 ℝ) (h : v.length_sq ≠ 0) : 0 < Real.sqrt v.length_sq :=
  Real.sqrt_pos.mpr (lt_of_le_of_ne (real_length_sq_nonneg v) (Ne.symm h))

theorem real_normalize_unit_length (v : Vec3 ℝ) (h : v.length_sq ≠ 0) :
    (v.normalize real_math).dot (v.normalize real_math) = 1 := by
  rw [real_normalize_smul, smul_dot, dot_smul]
  have hpos := real_sqrt_length_pos v h
  have hs : Real.sqrt v.length_sq * Real.sqrt v.length_sq = v.length_sq :=
    Real.mul_self_sqrt (real_length_sq_nonneg v)
  have hvv : v.dot v = v.length_sq := rfl
  rw [hvv]
  field_simp

/-- The frame of `secondary_CH2::place_constrained_scatterers` built on two unit vectors that
are neither equal nor opposite is orthonormal, and `e0` and `e1` are orthogonal to the
difference of the two unit vectors. -/
theorem real_secondary_frame (u1 u2 : Vec3 ℝ) (h1 : u1.dot u1 = 1) (h2 : u2.dot u2 = 1)
    (hs : (u1.add u2).length_sq ≠ 0) (hd : (u2.sub u1).length_sq ≠ 0) :
    ((u1.add u2).normalize real_math).dot ((u1.add u2).normalize real_math) = 1 ∧
    (((u2.sub u1).normalize real_math).cross ((u1.add u2).normalize real_math)).dot
      (((u2.sub u1).normalize real_math).cross ((u1.add u2).normalize real_math)) = 1 ∧
    ((u1.add u2).normalize real_math).dot
      (((u2.sub u1).normalize real_math).cross ((u1.add u2).normalize real_math)) = 0 ∧
    ((u1.add u2).normalize real_math).dot (u2.sub u1) = 0 ∧
    (((u2.sub u1).normalize real_math).cross ((u1.add u2).normalize real_math)).dot
      (u2.sub u1) = 0 := by
  have e00 := real_normalize_unit_length _ hs
  have e22 := real_normalize_unit_length _ hd
  have hsd : (u1.add u2).dot (u2.sub u1) = 0 := by
    have : (u1.add u2).dot (u2.sub u1) = u2.dot u2 - u1.dot u1 := by
      simp only [Vec3.dot, Vec3.add, Vec3.sub]
      ring
    rw [this, h1, h2]
    ring
  have e0d : ((u1.add u2).normalize real_math).dot (u2.sub u1) = 0 := by
    rw [real_normalize_smul, smul_dot, hsd, mul_zero]
  have e20 : ((u2.sub u1).normalize real_math).dot ((u1.add u2).normalize real_math) = 0 := by
    rw [real_normalize_smul (u2.sub u1), smul_dot, dot_comm, e0d, mul_zero]
  refine ⟨e00, ?_, ?_, e0d, ?_⟩
  · rw [cross_lagrange, e00, e22, e20]
    ring
  · rw [dot_comm, cross_dot_right]
  · rw [real_normalize_smul (u2.sub u1)]
    simp only [Vec3.cross, Vec3.dot, Vec3.smul]
    ring

theorem real_add_length_sq_ne (a b : Vec3 ℝ) (h : a ≠ b.neg) : (a.add b).length_sq ≠ 0 := by
  intro hz
  have h0 := real_length_sq_eq_zero _ hz
  apply h
  obtain ⟨ax, ay, az⟩ := a
  obtain ⟨bx, by_, bz⟩ := b
  simp only [Vec3.add, Vec3.neg, Vec3.mk.injEq] at h0 ⊢
  exact ⟨by linarith [h0.1], by linarith [h0.2.1], by linarith [h0.2.2]⟩

/-- The cosine of the angle between `a` and the bond from `p` to `x`, in terms of the unit
vector from `x` toward `p`. -/
theorem real_cos_angle_to_neighbour (a p x : Vec3 ℝ) (h : p ≠ x) :
    Vec3.cos_angle real_math a (x.sub p)
      = -(a.dot ((p.sub x).normalize real_math)) / a.length real_math := by
  have hl : (x.sub p).length_sq = (p.sub x).length_sq := by
    simp only [Vec3.length_sq, Vec3.dot, Vec3.sub]
    ring
  have hd : a.dot (x.sub p) = -(a.dot (p.sub x)) := by
    simp only [Vec3.dot, Vec3.sub]
    ring
  have hne := (real_sqrt_length_pos _ (real_sub_length_sq_ne p x h)).ne.symm
  rw [real_normalize_smul, dot_smul]
  simp only [Vec3.cos_angle, Vec3.length, hl, hd]
  show _ / (_ * Real.sqrt (p.sub x).length_sq) = _
  field_simp
  ring

theorem real_normalize_from_minus_x :
    Vec3.normalize real_math (Vec3.sub (⟨0, 0, 0⟩ : Vec3 ℝ) ⟨-1, 0, 0⟩) = ⟨1, 0, 0⟩ := by
  rw [real_normalize_of_length _ 1 (by norm_num)
    (by norm_num [Vec3.length_sq, Vec3.dot, Vec3.sub])]
  norm_num [Vec3.sub]

theorem real_normalize_from_minus_y :
    Vec3.normalize real_math (Vec3.sub (⟨0, 0, 0⟩ : Vec3 ℝ) ⟨0, -1, 0⟩) = ⟨0, 1, 0⟩ := by
  rw [real_normalize_of_length _ 1 (by norm_num)
    (by norm_num [Vec3.length_sq, Vec3.dot, Vec3.sub])]
  norm_num [Vec3.sub]

theorem methylene_u_pn_1 :
    secondary_CH2.u_pn_1 real_math (unit_cell.cubic_unit ℝ) (sample.methylene_of ℝ)
      (sample.methylene_sites ℝ) = ⟨1, 0, 0⟩ :=
  real_normalize_from_minus_x

theorem methylene_u_pn_2 :
    secondary_CH2.u_pn_2 real_math (unit_cell.cubic_unit ℝ) (sample.methylene_of ℝ)
      (sample.methylene_sites ℝ) = ⟨0, 1, 0⟩ :=
  real_normalize_from_minus_y

/-- The modelled `ortho` of a unit real vector has unit length and is orthogonal to it. -/
theorem real_ortho_unit (a : Vec3 ℝ) (h : a.dot a = 1) :
    (a.ortho real_math).dot (a.ortho real_math) = 1 ∧ (a.ortho real_math).dot a = 0 := by
  have key : ∀ w : Vec3 ℝ, w.length_sq ≠ 0 → w.dot a = 0 →
      (w.normalize real_math).dot (w.normalize real_math) = 1 ∧
        (w.normalize real_math).dot a = 0 := by
    intro w hw hwa
    refine ⟨real_normalize_unit_length w hw, ?_⟩
    rw [real_normalize_smul, smul_dot, hwa, mul_zero]
  obtain ⟨x, y, z⟩ := a
  simp only [Vec3.dot] at h
  unfold Vec3.ortho
  split_ifs with c1 c2
  · apply key
    · intro hz
      simp only [Vec3.length_sq, Vec3.dot] at hz
      have hy0 : y = 0 := by nlinarith [mul_self_nonneg y, mul_self_nonneg z]
      have hz0 : z = 0 := by nlinarith [mul_self_nonneg y, mul_self_nonneg z]
      have hx0 : x = 0 := by
        have := c1.1
        rw [hy0, abs_zero] at this
        exact abs_nonpos_iff.mp this
      rw [hx0, hy0, hz0] at h
      norm_num at h
    · simp only [Vec3.dot]
      ring
  · apply key
    · intro hz
      simp only [Vec3.length_sq, Vec3.dot] at hz
      have hx0 : x = 0 := by nlinarith [mul_self_nonneg x, mul_self_nonneg z]
      have hz0 : z = 0 := by nlinarith [mul_self_nonneg x, mul_self_nonneg z]
      have hy0 : y = 0 := by
        have := c2.1
        rw [hx0, abs_zero] at this
        exact abs_nonpos_iff.mp this
      rw [hx0, hy0, hz0] at h
      norm_num at h
    · simp only [Vec3.dot]
      ring
  · apply key
    · intro hz
      simp only [Vec3.length_sq, Vec3.dot] at hz
      have hx0 : x = 0 := by nlinarith [mul_self_nonneg x, mul_self_nonneg y]
      have hy0 : y = 0 := by nlinarith [mul_self_nonneg x, mul_self_nonneg y]
      apply c1
      simp only [hx0, hy0, abs_zero]
      exact ⟨le_refl _, abs_nonneg _⟩
    · simp only [Vec3.dot]
      ring

/-- The direction built on three real vectors whose differences have a non-zero cross product
has unit length and the same dot product with each of the three. -/
theorem real_direction_of_units (u1 u2 u3 : Vec3 ℝ)
    (hc : ((u1.sub u2).cross (u2.sub u3)).length_sq ≠ 0) :
    (tertiary_CH.direction_of_units real_math u1 u2 u3).dot
      (tertiary_CH.direction_of_units real_math u1 u2 u3) = 1 ∧
    (tertiary_CH.direction_of_units real_math u1 u2 u3).dot u1
      = (tertiary_CH.direction_of_units real_math u1 u2 u3).dot u2 ∧
    (tertiary_CH.direction_of_units real_math u1 u2 u3).dot u2
      = (tertiary_CH.direction_of_units real_math u1 u2 u3).dot u3 := by
  have hn := real_normalize_unit_length _ hc
  have h12 : (((u1.sub u2).cross (u2.sub u3)).normalize real_math).dot u1
      = (((u1.sub u2).cross (u2.sub u3)).normalize real_math).dot u2 := by
    rw [real_normalize_smul]
    simp only [Vec3.dot, Vec3.smul, Vec3.cross, Vec3.sub]
    ring
  have h23 : (((u1.sub u2).cross (u2.sub u3)).normalize real_math).dot u2
      = (((u1.sub u2).cross (u2.sub u3)).normalize real_math).dot u3 := by
    rw [real_normalize_smul]
    simp only [Vec3.dot, Vec3.smul, Vec3.cross, Vec3.sub]
    ring
  unfold tertiary_CH.direction_of_units
  split_ifs
  · refine ⟨?_, ?_, ?_⟩
    · rw [neg_dot_neg]; exact hn
    · rw [neg_dot, neg_dot, h12]
    · rw [neg_dot, neg_dot, h23]
  · exact ⟨hn, h12, h23⟩

theorem real_normalize_from_minus_yz :
    Vec3.normalize real_math (Vec3.sub (⟨0, 0, 0⟩ : Vec3 ℝ) ⟨0, -3 / 5, -4 / 5⟩)
      = ⟨0, 3 / 5, 4 / 5⟩ := by
  rw [real_normalize_unit _ (by norm_num [Vec3.length_sq, Vec3.dot, Vec3.sub])]
  norm_num [Vec3.sub]

theorem methine_u_XC :
    tertiary_CH.u_XC real_math (unit_cell.cubic_unit ℝ) (sample.methine ℝ)
      (sample.methine_sites ℝ) = ⟨1, 0, 0⟩ :=
  real_normalize_from_minus_x

theorem methine_u_YC :
    tertiary_CH.u_YC real_math (unit_cell.cubic_unit ℝ) (sample.methine ℝ)
      (sample.methine_sites ℝ) = ⟨0, 1, 0⟩ :=
  real_normalize_from_minus_y

theorem methine_u_ZC :
    tertiary_CH.u_ZC real_math (unit_cell.cubic_unit ℝ) (sample.methine ℝ)
      (sample.methine_sites ℝ) = ⟨0, 3 / 5, 4 / 5⟩ :=
  real_normalize_from_minus_yz

theorem real_normalize_from_amide_1 :
    Vec3.normalize real_math (Vec3.sub (⟨0, 0, 0⟩ : Vec3 ℝ) ⟨-3 / 5, -4 / 5, 0⟩)
      = ⟨3 / 5, 4 / 5, 0⟩ := by
  rw [real_normalize_unit _ (by norm_num [Vec3.length_sq, Vec3.dot, Vec3.sub])]
  norm_num [Vec3.sub]

theorem real_normalize_from_amide_2 :
    Vec3.normalize real_math (Vec3.sub (⟨0, 0, 0⟩ : Vec3 ℝ) ⟨-3 / 5, 4 / 5, 0⟩)
      = ⟨3 / 5, -4 / 5, 0⟩ := by
  rw [real_normalize_unit _ (by norm_num [Vec3.length_sq, Vec3.dot, Vec3.sub])]
  norm_num [Vec3.sub]

theorem amide_code_direction :
    aromatic_CH_or_amide_NH.direction_from_neighbours real_math (⟨0, 0, 0⟩ : Vec3 ℝ)
      ⟨-3 / 5, -4 / 5, 0⟩ ⟨-3 / 5, 4 / 5, 0⟩ = ⟨1, 0, 0⟩ := by
  have hs : Vec3.add (⟨3 / 5, 4 / 5, 0⟩ : Vec3 ℝ) ⟨3 / 5, -4 / 5, 0⟩ = ⟨6 / 5, 0, 0⟩ := by
    norm_num [Vec3.add]
  have hn : Vec3.normalize real_math (⟨6 / 5, 0, 0⟩ : Vec3 ℝ) = ⟨1, 0, 0⟩ := by
    rw [real_normalize_of_length _ (6 / 5) (by norm_num)
      (by norm_num [Vec3.length_sq, Vec3.dot])]
    norm_num
  simp only [aromatic_CH_or_amide_NH.direction_from_neighbours, real_normalize_from_amide_1,
    real_normalize_from_amide_2, hs, hn]

end real_lemmas

/-! ## Lemmas on `compute_gradients` -/

section gradient_lemmas

variable {R : Type} [LinearOrderedField R]

open geometrical_hydrogens

/-- The result of `compute_gradients` once the riding loop has returned normally. -/
theorem compute_gradients_reparam {D : Type} [heir R D] (m : std_math R) (self : D)
    (uc : unit_cell R) (scatterers : Nat → scatterer R) (pm : Nat → parameter_indices)
    (g : Nat → R) (rg : List R) (hon : (heir.base self).on_ = true)
    (hrid : (riding scatterers pm (heir.base self).i_pivot (heir.base self).i_hydrogens
      g).thrown = none) :
    compute_gradients m self uc scatterers pm g rg
      = if heir.has_active_reparametrizations self then
          outcome.ok
            (heir.set_base self
              { heir.base self with i_reparametrization_begin := rg.length },
             (riding scatterers pm (heir.base self).i_pivot (heir.base self).i_hydrogens
               g).state,
             heir.compute_reparametrisation_gradients m
               (heir.set_base self
                 { heir.base self with i_reparametrization_begin := rg.length })
               (cartesian_gradients uc pm
                 (riding scatterers pm (heir.base self).i_pivot (heir.base self).i_hydrogens
                   g).state (heir.base self).i_hydrogens)
               (if (heir.base self).stretching then
                  rg ++ [stretching_sum uc pm
                    (riding scatterers pm (heir.base self).i_pivot
                      (heir.base self).i_hydrogens g).state
                    (heir.base self).dx_over_dl (heir.base self).i_hydrogens 0 0]
                else rg))
        else
          outcome.ok (self,
            (riding scatterers pm (heir.base self).i_pivot (heir.base self).i_hydrogens
              g).state, rg) := by
  unfold compute_gradients
  simp only [hon, Bool.not_true, Bool.false_eq_true, if_false]
  rw [hrid]
  by_cases ha : heir.has_active_reparametrizations self = true
  · simp [ha]
  · simp [ha]

theorem riding_thrown_none (scatterers : Nat → scatterer R) (pm : Nat → parameter_indices)
    (p : Nat) :
    ∀ (hs : List Nat) (g : Nat → R),
      (∀ i_h ∈ hs, (scatterers i_h).flags.grad_site = true) →
      (riding scatterers pm p hs g).thrown = none := by
  intro hs
  induction hs with
  | nil => intro g _; rfl
  | cons i_h rest ih =>
    intro g hflag
    have hf : (scatterers i_h).flags.grad_site = true := hflag i_h (List.mem_cons_self _ _)
    simp only [riding, hf, if_true]
    exact ih _ (fun a ha => hflag a (List.mem_cons_of_mem _ ha))

theorem any_base_terminal (t : terminal_X_Hn R) :
    heir.base (any_hydrogens.terminal t) = t.togeometrical_hydrogens := rfl

theorem any_base_secondary (t : secondary_CH2 R) :
    heir.base (any_hydrogens.secondary t) = t.togeometrical_hydrogens := rfl

theorem any_base_tertiary (t : tertiary_CH R) :
    heir.base (any_hydrogens.tertiary t) = t.togeometrical_hydrogens := rfl

theorem any_base_aromatic (t : aromatic_CH_or_amide_NH R) :
    heir.base (any_hydrogens.aromatic t) = t.togeometrical_hydrogens := rfl

theorem any_has_active_terminal (t : terminal_X_Hn R) :
    heir.has_active_reparametrizations (any_hydrogens.terminal t)
      = (t.stretching_ || t.rotating_) := rfl

theorem any_has_active_secondary (t : secondary_CH2 R) :
    heir.has_active_reparametrizations (any_hydrogens.secondary t) = t.stretching_ := rfl

theorem any_has_active_tertiary (t : tertiary_CH R) :
    heir.has_active_reparametrizations (any_hydrogens.tertiary t) = t.stretching_ := rfl

theorem any_has_active_aromatic (t : aromatic_CH_or_amide_NH R) :
    heir.has_active_reparametrizations (any_hydrogens.aromatic t) = t.stretching_ := rfl

theorem any_reparam_terminal (m : std_math R) (t : terminal_X_Hn R) (dF : List (Vec3 R))
    (rg : List R) :
    heir.compute_reparametrisation_gradients m (any_hydrogens.terminal t) dF rg
      = if t.rotating_ then
          rg ++ [terminal_X_Hn.rotation_sum t.dx_over_dphi dF 0 0 * (m.pi / 180)]
        else rg := by
  show terminal_X_Hn.compute_reparametrisation_gradients m t dF rg = _
  unfold terminal_X_Hn.compute_reparametrisation_gradients terminal_X_Hn.rotating
  cases t.rotating_ <;> simp

theorem any_reparam_secondary (m : std_math R) (t : secondary_CH2 R) (dF : List (Vec3 R))
    (rg : List R) :
    heir.compute_reparametrisation_gradients m (any_hydrogens.secondary t) dF rg = rg := rfl

theorem any_reparam_tertiary (m : std_math R) (t : tertiary_CH R) (dF : List (Vec3 R))
    (rg : List R) :
    heir.compute_reparametrisation_gradients m (any_hydrogens.tertiary t) dF rg = rg := rfl

theorem any_reparam_aromatic (m : std_math R) (t : aromatic_CH_or_amide_NH R)
    (dF : List (Vec3 R)) (rg : List R) :
    heir.compute_reparametrisation_gradients m (any_hydrogens.aromatic t) dF rg = rg := rfl

theorem any_set_base_terminal (t : terminal_X_Hn R) (b : geometrical_hydrogens R) :
    heir.set_base (any_hydrogens.terminal t) b
      = any_hydrogens.terminal { t with togeometrical_hydrogens := b } := rfl


theorem any_set_base_secondary (t : secondary_CH2 R) (b : geometrical_hydrogens R) :
    heir.set_base (any_hydrogens.secondary t) b
      = any_hydrogens.secondary { t with togeometrical_hydrogens := b } := rfl

theorem any_set_base_tertiary (t : tertiary_CH R) (b : geometrical_hydrogens R) :
    heir.set_base (any_hydrogens.tertiary t) b
      = any_hydrogens.tertiary { t with togeometrical_hydrogens := b } := rfl

theorem any_set_base_aromatic (t : aromatic_CH_or_amide_NH R) (b : geometrical_hydrogens R) :
    heir.set_base (any_hydrogens.aromatic t) b
      = any_hydrogens.aromatic { t with togeometrical_hydrogens := b } := rfl

theorem list_at_length {α : Type} (xs : List α) (a : α) (rest : List α) :
    (xs ++ a :: rest)[xs.length]? = some a := by
  rw [List.getElem?_append_right (le_refl _)]
  simp

theorem list_at_length_succ {α : Type} (xs : List α) (a b : α) (rest : List α) :
    (xs ++ a :: b :: rest)[xs.length + 1]? = some b := by
  rw [List.getElem?_append_right (by omega)]
  simp

theorem terminal_heir_base (t : terminal_X_Hn R) :
    heir.base t = t.togeometrical_hydrogens := rfl

theorem terminal_heir_set_base (t : terminal_X_Hn R) (b : geometrical_hydrogens R) :
    heir.set_base t b = { t with togeometrical_hydrogens := b } := rfl

theorem terminal_heir_has_active (t : terminal_X_Hn R) :
    heir.has_active_reparametrizations t = (t.stretching_ || t.rotating_) := rfl

theorem terminal_heir_reparam (m : std_math R) (t : terminal_X_Hn R) (dF : List (Vec3 R))
    (rg : List R) :
    heir.compute_reparametrisation_gradients m t dF rg
      = if t.rotating_ then
          rg ++ [terminal_X_Hn.rotation_sum t.dx_over_dphi dF 0 0 * (m.pi / 180)]
        else rg := by
  show terminal_X_Hn.compute_reparametrisation_gradients m t dF rg = _
  unfold terminal_X_Hn.compute_reparametrisation_gradients terminal_X_Hn.rotating
  cases t.rotating_ <;> simp

theorem terminal_apply_shifts_eq (m : std_math R) (t : terminal_X_Hn R) (uc : unit_cell R)
    (sc : Nat → scatterer R) (shifts : Nat → R) (h_on : t.on_ = true) :
    apply_shifts m t uc sc shifts
      = terminal_X_Hn.place_constrained_scatterers m uc
          (terminal_X_Hn.do_apply_reparametrization_shifts t shifts) sc := by
  unfold apply_shifts
  rw [terminal_heir_base]
  simp only [h_on, Bool.not_true, Bool.false_eq_true, if_false]
  rfl

theorem terminal_do_apply_l (t : terminal_X_Hn R) (sh : Nat → R) :
    (terminal_X_Hn.do_apply_reparametrization_shifts t sh).l
      = t.l + (if t.stretching_ then sh t.i_reparametrization_begin else 0) := by
  unfold terminal_X_Hn.do_apply_reparametrization_shifts
  cases hr : t.rotating <;> cases hs : t.stretching_ <;>
    simp [hr, hs, geometrical_hydrogens.stretching]

theorem terminal_do_apply_phi (t : terminal_X_Hn R) (sh : Nat → R) :
    (terminal_X_Hn.do_apply_reparametrization_shifts t sh).phi
      = t.phi + (if t.rotating_ then
          sh (t.i_reparametrization_begin + (if t.stretching_ then 1 else 0)) else 0) := by
  unfold terminal_X_Hn.do_apply_reparametrization_shifts
  cases hr : t.rotating_ <;> cases hs : t.stretching_ <;>
    simp [hr, hs, geometrical_hydrogens.stretching, terminal_X_Hn.rotating]

theorem terminal_do_apply_hydrogens (t : terminal_X_Hn R) (sh : Nat → R) :
    (terminal_X_Hn.do_apply_reparametrization_shifts t sh).i_hydrogens = t.i_hydrogens := by
  unfold terminal_X_Hn.do_apply_reparametrization_shifts
  cases hr : t.rotating <;> cases hs : t.stretching_ <;>
    simp [hr, hs, geometrical_hydrogens.stretching]

theorem terminal_do_apply_congr (t : terminal_X_Hn R) (sh sh2 : Nat → R)
    (h1 : t.stretching_ = true → sh t.i_reparametrization_begin = sh2 t.i_reparametrization_begin)
    (h2 : t.rotating_ = true →
      sh (t.i_reparametrization_begin + (if t.stretching_ then 1 else 0))
        = sh2 (t.i_reparametrization_begin + (if t.stretching_ then 1 else 0))) :
    terminal_X_Hn.do_apply_reparametrization_shifts t sh
      = terminal_X_Hn.do_apply_reparametrization_shifts t sh2 := by
  unfold terminal_X_Hn.do_apply_reparametrization_shifts
  cases hr : t.rotating_ <;> cases hs : t.stretching_ <;>
    simp_all [geometrical_hydrogens.stretching, terminal_X_Hn.rotating]

theorem terminal_compute_gradients_ok (m : std_math R) (t : terminal_X_Hn R) (uc : unit_cell R)
    (scatterers : Nat → scatterer R) (pm : Nat → parameter_indices) (g : Nat → R)
    (rg : List R) (h_on : t.on_ = true)
    (h_flags : ∀ i_h ∈ t.i_hydrogens, (scatterers i_h).flags.grad_site = true)
    (h_mode : (t.stretching_ || t.rotating_) = true) :
    compute_gradients m t uc scatterers pm g rg
      = outcome.ok
          ({ t with i_reparametrization_begin := rg.length },
           (riding scatterers pm t.i_pivot t.i_hydrogens g).state,
           (rg ++ (if t.stretching_ then
              [stretching_sum uc pm (riding scatterers pm t.i_pivot t.i_hydrogens g).state
                t.dx_over_dl t.i_hydrogens 0 0] else [])) ++
            (if t.rotating_ then
              [terminal_X_Hn.rotation_sum t.dx_over_dphi
                (cartesian_gradients uc pm
                  (riding scatterers pm t.i_pivot t.i_hydrogens g).state t.i_hydrogens) 0 0
                * (m.pi / 180)] else [])) := by
  have hrid := riding_thrown_none scatterers pm t.i_pivot t.i_hydrogens g h_flags
  rw [compute_gradients_reparam m t uc scatterers pm g rg h_on hrid]
  simp only [terminal_heir_has_active, h_mode, if_true, terminal_heir_base,
    terminal_heir_reparam, terminal_heir_set_base, geometrical_hydrogens.stretching]
  cases hr : t.rotating_ <;> cases hs : t.stretching_ <;> simp

theorem stretching_sum_eq (uc : unit_cell R) (pm : Nat → parameter_indices) (g : Nat → R)
    (dx : Nat → Vec3 R) :
    ∀ (hs : List Nat) (i : Nat) (acc : R),
      stretching_sum uc pm g dx hs i acc
        = acc + ((hs.enumFrom i).map (fun q =>
            (uc.orthogonalize_gradient (gradient_at g (pm q.2).site)).dot (dx q.1))).sum := by
  intro hs
  induction hs with
  | nil => intro i acc; simp [stretching_sum]
  | cons h rest ih =>
    intro i acc
    simp only [stretching_sum, List.enumFrom_cons, List.map_cons, List.sum_cons]
    rw [ih]
    ring

theorem rotation_sum_eq (dxp : Nat → Vec3 R) :
    ∀ (dF : List (Vec3 R)) (i : Nat) (acc : R),
      terminal_X_Hn.rotation_sum dxp dF i acc
        = acc + ((dF.enumFrom i).map (fun q => q.2.dot (dxp q.1))).sum := by
  intro dF
  induction dF with
  | nil => intro i acc; simp [terminal_X_Hn.rotation_sum]
  | cons h rest ih =>
    intro i acc
    simp only [terminal_X_Hn.rotation_sum, List.enumFrom_cons, List.map_cons, List.sum_cons]
    rw [ih]
    ring

/-- With stretching enabled, the entry that `compute_gradients` appends first is the stretching
sum over the gradients left by the riding loop. -/
theorem any_compute_gradients_stretching (m : std_math R) (c : any_hydrogens R)
    (uc : unit_cell R) (scatterers : Nat → scatterer R) (pm : Nat → parameter_indices)
    (g : Nat → R) (rg : List R) (h_on : (heir.base c).on_ = true)
    (h_flags : ∀ i_h ∈ (heir.base c).i_hydrogens, (scatterers i_h).flags.grad_site = true)
    (h_str : (heir.base c).stretching_ = true) :
    ∃ (c1 : any_hydrogens R) (rest : List R),
      compute_gradients m c uc scatterers pm g rg
        = outcome.ok (c1,
            (riding scatterers pm (heir.base c).i_pivot (heir.base c).i_hydrogens g).state,
            rg ++ stretching_sum uc pm
              (riding scatterers pm (heir.base c).i_pivot (heir.base c).i_hydrogens g).state
              (heir.base c).dx_over_dl (heir.base c).i_hydrogens 0 0 :: rest) := by
  have hrid := riding_thrown_none scatterers pm (heir.base c).i_pivot
    (heir.base c).i_hydrogens g h_flags
  rw [compute_gradients_reparam m c uc scatterers pm g rg h_on hrid]
  cases c with
  | terminal t =>
    have hs : t.stretching_ = true := h_str
    simp only [any_has_active_terminal, any_base_terminal, any_reparam_terminal,
      any_set_base_terminal, geometrical_hydrogens.stretching, hs, Bool.true_or, if_true]
    by_cases hr : t.rotating_ = true
    · simp only [hr, if_true, List.append_assoc, List.singleton_append]
      exact ⟨_, _, rfl⟩
    · simp only [hr, if_false]
      exact ⟨_, _, rfl⟩
  | secondary t =>
    have hs : t.stretching_ = true := h_str
    simp only [any_has_active_secondary, any_base_secondary, any_reparam_secondary,
      geometrical_hydrogens.stretching, hs, if_true]
    exact ⟨_, _, rfl⟩
  | tertiary t =>
    have hs : t.stretching_ = true := h_str
    simp only [any_has_active_tertiary, any_base_tertiary, any_reparam_tertiary,
      geometrical_hydrogens.stretching, hs, if_true]
    exact ⟨_, _, rfl⟩
  | aromatic t =>
    have hs : t.stretching_ = true := h_str
    simp only [any_has_active_aromatic, any_base_aromatic, any_reparam_aromatic,
      geometrical_hydrogens.stretching, hs, if_true]
    exact ⟨_, _, rfl⟩

theorem secondary_place_sites (m : std_math R) (uc : unit_cell R) (t : secondary_CH2 R)
    (sc : Nat → scatterer R) (a b : Nat) (h : t.i_hydrogens = [a, b]) (hab : a ≠ b) :
    ((secondary_CH2.place_constrained_scatterers m uc t sc).state.2 a).site
      = uc.fractionalize ((uc.orthogonalize (sc t.i_pivot).site).add (Vec3.smul t.l
          ((secondary_CH2.place_constrained_scatterers m uc t sc).state.1.dx_over_dl 0))) ∧
    ((secondary_CH2.place_constrained_scatterers m uc t sc).state.2 b).site
      = uc.fractionalize ((uc.orthogonalize (sc t.i_pivot).site).add (Vec3.smul t.l
          ((secondary_CH2.place_constrained_scatterers m uc t sc).state.1.dx_over_dl 1))) := by
  unfold secondary_CH2.place_constrained_scatterers
  simp only [outcome.ok, h, List.getD_cons_zero, List.getD_cons_succ]
  constructor
  · rw [set_site_ne _ _ _ _ hab]
    simp [set_site, Function.update]
  · simp [set_site, Function.update]

theorem secondary_place_flags (m : std_math R) (uc : unit_cell R) (t : secondary_CH2 R)
    (sc : Nat → scatterer R) (k : Nat) :
    ((secondary_CH2.place_constrained_scatterers m uc t sc).state.2 k).flags = (sc k).flags := by
  unfold secondary_CH2.place_constrained_scatterers
  simp only [outcome.ok, set_site_flags]

theorem tertiary_place_sites (m : std_math R) (uc : unit_cell R) (t : tertiary_CH R)
    (sc : Nat → scatterer R) (a : Nat) (h : t.i_hydrogens = [a]) :
    ((tertiary_CH.place_constrained_scatterers m uc t sc).state.2 a).site
      = uc.fractionalize ((uc.orthogonalize (sc t.i_pivot).site).add (Vec3.smul t.l
          ((tertiary_CH.place_constrained_scatterers m uc t sc).state.1.dx_over_dl 0))) := by
  unfold tertiary_CH.place_constrained_scatterers
  simp only [outcome.ok, h, List.getD_cons_zero]
  simp [set_site, Function.update]

theorem tertiary_place_flags (m : std_math R) (uc : unit_cell R) (t : tertiary_CH R)
    (sc : Nat → scatterer R) (k : Nat) :
    ((tertiary_CH.place_constrained_scatterers m uc t sc).state.2 k).flags = (sc k).flags := by
  unfold tertiary_CH.place_constrained_scatterers
  simp only [outcome.ok, set_site_flags]

theorem aromatic_place_sites (m : std_math R) (uc : unit_cell R)
    (t : aromatic_CH_or_amide_NH R) (sc : Nat → scatterer R) (a : Nat)
    (h : t.i_hydrogens = [a]) :
    ((aromatic_CH_or_amide_NH.place_constrained_scatterers m uc t sc).state.2 a).site
      = uc.fractionalize ((uc.orthogonalize (sc t.i_pivot).site).add (Vec3.smul t.l
          ((aromatic_CH_or_amide_NH.place_constrained_scatterers m uc t sc).state.1.dx_over_dl
            0))) := by
  unfold aromatic_CH_or_amide_NH.place_constrained_scatterers
  simp only [outcome.ok, h, List.getD_cons_zero]
  simp [set_site, Function.update]

theorem aromatic_place_flags (m : std_math R) (uc : unit_cell R)
    (t : aromatic_CH_or_amide_NH R) (sc : Nat → scatterer R) (k : Nat) :
    ((aromatic_CH_or_amide_NH.place_constrained_scatterers m uc t sc).state.2 k).flags
      = (sc k).flags := by
  unfold aromatic_CH_or_amide_NH.place_constrained_scatterers
  simp only [outcome.ok, set_site_flags]

/-- What a placement that returned normally leaves, for a constraint with pairwise distinct
dependents: the members other than the frame and the stored derivatives, the flags of every
scatterer, and each dependent at `pivot + l * dx_over_dl[i]` when stretching is enabled. -/
theorem any_place_stretching (m : std_math R) (c : any_hydrogens R) (uc : unit_cell R)
    (sc : Nat → scatterer R) (h_wf : c.well_formed)
    (h_str : (heir.base c).stretching_ = true)
    (h_nodup : (heir.base c).i_hydrogens.Nodup)
    (h_placed : (heir.place_constrained_scatterers m uc c sc).thrown = none) :
    (heir.base (heir.place_constrained_scatterers m uc c sc).state.1).on_ = (heir.base c).on_ ∧
    (heir.base (heir.place_constrained_scatterers m uc c sc).state.1).i_pivot
      = (heir.base c).i_pivot ∧
    (heir.base (heir.place_constrained_scatterers m uc c sc).state.1).i_hydrogens
      = (heir.base c).i_hydrogens ∧
    (heir.base (heir.place_constrained_scatterers m uc c sc).state.1).stretching_
      = (heir.base c).stretching_ ∧
    (∀ k, ((heir.place_constrained_scatterers m uc c sc).state.2 k).flags = (sc k).flags) ∧
    (∀ q ∈ (heir.base c).i_hydrogens.enum,
      ((heir.place_constrained_scatterers m uc c sc).state.2 q.2).site
        = uc.fractionalize ((uc.orthogonalize (sc (heir.base c).i_pivot).site).add
            (Vec3.smul (heir.base c).l
              ((heir.base (heir.place_constrained_scatterers m uc c sc).state.1).dx_over_dl
                q.1)))) := by
  cases c with
  | terminal t =>
    have hs : t.stretching_ = true := h_str
    have hnd : t.i_hydrogens.Nodup := h_nodup
    have hn3 : t.i_hydrogens.length = 1 ∨ t.i_hydrogens.length = 2 ∨
        t.i_hydrogens.length = 3 := by
      by_contra hcon
      have hthr : (terminal_X_Hn.place_constrained_scatterers m uc t sc).thrown = none :=
        h_placed
      unfold terminal_X_Hn.place_constrained_scatterers at hthr
      simp [hcon, outcome.throw] at hthr
    show (terminal_X_Hn.place_constrained_scatterers m uc t sc).state.1.on_ = t.on_ ∧
      (terminal_X_Hn.place_constrained_scatterers m uc t sc).state.1.i_pivot = t.i_pivot ∧
      (terminal_X_Hn.place_constrained_scatterers m uc t sc).state.1.i_hydrogens
        = t.i_hydrogens ∧
      (terminal_X_Hn.place_constrained_scatterers m uc t sc).state.1.stretching_
        = t.stretching_ ∧
      (∀ k, ((terminal_X_Hn.place_constrained_scatterers m uc t sc).state.2 k).flags
        = (sc k).flags) ∧
      (∀ q ∈ t.i_hydrogens.enum,
        ((terminal_X_Hn.place_constrained_scatterers m uc t sc).state.2 q.2).site
          = uc.fractionalize ((uc.orthogonalize (sc t.i_pivot).site).add
              (Vec3.smul t.l
                ((terminal_X_Hn.place_constrained_scatterers m uc t sc).state.1.dx_over_dl
                  q.1))))
    unfold terminal_X_Hn.place_constrained_scatterers
    simp only [hn3, if_true, outcome.ok]
    refine ⟨trivial, trivial, trivial, trivial, ?_, ?_⟩
    · intro k; exact place_hydrogens_flags _ _ _ _ _ _
    · intro q hq
      have hlt : q.1 < t.i_hydrogens.length := by
        have := List.fst_lt_add_of_mem_enumFrom hq
        omega
      rw [place_hydrogens_site _ _ _ _ _ hnd q hq]
      simp only [hlt, hs, and_self, if_true]
  | secondary t =>
    have hl : t.i_hydrogens.length = 2 := h_wf
    have hnd : t.i_hydrogens.Nodup := h_nodup
    obtain ⟨a, b, hh⟩ := List.length_eq_two.mp hl
    have hab : a ≠ b := by
      intro h; rw [hh, h] at hnd; simp at hnd
    refine ⟨rfl, rfl, rfl, rfl, secondary_place_flags m uc t sc, ?_⟩
    intro q hq
    have hq1 : q ∈ t.i_hydrogens.enum := hq
    rw [hh] at hq1
    simp only [List.enum, List.enumFrom, List.mem_cons, List.mem_singleton, List.not_mem_nil,
      or_false] at hq1
    rcases hq1 with rfl | rfl
    · exact (secondary_place_sites m uc t sc a b hh hab).1
    · exact (secondary_place_sites m uc t sc a b hh hab).2
  | tertiary t =>
    have hl : t.i_hydrogens.length = 1 := h_wf
    obtain ⟨a, hh⟩ := List.length_eq_one.mp hl
    refine ⟨rfl, rfl, rfl, rfl, tertiary_place_flags m uc t sc, ?_⟩
    intro q hq
    have hq1 : q ∈ t.i_hydrogens.enum := hq
    rw [hh] at hq1
    simp only [List.enum, List.enumFrom, List.mem_singleton] at hq1
    subst hq1
    exact tertiary_place_sites m uc t sc a hh
  | aromatic t =>
    have hl : t.i_hydrogens.length = 1 := h_wf
    obtain ⟨a, hh⟩ := List.length_eq_one.mp hl
    refine ⟨rfl, rfl, rfl, rfl, aromatic_place_flags m uc t sc, ?_⟩
    intro q hq
    have hq1 : q ∈ t.i_hydrogens.enum := hq
    rw [hh] at hq1
    simp only [List.enum, List.enumFrom, List.mem_singleton] at hq1
    subst hq1
    exact aromatic_place_sites m uc t sc a hh

theorem any_place_pivot (m : std_math R) (c : any_hydrogens R) (uc : unit_cell R)
    (sc : Nat → scatterer R) (h_wf : c.well_formed)
    (h_pivot : (heir.base c).i_pivot ∉ (heir.base c).i_hydrogens) :
    (heir.place_constrained_scatterers m uc c sc).state.2 (heir.base c).i_pivot
      = sc (heir.base c).i_pivot := by
  cases c with
  | terminal t =>
    have hp : t.i_pivot ∉ t.i_hydrogens := h_pivot
    show (terminal_X_Hn.place_constrained_scatterers m uc t sc).state.2 t.i_pivot = _
    unfold terminal_X_Hn.place_constrained_scatterers
    by_cases hn3 : t.i_hydrogens.length = 1 ∨ t.i_hydrogens.length = 2 ∨
        t.i_hydrogens.length = 3
    · simp only [hn3, if_true, outcome.ok]
      exact place_hydrogens_not_mem _ _ _ _ _ _ hp
    · simp only [hn3, if_false, outcome.throw]
      rfl
  | secondary t =>
    have hl : t.i_hydrogens.length = 2 := h_wf
    have hp : t.i_pivot ∉ t.i_hydrogens := h_pivot
    obtain ⟨a, b, hh⟩ := List.length_eq_two.mp hl
    rw [hh] at hp
    simp only [List.mem_cons, List.mem_singleton, List.not_mem_nil, or_false, not_or] at hp
    show (secondary_CH2.place_constrained_scatterers m uc t sc).state.2 t.i_pivot = _
    unfold secondary_CH2.place_constrained_scatterers
    simp only [outcome.ok, hh, List.getD_cons_zero, List.getD_cons_succ]
    rw [set_site_ne _ _ _ _ hp.2, set_site_ne _ _ _ _ hp.1]
    rfl
  | tertiary t =>
    have hl : t.i_hydrogens.length = 1 := h_wf
    have hp : t.i_pivot ∉ t.i_hydrogens := h_pivot
    obtain ⟨a, hh⟩ := List.length_eq_one.mp hl
    rw [hh] at hp
    simp only [List.mem_singleton] at hp
    show (tertiary_CH.place_constrained_scatterers m uc t sc).state.2 t.i_pivot = _
    unfold tertiary_CH.place_constrained_scatterers
    simp only [outcome.ok, hh, List.getD_cons_zero]
    rw [set_site_ne _ _ _ _ hp]
    rfl
  | aromatic t =>
    have hl : t.i_hydrogens.length = 1 := h_wf
    have hp : t.i_pivot ∉ t.i_hydrogens := h_pivot
    obtain ⟨a, hh⟩ := List.length_eq_one.mp hl
    rw [hh] at hp
    simp only [List.mem_singleton] at hp
    show (aromatic_CH_or_amide_NH.place_constrained_scatterers m uc t sc).state.2 t.i_pivot = _
    unfold aromatic_CH_or_amide_NH.place_constrained_scatterers
    simp only [outcome.ok, hh, List.getD_cons_zero]
    rw [set_site_ne _ _ _ _ hp]
    rfl

theorem cos_phi_eq (m : std_math R) (phi : R) (i : Nat) (hi : i < 3) :
    terminal_X_Hn.cos_phi m phi i = m.cos (phi + i * (2 * m.pi / 3)) := by
  interval_cases i
  · simp [terminal_X_Hn.cos_phi]
  · simp only [terminal_X_Hn.cos_phi]; congr 1; push_cast; ring
  · simp only [terminal_X_Hn.cos_phi]; congr 1; push_cast; ring

theorem sin_phi_eq (m : std_math R) (phi : R) (i : Nat) (hi : i < 3) :
    terminal_X_Hn.sin_phi m phi i = m.sin (phi + i * (2 * m.pi / 3)) := by
  interval_cases i
  · simp [terminal_X_Hn.sin_phi]
  · simp only [terminal_X_Hn.sin_phi]; congr 1; push_cast; ring
  · simp only [terminal_X_Hn.sin_phi]; congr 1; push_cast; ring

/-- What a placement that returned normally leaves in a rotating `terminal_X_Hn`. -/
theorem terminal_place_rotating (m : std_math R) (uc : unit_cell R) (t : terminal_X_Hn R)
    (sc : Nat → scatterer R) (h_rot : t.rotating_ = true)
    (h_placed : (terminal_X_Hn.place_constrained_scatterers m uc t sc).thrown = none) :
    t.i_hydrogens.length ≤ 3 ∧
    (terminal_X_Hn.place_constrained_scatterers m uc t sc).state.1.rotating_ = true ∧
    (terminal_X_Hn.place_constrained_scatterers m uc t sc).state.1.stretching_
      = t.stretching_ ∧
    (∀ k, ((terminal_X_Hn.place_constrained_scatterers m uc t sc).state.2 k).flags
      = (sc k).flags) ∧
    (∀ i, i < t.i_hydrogens.length →
      (terminal_X_Hn.place_constrained_scatterers m uc t sc).state.1.dx_over_dphi i
        = terminal_X_Hn.azimuth_derivative m
            (terminal_X_Hn.place_constrained_scatterers m uc t sc).state.1.e0
            (terminal_X_Hn.place_constrained_scatterers m uc t sc).state.1.e1 t.l i t.phi) ∧
    (t.i_hydrogens.Nodup → ∀ q ∈ t.i_hydrogens.enum,
      ((terminal_X_Hn.place_constrained_scatterers m uc t sc).state.2 q.2).site
        = uc.fractionalize (terminal_X_Hn.placement_formula m
            (uc.orthogonalize (sc t.i_pivot).site)
            (terminal_X_Hn.place_constrained_scatterers m uc t sc).state.1.e0
            (terminal_X_Hn.place_constrained_scatterers m uc t sc).state.1.e1
            (terminal_X_Hn.place_constrained_scatterers m uc t sc).state.1.e2 t.l q.1 t.phi)) := by
  have hn3 : t.i_hydrogens.length = 1 ∨ t.i_hydrogens.length = 2 ∨
      t.i_hydrogens.length = 3 := by
    by_contra hcon
    unfold terminal_X_Hn.place_constrained_scatterers at h_placed
    simp [hcon, outcome.throw] at h_placed
  have hle : t.i_hydrogens.length ≤ 3 := by omega
  unfold terminal_X_Hn.place_constrained_scatterers
  simp only [hn3, if_true, outcome.ok]
  refine ⟨hle, h_rot, trivial, ?_, ?_, ?_⟩
  · intro k; exact place_hydrogens_flags _ _ _ _ _ _
  · intro i hi
    have hi3 : i < 3 := by omega
    simp only [hi, h_rot, and_self, if_true, terminal_X_Hn.azimuth_derivative,
      cos_phi_eq m t.phi i hi3, sin_phi_eq m t.phi i hi3]
  · intro hnd q hq
    have hlt : q.1 < t.i_hydrogens.length := by
      have := List.fst_lt_add_of_mem_enumFrom hq
      omega
    have hi3 : q.1 < 3 := by omega
    rw [place_hydrogens_site _ _ _ _ _ hnd q hq]
    simp only [terminal_X_Hn.placement_formula, cos_phi_eq m t.phi q.1 hi3,
      sin_phi_eq m t.phi q.1 hi3]

theorem rotation_sum_cartesian (uc : unit_cell R) (pm : Nat → parameter_indices) (g : Nat → R)
    (dxp : Nat → Vec3 R) (hs : List Nat) :
    terminal_X_Hn.rotation_sum dxp (cartesian_gradients uc pm g hs) 0 0
      = (hs.enum.map (fun q =>
          (uc.orthogonalize_gradient (gradient_at g (pm q.2).site)).dot (dxp q.1))).sum := by
  rw [rotation_sum_eq, zero_add, cartesian_gradients, List.enumFrom_map, List.map_map]
  rfl

theorem map_sum_congr_enum {α : Type} (hs : List α) (f g : Nat × α → R)
    (h : ∀ q ∈ hs.enum, f q = g q) : (hs.enum.map f).sum = (hs.enum.map g).sum := by
  rw [List.map_congr_left h]

theorem real_placement_hasDerivAt (x_p e0 e1 e2 : Vec3 ℝ) (l : ℝ) (i : Nat) (phi : ℝ) :
    HasDerivAt (fun a => (terminal_X_Hn.placement_formula real_math x_p e0 e1 e2 l i a).x)
      (terminal_X_Hn.azimuth_derivative real_math e0 e1 l i phi).x phi ∧
    HasDerivAt (fun a => (terminal_X_Hn.placement_formula real_math x_p e0 e1 e2 l i a).y)
      (terminal_X_Hn.azimuth_derivative real_math e0 e1 l i phi).y phi ∧
    HasDerivAt (fun a => (terminal_X_Hn.placement_formula real_math x_p e0 e1 e2 l i a).z)
      (terminal_X_Hn.azimuth_derivative real_math e0 e1 l i phi).z phi := by
  have hc : HasDerivAt (fun a : ℝ => Real.cos (a + i * (2 * Real.pi / 3)))
      (-Real.sin (phi + i * (2 * Real.pi / 3))) phi := by
    have h := (Real.hasDerivAt_cos (phi + i * (2 * Real.pi / 3))).comp phi
      ((hasDerivAt_id phi).add_const (i * (2 * Real.pi / 3)))
    simpa using h
  have hs : HasDerivAt (fun a : ℝ => Real.sin (a + i * (2 * Real.pi / 3)))
      (Real.cos (phi + i * (2 * Real.pi / 3))) phi := by
    have h := (Real.hasDerivAt_sin (phi + i * (2 * Real.pi / 3))).comp phi
      ((hasDerivAt_id phi).add_const (i * (2 * Real.pi / 3)))
    simpa using h
  have key : ∀ (p a b c : ℝ),
      HasDerivAt (fun t : ℝ => p + l * (constants.sin_tetrahedral_angle real_math *
          (Real.cos (t + i * (2 * Real.pi / 3)) * a + Real.sin (t + i * (2 * Real.pi / 3)) * b)
          + c / 3))
        (l * constants.sin_tetrahedral_angle real_math *
          (-Real.sin (phi + i * (2 * Real.pi / 3)) * a
            + Real.cos (phi + i * (2 * Real.pi / 3)) * b)) phi := by
    intro p a b c
    have h := ((((hc.mul_const a).add (hs.mul_const b)).const_mul
      (constants.sin_tetrahedral_angle real_math)).add_const (c / 3)).const_mul l
    have h2 := h.const_add p
    convert h2 using 1
    ring
  exact ⟨key x_p.x e0.x e1.x e2.x, key x_p.y e0.y e1.y e2.y, key x_p.z e0.z e1.z e2.z⟩

/-- The riding loop, thrown or not, leaves every entry outside the three site slots of the
pivot alone. -/
theorem riding_other (scatterers : Nat → scatterer R) (pm : Nat → parameter_indices) (p : Nat) :
    ∀ (hs : List Nat) (g : Nat → R) (k : Nat), k < (pm p).site ∨ (pm p).site + 3 ≤ k →
      (riding scatterers pm p hs g).state k = g k := by
  intro hs
  induction hs with
  | nil => intro g k _; rfl
  | cons i_h rest ih =>
    intro g k hk
    simp only [riding]
    by_cases hf : (scatterers i_h).flags.grad_site = true
    · simp only [hf, if_true]
      rw [ih _ k hk, add_site_gradient_other g _ _ k hk]
    · simp only [hf, Bool.false_eq_true, if_false, outcome.throw]

/-- The crystallographic gradients that `compute_gradients` leaves, thrown or not: those of the
riding loop when the constraint is Active, those passed in otherwise. -/
theorem compute_gradients_gradients {D : Type} [heir R D] (m : std_math R) (self : D)
    (uc : unit_cell R) (scatterers : Nat → scatterer R) (pm : Nat → parameter_indices)
    (g : Nat → R) (rg : List R) :
    (compute_gradients m self uc scatterers pm g rg).state.2.1
      = if (heir.base self).on_ then
          (riding scatterers pm (heir.base self).i_pivot (heir.base self).i_hydrogens g).state
        else g := by
  unfold compute_gradients
  by_cases hon : (heir.base self).on_ = true
  · simp only [hon, Bool.not_true, Bool.false_eq_true, if_false, if_true]
    cases hthr : (riding scatterers pm (heir.base self).i_pivot (heir.base self).i_hydrogens
      g).thrown
    · by_cases ha : heir.has_active_reparametrizations self = true
      · simp [ha, outcome.ok]
      · simp [ha, outcome.ok]
    · simp [outcome.throw]
  · simp [hon, outcome.ok]

/-- The crystallographic gradients after `compute_gradients` on an Active constraint whose
dependents carry the `grad_site` flag and whose slots do not overlap those of the pivot: the
call returns normally, each site slot of the pivot has gained the sum of the matching
components of the dependents, and every other entry is unchanged. -/
theorem compute_gradients_riding_spec {D : Type} [heir R D] (m : std_math R) (self : D)
    (uc : unit_cell R) (scatterers : Nat → scatterer R) (pm : Nat → parameter_indices)
    (g : Nat → R) (rg : List R) (h_on : (heir.base self).on_ = true)
    (h_flags : ∀ i_h ∈ (heir.base self).i_hydrogens, (scatterers i_h).flags.grad_site = true)
    (h_slots : ∀ i_h ∈ (heir.base self).i_hydrogens,
      (pm i_h).site + 3 ≤ (pm (heir.base self).i_pivot).site ∨
        (pm (heir.base self).i_pivot).site + 3 ≤ (pm i_h).site) :
    (compute_gradients m self uc scatterers pm g rg).thrown = none ∧
    (∀ j, j < 3 →
      (compute_gradients m self uc scatterers pm g rg).state.2.1
          ((pm (heir.base self).i_pivot).site + j)
        = g ((pm (heir.base self).i_pivot).site + j)
          + ((heir.base self).i_hydrogens.map (fun i_h => g ((pm i_h).site + j))).sum) ∧
    (∀ k, k < (pm (heir.base self).i_pivot).site ∨ (pm (heir.base self).i_pivot).site + 3 ≤ k →
      (compute_gradients m self uc scatterers pm g rg).state.2.1 k = g k) := by
  obtain ⟨r1, r2, r3⟩ := riding_spec scatterers pm (heir.base self).i_pivot
    (heir.base self).i_hydrogens g h_flags h_slots
  obtain ⟨c1, c2⟩ := compute_gradients_of_riding m self uc scatterers pm g rg h_on r1
  rw [c2]
  exact ⟨c1, r2, r3⟩

/-- An index is inside the three slots from `p` on, at some offset below 3, or outside. -/
theorem slot_cases (p k : Nat) : (∃ j, j < 3 ∧ k = p + j) ∨ (k < p ∨ p + 3 ≤ k) := by
  by_cases h : k < p ∨ p + 3 ≤ k
  · exact Or.inr h
  · left
    exact ⟨k - p, by omega, by omega⟩

theorem map_sum_congr_mem {α : Type} (hs : List α) (f g : α → R)
    (h : ∀ a ∈ hs, f a = g a) : (hs.map f).sum = (hs.map g).sum := by
  rw [List.map_congr_left h]

theorem real_cos_two_thirds : Real.cos (2 * Real.pi / 3) = -1 / 2 := by
  have h : 2 * Real.pi / 3 = Real.pi - Real.pi / 3 := by ring
  rw [h, Real.cos_pi_sub, Real.cos_pi_div_three]
  norm_num

theorem real_sin_two_thirds : Real.sin (2 * Real.pi / 3) = Real.sqrt 3 / 2 := by
  have h : 2 * Real.pi / 3 = Real.pi - Real.pi / 3 := by ring
  rw [h, Real.sin_pi_sub, Real.sin_pi_div_three]

theorem real_cos_four_thirds : Real.cos (4 * Real.pi / 3) = -1 / 2 := by
  have h : 4 * Real.pi / 3 = Real.pi / 3 + Real.pi := by ring
  rw [h, Real.cos_add_pi, Real.cos_pi_div_three]
  norm_num

theorem real_sin_four_thirds : Real.sin (4 * Real.pi / 3) = -(Real.sqrt 3 / 2) := by
  have h : 4 * Real.pi / 3 = Real.pi / 3 + Real.pi := by ring
  rw [h, Real.sin_add_pi, Real.sin_pi_div_three]

/-- The arrays `cos_phi` and `sin_phi` at the azimuth 0. -/
theorem real_cos_sin_phi_zero :
    terminal_X_Hn.cos_phi real_math 0 0 = 1 ∧ terminal_X_Hn.sin_phi real_math 0 0 = 0 ∧
    terminal_X_Hn.cos_phi real_math 0 1 = -1 / 2 ∧
    terminal_X_Hn.sin_phi real_math 0 1 = Real.sqrt 3 / 2 ∧
    terminal_X_Hn.cos_phi real_math 0 2 = -1 / 2 ∧
    terminal_X_Hn.sin_phi real_math 0 2 = -(Real.sqrt 3 / 2) := by
  refine ⟨?_, ?_, ?_, ?_, ?_, ?_⟩
  · show Real.cos 0 = 1
    exact Real.cos_zero
  · show Real.sin 0 = 0
    exact Real.sin_zero
  · show Real.cos (0 + 2 * Real.pi / 3) = -1 / 2
    rw [zero_add, real_cos_two_thirds]
  · show Real.sin (0 + 2 * Real.pi / 3) = Real.sqrt 3 / 2
    rw [zero_add, real_sin_two_thirds]
  · show Real.cos (0 + 4 * Real.pi / 3) = -1 / 2
    rw [zero_add, real_cos_four_thirds]
  · show Real.sin (0 + 4 * Real.pi / 3) = -(Real.sqrt 3 / 2)
    rw [zero_add, real_sin_four_thirds]

/-- The frame that `do_initialise_in_context` builds on `axis_sites` for a constraint on the
pivot 0 and the neighbour 4. -/
theorem axis_initialise_frame (t : terminal_X_Hn ℝ) (hp : t.i_pivot = 0)
    (hn : t.i_pivot_neighbour = 4) :
    (terminal_X_Hn.do_initialise_in_context real_math (unit_cell.cubic_unit ℝ)
      (sample.axis_sites ℝ) t).e0 = ⟨-1, 0, 0⟩ ∧
    (terminal_X_Hn.do_initialise_in_context real_math (unit_cell.cubic_unit ℝ)
      (sample.axis_sites ℝ) t).e1 = ⟨0, -1, 0⟩ ∧
    (terminal_X_Hn.do_initialise_in_context real_math (unit_cell.cubic_unit ℝ)
      (sample.axis_sites ℝ) t).e2 = ⟨0, 0, 1⟩ := by
  have h1 : Vec3.normalize real_math (⟨0, -1, 0⟩ : Vec3 ℝ) = ⟨0, -1, 0⟩ := by
    rw [real_normalize_of_length _ 1 (by norm_num) (by norm_num [Vec3.length_sq, Vec3.dot])]
    norm_num
  simp only [terminal_X_Hn.do_initialise_in_context, hp, hn, sample.axis_sites,
    unit_cell.cubic_unit, id, sample.zero3, Vec3.sub]
  norm_num [real_normalize_z, Vec3.ortho, h1, Vec3.cross]

/-- The frame that `place_constrained_scatterers` leaves on `axis_sites` for a constraint on the
pivot 0 and the neighbour 4 whose axis `e0` was `(-1, 0, 0)`. -/
theorem axis_place_frame (t : terminal_X_Hn ℝ) (hp : t.i_pivot = 0)
    (hn : t.i_pivot_neighbour = 4) (he0 : t.e0 = ⟨-1, 0, 0⟩) :
    (terminal_X_Hn.place_constrained_scatterers real_math (unit_cell.cubic_unit ℝ) t
      (sample.axis_sites ℝ)).state.1.e0 = ⟨-1, 0, 0⟩ ∧
    (terminal_X_Hn.place_constrained_scatterers real_math (unit_cell.cubic_unit ℝ) t
      (sample.axis_sites ℝ)).state.1.e1 = ⟨0, -1, 0⟩ ∧
    (terminal_X_Hn.place_constrained_scatterers real_math (unit_cell.cubic_unit ℝ) t
      (sample.axis_sites ℝ)).state.1.e2 = ⟨0, 0, 1⟩ := by
  have hf := terminal_place_frame real_math (unit_cell.cubic_unit ℝ) t (sample.axis_sites ℝ)
  have hb : ((unit_cell.cubic_unit ℝ).orthogonalize (sample.axis_sites ℝ t.i_pivot).site).sub
      ((unit_cell.cubic_unit ℝ).orthogonalize (sample.axis_sites ℝ t.i_pivot_neighbour).site)
      = ⟨0, 0, 1⟩ := by
    rw [hp, hn]
    norm_num [sample.axis_sites, unit_cell.cubic_unit, sample.zero3, Vec3.sub]
  rw [hb, real_normalize_z, he0] at hf
  refine ⟨?_, ?_, ?_⟩
  · rw [hf.2.2]; norm_num [Vec3.cross]
  · rw [hf.2.1]; norm_num [Vec3.cross]
  · rw [hf.1]

theorem methyl_full_initialised_fields :
    (sample.methyl_full_initialised real_math).i_pivot = 0 ∧
    (sample.methyl_full_initialised real_math).i_pivot_neighbour = 4 ∧
    (sample.methyl_full_initialised real_math).i_hydrogens = [1, 2, 3] ∧
    (sample.methyl_full_initialised real_math).l = 1 ∧
    (sample.methyl_full_initialised real_math).phi = 0 ∧
    (sample.methyl_full_initialised real_math).on_ = true ∧
    (sample.methyl_full_initialised real_math).stretching_ = true ∧
    (sample.methyl_full_initialised real_math).rotating_ = true ∧
    (sample.methyl_full_initialised real_math).e0 = ⟨-1, 0, 0⟩ := by
  have hi : sample.methyl_full_initialised real_math
      = terminal_X_Hn.do_initialise_in_context real_math (unit_cell.cubic_unit ℝ)
          (sample.axis_sites ℝ) (sample.methyl_full real_math) := rfl
  refine ⟨rfl, rfl, rfl, rfl, ?_, rfl, rfl, rfl, ?_⟩
  · show (0 : ℝ) * Real.pi / 180 = 0
    norm_num
  · rw [hi]
    exact (axis_initialise_frame _ rfl rfl).1

theorem methyl_full_placed :
    (terminal_X_Hn.place_constrained_scatterers real_math (unit_cell.cubic_unit ℝ)
      (sample.methyl_full_initialised real_math) (sample.axis_sites ℝ)).state.1.dx_over_dl 0
      = ⟨-constants.sin_tetrahedral_angle real_math, 0, 1 / 3⟩ ∧
    (terminal_X_Hn.place_constrained_scatterers real_math (unit_cell.cubic_unit ℝ)
      (sample.methyl_full_initialised real_math) (sample.axis_sites ℝ)).state.1.dx_over_dl 1
      = ⟨constants.sin_tetrahedral_angle real_math / 2,
          -(constants.sin_tetrahedral_angle real_math * (Real.sqrt 3 / 2)), 1 / 3⟩ ∧
    (terminal_X_Hn.place_constrained_scatterers real_math (unit_cell.cubic_unit ℝ)
      (sample.methyl_full_initialised real_math) (sample.axis_sites ℝ)).state.1.dx_over_dl 2
      = ⟨constants.sin_tetrahedral_angle real_math / 2,
          constants.sin_tetrahedral_angle real_math * (Real.sqrt 3 / 2), 1 / 3⟩ := by
  obtain ⟨hp, hn, hh, _, hphi, _, hs, _, he0⟩ := methyl_full_initialised_fields
  obtain ⟨f0, f1, f2⟩ := axis_place_frame _ hp hn he0
  obtain ⟨c0, s0, c1, s1, c2, s2⟩ := real_cos_sin_phi_zero
  have hd := terminal_place_dx_over_dl real_math (unit_cell.cubic_unit ℝ)
    (sample.methyl_full_initialised real_math) (sample.axis_sites ℝ) hs
    (by rw [hh]; simp)
  rw [hh] at hd
  refine ⟨?_, ?_, ?_⟩
  · rw [hd 0 (by simp), f0, f1, f2, hphi, c0, s0]
    simp only [Vec3.smul, Vec3.add, Vec3.div, Vec3.mk.injEq]
    refine ⟨by ring, by ring, by ring⟩
  · rw [hd 1 (by simp), f0, f1, f2, hphi, c1, s1]
    simp only [Vec3.smul, Vec3.add, Vec3.div, Vec3.mk.injEq]
    refine ⟨by ring, by ring, by ring⟩
  · rw [hd 2 (by simp), f0, f1, f2, hphi, c2, s2]
    simp only [Vec3.smul, Vec3.add, Vec3.div, Vec3.mk.injEq]
    refine ⟨by ring, by ring, by ring⟩

/-- The bracket `azimuth_derivative` of the three dependents at the azimuth 0 and bond length 1
in the frame `(-1, 0, 0)`, `(0, -1, 0)`. -/
theorem axis_azimuth_derivative :
    terminal_X_Hn.azimuth_derivative real_math ⟨-1, 0, 0⟩ ⟨0, -1, 0⟩ 1 0 0
      = ⟨0, -constants.sin_tetrahedral_angle real_math, 0⟩ ∧
    terminal_X_Hn.azimuth_derivative real_math ⟨-1, 0, 0⟩ ⟨0, -1, 0⟩ 1 1 0
      = ⟨constants.sin_tetrahedral_angle real_math * (Real.sqrt 3 / 2),
          constants.sin_tetrahedral_angle real_math / 2, 0⟩ ∧
    terminal_X_Hn.azimuth_derivative real_math ⟨-1, 0, 0⟩ ⟨0, -1, 0⟩ 1 2 0
      = ⟨-(constants.sin_tetrahedral_angle real_math * (Real.sqrt 3 / 2)),
          constants.sin_tetrahedral_angle real_math / 2, 0⟩ := by
  have a0 : (0 : ℝ) + ((0 : Nat) : ℝ) * (2 * Real.pi / 3) = 0 := by norm_num
  have a1 : (0 : ℝ) + ((1 : Nat) : ℝ) * (2 * Real.pi / 3) = 2 * Real.pi / 3 := by norm_num
  have a2 : (0 : ℝ) + ((2 : Nat) : ℝ) * (2 * Real.pi / 3) = 4 * Real.pi / 3 := by
    push_cast
    ring
  refine ⟨?_, ?_, ?_⟩
  · show Vec3.smul (1 * constants.sin_tetrahedral_angle real_math)
      ((Vec3.smul (-(Real.sin ((0 : ℝ) + ((0 : Nat) : ℝ) * (2 * Real.pi / 3)))) ⟨-1, 0, 0⟩).add
        (Vec3.smul (Real.cos ((0 : ℝ) + ((0 : Nat) : ℝ) * (2 * Real.pi / 3))) ⟨0, -1, 0⟩)) = _
    rw [a0, Real.sin_zero, Real.cos_zero]
    simp only [Vec3.smul, Vec3.add, Vec3.mk.injEq]
    refine ⟨by ring, by ring, by ring⟩
  · show Vec3.smul (1 * constants.sin_tetrahedral_angle real_math)
      ((Vec3.smul (-(Real.sin ((0 : ℝ) + ((1 : Nat) : ℝ) * (2 * Real.pi / 3)))) ⟨-1, 0, 0⟩).add
        (Vec3.smul (Real.cos ((0 : ℝ) + ((1 : Nat) : ℝ) * (2 * Real.pi / 3))) ⟨0, -1, 0⟩)) = _
    rw [a1, real_sin_two_thirds, real_cos_two_thirds]
    simp only [Vec3.smul, Vec3.add, Vec3.mk.injEq]
    refine ⟨by ring, by ring, by ring⟩
  · show Vec3.smul (1 * constants.sin_tetrahedral_angle real_math)
      ((Vec3.smul (-(Real.sin ((0 : ℝ) + ((2 : Nat) : ℝ) * (2 * Real.pi / 3)))) ⟨-1, 0, 0⟩).add
        (Vec3.smul (Real.cos ((0 : ℝ) + ((2 : Nat) : ℝ) * (2 * Real.pi / 3))) ⟨0, -1, 0⟩)) = _
    rw [a2, real_sin_four_thirds, real_cos_four_thirds]
    simp only [Vec3.smul, Vec3.add, Vec3.mk.injEq]
    refine ⟨by ring, by ring, by ring⟩

end gradient_lemmas

/-! ## Lemmas on `bond` -/

section bond_lemmas

open cctbx.restraints

/-- The derivative of the residual of a bond along one coordinate of its first site. -/
theorem real_bond_residual_deriv (a b c d w x : ℝ) (h : (x - a) * (x - a) + b * b + c * c ≠ 0) :
    HasDerivAt
      (fun y : ℝ => w * pow2 (d - Real.sqrt ((y - a) * (y - a) + b * b + c * c)))
      (-w * 2 * (d - Real.sqrt ((x - a) * (x - a) + b * b + c * c))
        / Real.sqrt ((x - a) * (x - a) + b * b + c * c) * (x - a)) x := by
  have hq : HasDerivAt (fun y : ℝ => (y - a) * (y - a) + b * b + c * c) (2 * (x - a)) x := by
    have h1 : HasDerivAt (fun y : ℝ => y - a) 1 x := (hasDerivAt_id x).sub_const a
    have h2 := ((h1.mul h1).add_const (b * b)).add_const (c * c)
    convert h2 using 1
    ring
  have hs := hq.sqrt h
  have hu : HasDerivAt (fun y : ℝ => d - Real.sqrt ((y - a) * (y - a) + b * b + c * c))
      (-(2 * (x - a) / (2 * Real.sqrt ((x - a) * (x - a) + b * b + c * c)))) x :=
    hs.const_sub d
  have hp := (hu.mul hu).const_mul w
  have hr : Real.sqrt ((x - a) * (x - a) + b * b + c * c) ≠ 0 := by
    intro h0
    apply h
    have hnn : 0 ≤ (x - a) * (x - a) + b * b + c * c := by
      have := mul_self_nonneg (x - a)
      have := mul_self_nonneg b
      have := mul_self_nonneg c
      linarith
    exact (Real.sqrt_eq_zero hnn).mp h0
  convert hp using 1
  field_simp
  ring

/-- The sum over a range of a function changed by `c` at `i` and by `-c` at `j`, both in the
range, is the sum of the function. -/
theorem sum_range_shift_pair {R : Type} [LinearOrderedField R] (f : Nat → R) (c : R)
    (i j n : Nat) (hi : i < n) (hj : j < n) :
    ∑ k in Finset.range n, (f k + ((if k = i then c else 0) + (if k = j then -c else 0)))
      = ∑ k in Finset.range n, f k := by
  rw [Finset.sum_add_distrib, Finset.sum_add_distrib, Finset.sum_ite_eq', Finset.sum_ite_eq']
  simp [hi, hj]

theorem vec3_ext {R : Type} (a b : Vec3 R) (hx : a.x = b.x) (hy : a.y = b.y)
    (hz : a.z = b.z) : a = b := by
  cases a
  cases b
  simp only [Vec3.mk.injEq]
  exact ⟨hx, hy, hz⟩

/-- Each entry after `add_gradients`, as the entry before plus what the two updates add. -/
theorem bond_add_gradients_entry {R : Type} [LinearOrderedField R] (b : bond R)
    (gradient_array : Nat → Vec3 R) (i j k : Nat) :
    b.add_gradients gradient_array (i, j) k
      = (gradient_array k).add
          ((if k = i then b.gradient_0 else ⟨0, 0, 0⟩).add
            (if k = j then b.gradient_0.neg else ⟨0, 0, 0⟩)) := by
  unfold bond.add_gradients
  by_cases hj : k = j <;> by_cases hi : k = i
  · subst hj
    subst hi
    apply vec3_ext <;> simp [Vec3.add, Vec3.neg, add_assoc]
  · subst hj
    apply vec3_ext <;> simp [Function.update, hi, Vec3.add, Vec3.neg]
  · subst hi
    apply vec3_ext <;> simp [Function.update, hj, Vec3.add, Vec3.neg]
  · apply vec3_ext <;> simp [Function.update, hi, hj, Vec3.add, Vec3.neg]

end bond_lemmas

/-! ## The claims -/

section claims

open geometrical_hydrogens

/-- C1 (riding invariant).  For an Active constraint of any variant whose pivot is not one of
its dependents, whose atoms occupy pairwise disjoint three-component slots of the gradient
vector, and whose dependents carry the `grad_site` flag that gives them such a slot (the
assertion of the riding loop), `compute_gradients` returns normally and leaves each component
of the pivot's slot increased by exactly the sum of the dependents' components before the call,
whatever the stretching and rotating modes. -/
theorem C1_riding_invariant {R : Type} [LinearOrderedField R] (m : std_math R)
    (c : any_hydrogens R) (uc : unit_cell R) (scatterers : Nat → scatterer R)
    (pm : Nat → parameter_indices) (g : Nat → R) (rg : List R)
    (h_on : (heir.base c).on_ = true)
    (h_pivot : (heir.base c).i_pivot ∉ (heir.base c).i_hydrogens)
    (h_slots : ∀ a ∈ (heir.base c).i_pivot :: (heir.base c).i_hydrogens,
      ∀ b ∈ (heir.base c).i_pivot :: (heir.base c).i_hydrogens,
        a ≠ b → (pm a).site + 3 ≤ (pm b).site ∨ (pm b).site + 3 ≤ (pm a).site)
    (h_flags : ∀ i_h ∈ (heir.base c).i_hydrogens, (scatterers i_h).flags.grad_site = true) :
    (compute_gradients m c uc scatterers pm g rg).thrown = none ∧
    ∀ j, j < 3 →
      (compute_gradients m c uc scatterers pm g rg).state.2.1
          ((pm (heir.base c).i_pivot).site + j)
        = g ((pm (heir.base c).i_pivot).site + j)
          + ((heir.base c).i_hydrogens.map (fun i_h => g ((pm i_h).site + j))).sum := by
  have hdis : ∀ i_h ∈ (heir.base c).i_hydrogens,
      (pm i_h).site + 3 ≤ (pm (heir.base c).i_pivot).site ∨
        (pm (heir.base c).i_pivot).site + 3 ≤ (pm i_h).site := by
    intro i_h hi
    apply h_slots i_h (List.mem_cons_of_mem _ hi) _ (List.mem_cons_self _ _)
    intro he
    exact h_pivot (he ▸ hi)
  have hr := riding_spec scatterers pm (heir.base c).i_pivot (heir.base c).i_hydrogens g
    h_flags hdis
  have hc := compute_gradients_of_riding m c uc scatterers pm g rg h_on hr.1
  refine ⟨hc.1, ?_⟩
  intro j hj
  rw [hc.2]
  exact hr.2.1 j hj

/-- C1, worked instance: a rotating and stretching methyl group with pivot 0 and dependents
1, 2, 3 in the packed parameter map; on the gradient vector `k ↦ k + 1` the pivot's three
components each gain the sum of the corresponding components of the three dependents. -/
theorem C1_riding_invariant_witness :
    (compute_gradients sample.no_math (any_hydrogens.terminal sample.methyl)
        (unit_cell.cubic_unit ℚ) (sample.free_scatterers ℚ) sample.packed_map sample.ramp
        []).thrown = none ∧
    ∀ j, j < 3 →
      (compute_gradients sample.no_math (any_hydrogens.terminal sample.methyl)
          (unit_cell.cubic_unit ℚ) (sample.free_scatterers ℚ) sample.packed_map sample.ramp
          []).state.2.1 ((sample.packed_map 0).site + j)
        = sample.ramp ((sample.packed_map 0).site + j)
          + (([1, 2, 3] : List Nat).map
              (fun i_h => sample.ramp ((sample.packed_map i_h).site + j))).sum :=
  C1_riding_invariant sample.no_math (any_hydrogens.terminal sample.methyl)
    (unit_cell.cubic_unit ℚ) (sample.free_scatterers ℚ) sample.packed_map sample.ramp []
    rfl (by decide)
    (by
      intro a ha b hb hab
      simp only [heir.base, sample.methyl, terminal_X_Hn.mk_ctor, geometrical_hydrogens.mk_ctor,
        List.mem_cons, List.mem_singleton, List.not_mem_nil, or_false] at ha hb
      simp only [sample.packed_map]
      omega)
    (by intro i_h _; rfl)

/-- C2, the code at the failing input.  `theta` is what `place_constrained_scatterers` computes
from the squared distance of the two neighbours: it is `1.0376` at `d² = 0`, but at `d² = 5.76`
(neighbours at `(-1.2, 0, 0)` and `(1.2, 0, 0)`) it is `1.0376 + 0.0349·5.76 = 1.238624`, not
`1.0376 − 0.0349·5.76 = 0.836576`, and it strictly increases with `d²`: the code subtracts the
negative constant `dtheta_over_dXY_sq`. -/
theorem C2_theta_at_failing_input :
    secondary_CH2.theta (0 : ℚ) = 1.0376 ∧
    ((⟨1.2, 0, 0⟩ : Vec3 ℚ).sub ⟨-1.2, 0, 0⟩).length_sq = 5.76 ∧
    secondary_CH2.theta (5.76 : ℚ) = 1.238624 ∧
    secondary_CH2.theta (5.76 : ℚ) ≠ 1.0376 - 0.0349 * 5.76 ∧
    (secondary_CH2.dtheta_over_dXY_sq : ℚ) = -0.0349 ∧
    ∀ d1 d2 : ℚ, d1 < d2 → secondary_CH2.theta d1 < secondary_CH2.theta d2 := by
  refine ⟨?_, ?_, ?_, ?_, ?_, ?_⟩
  · norm_num [secondary_CH2.theta, secondary_CH2.theta0, secondary_CH2.dtheta_over_dXY_sq]
  · norm_num [Vec3.sub, Vec3.length_sq, Vec3.dot]
  · norm_num [secondary_CH2.theta, secondary_CH2.theta0, secondary_CH2.dtheta_over_dXY_sq]
  · norm_num [secondary_CH2.theta, secondary_CH2.theta0, secondary_CH2.dtheta_over_dXY_sq]
  · rfl
  · intro d1 d2 h
    simp only [secondary_CH2.theta, secondary_CH2.theta0, secondary_CH2.dtheta_over_dXY_sq]
    linarith

/-- C6, the code at the failing input.  A stretching `secondary_CH2` of bond length 1 runs
`compute_gradients` on an empty reparametrization vector, which appends one stretching gradient
and records the offset 0; `apply_shifts` with the shift `1/2` at that offset then leaves the
bond length at 1 instead of `1 + 1/2`.  The same steps on the stretching `terminal_X_Hn`
`methyl`, whose class overrides `do_apply_reparametrization_shifts`, give `1 + 1/2`. -/
theorem C6_secondary_shift_not_applied :
    (compute_gradients sample.no_math sample.methylene (unit_cell.cubic_unit ℚ)
        (sample.free_scatterers ℚ) sample.packed_map sample.ramp []).thrown = none ∧
    (compute_gradients sample.no_math sample.methylene (unit_cell.cubic_unit ℚ)
        (sample.free_scatterers ℚ) sample.packed_map sample.ramp []).state.2.2.length = 1 ∧
    (compute_gradients sample.no_math sample.methylene (unit_cell.cubic_unit ℚ)
        (sample.free_scatterers ℚ) sample.packed_map sample.ramp
        []).state.1.i_reparametrization_begin = 0 ∧
    (compute_gradients sample.no_math sample.methylene (unit_cell.cubic_unit ℚ)
        (sample.free_scatterers ℚ) sample.packed_map sample.ramp []).state.1.stretching = true ∧
    (apply_shifts sample.no_math
        (compute_gradients sample.no_math sample.methylene (unit_cell.cubic_unit ℚ)
          (sample.free_scatterers ℚ) sample.packed_map sample.ramp []).state.1
        (unit_cell.cubic_unit ℚ) (sample.free_scatterers ℚ)
        sample.half_shift).state.1.bond_length = 1 ∧
    (1 : ℚ) ≠ 1 + sample.half_shift 0 ∧
    (compute_gradients sample.no_math sample.methyl (unit_cell.cubic_unit ℚ)
        (sample.free_scatterers ℚ) sample.packed_map sample.ramp
        []).state.1.i_reparametrization_begin = 0 ∧
    (apply_shifts sample.no_math
        (compute_gradients sample.no_math sample.methyl (unit_cell.cubic_unit ℚ)
          (sample.free_scatterers ℚ) sample.packed_map sample.ramp []).state.1
        (unit_cell.cubic_unit ℚ) (sample.free_scatterers ℚ)
        sample.half_shift).state.1.bond_length = 1 + sample.half_shift 0 := by
  refine ⟨?_, ?_, ?_, ?_, ?_, ?_, ?_, ?_⟩
  · rfl
  · rfl
  · rfl
  · rfl
  · rfl
  · norm_num [sample.half_shift]
  · rfl
  · rfl

/-- C7, the code at the failing input.  A rotating, non-stretching `terminal_X_Hn` with azimuth
0 degrees runs `compute_gradients` on an empty reparametrization vector, which appends the
rotation gradient and records the offset 0; `apply_shifts` with the rotation shift 1 at that
offset follows.  `azimuth()` then returns `180/π` degrees, not `0 + 1`: the shift is added to
the azimuth held in radians, while the gradient was scaled by `π/180` to be a derivative with
respect to degrees. -/
theorem C7_rotation_shift_unit :
    (sample.rotor_propagated real_math).2.2.length = 1 ∧
    (sample.rotor_propagated real_math).1.i_reparametrization_begin = 0 ∧
    terminal_X_Hn.azimuth real_math (sample.rotor_propagated real_math).1 = 0 ∧
    terminal_X_Hn.azimuth real_math
      (apply_shifts real_math (sample.rotor_propagated real_math).1 (unit_cell.cubic_unit ℝ)
        (sample.free_scatterers ℝ) (fun _ => 1)).state.1 = 180 / Real.pi ∧
    terminal_X_Hn.azimuth real_math
      (apply_shifts real_math (sample.rotor_propagated real_math).1 (unit_cell.cubic_unit ℝ)
        (sample.free_scatterers ℝ) (fun _ => 1)).state.1 ≠ 0 + 1 := by
  have hphi0 : (sample.rotor_propagated real_math).1.phi = 0 * Real.pi / 180 := rfl
  have hphi : (apply_shifts real_math (sample.rotor_propagated real_math).1
      (unit_cell.cubic_unit ℝ) (sample.free_scatterers ℝ) (fun _ => 1)).state.1.phi
      = 0 * Real.pi / 180 + 1 := rfl
  have haz : terminal_X_Hn.azimuth real_math
      (apply_shifts real_math (sample.rotor_propagated real_math).1 (unit_cell.cubic_unit ℝ)
        (sample.free_scatterers ℝ) (fun _ => 1)).state.1 = 180 / Real.pi := by
    unfold terminal_X_Hn.azimuth
    rw [hphi]
    simp [real_math]
  refine ⟨rfl, rfl, ?_, haz, ?_⟩
  · unfold terminal_X_Hn.azimuth
    rw [hphi0]
    simp
  · rw [haz]
    have h4 : Real.pi ≤ 4 := Real.pi_le_four
    have hpos : 0 < Real.pi := Real.pi_pos
    intro h
    rw [div_eq_iff hpos.ne.symm] at h
    linarith

/-- C8.  Constraints initialised one after the other against the same flags array (whatever
the flags at the start, in particular when every `grad_site` flag is set) keep their dependents,
and whenever two of them share a dependent the one initialised later ends Disabled; so no atom
is a dependent of two constraints that are both Active. -/
theorem C8_shared_dependent_disables_later {R : Type} [LinearOrderedField R] (m : std_math R)
    (uc : unit_cell R) (scatterers : Nat → scatterer R) (cs : List (any_hydrogens R))
    (flags : Nat → scatterer_flags) (reg : Nat → Option scatterer_flags) :
    ((any_hydrogens.initialise_all m uc scatterers cs flags reg).1.map
        (fun c => (heir.base c).i_hydrogens) = cs.map (fun c => (heir.base c).i_hydrogens)) ∧
    ∀ (i j : Nat) (ci cj : any_hydrogens R) (a : Nat), i < j →
      (any_hydrogens.initialise_all m uc scatterers cs flags reg).1[i]? = some ci →
      (any_hydrogens.initialise_all m uc scatterers cs flags reg).1[j]? = some cj →
      a ∈ (heir.base ci).i_hydrogens → a ∈ (heir.base cj).i_hydrogens →
      (heir.base cj).on_ = false ∧
        ¬ ((heir.base ci).on_ = true ∧ (heir.base cj).on_ = true) := by
  have h := any_initialise_all_spec m uc scatterers cs flags reg
  refine ⟨h.1, ?_⟩
  intro i j ci cj a hij hi hj hai haj
  have hoff := h.2.2 i j ci cj a hij hi hj hai haj
  exact ⟨hoff, fun hboth => by rw [hoff] at hboth; exact Bool.noConfusion hboth.2⟩

/-- C8, worked instance: `methyl` (dependents 1, 2, 3) then `rival` (dependents 3, 6) are
initialised with every flag set; they share atom 3, and `rival`, initialised later, is
Disabled while `methyl` stays Active. -/
theorem C8_shared_dependent_disables_later_witness :
    (any_hydrogens.initialise_all sample.no_math (unit_cell.cubic_unit ℚ)
        (sample.free_scatterers ℚ)
        [any_hydrogens.terminal sample.methyl, any_hydrogens.terminal sample.rival]
        sample.all_free sample.empty_registry).1.map (fun c => (heir.base c).on_)
      = [true, false] ∧
    ∃ ci cj : any_hydrogens ℚ,
      (any_hydrogens.initialise_all sample.no_math (unit_cell.cubic_unit ℚ)
        (sample.free_scatterers ℚ)
        [any_hydrogens.terminal sample.methyl, any_hydrogens.terminal sample.rival]
        sample.all_free sample.empty_registry).1[0]? = some ci ∧
      (any_hydrogens.initialise_all sample.no_math (unit_cell.cubic_unit ℚ)
        (sample.free_scatterers ℚ)
        [any_hydrogens.terminal sample.methyl, any_hydrogens.terminal sample.rival]
        sample.all_free sample.empty_registry).1[1]? = some cj ∧
      3 ∈ (heir.base ci).i_hydrogens ∧ 3 ∈ (heir.base cj).i_hydrogens ∧
      (heir.base cj).on_ = false :=
  ⟨rfl, _, _, rfl, rfl, by decide, by decide,
    ((C8_shared_dependent_disables_later sample.no_math (unit_cell.cubic_unit ℚ)
      (sample.free_scatterers ℚ)
      [any_hydrogens.terminal sample.methyl, any_hydrogens.terminal sample.rival]
      sample.all_free sample.empty_registry).2 0 1 _ _ 3 (by decide) rfl rfl
        (by decide) (by decide)).1⟩

/-- C9.  On an Active constraint, `initialise_in_context` ends Disabled exactly when some
dependent is found with its `grad_site` flag off at the moment the loop visits it (the flags at
that moment are those left by the loop over the dependents before it: off when they were off at
the call or when the atom is also one of those earlier dependents); the registry entry of
each such dependent then holds the flags the atom had at that moment; a Disabled constraint is
the input with `on_` cleared, the variant's `do_initialise_in_context` not having run; otherwise
the result is Active and is what the variant's `do_initialise_in_context` makes of the input. -/
theorem C9_disabled_iff_conflict {R : Type} [LinearOrderedField R] (m : std_math R)
    (c : any_hydrogens R) (uc : unit_cell R) (scatterers : Nat → scatterer R)
    (flags : Nat → scatterer_flags) (reg : Nat → Option scatterer_flags)
    (h_on : (heir.base c).on_ = true) :
    ((heir.base (initialise_in_context m c uc scatterers flags reg).1).on_ = false ↔
      ∃ pre i_h post, (heir.base c).i_hydrogens = pre ++ i_h :: post ∧
        ((initialise_loop pre true flags reg).2.1 i_h).grad_site = false) ∧
    (∀ pre i_h post, (heir.base c).i_hydrogens = pre ++ i_h :: post →
      ((initialise_loop pre true flags reg).2.1 i_h).grad_site = false →
      (initialise_in_context m c uc scatterers flags reg).2.2 i_h
        = some ((initialise_loop pre true flags reg).2.1 i_h)) ∧
    ((heir.base (initialise_in_context m c uc scatterers flags reg).1).on_ = false →
      (initialise_in_context m c uc scatterers flags reg).1
        = heir.set_base c { heir.base c with on_ := false }) ∧
    ((heir.base (initialise_in_context m c uc scatterers flags reg).1).on_ ≠ false →
      (heir.base (initialise_in_context m c uc scatterers flags reg).1).on_ = true ∧
      (initialise_in_context m c uc scatterers flags reg).1
        = heir.do_initialise_in_context m uc scatterers c) ∧
    (∀ (pre : List Nat) (i_h : Nat),
      ((initialise_loop pre true flags reg).2.1 i_h).grad_site = false ↔
        ((flags i_h).grad_site = false ∨ i_h ∈ pre)) := by
  have hb := any_initialise_base m c uc scatterers flags reg
  have hon : (heir.base (initialise_in_context m c uc scatterers flags reg).1).on_
      = (initialise_loop (heir.base c).i_hydrogens true flags reg).1 := by
    rw [hb, h_on]
  have hself : heir.set_base c { heir.base c with on_ := true } = c := by
    have : ({ heir.base c with on_ := true } : geometrical_hydrogens R) = heir.base c := by
      rw [← h_on]
    rw [this, any_set_base_self]
  refine ⟨?_, ?_, ?_, ?_, ?_⟩
  · rw [hon, initialise_loop_off_iff]
    simp
  · intro pre i_h post hdec hfl
    rw [any_initialise_flags, h_on]
    exact initialise_loop_registry _ true flags reg pre i_h post hdec hfl
  · intro hoff
    rw [hon] at hoff
    unfold initialise_in_context
    simp [h_on, hoff]
  · intro hne
    have htrue : (initialise_loop (heir.base c).i_hydrogens true flags reg).1 = true := by
      rw [hon] at hne
      simpa using hne
    refine ⟨by rw [hon, htrue], ?_⟩
    unfold initialise_in_context
    simp [h_on, htrue, hself]
  · intro pre i_h
    rw [initialise_loop_flags]
    by_cases hm : i_h ∈ pre <;> simp [hm, scatterer_flags.set_grad_site]

/-- C9, worked instance: `methyl` (dependents 1, 2, 3) is initialised when atom 2 is already
constrained.  The loop finds the flag of atom 2 off after visiting atom 1, the constraint ends
Disabled, the registry holds the flags of atom 2 with their other bits, and the frame is still
the one the constraint had before the call. -/
theorem C9_disabled_iff_conflict_witness :
    (initialise_in_context sample.no_math (any_hydrogens.terminal sample.methyl)
        (unit_cell.cubic_unit ℚ) (sample.free_scatterers ℚ) sample.flags_with_2_taken
        sample.empty_registry).2.2 2 = some ⟨false, 7⟩ ∧
    (initialise_in_context sample.no_math (any_hydrogens.terminal sample.methyl)
        (unit_cell.cubic_unit ℚ) (sample.free_scatterers ℚ) sample.flags_with_2_taken
        sample.empty_registry).1
      = heir.set_base (any_hydrogens.terminal sample.methyl)
          { heir.base (any_hydrogens.terminal sample.methyl) with on_ := false } :=
  ⟨(C9_disabled_iff_conflict sample.no_math (any_hydrogens.terminal sample.methyl)
      (unit_cell.cubic_unit ℚ) (sample.free_scatterers ℚ) sample.flags_with_2_taken
      sample.empty_registry rfl).2.1 [1] 2 [3] rfl rfl,
   (C9_disabled_iff_conflict sample.no_math (any_hydrogens.terminal sample.methyl)
      (unit_cell.cubic_unit ℚ) (sample.free_scatterers ℚ) sample.flags_with_2_taken
      sample.empty_registry rfl).2.2.1
      ((C9_disabled_iff_conflict sample.no_math (any_hydrogens.terminal sample.methyl)
        (unit_cell.cubic_unit ℚ) (sample.free_scatterers ℚ) sample.flags_with_2_taken
        sample.empty_registry rfl).1.mpr ⟨[1], 2, [3], rfl, rfl⟩)⟩

/-- C4, the code at the failing input.  A methyl group (pivot at the origin, neighbour at
`(0, 0, -1)`, cubic unit cell) is initialised and placed: its frame is orthonormal.  The
neighbour then moves to `(-2, -1, -2)` and the group is placed again: the frame is still
orthogonal and `e2` is a unit vector, but `e0` and `e1` have squared length `5/9`, not 1,
because `e1 = f2 × e0` is never renormalised. -/
theorem C4_frame_after_move :
    (sample.methyl_placed real_math).1.local_cartesian_frame
      = (⟨-1, 0, 0⟩, ⟨0, -1, 0⟩, ⟨0, 0, 1⟩) ∧
    (sample.methyl_placed_again real_math).1.local_cartesian_frame
      = (⟨-5/9, 2/9, 4/9⟩, ⟨0, -2/3, 1/3⟩, ⟨2/3, 1/3, 2/3⟩) ∧
    (sample.methyl_placed_again real_math).1.e0.dot (sample.methyl_placed_again real_math).1.e1
      = 0 ∧
    (sample.methyl_placed_again real_math).1.e2.length_sq = 1 ∧
    (sample.methyl_placed_again real_math).1.e0.length_sq = 5 / 9 ∧
    (sample.methyl_placed_again real_math).1.e1.length_sq = 5 / 9 ∧
    (sample.methyl_placed_again real_math).1.e1.length real_math ≠ 1 := by
  have h1 := methyl_placed_frame
  have h2 := methyl_placed_again_frame
  have hsq : (sample.methyl_placed_again real_math).1.e1.length_sq = 5 / 9 := by
    rw [h2.2.1]; norm_num [Vec3.length_sq, Vec3.dot]
  refine ⟨?_, ?_, ?_, ?_, ?_, hsq, ?_⟩
  · simp only [terminal_X_Hn.local_cartesian_frame, h1.1, h1.2.1, h1.2.2]
  · simp only [terminal_X_Hn.local_cartesian_frame, h2.1, h2.2.1, h2.2.2]
  · rw [h2.1, h2.2.1]; norm_num [Vec3.dot]
  · rw [h2.2.2]; norm_num [Vec3.length_sq, Vec3.dot]
  · rw [h2.1]; norm_num [Vec3.length_sq, Vec3.dot]
  · intro hlen
    have hnn : 0 ≤ (sample.methyl_placed_again real_math).1.e1.length_sq := by
      rw [hsq]; norm_num
    have hmul := Real.mul_self_sqrt hnn
    have hlen2 : Real.sqrt (sample.methyl_placed_again real_math).1.e1.length_sq = 1 := hlen
    rw [hlen2, hsq] at hmul
    norm_num at hmul

/-- C3, the code at the failing input.  For the methyl group of C4 (three dependents, azimuth
0, bond length 1) the angle between the first dependent and the neighbour, seen from the pivot,
has cosine `-1/3` after the first placement, but cosine `-3/7` after the neighbour has moved to
`(-2, -1, -2)` and the group has been placed again; the dependent is then at distance `7/9`
from the pivot instead of the bond length 1. -/
theorem C3_angle_after_move :
    Vec3.cos_angle real_math
      (((sample.methyl_placed real_math).2 1).site.sub ((sample.methyl_placed real_math).2 0).site)
      (((sample.methyl_placed real_math).2 4).site.sub ((sample.methyl_placed real_math).2 0).site)
      = -1 / 3 ∧
    Vec3.cos_angle real_math
      (((sample.methyl_placed_again real_math).2 1).site.sub
        ((sample.methyl_placed_again real_math).2 0).site)
      (((sample.methyl_placed_again real_math).2 4).site.sub
        ((sample.methyl_placed_again real_math).2 0).site) = -3 / 7 ∧
    Vec3.length real_math
      (((sample.methyl_placed_again real_math).2 1).site.sub
        ((sample.methyl_placed_again real_math).2 0).site) = 7 / 9 ∧
    (sample.methyl_placed_again real_math).1.l = 1 ∧
    (-3 / 7 : ℝ) ≠ -1 / 3 := by
  have hs := real_sin_tetrahedral_sq
  have hfld := methyl_placed_fields
  have ho := methyl_placed_again_others
  have ha : Vec3.length real_math
      ((⟨constants.sin_tetrahedral_angle real_math * (-5/9) + 2/9,
          constants.sin_tetrahedral_angle real_math * (2/9) + 1/9,
          constants.sin_tetrahedral_angle real_math * (4/9) + 2/9⟩ : Vec3 ℝ).sub ⟨0, 0, 0⟩)
      = 7 / 9 := by
    apply real_length_of_sq _ _ (by norm_num)
    simp only [Vec3.length_sq, Vec3.dot, Vec3.sub]
    linear_combination (45 / 81) * hs
  have hb : Vec3.length real_math ((⟨-2, -1, -2⟩ : Vec3 ℝ).sub ⟨0, 0, 0⟩) = 3 := by
    apply real_length_of_sq _ _ (by norm_num)
    norm_num [Vec3.length_sq, Vec3.dot, Vec3.sub]
  have ha1 : Vec3.length real_math
      ((⟨-constants.sin_tetrahedral_angle real_math, 0, 1 / 3⟩ : Vec3 ℝ).sub ⟨0, 0, 0⟩) = 1 := by
    apply real_length_of_sq _ _ (by norm_num)
    simp only [Vec3.length_sq, Vec3.dot, Vec3.sub]
    linear_combination hs
  have hb1 : Vec3.length real_math ((⟨0, 0, -1⟩ : Vec3 ℝ).sub ⟨0, 0, 0⟩) = 1 := by
    apply real_length_of_sq _ _ (by norm_num)
    norm_num [Vec3.length_sq, Vec3.dot, Vec3.sub]
  refine ⟨?_, ?_, ?_, ?_, by norm_num⟩
  · rw [methyl_placed_site, hfld.2.2.2.2.2.1, hfld.2.2.2.2.2.2]
    have e0 : (sample.axis_sites ℝ 0).site = ⟨0, 0, 0⟩ := by simp [sample.axis_sites, sample.zero3]
    have e4 : (sample.axis_sites ℝ 4).site = ⟨0, 0, -1⟩ := by simp [sample.axis_sites]
    rw [e0, e4]
    simp only [Vec3.cos_angle, ha1, hb1]
    norm_num [Vec3.dot, Vec3.sub]
  · rw [methyl_placed_again_site, ho.1, ho.2]
    simp only [Vec3.cos_angle, ha, hb]
    simp only [Vec3.dot, Vec3.sub]
    field_simp
    ring
  · rw [methyl_placed_again_site, ho.1]
    exact ha
  · unfold sample.methyl_placed_again
    rw [(terminal_place_fields _ _ _ _).2.2.2.1, hfld.2.2.2.1]

/-- C5 (zero-shift round trip).  Take a constraint of any variant whose dependents fit its
index array, with pivot and neighbours distinct from the dependents, and a placement of it that
returned normally.  `apply_shifts` with the all-zero shift vector on the placed constraint and
scatterers, pivot and neighbours unmoved, returns normally and leaves the whole constraint (bond
length, azimuth, frame, stored derivatives) and every scatterer exactly as the placement left
them.  (This holds for an Active constraint, which is placed again, and for a Disabled one,
which `apply_shifts` skips.) -/
theorem C5_zero_shift_round_trip (c : any_hydrogens ℝ) (uc : unit_cell ℝ)
    (scatterers : Nat → scatterer ℝ)
    (h_wf : c.well_formed)
    (h_pivot : (heir.base c).i_pivot ∉ (heir.base c).i_hydrogens)
    (h_nb : ∀ n ∈ c.pivot_neighbours, n ∉ (heir.base c).i_hydrogens)
    (h_placed : (heir.place_constrained_scatterers real_math uc c scatterers).thrown = none) :
    apply_shifts real_math (heir.place_constrained_scatterers real_math uc c scatterers).state.1
        uc (heir.place_constrained_scatterers real_math uc c scatterers).state.2 (fun _ => 0)
      = outcome.ok (heir.place_constrained_scatterers real_math uc c scatterers).state := by
  cases c with
  | terminal t =>
    have hidem := terminal_idem uc t scatterers h_pivot
      (h_nb t.i_pivot_neighbour (by simp [any_hydrogens.pivot_neighbours]))
    have hthr : (terminal_X_Hn.place_constrained_scatterers real_math uc t scatterers).thrown
        = none := h_placed
    unfold apply_shifts
    split
    · rfl
    · show (terminal_X_Hn.place_constrained_scatterers real_math uc
          (terminal_X_Hn.do_apply_reparametrization_shifts
            (terminal_X_Hn.place_constrained_scatterers real_math uc t scatterers).state.1
            (fun _ => 0))
          (terminal_X_Hn.place_constrained_scatterers real_math uc t scatterers).state.2).map
            (fun r => (any_hydrogens.terminal r.1, r.2)) = _
      rw [terminal_do_apply_zero, hidem]
      simp only [outcome.map, hthr]
      rfl
  | secondary t =>
    have hidem := secondary_idem real_math uc t scatterers h_wf h_pivot
      (h_nb t.i_pivot_neighbours.1 (by simp [any_hydrogens.pivot_neighbours]))
      (h_nb t.i_pivot_neighbours.2 (by simp [any_hydrogens.pivot_neighbours]))
    unfold apply_shifts
    split
    · rfl
    · show (secondary_CH2.place_constrained_scatterers real_math uc
          (secondary_CH2.place_constrained_scatterers real_math uc t scatterers).state.1
          (secondary_CH2.place_constrained_scatterers real_math uc t scatterers).state.2).map
            (fun r => (any_hydrogens.secondary r.1, r.2)) = _
      rw [hidem]
      rfl
  | tertiary t =>
    have hidem := tertiary_idem real_math uc t scatterers h_wf h_pivot
      (h_nb t.i_pivot_neighbours.1 (by simp [any_hydrogens.pivot_neighbours]))
      (h_nb t.i_pivot_neighbours.2.1 (by simp [any_hydrogens.pivot_neighbours]))
      (h_nb t.i_pivot_neighbours.2.2 (by simp [any_hydrogens.pivot_neighbours]))
    unfold apply_shifts
    split
    · rfl
    · show (tertiary_CH.place_constrained_scatterers real_math uc
          (tertiary_CH.place_constrained_scatterers real_math uc t scatterers).state.1
          (tertiary_CH.place_constrained_scatterers real_math uc t scatterers).state.2).map
            (fun r => (any_hydrogens.tertiary r.1, r.2)) = _
      rw [hidem]
      rfl
  | aromatic t =>
    have hidem := aromatic_idem real_math uc t scatterers h_wf h_pivot
      (h_nb t.i_pivot_neighbours.1 (by simp [any_hydrogens.pivot_neighbours]))
      (h_nb t.i_pivot_neighbours.2 (by simp [any_hydrogens.pivot_neighbours]))
    unfold apply_shifts
    split
    · rfl
    · show (aromatic_CH_or_amide_NH.place_constrained_scatterers real_math uc
          (aromatic_CH_or_amide_NH.place_constrained_scatterers real_math uc t
            scatterers).state.1
          (aromatic_CH_or_amide_NH.place_constrained_scatterers real_math uc t
            scatterers).state.2).map
            (fun r => (any_hydrogens.aromatic r.1, r.2)) = _
      rw [hidem]
      rfl

/-- C5, worked instance: the Active methyl group `methyl_initialised` (pivot at the origin,
neighbour at `(0, 0, -1)`, dependents 1, 2, 3) is placed, then receives the all-zero shift
vector: constraint and scatterers are those of the placement. -/
theorem C5_zero_shift_round_trip_witness :
    (heir.base (any_hydrogens.terminal (sample.methyl_initialised real_math))).on_ = true ∧
    apply_shifts real_math
        (heir.place_constrained_scatterers real_math (unit_cell.cubic_unit ℝ)
          (any_hydrogens.terminal (sample.methyl_initialised real_math))
          (sample.axis_sites ℝ)).state.1
        (unit_cell.cubic_unit ℝ)
        (heir.place_constrained_scatterers real_math (unit_cell.cubic_unit ℝ)
          (any_hydrogens.terminal (sample.methyl_initialised real_math))
          (sample.axis_sites ℝ)).state.2 (fun _ => 0)
      = outcome.ok (heir.place_constrained_scatterers real_math (unit_cell.cubic_unit ℝ)
          (any_hydrogens.terminal (sample.methyl_initialised real_math))
          (sample.axis_sites ℝ)).state :=
  ⟨rfl,
    C5_zero_shift_round_trip (any_hydrogens.terminal (sample.methyl_initialised real_math))
      (unit_cell.cubic_unit ℝ) (sample.axis_sites ℝ)
      (by
        show (sample.methyl_initialised real_math).i_hydrogens.length ≤ 3
        rw [methyl_initialised_eq]
        decide)
      (by
        show (sample.methyl_initialised real_math).i_pivot
          ∉ (sample.methyl_initialised real_math).i_hydrogens
        rw [methyl_initialised_eq]
        decide)
      (by
        intro n hn
        show n ∉ (sample.methyl_initialised real_math).i_hydrogens
        have h4 : n = 4 := by
          have : n ∈ [(sample.methyl_initialised real_math).i_pivot_neighbour] := hn
          rw [methyl_initialised_eq] at this
          simpa [sample.methyl_of, terminal_X_Hn.mk_ctor] using this
        subst h4
        rw [methyl_initialised_eq]
        decide)
      rfl⟩

/-- C10, the code at the failing input.  The constraint `rotor` (pivot 0 at the origin,
neighbour 1 at `(0, 0, -1)`, dependent 2 at `(5, 5, 5)`, bond length 1) is Disabled by
`initialise_in_context` because atom 2 is already constrained; its frame, never initialised,
is indeterminate (null in this instance).  `place_constrained_scatterers` on the Disabled
constraint returns normally, moves atom 2 to `(0, 0, 1/3)` and writes the frame axis `e2`: it
has no test of `on_`, whereas `apply_shifts`, which has one, leaves the same constraint and
scatterers alone. -/
theorem C10_disabled_place_moves_site :
    (sample.rotor_disabled real_math).on_ = false ∧
    (terminal_X_Hn.place_constrained_scatterers real_math (unit_cell.cubic_unit ℝ)
      (sample.rotor_disabled real_math) (sample.rotor_sites ℝ)).thrown = none ∧
    (sample.rotor_sites ℝ 2).site = ⟨5, 5, 5⟩ ∧
    ((terminal_X_Hn.place_constrained_scatterers real_math (unit_cell.cubic_unit ℝ)
      (sample.rotor_disabled real_math) (sample.rotor_sites ℝ)).state.2 2).site
      = ⟨0, 0, 1 / 3⟩ ∧
    (sample.rotor_disabled real_math).e2 = ⟨0, 0, 0⟩ ∧
    (terminal_X_Hn.place_constrained_scatterers real_math (unit_cell.cubic_unit ℝ)
      (sample.rotor_disabled real_math) (sample.rotor_sites ℝ)).state.1.e2 = ⟨0, 0, 1⟩ ∧
    apply_shifts real_math (sample.rotor_disabled real_math) (unit_cell.cubic_unit ℝ)
      (sample.rotor_sites ℝ) (fun _ => 1)
      = outcome.ok (sample.rotor_disabled real_math, sample.rotor_sites ℝ) := by
  have hf := terminal_place_frame real_math (unit_cell.cubic_unit ℝ)
    (sample.rotor_disabled real_math) (sample.rotor_sites ℝ)
  have hb : ((unit_cell.cubic_unit ℝ).orthogonalize
      (sample.rotor_sites ℝ (sample.rotor_disabled real_math).i_pivot).site).sub
      ((unit_cell.cubic_unit ℝ).orthogonalize
        (sample.rotor_sites ℝ (sample.rotor_disabled real_math).i_pivot_neighbour).site)
      = ⟨0, 0, 1⟩ := by
    have hp : (sample.rotor_disabled real_math).i_pivot = 0 := rfl
    have hn : (sample.rotor_disabled real_math).i_pivot_neighbour = 1 := rfl
    rw [hp, hn]
    norm_num [sample.rotor_sites, unit_cell.cubic_unit, sample.zero3, Vec3.sub]
  have he0 : (sample.rotor_disabled real_math).e0 = ⟨0, 0, 0⟩ := rfl
  rw [hb, real_normalize_z, he0] at hf
  have hsite := terminal_place_site_head real_math (unit_cell.cubic_unit ℝ)
    (sample.rotor_disabled real_math) (sample.rotor_sites ℝ) 2 [] rfl (by decide)
    (Or.inl rfl)
  refine ⟨rfl, rfl, ?_, ?_, rfl, hf.1, rfl⟩
  · simp [sample.rotor_sites]
  · rw [hsite, hf.1, hf.2.1, hf.2.2]
    have hp : (sample.rotor_disabled real_math).i_pivot = 0 := rfl
    have hl : (sample.rotor_disabled real_math).l = 1 := rfl
    rw [hp, hl]
    simp [sample.rotor_sites, unit_cell.cubic_unit, sample.zero3, Vec3.add, Vec3.smul,
      Vec3.div, Vec3.cross]

/-- C11.  On a Disabled constraint of any variant, for all inputs, `compute_gradients` returns
normally with the constraint (its recorded offset included), the crystallographic gradients and
the reparametrization gradients unchanged, and `apply_shifts` returns normally with the
constraint (bond length and azimuth included) and every scatterer unchanged. -/
theorem C11_disabled_is_noop {R : Type} [LinearOrderedField R] (m : std_math R)
    (c : any_hydrogens R) (uc : unit_cell R) (scatterers : Nat → scatterer R)
    (pm : Nat → parameter_indices) (g : Nat → R) (rg : List R) (shifts : Nat → R)
    (h_off : (heir.base c).on_ = false) :
    compute_gradients m c uc scatterers pm g rg = outcome.ok (c, g, rg) ∧
    apply_shifts m c uc scatterers shifts = outcome.ok (c, scatterers) := by
  constructor
  · unfold compute_gradients
    simp [h_off]
  · unfold apply_shifts
    simp [h_off]

/-- C11, worked instance: the constraint `rotor_disabled`, which `initialise_in_context` has
switched off, on the gradient vector `k ↦ k + 1`, the reparametrization gradients `[7]` and the
shift vector `half_shift`. -/
theorem C11_disabled_is_noop_witness :
    compute_gradients sample.no_math
        (any_hydrogens.terminal (sample.rotor_disabled sample.no_math))
        (unit_cell.cubic_unit ℚ) (sample.rotor_sites ℚ) sample.packed_map sample.ramp [7]
      = outcome.ok (any_hydrogens.terminal (sample.rotor_disabled sample.no_math),
          sample.ramp, [7]) ∧
    apply_shifts sample.no_math (any_hydrogens.terminal (sample.rotor_disabled sample.no_math))
        (unit_cell.cubic_unit ℚ) (sample.rotor_sites ℚ) sample.half_shift
      = outcome.ok (any_hydrogens.terminal (sample.rotor_disabled sample.no_math),
          sample.rotor_sites ℚ) :=
  C11_disabled_is_noop sample.no_math
    (any_hydrogens.terminal (sample.rotor_disabled sample.no_math))
    (unit_cell.cubic_unit ℚ) (sample.rotor_sites ℚ) sample.packed_map sample.ramp [7]
    sample.half_shift rfl

/-- C12.  On an Active constraint of any variant whose dependents carry the `grad_site` flag
(the assertion of the riding loop), `compute_gradients` returns normally and only appends to
the reparametrization gradients: the vector before the call is a prefix of the vector after it;
the number of appended entries is the number of enabled modes; with stretching enabled the
entry at the old length is the stretching derivative; for a rotating `terminal_X_Hn` the
rotation derivative is at the old length plus one when stretching is enabled too, and at the
old length otherwise; with no mode enabled nothing is appended and the constraint is unchanged;
with at least one mode enabled the recorded offset is the old length. -/
theorem C12_append_only {R : Type} [LinearOrderedField R] (m : std_math R)
    (c : any_hydrogens R) (uc : unit_cell R)
    (scatterers : Nat → scatterer R) (pm : Nat → parameter_indices) (g : Nat → R)
    (rg : List R) (h_on : (heir.base c).on_ = true)
    (h_flags : ∀ i_h ∈ (heir.base c).i_hydrogens, (scatterers i_h).flags.grad_site = true) :
    ∃ (c1 : any_hydrogens R) (g1 : Nat → R) (rg1 : List R),
      compute_gradients m c uc scatterers pm g rg = outcome.ok (c1, g1, rg1) ∧
      rg <+: rg1 ∧
      rg1.length = rg.length + c.enabled_modes ∧
      ((heir.base c).stretching = true →
        rg1[rg.length]? = some (stretching_sum uc pm g1 (heir.base c).dx_over_dl
          (heir.base c).i_hydrogens 0 0)) ∧
      (∀ t : terminal_X_Hn R, c = any_hydrogens.terminal t → t.rotating = true →
        rg1[rg.length + (if t.stretching then 1 else 0)]?
          = some (terminal_X_Hn.rotation_sum t.dx_over_dphi
              (cartesian_gradients uc pm g1 t.i_hydrogens) 0 0 * (m.pi / 180))) ∧
      (c.enabled_modes = 0 → rg1 = rg ∧ c1 = c) ∧
      (0 < c.enabled_modes → (heir.base c1).i_reparametrization_begin = rg.length) := by
  cases c with
  | terminal t =>
    obtain ⟨⟨on_, i_pivot, i_hyd, str, l, beg, dxl⟩, nb, rot, e0, e1, e2, phi, dxphi⟩ := t
    have hrid := riding_thrown_none scatterers pm i_pivot i_hyd g h_flags
    cases str <;> cases rot
    all_goals
      rw [compute_gradients_reparam m _ uc scatterers pm g rg h_on hrid]
      simp only [any_has_active_terminal, any_base_terminal, any_reparam_terminal, any_set_base_terminal, geometrical_hydrogens.stretching, Bool.or_true, Bool.or_false,
        Bool.false_eq_true, if_true, if_false, List.append_assoc, List.singleton_append]
      refine ⟨_, _, _, rfl, ?_, ?_, ?_, ?_, ?_, ?_⟩
      · first
          | exact List.prefix_refl _
          | exact List.prefix_append _ _
      · simp [any_hydrogens.enabled_modes, any_hydrogens.rotating, terminal_X_Hn.rotating,
                geometrical_hydrogens.stretching, any_base_terminal, any_base_secondary,
                any_base_tertiary, any_base_aromatic]
      · intro h
        first
          | exact list_at_length _ _ _
          | (exfalso; simp at h)
      · intro t1 ht1 hr1
        cases ht1
        first
          | (simp only [geometrical_hydrogens.stretching, Bool.false_eq_true, if_true, if_false,
               Nat.add_zero]
             first
               | exact list_at_length_succ _ _ _ _
               | exact list_at_length _ _ _)
          | (exfalso; simp [terminal_X_Hn.rotating] at hr1)
      · intro h
        first
          | exact ⟨rfl, rfl⟩
          | (exfalso; simp [any_hydrogens.enabled_modes, any_hydrogens.rotating, terminal_X_Hn.rotating,
                geometrical_hydrogens.stretching, any_base_terminal, any_base_secondary,
                any_base_tertiary, any_base_aromatic] at h)
      · intro h
        first
          | rfl
          | (exfalso; simp [any_hydrogens.enabled_modes, any_hydrogens.rotating, terminal_X_Hn.rotating,
                geometrical_hydrogens.stretching, any_base_terminal, any_base_secondary,
                any_base_tertiary, any_base_aromatic] at h)
  | secondary t =>
    obtain ⟨⟨on_, i_pivot, i_hyd, str, l, beg, dxl⟩, nbs⟩ := t
    have hrid := riding_thrown_none scatterers pm i_pivot i_hyd g h_flags
    cases str
    all_goals
      rw [compute_gradients_reparam m _ uc scatterers pm g rg h_on hrid]
      simp only [any_has_active_secondary, any_base_secondary, any_reparam_secondary, any_set_base_secondary, geometrical_hydrogens.stretching, Bool.or_true, Bool.or_false,
        Bool.false_eq_true, if_true, if_false, List.append_assoc, List.singleton_append]
      refine ⟨_, _, _, rfl, ?_, ?_, ?_, ?_, ?_, ?_⟩
      · first
          | exact List.prefix_refl _
          | exact List.prefix_append _ _
      · simp [any_hydrogens.enabled_modes, any_hydrogens.rotating, terminal_X_Hn.rotating,
                geometrical_hydrogens.stretching, any_base_terminal, any_base_secondary,
                any_base_tertiary, any_base_aromatic]
      · intro h
        first
          | exact list_at_length _ _ _
          | (exfalso; simp at h)
      · intro t1 ht1 hr1
        cases ht1
      · intro h
        first
          | exact ⟨rfl, rfl⟩
          | (exfalso; simp [any_hydrogens.enabled_modes, any_hydrogens.rotating, terminal_X_Hn.rotating,
                geometrical_hydrogens.stretching, any_base_terminal, any_base_secondary,
                any_base_tertiary, any_base_aromatic] at h)
      · intro h
        first
          | rfl
          | (exfalso; simp [any_hydrogens.enabled_modes, any_hydrogens.rotating, terminal_X_Hn.rotating,
                geometrical_hydrogens.stretching, any_base_terminal, any_base_secondary,
                any_base_tertiary, any_base_aromatic] at h)
  | tertiary t =>
    obtain ⟨⟨on_, i_pivot, i_hyd, str, l, beg, dxl⟩, nbs⟩ := t
    have hrid := riding_thrown_none scatterers pm i_pivot i_hyd g h_flags
    cases str
    all_goals
      rw [compute_gradients_reparam m _ uc scatterers pm g rg h_on hrid]
      simp only [any_has_active_tertiary, any_base_tertiary, any_reparam_tertiary, any_set_base_tertiary, geometrical_hydrogens.stretching, Bool.or_true, Bool.or_false,
        Bool.false_eq_true, if_true, if_false, List.append_assoc, List.singleton_append]
      refine ⟨_, _, _, rfl, ?_, ?_, ?_, ?_, ?_, ?_⟩
      · first
          | exact List.prefix_refl _
          | exact List.prefix_append _ _
      · simp [any_hydrogens.enabled_modes, any_hydrogens.rotating, terminal_X_Hn.rotating,
                geometrical_hydrogens.stretching, any_base_terminal, any_base_secondary,
                any_base_tertiary, any_base_aromatic]
      · intro h
        first
          | exact list_at_length _ _ _
          | (exfalso; simp at h)
      · intro t1 ht1 hr1
        cases ht1
      · intro h
        first
          | exact ⟨rfl, rfl⟩
          | (exfalso; simp [any_hydrogens.enabled_modes, any_hydrogens.rotating, terminal_X_Hn.rotating,
                geometrical_hydrogens.stretching, any_base_terminal, any_base_secondary,
                any_base_tertiary, any_base_aromatic] at h)
      · intro h
        first
          | rfl
          | (exfalso; simp [any_hydrogens.enabled_modes, any_hydrogens.rotating, terminal_X_Hn.rotating,
                geometrical_hydrogens.stretching, any_base_terminal, any_base_secondary,
                any_base_tertiary, any_base_aromatic] at h)
  | aromatic t =>
    obtain ⟨⟨on_, i_pivot, i_hyd, str, l, beg, dxl⟩, nbs⟩ := t
    have hrid := riding_thrown_none scatterers pm i_pivot i_hyd g h_flags
    cases str
    all_goals
      rw [compute_gradients_reparam m _ uc scatterers pm g rg h_on hrid]
      simp only [any_has_active_aromatic, any_base_aromatic, any_reparam_aromatic, any_set_base_aromatic, geometrical_hydrogens.stretching, Bool.or_true, Bool.or_false,
        Bool.false_eq_true, if_true, if_false, List.append_assoc, List.singleton_append]
      refine ⟨_, _, _, rfl, ?_, ?_, ?_, ?_, ?_, ?_⟩
      · first
          | exact List.prefix_refl _
          | exact List.prefix_append _ _
      · simp [any_hydrogens.enabled_modes, any_hydrogens.rotating, terminal_X_Hn.rotating,
                geometrical_hydrogens.stretching, any_base_terminal, any_base_secondary,
                any_base_tertiary, any_base_aromatic]
      · intro h
        first
          | exact list_at_length _ _ _
          | (exfalso; simp at h)
      · intro t1 ht1 hr1
        cases ht1
      · intro h
        first
          | exact ⟨rfl, rfl⟩
          | (exfalso; simp [any_hydrogens.enabled_modes, any_hydrogens.rotating, terminal_X_Hn.rotating,
                geometrical_hydrogens.stretching, any_base_terminal, any_base_secondary,
                any_base_tertiary, any_base_aromatic] at h)
      · intro h
        first
          | rfl
          | (exfalso; simp [any_hydrogens.enabled_modes, any_hydrogens.rotating, terminal_X_Hn.rotating,
                geometrical_hydrogens.stretching, any_base_terminal, any_base_secondary,
                any_base_tertiary, any_base_aromatic] at h)

/-- C12, worked instance: the rotating and stretching `methyl` on the reparametrization
gradients `[7]`: the call returns normally, `[7]` is a prefix of the result and two entries
are appended. -/
theorem C12_append_only_witness :
    ∃ (c1 : any_hydrogens ℚ) (g1 : Nat → ℚ) (rg1 : List ℚ),
      compute_gradients sample.no_math (any_hydrogens.terminal sample.methyl)
          (unit_cell.cubic_unit ℚ) (sample.free_scatterers ℚ) sample.packed_map sample.ramp [7]
        = outcome.ok (c1, g1, rg1) ∧
      [7] <+: rg1 ∧ rg1.length = 1 + 2 ∧
      (heir.base c1).i_reparametrization_begin = 1 := by
  obtain ⟨c1, g1, rg1, h1, h2, h3, _, _, _, h7⟩ :=
    C12_append_only sample.no_math (any_hydrogens.terminal sample.methyl)
      (unit_cell.cubic_unit ℚ) (sample.free_scatterers ℚ) sample.packed_map sample.ramp [7]
      rfl (by intro i_h _; rfl)
  exact ⟨c1, g1, rg1, h1, h2, h3, h7 (by decide)⟩

/-- C15.  `terminal_X_Hn::place_constrained_scatterers` throws exactly when the number of
dependents is not 1, 2 or 3; the exception is then the run-time error "smtbx: number of
geometric hydrogens must be 1,2 or 3" and the scatterers are those passed in, no site having
been written. -/
theorem C15_place_throws_iff_bad_count {R : Type} [LinearOrderedField R] (m : std_math R)
    (uc : unit_cell R) (t : terminal_X_Hn R) (scatterers : Nat → scatterer R) :
    ((terminal_X_Hn.place_constrained_scatterers m uc t scatterers).thrown ≠ none ↔
      ¬ (t.i_hydrogens.length = 1 ∨ t.i_hydrogens.length = 2 ∨ t.i_hydrogens.length = 3)) ∧
    (¬ (t.i_hydrogens.length = 1 ∨ t.i_hydrogens.length = 2 ∨ t.i_hydrogens.length = 3) →
      (terminal_X_Hn.place_constrained_scatterers m uc t scatterers).thrown
        = some "smtbx: number of geometric hydrogens must be 1,2 or 3" ∧
      (terminal_X_Hn.place_constrained_scatterers m uc t scatterers).state.2 = scatterers) := by
  unfold terminal_X_Hn.place_constrained_scatterers
  by_cases h : t.i_hydrogens.length = 1 ∨ t.i_hydrogens.length = 2 ∨ t.i_hydrogens.length = 3
  · simp [h, outcome.ok]
  · simp [h, outcome.throw]

/-- C13 (offset/slice contract of `terminal_X_Hn`).  An Active constraint with at least one
mode enabled, whose dependents carry the `grad_site` flag, runs `compute_gradients` on the
reparametrization gradients `rg`: the offset it records is `o = rg.length`.  With stretching
enabled the stretching gradient is entry `o` and the following `apply_shifts` adds
`shifts[o]` to the bond length; with both modes enabled the rotation gradient is entry `o + 1`
and `shifts[o + 1]` is added to the azimuth member `phi`; with rotating alone the rotation
gradient is entry `o` and `shifts[o]` is added to `phi`; a mode that is off leaves its
parameter alone; and two shift vectors that agree on the entries so read give the same result
of `apply_shifts`. -/
theorem C13_offset_slice {R : Type} [LinearOrderedField R] (m : std_math R) (t : terminal_X_Hn R) (uc : unit_cell R)
    (scatterers scatterers2 : Nat → scatterer R) (pm : Nat → parameter_indices) (g : Nat → R)
    (rg : List R) (shifts shifts2 : Nat → R)
    (h_on : t.on_ = true)
    (h_flags : ∀ i_h ∈ t.i_hydrogens, (scatterers i_h).flags.grad_site = true)
    (h_mode : t.stretching = true ∨ t.rotating = true) :
    ∃ (t1 : terminal_X_Hn R) (g1 : Nat → R) (rg1 : List R),
      compute_gradients m t uc scatterers pm g rg = outcome.ok (t1, g1, rg1) ∧
      t1.i_reparametrization_begin = rg.length ∧
      (t.stretching = true →
        rg1[rg.length]? = some (stretching_sum uc pm g1 t.dx_over_dl t.i_hydrogens 0 0) ∧
        (apply_shifts m t1 uc scatterers2 shifts).state.1.l = t.l + shifts rg.length) ∧
      (t.stretching = false →
        (apply_shifts m t1 uc scatterers2 shifts).state.1.l = t.l) ∧
      (t.stretching = true → t.rotating = true →
        rg1[rg.length + 1]? = some (terminal_X_Hn.rotation_sum t.dx_over_dphi
          (cartesian_gradients uc pm g1 t.i_hydrogens) 0 0 * (m.pi / 180)) ∧
        (apply_shifts m t1 uc scatterers2 shifts).state.1.phi
          = t.phi + shifts (rg.length + 1)) ∧
      (t.stretching = false → t.rotating = true →
        rg1[rg.length]? = some (terminal_X_Hn.rotation_sum t.dx_over_dphi
          (cartesian_gradients uc pm g1 t.i_hydrogens) 0 0 * (m.pi / 180)) ∧
        (apply_shifts m t1 uc scatterers2 shifts).state.1.phi = t.phi + shifts rg.length) ∧
      (t.rotating = false →
        (apply_shifts m t1 uc scatterers2 shifts).state.1.phi = t.phi) ∧
      ((t.stretching = true → shifts rg.length = shifts2 rg.length) →
        (t.rotating = true →
          shifts (rg.length + (if t.stretching then 1 else 0))
            = shifts2 (rg.length + (if t.stretching then 1 else 0))) →
        apply_shifts m t1 uc scatterers2 shifts = apply_shifts m t1 uc scatterers2 shifts2) := by
  have hm : (t.stretching_ || t.rotating_) = true := by
    rcases h_mode with h | h
    · have : t.stretching_ = true := h
      simp [this]
    · have : t.rotating_ = true := h
      simp [this]
  have h_on1 : ({ t with i_reparametrization_begin := rg.length } : terminal_X_Hn R).on_
      = true := h_on
  have hl : ∀ sh : Nat → R,
      (apply_shifts m ({ t with i_reparametrization_begin := rg.length } : terminal_X_Hn R) uc
        scatterers2 sh).state.1.l
      = t.l + (if t.stretching_ then sh rg.length else 0) := by
    intro sh
    rw [terminal_apply_shifts_eq _ _ _ _ _ h_on1, (terminal_place_fields _ _ _ _).2.2.2.1,
      terminal_do_apply_l]
  have hphi : ∀ sh : Nat → R,
      (apply_shifts m ({ t with i_reparametrization_begin := rg.length } : terminal_X_Hn R) uc
        scatterers2 sh).state.1.phi
      = t.phi + (if t.rotating_ then sh (rg.length + (if t.stretching_ then 1 else 0))
          else 0) := by
    intro sh
    rw [terminal_apply_shifts_eq _ _ _ _ _ h_on1, (terminal_place_fields _ _ _ _).2.2.2.2.1,
      terminal_do_apply_phi]
  refine ⟨_, _, _, terminal_compute_gradients_ok m t uc scatterers pm g rg h_on h_flags hm, rfl,
    ?_, ?_, ?_, ?_, ?_, ?_⟩
  · intro hs
    have hs2 : t.stretching_ = true := hs
    refine ⟨?_, ?_⟩
    · simp only [hs2, if_true, List.append_assoc, List.singleton_append]
      exact list_at_length _ _ _
    · rw [hl]; simp [hs2]
  · intro hs
    have hs2 : t.stretching_ = false := hs
    rw [hl]; simp [hs2]
  · intro hs hr
    have hs2 : t.stretching_ = true := hs
    have hr2 : t.rotating_ = true := hr
    refine ⟨?_, ?_⟩
    · simp only [hs2, hr2, if_true, List.append_assoc, List.singleton_append]
      exact list_at_length_succ _ _ _ _
    · rw [hphi]; simp [hs2, hr2]
  · intro hs hr
    have hs2 : t.stretching_ = false := hs
    have hr2 : t.rotating_ = true := hr
    refine ⟨?_, ?_⟩
    · simp only [hs2, hr2, if_true, Bool.false_eq_true, if_false, List.append_nil]
      exact list_at_length _ _ _
    · rw [hphi]; simp [hs2, hr2]
  · intro hr
    have hr2 : t.rotating_ = false := hr
    rw [hphi]; simp [hr2]
  · intro h1 h2
    rw [terminal_apply_shifts_eq _ _ _ _ _ h_on1, terminal_apply_shifts_eq _ _ _ _ _ h_on1]
    rw [terminal_do_apply_congr _ shifts shifts2 h1 h2]

/-- C13, worked instance: the rotating and stretching `methyl` on the reparametrization
gradients `[7]` records the offset 1; `apply_shifts` with shifts `k ↦ k + 1` then adds
`shifts[1] = 2` to the bond length 1 and `shifts[2] = 3` to `phi = 0`. -/
theorem C13_offset_slice_witness :
    ∃ (t1 : terminal_X_Hn ℚ) (g1 : Nat → ℚ) (rg1 : List ℚ),
      compute_gradients sample.no_math sample.methyl (unit_cell.cubic_unit ℚ)
          (sample.free_scatterers ℚ) sample.packed_map sample.ramp [7]
        = outcome.ok (t1, g1, rg1) ∧
      t1.i_reparametrization_begin = 1 ∧
      (apply_shifts sample.no_math t1 (unit_cell.cubic_unit ℚ) (sample.free_scatterers ℚ)
        sample.ramp).state.1.l = 1 + 2 ∧
      (apply_shifts sample.no_math t1 (unit_cell.cubic_unit ℚ) (sample.free_scatterers ℚ)
        sample.ramp).state.1.phi = 0 + 3 := by
  obtain ⟨t1, g1, rg1, h1, h2, h3, _, h5, _⟩ :=
    C13_offset_slice sample.no_math sample.methyl (unit_cell.cubic_unit ℚ)
      (sample.free_scatterers ℚ) (sample.free_scatterers ℚ) sample.packed_map sample.ramp [7]
      sample.ramp sample.ramp rfl (by intro i_h _; rfl) (Or.inl rfl)
  refine ⟨t1, g1, rg1, h1, h2, ?_, ?_⟩
  · rw [(h3 rfl).2]
    norm_num [sample.methyl, terminal_X_Hn.mk_ctor, geometrical_hydrogens.mk_ctor, sample.ramp]
  · rw [(h5 rfl rfl).2]
    norm_num [sample.methyl, terminal_X_Hn.mk_ctor, sample.ramp]

/-- C14, counterexample.  Constructing a `terminal_X_Hn` with zero dependents returns normally:
the object has no dependent and is Active, and `initialise_in_context` and `compute_gradients`
run on it and return normally. -/
theorem C14_constructor_accepts_zero_dependents :
    (terminal_X_Hn.construct sample.no_math (sample.garbage_terminal ℚ) 0 1 [] 0 1 true
      false).thrown = none ∧
    (terminal_X_Hn.construct sample.no_math (sample.garbage_terminal ℚ) 0 1 [] 0 1 true
      false).state.i_hydrogens = [] ∧
    (initialise_in_context sample.no_math
      (terminal_X_Hn.construct sample.no_math (sample.garbage_terminal ℚ) 0 1 [] 0 1 true
        false).state
      (unit_cell.cubic_unit ℚ) (sample.rotor_sites ℚ) sample.all_free
      sample.empty_registry).1.on_ = true ∧
    (compute_gradients sample.no_math
      (initialise_in_context sample.no_math
        (terminal_X_Hn.construct sample.no_math (sample.garbage_terminal ℚ) 0 1 [] 0 1 true
          false).state
        (unit_cell.cubic_unit ℚ) (sample.rotor_sites ℚ) sample.all_free
        sample.empty_registry).1
      (unit_cell.cubic_unit ℚ) (sample.rotor_sites ℚ) sample.packed_map sample.ramp
      []).thrown = none :=
  ⟨rfl, rfl, rfl, rfl⟩

/-- C14, amended.  For every pivot, neighbour, azimuth, bond length and modes, constructing a
`terminal_X_Hn` with zero dependents returns normally with an Active constraint;
`initialise_in_context` leaves it Active and `compute_gradients` returns normally on it; the
configuration error "smtbx: number of geometric hydrogens must be 1,2 or 3" is thrown by
`place_constrained_scatterers`, and by `apply_shifts`, which places. -/
theorem C14_zero_dependents_fail_at_placement {R : Type} [LinearOrderedField R]
    (m : std_math R) (garbage : terminal_X_Hn R) (pivot pivot_neighbour : Nat)
    (azimuth_ bond_length : R) (rotating stretching : Bool) (uc : unit_cell R)
    (scatterers : Nat → scatterer R) (flags : Nat → scatterer_flags)
    (reg : Nat → Option scatterer_flags) (pm : Nat → parameter_indices) (g : Nat → R)
    (rg : List R) (shifts : Nat → R) :
    (terminal_X_Hn.construct m garbage pivot pivot_neighbour [] azimuth_ bond_length rotating
      stretching).thrown = none ∧
    (initialise_in_context m
      (terminal_X_Hn.construct m garbage pivot pivot_neighbour [] azimuth_ bond_length rotating
        stretching).state uc scatterers flags reg).1.on_ = true ∧
    (compute_gradients m
      (initialise_in_context m
        (terminal_X_Hn.construct m garbage pivot pivot_neighbour [] azimuth_ bond_length
          rotating stretching).state uc scatterers flags reg).1
      uc scatterers pm g rg).thrown = none ∧
    (terminal_X_Hn.place_constrained_scatterers m uc
      (initialise_in_context m
        (terminal_X_Hn.construct m garbage pivot pivot_neighbour [] azimuth_ bond_length
          rotating stretching).state uc scatterers flags reg).1
      scatterers).thrown = some "smtbx: number of geometric hydrogens must be 1,2 or 3" ∧
    (apply_shifts m
      (initialise_in_context m
        (terminal_X_Hn.construct m garbage pivot pivot_neighbour [] azimuth_ bond_length
          rotating stretching).state uc scatterers flags reg).1
      uc scatterers shifts).thrown
      = some "smtbx: number of geometric hydrogens must be 1,2 or 3" := by
  have hinit : (initialise_in_context m
      (terminal_X_Hn.construct m garbage pivot pivot_neighbour [] azimuth_ bond_length rotating
        stretching).state uc scatterers flags reg).1
      = terminal_X_Hn.do_initialise_in_context m uc scatterers
          (terminal_X_Hn.mk_ctor m garbage pivot pivot_neighbour [] azimuth_ bond_length
            rotating stretching) := rfl
  rw [hinit]
  have hon : (terminal_X_Hn.do_initialise_in_context m uc scatterers
      (terminal_X_Hn.mk_ctor m garbage pivot pivot_neighbour [] azimuth_ bond_length
        rotating stretching)).on_ = true := rfl
  have hhyd : (terminal_X_Hn.do_initialise_in_context m uc scatterers
      (terminal_X_Hn.mk_ctor m garbage pivot pivot_neighbour [] azimuth_ bond_length
        rotating stretching)).i_hydrogens = [] := rfl
  have hplace : ∀ (t : terminal_X_Hn R) (sc : Nat → scatterer R), t.i_hydrogens = [] →
      (terminal_X_Hn.place_constrained_scatterers m uc t sc).thrown
        = some "smtbx: number of geometric hydrogens must be 1,2 or 3" := by
    intro t sc ht
    unfold terminal_X_Hn.place_constrained_scatterers
    simp [ht, outcome.throw]
  refine ⟨rfl, hon, ?_, hplace _ _ hhyd, ?_⟩
  · have hrid := riding_thrown_none scatterers pm pivot [] g (by simp)
    exact (compute_gradients_of_riding m _ uc scatterers pm g rg hon hrid).1
  · rw [terminal_apply_shifts_eq _ _ _ _ _ hon]
    apply hplace
    rw [terminal_do_apply_hydrogens, hhyd]

/-- C16.  End to end over the reals, in a cell whose `orthogonalize` undoes `fractionalize` (an
orthogonal cell is one): a `terminal_X_Hn` with one dependent `h`, non-rotating and
non-stretching, any azimuth and bond length `l > 0`, is constructed, initialised in context
(the dependent being free, so that the constraint is Active) and placed, the pivot and the
neighbour being at different positions and the dependent being neither of them.  The placement
returns normally and leaves the pivot and the neighbour alone; the dependent is at distance
exactly `l` from the pivot; the cosine of the angle dependent-pivot-neighbour is exactly
`-1/3`, which is the cosine of `tetrahedral_angle`. -/
theorem C16_terminal_end_to_end (garbage : terminal_X_Hn ℝ) (uc : unit_cell ℝ)
    (sc : Nat → scatterer ℝ) (cf : Nat → scatterer_flags) (ac : Nat → Option scatterer_flags)
    (pivot neighbour h : Nat) (azimuth_ l : ℝ)
    (h_rt : ∀ x, uc.orthogonalize (uc.fractionalize x) = x)
    (h_free : (cf h).grad_site = true)
    (h_hp : h ≠ pivot) (h_hn : h ≠ neighbour)
    (h_pos : uc.orthogonalize (sc pivot).site ≠ uc.orthogonalize (sc neighbour).site)
    (h_l : 0 < l) :
    (terminal_X_Hn.end_to_end real_math garbage uc sc cf ac pivot neighbour h azimuth_ l).thrown
      = none ∧
    (terminal_X_Hn.end_to_end real_math garbage uc sc cf ac pivot neighbour h azimuth_
      l).state.2 pivot = sc pivot ∧
    (terminal_X_Hn.end_to_end real_math garbage uc sc cf ac pivot neighbour h azimuth_
      l).state.2 neighbour = sc neighbour ∧
    ((uc.orthogonalize ((terminal_X_Hn.end_to_end real_math garbage uc sc cf ac pivot neighbour
        h azimuth_ l).state.2 h).site).sub
      (uc.orthogonalize ((terminal_X_Hn.end_to_end real_math garbage uc sc cf ac pivot
        neighbour h azimuth_ l).state.2 pivot).site)).length real_math = l ∧
    Vec3.cos_angle real_math
        ((uc.orthogonalize ((terminal_X_Hn.end_to_end real_math garbage uc sc cf ac pivot
          neighbour h azimuth_ l).state.2 h).site).sub
        (uc.orthogonalize ((terminal_X_Hn.end_to_end real_math garbage uc sc cf ac pivot
          neighbour h azimuth_ l).state.2 pivot).site))
        ((uc.orthogonalize ((terminal_X_Hn.end_to_end real_math garbage uc sc cf ac pivot
          neighbour h azimuth_ l).state.2 neighbour).site).sub
        (uc.orthogonalize ((terminal_X_Hn.end_to_end real_math garbage uc sc cf ac pivot
          neighbour h azimuth_ l).state.2 pivot).site))
      = -1 / 3 ∧
    Real.cos (constants.tetrahedral_angle real_math) = -1 / 3 := by
  rw [end_to_end_eq real_math garbage uc sc cf ac pivot neighbour h azimuth_ l h_free]
  have hu : (((uc.orthogonalize (sc pivot).site).sub
      (uc.orthogonalize (sc neighbour).site)).normalize real_math).dot
      (((uc.orthogonalize (sc pivot).site).sub
        (uc.orthogonalize (sc neighbour).site)).normalize real_math) = 1 :=
    real_normalize_unit_length _ (real_sub_length_sq_ne _ _ h_pos)
  obtain ⟨ho1, ho2⟩ := real_ortho_unit _ hu
  obtain ⟨f2, f1, f0⟩ := terminal_place_frame real_math uc
    (terminal_X_Hn.do_initialise_in_context real_math uc sc
      (terminal_X_Hn.mk_ctor real_math garbage pivot neighbour [h] azimuth_ l false false)) sc
  have hsite := terminal_place_site_head real_math uc
    (terminal_X_Hn.do_initialise_in_context real_math uc sc
      (terminal_X_Hn.mk_ctor real_math garbage pivot neighbour [h] azimuth_ l false false)) sc
    h [] rfl (List.not_mem_nil _) (Or.inl rfl)
  have hP := terminal_place_other real_math uc
    (terminal_X_Hn.do_initialise_in_context real_math uc sc
      (terminal_X_Hn.mk_ctor real_math garbage pivot neighbour [h] azimuth_ l false false)) sc
    pivot (by
      show pivot ∉ [h]
      simp only [List.mem_singleton]
      exact Ne.symm h_hp)
  have hN := terminal_place_other real_math uc
    (terminal_X_Hn.do_initialise_in_context real_math uc sc
      (terminal_X_Hn.mk_ctor real_math garbage pivot neighbour [h] azimuth_ l false false)) sc
    neighbour (by
      show neighbour ∉ [h]
      simp only [List.mem_singleton]
      exact Ne.symm h_hn)
  have g1 : (terminal_X_Hn.place_constrained_scatterers real_math uc
      (terminal_X_Hn.do_initialise_in_context real_math uc sc
        (terminal_X_Hn.mk_ctor real_math garbage pivot neighbour [h] azimuth_ l false false))
      sc).state.1.e1
      = Vec3.ortho real_math (((uc.orthogonalize (sc pivot).site).sub
          (uc.orthogonalize (sc neighbour).site)).normalize real_math) := by
    rw [f1]
    exact cross_cross_unit _ _ hu ho2
  have g0 : (terminal_X_Hn.place_constrained_scatterers real_math uc
      (terminal_X_Hn.do_initialise_in_context real_math uc sc
        (terminal_X_Hn.mk_ctor real_math garbage pivot neighbour [h] azimuth_ l false false))
      sc).state.1.e0
      = (Vec3.ortho real_math (((uc.orthogonalize (sc pivot).site).sub
          (uc.orthogonalize (sc neighbour).site)).normalize real_math)).cross
        (((uc.orthogonalize (sc pivot).site).sub
          (uc.orthogonalize (sc neighbour).site)).normalize real_math) := by
    rw [f0]
    have h3 := cross_cross_unit _ _ hu ho2
    exact congrArg (fun v => Vec3.cross v (((uc.orthogonalize (sc pivot).site).sub
      (uc.orthogonalize (sc neighbour).site)).normalize real_math)) h3
  have g2 : (terminal_X_Hn.place_constrained_scatterers real_math uc
      (terminal_X_Hn.do_initialise_in_context real_math uc sc
        (terminal_X_Hn.mk_ctor real_math garbage pivot neighbour [h] azimuth_ l false false))
      sc).state.1.e2
      = ((uc.orthogonalize (sc pivot).site).sub
          (uc.orthogonalize (sc neighbour).site)).normalize real_math := f2
  have hcs : Real.cos (azimuth_ * Real.pi / 180) * Real.cos (azimuth_ * Real.pi / 180)
      + Real.sin (azimuth_ * Real.pi / 180) * Real.sin (azimuth_ * Real.pi / 180) = 1 := by
    have := Real.cos_sq_add_sin_sq (azimuth_ * Real.pi / 180)
    nlinarith [this]
  obtain ⟨dd, d2⟩ := tetrahedral_direction
    ((Vec3.ortho real_math (((uc.orthogonalize (sc pivot).site).sub
        (uc.orthogonalize (sc neighbour).site)).normalize real_math)).cross
      (((uc.orthogonalize (sc pivot).site).sub
        (uc.orthogonalize (sc neighbour).site)).normalize real_math))
    (Vec3.ortho real_math (((uc.orthogonalize (sc pivot).site).sub
        (uc.orthogonalize (sc neighbour).site)).normalize real_math))
    (((uc.orthogonalize (sc pivot).site).sub
        (uc.orthogonalize (sc neighbour).site)).normalize real_math)
    (Real.cos (azimuth_ * Real.pi / 180)) (Real.sin (azimuth_ * Real.pi / 180))
    (constants.sin_tetrahedral_angle real_math)
    (by rw [cross_lagrange, ho1, hu, ho2]; ring)
    ho1 hu (cross_dot_left _ _) (cross_dot_right _ _) ho2 hcs real_sin_tetrahedral_sq
  have hH : uc.orthogonalize ((terminal_X_Hn.place_constrained_scatterers real_math uc
      (terminal_X_Hn.do_initialise_in_context real_math uc sc
        (terminal_X_Hn.mk_ctor real_math garbage pivot neighbour [h] azimuth_ l false false))
      sc).state.2 h).site
      = (uc.orthogonalize (sc pivot).site).add (Vec3.smul l
          ((Vec3.smul (constants.sin_tetrahedral_angle real_math)
            ((Vec3.smul (Real.cos (azimuth_ * Real.pi / 180))
              ((Vec3.ortho real_math (((uc.orthogonalize (sc pivot).site).sub
                (uc.orthogonalize (sc neighbour).site)).normalize real_math)).cross
              (((uc.orthogonalize (sc pivot).site).sub
                (uc.orthogonalize (sc neighbour).site)).normalize real_math))).add
            (Vec3.smul (Real.sin (azimuth_ * Real.pi / 180))
              (Vec3.ortho real_math (((uc.orthogonalize (sc pivot).site).sub
                (uc.orthogonalize (sc neighbour).site)).normalize real_math))))).add
          ((((uc.orthogonalize (sc pivot).site).sub
            (uc.orthogonalize (sc neighbour).site)).normalize real_math).div 3))) := by
    rw [hsite, h_rt, g0, g1, g2]
    rfl
  have hlen := real_length_of_sq _ l h_l.le
    (show (Vec3.smul l ((Vec3.smul (constants.sin_tetrahedral_angle real_math)
            ((Vec3.smul (Real.cos (azimuth_ * Real.pi / 180))
              ((Vec3.ortho real_math (((uc.orthogonalize (sc pivot).site).sub
                (uc.orthogonalize (sc neighbour).site)).normalize real_math)).cross
              (((uc.orthogonalize (sc pivot).site).sub
                (uc.orthogonalize (sc neighbour).site)).normalize real_math))).add
            (Vec3.smul (Real.sin (azimuth_ * Real.pi / 180))
              (Vec3.ortho real_math (((uc.orthogonalize (sc pivot).site).sub
                (uc.orthogonalize (sc neighbour).site)).normalize real_math))))).add
          ((((uc.orthogonalize (sc pivot).site).sub
            (uc.orthogonalize (sc neighbour).site)).normalize real_math).div 3))).length_sq
        = l * l by rw [smul_length_sq, Vec3.length_sq, dd]; ring)
  have htet : Real.cos (constants.tetrahedral_angle real_math) = -1 / 3 := by
    show Real.cos (Real.arccos (-1 / 3)) = -1 / 3
    exact Real.cos_arccos (by norm_num) (by norm_num)
  refine ⟨rfl, hP, hN, ?_, ?_, htet⟩
  · rw [hP, hH, add_smul_sub]
    exact hlen
  · rw [hP, hN, hH, add_smul_sub, real_cos_angle_to_neighbour _ _ _ h_pos, hlen, smul_dot, d2]
    have hne : l ≠ 0 := h_l.ne.symm
    field_simp
    ring

/-- C16, worked instance: pivot, atom 0, at `(0, 0, 0)`, neighbour, atom 1, at `(0, 0, 1)`,
dependent atom 2, `l = 1`, azimuth 0 degrees, cubic cell: the distance of the dependent from the
pivot is exactly 1 and the cosine of the angle dependent-pivot-neighbour is `-1/3`. -/
theorem C16_terminal_end_to_end_witness :
    ((((unit_cell.cubic_unit ℝ).orthogonalize ((terminal_X_Hn.end_to_end real_math
          (sample.garbage_terminal ℝ) (unit_cell.cubic_unit ℝ) (sample.bond_sites ℝ)
          sample.all_free sample.empty_registry 0 1 2 0 1).state.2 2).site).sub
        ((unit_cell.cubic_unit ℝ).orthogonalize ((terminal_X_Hn.end_to_end real_math
          (sample.garbage_terminal ℝ) (unit_cell.cubic_unit ℝ) (sample.bond_sites ℝ)
          sample.all_free sample.empty_registry 0 1 2 0 1).state.2 0).site)).length real_math
      = 1) ∧
    Vec3.cos_angle real_math
        (((unit_cell.cubic_unit ℝ).orthogonalize ((terminal_X_Hn.end_to_end real_math
          (sample.garbage_terminal ℝ) (unit_cell.cubic_unit ℝ) (sample.bond_sites ℝ)
          sample.all_free sample.empty_registry 0 1 2 0 1).state.2 2).site).sub
        ((unit_cell.cubic_unit ℝ).orthogonalize ((terminal_X_Hn.end_to_end real_math
          (sample.garbage_terminal ℝ) (unit_cell.cubic_unit ℝ) (sample.bond_sites ℝ)
          sample.all_free sample.empty_registry 0 1 2 0 1).state.2 0).site))
        (((unit_cell.cubic_unit ℝ).orthogonalize ((terminal_X_Hn.end_to_end real_math
          (sample.garbage_terminal ℝ) (unit_cell.cubic_unit ℝ) (sample.bond_sites ℝ)
          sample.all_free sample.empty_registry 0 1 2 0 1).state.2 1).site).sub
        ((unit_cell.cubic_unit ℝ).orthogonalize ((terminal_X_Hn.end_to_end real_math
          (sample.garbage_terminal ℝ) (unit_cell.cubic_unit ℝ) (sample.bond_sites ℝ)
          sample.all_free sample.empty_registry 0 1 2 0 1).state.2 0).site))
      = -1 / 3 := by
  have h := C16_terminal_end_to_end (sample.garbage_terminal ℝ) (unit_cell.cubic_unit ℝ)
    (sample.bond_sites ℝ) sample.all_free sample.empty_registry 0 1 2 0 1
    (fun _ => rfl) rfl (by decide) (by decide)
    (by
      intro h
      have hz := congrArg Vec3.z h
      have e0 : ((unit_cell.cubic_unit ℝ).orthogonalize (sample.bond_sites ℝ 0).site).z = 0 :=
        rfl
      have e1 : ((unit_cell.cubic_unit ℝ).orthogonalize (sample.bond_sites ℝ 1).site).z = 1 :=
        rfl
      rw [e0, e1] at hz
      norm_num at hz)
    (by norm_num)
  exact ⟨h.2.2.2.1, h.2.2.2.2.1⟩

/-- C17.  An Active constraint of any variant with stretching enabled and pairwise distinct
dependents is placed and `compute_gradients` then runs on the gradients `rg`: the call returns
normally and the entry it appends at `rg.length` is the sum over the dependents `i` of the
Cartesian gradient of dependent `i` (the result of `orthogonalize_gradient` on the three
entries `g1[s]`, `g1[s + 1]`, `g1[s + 2]` of the gradient array at the site slot `s` of the
dependent) dotted with `dx_over_dl[i]`; the site the placement wrote for dependent `i` is
`fractionalize (pivot + l * dx_over_dl[i])`, which in a cell whose `orthogonalize` undoes
`fractionalize` is the Cartesian position `pivot + l * dx_over_dl[i]`; and when the site slots
of the dependents do not overlap those of the pivot, the entries read are the raw gradients
passed in. -/
theorem C17_stretching_gradient {R : Type} [LinearOrderedField R] (m : std_math R)
    (c : any_hydrogens R) (uc : unit_cell R)
    (sc : Nat → scatterer R) (pm : Nat → parameter_indices) (g : Nat → R) (rg : List R)
    (h_wf : c.well_formed)
    (h_on : (heir.base c).on_ = true)
    (h_str : (heir.base c).stretching = true)
    (h_nodup : (heir.base c).i_hydrogens.Nodup)
    (h_flags : ∀ i_h ∈ (heir.base c).i_hydrogens, (sc i_h).flags.grad_site = true)
    (h_placed : (heir.place_constrained_scatterers m uc c sc).thrown = none) :
    ∃ (c1 : any_hydrogens R) (g1 : Nat → R) (rg1 : List R),
      compute_gradients m (heir.place_constrained_scatterers m uc c sc).state.1 uc
          (heir.place_constrained_scatterers m uc c sc).state.2 pm g rg
        = outcome.ok (c1, g1, rg1) ∧
      rg1[rg.length]? = some
        (((heir.base c).i_hydrogens.enum.map (fun q =>
          (uc.orthogonalize_gradient
              ⟨g1 (pm q.2).site, g1 ((pm q.2).site + 1), g1 ((pm q.2).site + 2)⟩).dot
            ((heir.base (heir.place_constrained_scatterers m uc c sc).state.1).dx_over_dl
              q.1))).sum) ∧
      (∀ q ∈ (heir.base c).i_hydrogens.enum,
        ((heir.place_constrained_scatterers m uc c sc).state.2 q.2).site
          = uc.fractionalize ((uc.orthogonalize (sc (heir.base c).i_pivot).site).add
              (Vec3.smul (heir.base c).l
                ((heir.base (heir.place_constrained_scatterers m uc c sc).state.1).dx_over_dl
                  q.1)))) ∧
      ((∀ x, uc.orthogonalize (uc.fractionalize x) = x) →
        (heir.base c).i_pivot ∉ (heir.base c).i_hydrogens →
        ∀ q ∈ (heir.base c).i_hydrogens.enum,
          uc.orthogonalize ((heir.place_constrained_scatterers m uc c sc).state.2 q.2).site
            = (uc.orthogonalize ((heir.place_constrained_scatterers m uc c sc).state.2
                (heir.base c).i_pivot).site).add
              (Vec3.smul (heir.base c).l
                ((heir.base (heir.place_constrained_scatterers m uc c sc).state.1).dx_over_dl
                  q.1))) ∧
      ((∀ i_h ∈ (heir.base c).i_hydrogens,
          (pm i_h).site + 3 ≤ (pm (heir.base c).i_pivot).site ∨
            (pm (heir.base c).i_pivot).site + 3 ≤ (pm i_h).site) →
        ∀ i_h ∈ (heir.base c).i_hydrogens, ∀ j, j < 3 →
          g1 ((pm i_h).site + j) = g ((pm i_h).site + j)) := by
  have hs : (heir.base c).stretching_ = true := h_str
  obtain ⟨e1, e2, e3, e4, e5, e6⟩ := any_place_stretching m c uc sc h_wf hs h_nodup h_placed
  have h_on1 : (heir.base (heir.place_constrained_scatterers m uc c sc).state.1).on_ = true := by
    rw [e1]; exact h_on
  have h_str1 : (heir.base (heir.place_constrained_scatterers m uc c sc).state.1).stretching_
      = true := by rw [e4]; exact hs
  have h_flags1 : ∀ i_h ∈ (heir.base (heir.place_constrained_scatterers m uc c sc).state.1).i_hydrogens,
      ((heir.place_constrained_scatterers m uc c sc).state.2 i_h).flags.grad_site = true := by
    intro i_h hi
    rw [e3] at hi
    rw [e5]
    exact h_flags i_h hi
  obtain ⟨c1, rest, hcg⟩ := any_compute_gradients_stretching m _ uc _ pm g rg h_on1 h_flags1 h_str1
  refine ⟨c1, _, _, hcg, ?_, e6, ?_, ?_⟩
  · rw [list_at_length, stretching_sum_eq, e3, e2, zero_add]
    rfl
  · intro hrt hp q hq
    rw [e6 q hq, hrt, any_place_pivot m c uc sc h_wf hp]
  · intro hdis i_h hi j hj
    rw [e3, e2]
    have hr := (riding_spec (heir.place_constrained_scatterers m uc c sc).state.2 pm
      (heir.base c).i_pivot (heir.base c).i_hydrogens g
      (by intro a ha; rw [e5]; exact h_flags a ha) hdis).2.2
    have hd := hdis i_h hi
    exact hr _ (by omega)

/-- C17, worked instance: the rotating and stretching methyl group `methyl_full` (pivot 0 at the
origin, neighbour 4 at `(0, 0, -1)`, dependents 1, 2, 3, azimuth 0, bond length 1) after
`initialise_in_context` and a placement on `axis_sites` in the cubic cell, whose frame is
`(-1, 0, 0)`, `(0, -1, 0)`, `(0, 0, 1)`; the gradient array whose entry `k` is `k + 1`, so the
dependents carry the gradients `(4, 5, 6)`, `(7, 8, 9)`, `(10, 11, 12)`; reparametrization
gradients `[7]`.  The entry appended at index 1 is `sin(tetra) * (9 + 3 sqrt 3) / 2 + 9`, and
dependent 1 is placed at `(-sin(tetra), 0, 1 / 3)`. -/
theorem C17_stretching_gradient_witness :
    ∃ (c1 : any_hydrogens ℝ) (g1 : Nat → ℝ) (rg1 : List ℝ),
      compute_gradients real_math
          (heir.place_constrained_scatterers real_math (unit_cell.cubic_unit ℝ)
            (any_hydrogens.terminal (sample.methyl_full_initialised real_math))
            (sample.axis_sites ℝ)).state.1
          (unit_cell.cubic_unit ℝ)
          (heir.place_constrained_scatterers real_math (unit_cell.cubic_unit ℝ)
            (any_hydrogens.terminal (sample.methyl_full_initialised real_math))
            (sample.axis_sites ℝ)).state.2
          sample.packed_map (sample.ramp_of ℝ) [7]
        = outcome.ok (c1, g1, rg1) ∧
      rg1[1]? = some
        (constants.sin_tetrahedral_angle real_math * ((9 + 3 * Real.sqrt 3) / 2) + 9) ∧
      ((heir.place_constrained_scatterers real_math (unit_cell.cubic_unit ℝ)
          (any_hydrogens.terminal (sample.methyl_full_initialised real_math))
          (sample.axis_sites ℝ)).state.2 1).site
        = ⟨-constants.sin_tetrahedral_angle real_math, 0, 1 / 3⟩ := by
  obtain ⟨c1, g1, rg1, h1, h2, h3, _, h5⟩ :=
    C17_stretching_gradient real_math
      (any_hydrogens.terminal (sample.methyl_full_initialised real_math))
      (unit_cell.cubic_unit ℝ) (sample.axis_sites ℝ) sample.packed_map (sample.ramp_of ℝ) [7]
      (by
        show ([1, 2, 3] : List Nat).length ≤ 3
        decide)
      rfl rfl
      (by
        show ([1, 2, 3] : List Nat).Nodup
        decide)
      (by intro i_h _; unfold sample.axis_sites; split_ifs <;> rfl) rfl
  obtain ⟨d0, d1, d2⟩ := methyl_full_placed
  have hg := h5 (by
    intro i_h hi
    have h3 : i_h ∈ [1, 2, 3] := hi
    simp only [List.mem_cons, List.mem_singleton, List.not_mem_nil, or_false] at h3
    right
    show 3 * 0 + 3 ≤ 3 * i_h
    omega)
  refine ⟨c1, g1, rg1, h1, ?_, ?_⟩
  · have hh : (heir.base (any_hydrogens.terminal
        (sample.methyl_full_initialised real_math))).i_hydrogens = [1, 2, 3] := rfl
    rw [hh] at h2 hg
    have e0 : (heir.base (heir.place_constrained_scatterers real_math (unit_cell.cubic_unit ℝ)
        (any_hydrogens.terminal (sample.methyl_full_initialised real_math))
        (sample.axis_sites ℝ)).state.1).dx_over_dl 0
        = ⟨-constants.sin_tetrahedral_angle real_math, 0, 1 / 3⟩ := d0
    have e1 : (heir.base (heir.place_constrained_scatterers real_math (unit_cell.cubic_unit ℝ)
        (any_hydrogens.terminal (sample.methyl_full_initialised real_math))
        (sample.axis_sites ℝ)).state.1).dx_over_dl 1
        = ⟨constants.sin_tetrahedral_angle real_math / 2,
            -(constants.sin_tetrahedral_angle real_math * (Real.sqrt 3 / 2)), 1 / 3⟩ := d1
    have e2 : (heir.base (heir.place_constrained_scatterers real_math (unit_cell.cubic_unit ℝ)
        (any_hydrogens.terminal (sample.methyl_full_initialised real_math))
        (sample.axis_sites ℝ)).state.1).dx_over_dl 2
        = ⟨constants.sin_tetrahedral_angle real_math / 2,
            constants.sin_tetrahedral_angle real_math * (Real.sqrt 3 / 2), 1 / 3⟩ := d2
    simp only [List.enum, List.enumFrom, List.map_cons, List.map_nil, List.sum_cons,
      List.sum_nil, e0, e1, e2] at h2
    have hv : ∀ k, k ∈ [1, 2, 3] → ∀ j, j < 3 → g1 (3 * k + j) = ((3 * k + j : Nat) : ℝ) + 1 :=
      fun k hk j hj => hg k hk j hj
    have a3 : g1 (sample.packed_map 1).site = 4 := by
      have h := hv 1 (by simp) 0 (by norm_num)
      norm_num at h
      exact h
    have a4 : g1 ((sample.packed_map 1).site + 1) = 5 := by
      have h := hv 1 (by simp) 1 (by norm_num)
      norm_num at h
      exact h
    have a5 : g1 ((sample.packed_map 1).site + 2) = 6 := by
      have h := hv 1 (by simp) 2 (by norm_num)
      norm_num at h
      exact h
    have a6 : g1 (sample.packed_map 2).site = 7 := by
      have h := hv 2 (by simp) 0 (by norm_num)
      norm_num at h
      exact h
    have a7 : g1 ((sample.packed_map 2).site + 1) = 8 := by
      have h := hv 2 (by simp) 1 (by norm_num)
      norm_num at h
      exact h
    have a8 : g1 ((sample.packed_map 2).site + 2) = 9 := by
      have h := hv 2 (by simp) 2 (by norm_num)
      norm_num at h
      exact h
    have a9 : g1 (sample.packed_map 3).site = 10 := by
      have h := hv 3 (by simp) 0 (by norm_num)
      norm_num at h
      exact h
    have a10 : g1 ((sample.packed_map 3).site + 1) = 11 := by
      have h := hv 3 (by simp) 1 (by norm_num)
      norm_num at h
      exact h
    have a11 : g1 ((sample.packed_map 3).site + 2) = 12 := by
      have h := hv 3 (by simp) 2 (by norm_num)
      norm_num at h
      exact h
    rw [a3, a4, a5, a6, a7, a8, a9, a10, a11] at h2
    have hl : ([7] : List ℝ).length = 1 := rfl
    rw [hl] at h2
    rw [h2]
    congr 1
    simp only [unit_cell.cubic_unit, Vec3.dot, id_eq]
    ring
  · have h := h3 (0, 1) (by
      show ((0 : Nat), (1 : Nat)) ∈ ([1, 2, 3] : List Nat).enum
      decide)
    rw [h]
    have e0 : (heir.base (heir.place_constrained_scatterers real_math (unit_cell.cubic_unit ℝ)
        (any_hydrogens.terminal (sample.methyl_full_initialised real_math))
        (sample.axis_sites ℝ)).state.1).dx_over_dl 0
        = ⟨-constants.sin_tetrahedral_angle real_math, 0, 1 / 3⟩ := d0
    show (unit_cell.cubic_unit ℝ).fractionalize
        (((unit_cell.cubic_unit ℝ).orthogonalize (sample.axis_sites ℝ 0).site).add
          (Vec3.smul (sample.methyl_full_initialised real_math).l
            ((heir.base (heir.place_constrained_scatterers real_math (unit_cell.cubic_unit ℝ)
              (any_hydrogens.terminal (sample.methyl_full_initialised real_math))
              (sample.axis_sites ℝ)).state.1).dx_over_dl 0))) = _
    rw [e0, methyl_full_initialised_fields.2.2.2.1]
    simp [unit_cell.cubic_unit, sample.axis_sites, Vec3.add, Vec3.smul, sample.zero3]

/-- C18.  An Active rotating `terminal_X_Hn` over the reals is placed and `compute_gradients`
then runs on the gradients `rg`: the call returns normally and the entry it appends for the
azimuth (at `rg.length`, or one further when stretching is enabled too) is
`pi / 180` times the sum over the dependents `i` of the Cartesian gradient of dependent `i`
(the result of `orthogonalize_gradient` on the three entries `g1[s]`, `g1[s + 1]`, `g1[s + 2]`
of the gradient array at the site slot `s` of the dependent) dotted with `l * sin(tetra) * (-sin(phi_i) * e0 + cos(phi_i) * e1)`, `phi_i = phi + i * 2 pi / 3`,
where `e0`, `e1` are the axes the placement left; that vector is, component by component, the
derivative with respect to `phi` of the placement formula
`pivot + l * (sin(tetra) * (cos(phi_i) * e0 + sin(phi_i) * e1) + e2 / 3)` at fixed frame; and
for pairwise distinct dependents the site written for dependent `i` is `fractionalize` of that
formula at the stored azimuth; and when the site slots of the dependents do not overlap those
of the pivot, the entries read are the raw gradients passed in. -/
theorem C18_rotation_gradient (t : terminal_X_Hn ℝ) (uc : unit_cell ℝ)
    (sc : Nat → scatterer ℝ) (pm : Nat → parameter_indices) (g : Nat → ℝ) (rg : List ℝ)
    (h_on : t.on_ = true) (h_rot : t.rotating = true)
    (h_flags : ∀ i_h ∈ t.i_hydrogens, (sc i_h).flags.grad_site = true)
    (h_placed : (terminal_X_Hn.place_constrained_scatterers real_math uc t sc).thrown = none) :
    ∃ (c1 : terminal_X_Hn ℝ) (g1 : Nat → ℝ) (rg1 : List ℝ),
      compute_gradients real_math
          (terminal_X_Hn.place_constrained_scatterers real_math uc t sc).state.1 uc
          (terminal_X_Hn.place_constrained_scatterers real_math uc t sc).state.2 pm g rg
        = outcome.ok (c1, g1, rg1) ∧
      rg1[rg.length + (if t.stretching then 1 else 0)]? = some
        (Real.pi / 180 * (t.i_hydrogens.enum.map (fun q =>
          (uc.orthogonalize_gradient
              ⟨g1 (pm q.2).site, g1 ((pm q.2).site + 1), g1 ((pm q.2).site + 2)⟩).dot
            (terminal_X_Hn.azimuth_derivative real_math
              (terminal_X_Hn.place_constrained_scatterers real_math uc t sc).state.1.e0
              (terminal_X_Hn.place_constrained_scatterers real_math uc t sc).state.1.e1
              t.l q.1 t.phi))).sum) ∧
      (∀ (x_p e0 e1 e2 : Vec3 ℝ) (l : ℝ) (i : Nat) (phi : ℝ),
        HasDerivAt (fun a => (terminal_X_Hn.placement_formula real_math x_p e0 e1 e2 l i a).x)
          (terminal_X_Hn.azimuth_derivative real_math e0 e1 l i phi).x phi ∧
        HasDerivAt (fun a => (terminal_X_Hn.placement_formula real_math x_p e0 e1 e2 l i a).y)
          (terminal_X_Hn.azimuth_derivative real_math e0 e1 l i phi).y phi ∧
        HasDerivAt (fun a => (terminal_X_Hn.placement_formula real_math x_p e0 e1 e2 l i a).z)
          (terminal_X_Hn.azimuth_derivative real_math e0 e1 l i phi).z phi) ∧
      (t.i_hydrogens.Nodup → ∀ q ∈ t.i_hydrogens.enum,
        ((terminal_X_Hn.place_constrained_scatterers real_math uc t sc).state.2 q.2).site
          = uc.fractionalize (terminal_X_Hn.placement_formula real_math
              (uc.orthogonalize (sc t.i_pivot).site)
              (terminal_X_Hn.place_constrained_scatterers real_math uc t sc).state.1.e0
              (terminal_X_Hn.place_constrained_scatterers real_math uc t sc).state.1.e1
              (terminal_X_Hn.place_constrained_scatterers real_math uc t sc).state.1.e2
              t.l q.1 t.phi)) ∧
      ((∀ i_h ∈ t.i_hydrogens,
          (pm i_h).site + 3 ≤ (pm t.i_pivot).site ∨ (pm t.i_pivot).site + 3 ≤ (pm i_h).site) →
        ∀ i_h ∈ t.i_hydrogens, ∀ j, j < 3 →
          g1 ((pm i_h).site + j) = g ((pm i_h).site + j)) := by
  have hr : t.rotating_ = true := h_rot
  obtain ⟨hle, e_rot, e_str, e_flags, e_dx, e_site⟩ :=
    terminal_place_rotating real_math uc t sc hr h_placed
  obtain ⟨_, _, e_hyd, _, _, e_on⟩ := terminal_place_fields real_math uc t sc
  have h_on1 : (terminal_X_Hn.place_constrained_scatterers real_math uc t sc).state.1.on_
      = true := by rw [e_on]; exact h_on
  have h_flags1 : ∀ i_h ∈
      (terminal_X_Hn.place_constrained_scatterers real_math uc t sc).state.1.i_hydrogens,
      ((terminal_X_Hn.place_constrained_scatterers real_math uc t sc).state.2 i_h).flags.grad_site
        = true := by
    intro i_h hi
    rw [e_hyd] at hi
    rw [e_flags]
    exact h_flags i_h hi
  have h_mode : ((terminal_X_Hn.place_constrained_scatterers real_math uc t sc).state.1.stretching_
      || (terminal_X_Hn.place_constrained_scatterers real_math uc t sc).state.1.rotating_)
        = true := by rw [e_rot]; simp
  refine ⟨_, _, _, terminal_compute_gradients_ok real_math _ uc _ pm g rg h_on1 h_flags1 h_mode,
    ?_, real_placement_hasDerivAt, e_site, ?_⟩
  swap
  · intro hdis i_h hi j hj
    obtain ⟨e_piv, _, _, _, _, _⟩ := terminal_place_fields real_math uc t sc
    rw [e_piv, e_hyd]
    have hrs := (riding_spec (terminal_X_Hn.place_constrained_scatterers real_math uc t sc).state.2
      pm t.i_pivot t.i_hydrogens g (by intro a ha; rw [e_flags]; exact h_flags a ha) hdis).2.2
    have hd := hdis i_h hi
    exact hrs _ (by omega)
  rw [e_rot, e_str, e_hyd, rotation_sum_cartesian]
  have hsum := map_sum_congr_enum t.i_hydrogens
    (fun q => (uc.orthogonalize_gradient (gradient_at
        (riding (terminal_X_Hn.place_constrained_scatterers real_math uc t sc).state.2 pm
          (terminal_X_Hn.place_constrained_scatterers real_math uc t sc).state.1.i_pivot
          t.i_hydrogens g).state (pm q.2).site)).dot
      ((terminal_X_Hn.place_constrained_scatterers real_math uc t sc).state.1.dx_over_dphi q.1))
    (fun q => (uc.orthogonalize_gradient (gradient_at
        (riding (terminal_X_Hn.place_constrained_scatterers real_math uc t sc).state.2 pm
          (terminal_X_Hn.place_constrained_scatterers real_math uc t sc).state.1.i_pivot
          t.i_hydrogens g).state (pm q.2).site)).dot
      (terminal_X_Hn.azimuth_derivative real_math
        (terminal_X_Hn.place_constrained_scatterers real_math uc t sc).state.1.e0
        (terminal_X_Hn.place_constrained_scatterers real_math uc t sc).state.1.e1
        t.l q.1 t.phi))
    (by
      intro q hq
      have hlt : q.1 < t.i_hydrogens.length := by
        have := List.fst_lt_add_of_mem_enumFrom hq
        omega
      simp only [e_dx q.1 hlt])
  rw [hsum]
  cases hst : t.stretching_
  · simp only [geometrical_hydrogens.stretching, hst, Bool.false_eq_true, if_false, if_true,
      List.append_nil, add_zero]
    rw [List.getElem?_append_right (le_refl _)]
    simp [real_math, mul_comm, gradient_at]
  · simp only [geometrical_hydrogens.stretching, hst, if_true]
    rw [List.append_assoc, List.singleton_append, list_at_length_succ]
    simp [real_math, mul_comm, gradient_at]

/-- C18, worked instance: the rotating and stretching methyl group `methyl_full` (pivot 0 at the
origin, neighbour 4 at `(0, 0, -1)`, dependents 1, 2, 3, azimuth 0, bond length 1) after
`initialise_in_context` and a placement on `axis_sites` in the cubic cell, whose frame is
`(-1, 0, 0)`, `(0, -1, 0)`, `(0, 0, 1)`; the gradient array whose entry `k` is `k + 1`, so the
dependents carry the gradients `(4, 5, 6)`, `(7, 8, 9)`, `(10, 11, 12)`; no reparametrization
gradients yet.  Stretching takes index 0 and the azimuth entry, at index 1, is
`pi / 180 * (sin(tetra) * (9 - 3 sqrt 3) / 2)`. -/
theorem C18_rotation_gradient_witness :
    ∃ (c1 : terminal_X_Hn ℝ) (g1 : Nat → ℝ) (rg1 : List ℝ),
      compute_gradients real_math
          (terminal_X_Hn.place_constrained_scatterers real_math (unit_cell.cubic_unit ℝ)
            (sample.methyl_full_initialised real_math) (sample.axis_sites ℝ)).state.1
          (unit_cell.cubic_unit ℝ)
          (terminal_X_Hn.place_constrained_scatterers real_math (unit_cell.cubic_unit ℝ)
            (sample.methyl_full_initialised real_math) (sample.axis_sites ℝ)).state.2
          sample.packed_map (sample.ramp_of ℝ) []
        = outcome.ok (c1, g1, rg1) ∧
      rg1[1]? = some
        (Real.pi / 180 *
          (constants.sin_tetrahedral_angle real_math * ((9 - 3 * Real.sqrt 3) / 2))) := by
  obtain ⟨c1, g1, rg1, h1, h2, _, _, h5⟩ :=
    C18_rotation_gradient (sample.methyl_full_initialised real_math)
      (unit_cell.cubic_unit ℝ) (sample.axis_sites ℝ) sample.packed_map (sample.ramp_of ℝ) []
      rfl rfl (by intro i_h _; unfold sample.axis_sites; split_ifs <;> rfl) rfl
  obtain ⟨hp, hn, hh, hl, hphi, _, hs, _, he0⟩ := methyl_full_initialised_fields
  obtain ⟨f0, f1, _⟩ := axis_place_frame _ hp hn he0
  obtain ⟨b0, b1, b2⟩ := axis_azimuth_derivative
  rw [hh, hp] at h5
  have hv : ∀ k, k ∈ [1, 2, 3] → ∀ j, j < 3 → g1 (3 * k + j) = ((3 * k + j : Nat) : ℝ) + 1 :=
    h5 (by
      intro i_h hi
      simp only [List.mem_cons, List.mem_singleton, List.not_mem_nil, or_false] at hi
      right
      show 3 * 0 + 3 ≤ 3 * i_h
      omega)
  have a3 : g1 (sample.packed_map 1).site = 4 := by
    have h := hv 1 (by simp) 0 (by norm_num)
    norm_num at h
    exact h
  have a4 : g1 ((sample.packed_map 1).site + 1) = 5 := by
    have h := hv 1 (by simp) 1 (by norm_num)
    norm_num at h
    exact h
  have a5 : g1 ((sample.packed_map 1).site + 2) = 6 := by
    have h := hv 1 (by simp) 2 (by norm_num)
    norm_num at h
    exact h
  have a6 : g1 (sample.packed_map 2).site = 7 := by
    have h := hv 2 (by simp) 0 (by norm_num)
    norm_num at h
    exact h
  have a7 : g1 ((sample.packed_map 2).site + 1) = 8 := by
    have h := hv 2 (by simp) 1 (by norm_num)
    norm_num at h
    exact h
  have a8 : g1 ((sample.packed_map 2).site + 2) = 9 := by
    have h := hv 2 (by simp) 2 (by norm_num)
    norm_num at h
    exact h
  have a9 : g1 (sample.packed_map 3).site = 10 := by
    have h := hv 3 (by simp) 0 (by norm_num)
    norm_num at h
    exact h
  have a10 : g1 ((sample.packed_map 3).site + 1) = 11 := by
    have h := hv 3 (by simp) 1 (by norm_num)
    norm_num at h
    exact h
  have a11 : g1 ((sample.packed_map 3).site + 2) = 12 := by
    have h := hv 3 (by simp) 2 (by norm_num)
    norm_num at h
    exact h
  have hst : (sample.methyl_full_initialised real_math).stretching = true := hs
  rw [hh, hl, hphi, f0, f1, hst] at h2
  simp only [List.enum, List.enumFrom, List.map_cons, List.map_nil, List.sum_cons,
    List.sum_nil, b0, b1, b2, a3, a4, a5, a6, a7, a8, a9, a10, a11, if_true,
    List.length_nil, zero_add] at h2
  refine ⟨c1, g1, rg1, h1, ?_⟩
  rw [h2]
  congr 2
  simp only [unit_cell.cubic_unit, Vec3.dot, id_eq]
  ring

/-- C19.  A `secondary_CH2` over the reals is placed in a cell whose `orthogonalize` undoes
`fractionalize`, with two distinct dependents, both neighbours away from the pivot, the unit
vectors `u_pn_1`, `u_pn_2` neither equal nor opposite, and `0 ≤ l`.  Then each dependent `i` is
at `pivot + l * dx_over_dl[i]`, at distance exactly `l` from the pivot, in the plane through the
pivot with normal `u_pn_2 - u_pn_1` (the plane bisecting the two bonds), and makes the same
angle with the bond to the first neighbour as with the bond to the second; `dx_over_dl[i]` has
unit length; `dx_over_dl[1]` is the mirror image `2 (d · e0) e0 - d` of `d = dx_over_dl[0]`
about the bisector `e0`; the cosine of the angle between the two directions is `cos (2 theta)`,
and so is that between the two pivot-to-dependent vectors when `0 < l`; every scatterer other
than the two dependents is left alone. -/
theorem C19_secondary_geometry (uc : unit_cell ℝ) (t : secondary_CH2 ℝ)
    (sc : Nat → scatterer ℝ)
    (h_rt : ∀ x, uc.orthogonalize (uc.fractionalize x) = x)
    (h_ne : t.i_hydrogens.getD 0 0 ≠ t.i_hydrogens.getD 1 0)
    (h_X : secondary_CH2.x_p uc t sc ≠ secondary_CH2.x_pn_1 uc t sc)
    (h_Y : secondary_CH2.x_p uc t sc ≠ secondary_CH2.x_pn_2 uc t sc)
    (h_neq : secondary_CH2.u_pn_1 real_math uc t sc ≠ secondary_CH2.u_pn_2 real_math uc t sc)
    (h_opp : secondary_CH2.u_pn_1 real_math uc t sc
      ≠ (secondary_CH2.u_pn_2 real_math uc t sc).neg)
    (h_l : 0 ≤ t.l) :
    (∀ i, i < 2 →
      secondary_CH2.placed_site real_math uc t sc i
        = (secondary_CH2.x_p uc t sc).add
            (Vec3.smul t.l (secondary_CH2.placed_direction real_math uc t sc i)) ∧
      ((secondary_CH2.placed_site real_math uc t sc i).sub
        (secondary_CH2.x_p uc t sc)).length real_math = t.l ∧
      ((secondary_CH2.placed_site real_math uc t sc i).sub (secondary_CH2.x_p uc t sc)).dot
        ((secondary_CH2.u_pn_2 real_math uc t sc).sub (secondary_CH2.u_pn_1 real_math uc t sc))
          = 0 ∧
      Vec3.cos_angle real_math
          ((secondary_CH2.placed_site real_math uc t sc i).sub (secondary_CH2.x_p uc t sc))
          ((secondary_CH2.x_pn_1 uc t sc).sub (secondary_CH2.x_p uc t sc))
        = Vec3.cos_angle real_math
          ((secondary_CH2.placed_site real_math uc t sc i).sub (secondary_CH2.x_p uc t sc))
          ((secondary_CH2.x_pn_2 uc t sc).sub (secondary_CH2.x_p uc t sc)) ∧
      (secondary_CH2.placed_direction real_math uc t sc i).length real_math = 1) ∧
    secondary_CH2.placed_direction real_math uc t sc 1
      = (Vec3.smul (2 * (secondary_CH2.placed_direction real_math uc t sc 0).dot
            (secondary_CH2.e0 real_math uc t sc)) (secondary_CH2.e0 real_math uc t sc)).sub
          (secondary_CH2.placed_direction real_math uc t sc 0) ∧
    Vec3.cos_angle real_math (secondary_CH2.placed_direction real_math uc t sc 0)
        (secondary_CH2.placed_direction real_math uc t sc 1)
      = Real.cos (2 * secondary_CH2.theta_of uc t sc) ∧
    (0 < t.l →
      Vec3.cos_angle real_math
          ((secondary_CH2.placed_site real_math uc t sc 0).sub (secondary_CH2.x_p uc t sc))
          ((secondary_CH2.placed_site real_math uc t sc 1).sub (secondary_CH2.x_p uc t sc))
        = Real.cos (2 * secondary_CH2.theta_of uc t sc)) ∧
    (∀ k, k ≠ t.i_hydrogens.getD 0 0 → k ≠ t.i_hydrogens.getD 1 0 →
      (secondary_CH2.place_constrained_scatterers real_math uc t sc).state.2 k = sc k) := by
  obtain ⟨hd0, hd1, hs0, hs1, hother⟩ := secondary_place_eq real_math uc t sc
  have hu1 : (secondary_CH2.u_pn_1 real_math uc t sc).dot
      (secondary_CH2.u_pn_1 real_math uc t sc) = 1 :=
    real_normalize_unit_length _ (real_sub_length_sq_ne _ _ h_X)
  have hu2 : (secondary_CH2.u_pn_2 real_math uc t sc).dot
      (secondary_CH2.u_pn_2 real_math uc t sc) = 1 :=
    real_normalize_unit_length _ (real_sub_length_sq_ne _ _ h_Y)
  obtain ⟨f00, f11, f01, f0d, f1d⟩ := real_secondary_frame _ _ hu1 hu2
    (real_add_length_sq_ne _ _ h_opp) (real_sub_length_sq_ne _ _ (Ne.symm h_neq))
  have hcs : Real.cos (secondary_CH2.theta_of uc t sc) * Real.cos (secondary_CH2.theta_of uc t sc)
      + Real.sin (secondary_CH2.theta_of uc t sc) * Real.sin (secondary_CH2.theta_of uc t sc)
        = 1 := by
    have := Real.cos_sq_add_sin_sq (secondary_CH2.theta_of uc t sc)
    nlinarith [this]
  have hc2 : Real.cos (2 * secondary_CH2.theta_of uc t sc)
      = Real.cos (secondary_CH2.theta_of uc t sc) * Real.cos (secondary_CH2.theta_of uc t sc)
        - Real.sin (secondary_CH2.theta_of uc t sc) * Real.sin (secondary_CH2.theta_of uc t sc) := by
    rw [Real.cos_two_mul]
    nlinarith [hcs]
  have hd1a : secondary_CH2.placed_direction real_math uc t sc 1
      = (Vec3.smul (Real.cos (secondary_CH2.theta_of uc t sc))
          (secondary_CH2.e0 real_math uc t sc)).add
        (Vec3.smul (-Real.sin (secondary_CH2.theta_of uc t sc))
          (secondary_CH2.e1 real_math uc t sc)) := by
    rw [hd1, sub_smul_eq]
    rfl
  have hd0a : secondary_CH2.placed_direction real_math uc t sc 0
      = (Vec3.smul (Real.cos (secondary_CH2.theta_of uc t sc))
          (secondary_CH2.e0 real_math uc t sc)).add
        (Vec3.smul (Real.sin (secondary_CH2.theta_of uc t sc))
          (secondary_CH2.e1 real_math uc t sc)) := hd0
  have g00 : (secondary_CH2.e0 real_math uc t sc).dot (secondary_CH2.e0 real_math uc t sc) = 1 :=
    f00
  have g11 : (secondary_CH2.e1 real_math uc t sc).dot (secondary_CH2.e1 real_math uc t sc) = 1 :=
    f11
  have g01 : (secondary_CH2.e0 real_math uc t sc).dot (secondary_CH2.e1 real_math uc t sc) = 0 :=
    f01
  have g0d : (secondary_CH2.e0 real_math uc t sc).dot
      ((secondary_CH2.u_pn_2 real_math uc t sc).sub (secondary_CH2.u_pn_1 real_math uc t sc))
        = 0 := f0d
  have g1d : (secondary_CH2.e1 real_math uc t sc).dot
      ((secondary_CH2.u_pn_2 real_math uc t sc).sub (secondary_CH2.u_pn_1 real_math uc t sc))
        = 0 := f1d
  have n00 : (secondary_CH2.placed_direction real_math uc t sc 0).dot
      (secondary_CH2.placed_direction real_math uc t sc 0) = 1 := by
    rw [hd0a, dot_combination, g00, g11, g01]
    linarith
  have n11 : (secondary_CH2.placed_direction real_math uc t sc 1).dot
      (secondary_CH2.placed_direction real_math uc t sc 1) = 1 := by
    rw [hd1a, dot_combination, g00, g11, g01]
    linarith
  have n01 : (secondary_CH2.placed_direction real_math uc t sc 0).dot
      (secondary_CH2.placed_direction real_math uc t sc 1)
        = Real.cos (2 * secondary_CH2.theta_of uc t sc) := by
    rw [hd0a, hd1a, dot_combination, g00, g11, g01, hc2]
    ring
  have p0 : (secondary_CH2.placed_direction real_math uc t sc 0).dot
      ((secondary_CH2.u_pn_2 real_math uc t sc).sub (secondary_CH2.u_pn_1 real_math uc t sc))
        = 0 := by
    rw [hd0a, dot_combination_left, g0d, g1d]
    ring
  have p1 : (secondary_CH2.placed_direction real_math uc t sc 1).dot
      ((secondary_CH2.u_pn_2 real_math uc t sc).sub (secondary_CH2.u_pn_1 real_math uc t sc))
        = 0 := by
    rw [hd1a, dot_combination_left, g0d, g1d]
    ring
  have s0 : secondary_CH2.placed_site real_math uc t sc 0
      = (secondary_CH2.x_p uc t sc).add
          (Vec3.smul t.l (secondary_CH2.placed_direction real_math uc t sc 0)) := by
    unfold secondary_CH2.placed_site
    rw [hs0 h_ne, h_rt]
  have s1 : secondary_CH2.placed_site real_math uc t sc 1
      = (secondary_CH2.x_p uc t sc).add
          (Vec3.smul t.l (secondary_CH2.placed_direction real_math uc t sc 1)) := by
    unfold secondary_CH2.placed_site
    rw [hs1, h_rt]
  have hlen1 : ∀ d : Vec3 ℝ, d.dot d = 1 → d.length real_math = 1 := by
    intro d hd
    exact real_length_of_sq d 1 (by norm_num) (by rw [Vec3.length_sq, hd]; norm_num)
  have key : ∀ d : Vec3 ℝ, d.dot d = 1 →
      d.dot ((secondary_CH2.u_pn_2 real_math uc t sc).sub
        (secondary_CH2.u_pn_1 real_math uc t sc)) = 0 →
      (((secondary_CH2.x_p uc t sc).add (Vec3.smul t.l d)).sub
        (secondary_CH2.x_p uc t sc)).length real_math = t.l ∧
      (((secondary_CH2.x_p uc t sc).add (Vec3.smul t.l d)).sub (secondary_CH2.x_p uc t sc)).dot
        ((secondary_CH2.u_pn_2 real_math uc t sc).sub (secondary_CH2.u_pn_1 real_math uc t sc))
          = 0 ∧
      Vec3.cos_angle real_math
          (((secondary_CH2.x_p uc t sc).add (Vec3.smul t.l d)).sub (secondary_CH2.x_p uc t sc))
          ((secondary_CH2.x_pn_1 uc t sc).sub (secondary_CH2.x_p uc t sc))
        = Vec3.cos_angle real_math
          (((secondary_CH2.x_p uc t sc).add (Vec3.smul t.l d)).sub (secondary_CH2.x_p uc t sc))
          ((secondary_CH2.x_pn_2 uc t sc).sub (secondary_CH2.x_p uc t sc)) := by
    intro d hdd hdp
    rw [add_smul_sub]
    refine ⟨?_, ?_, ?_⟩
    · exact real_length_of_sq _ t.l h_l (by rw [smul_length_sq, Vec3.length_sq, hdd]; ring)
    · rw [smul_dot, hdp, mul_zero]
    · rw [real_cos_angle_to_neighbour _ _ _ h_X, real_cos_angle_to_neighbour _ _ _ h_Y]
      have hsplit : (Vec3.smul t.l d).dot (secondary_CH2.u_pn_2 real_math uc t sc)
          = (Vec3.smul t.l d).dot (secondary_CH2.u_pn_1 real_math uc t sc) := by
        have h3 : d.dot ((secondary_CH2.u_pn_2 real_math uc t sc).sub
            (secondary_CH2.u_pn_1 real_math uc t sc))
            = d.dot (secondary_CH2.u_pn_2 real_math uc t sc)
              - d.dot (secondary_CH2.u_pn_1 real_math uc t sc) := by
          simp only [Vec3.dot, Vec3.sub]
          ring
        rw [smul_dot, smul_dot]
        have h4 : d.dot (secondary_CH2.u_pn_2 real_math uc t sc)
            = d.dot (secondary_CH2.u_pn_1 real_math uc t sc) := by linarith
        rw [h4]
      show -((Vec3.smul t.l d).dot (secondary_CH2.u_pn_1 real_math uc t sc)) / _
        = -((Vec3.smul t.l d).dot (secondary_CH2.u_pn_2 real_math uc t sc)) / _
      rw [hsplit]
  refine ⟨?_, ?_, ?_, ?_, ?_⟩
  · intro i hi
    interval_cases i
    · rw [s0]
      exact ⟨rfl, (key _ n00 p0).1, (key _ n00 p0).2.1, (key _ n00 p0).2.2, hlen1 _ n00⟩
    · rw [s1]
      exact ⟨rfl, (key _ n11 p1).1, (key _ n11 p1).2.1, (key _ n11 p1).2.2, hlen1 _ n11⟩
  · have hce : (secondary_CH2.placed_direction real_math uc t sc 0).dot
        (secondary_CH2.e0 real_math uc t sc)
          = Real.cos (secondary_CH2.theta_of uc t sc) := by
      rw [hd0a, dot_combination_left, g00, dot_comm (secondary_CH2.e1 real_math uc t sc), g01]
      ring
    rw [hce, hd1a, hd0a]
    simp only [Vec3.sub, Vec3.add, Vec3.smul, Vec3.mk.injEq]
    refine ⟨by ring, by ring, by ring⟩
  · simp only [Vec3.cos_angle]
    rw [hlen1 _ n00, hlen1 _ n11, n01]
    ring
  · intro hl
    rw [s0, s1, add_smul_sub, add_smul_sub]
    simp only [Vec3.cos_angle]
    rw [real_length_of_sq _ t.l h_l (by rw [smul_length_sq, Vec3.length_sq, n00]; ring),
      real_length_of_sq _ t.l h_l (by rw [smul_length_sq, Vec3.length_sq, n11]; ring),
      smul_dot, dot_smul, n01]
    have hne : t.l ≠ 0 := hl.ne.symm
    field_simp
    ring
  · exact hother

/-- C19, worked instance: `methylene_of` on `methylene_sites` (pivot at the origin, neighbours
at `(-1, 0, 0)` and `(0, -1, 0)`, bond length 1, cubic cell): both dependents are at distance 1
from the pivot and the cosine of the angle between the two directions is `cos (2 theta)`. -/
theorem C19_secondary_geometry_witness :
    ((secondary_CH2.placed_site real_math (unit_cell.cubic_unit ℝ) (sample.methylene_of ℝ)
        (sample.methylene_sites ℝ) 0).sub
      (secondary_CH2.x_p (unit_cell.cubic_unit ℝ) (sample.methylene_of ℝ)
        (sample.methylene_sites ℝ))).length real_math = 1 ∧
    ((secondary_CH2.placed_site real_math (unit_cell.cubic_unit ℝ) (sample.methylene_of ℝ)
        (sample.methylene_sites ℝ) 1).sub
      (secondary_CH2.x_p (unit_cell.cubic_unit ℝ) (sample.methylene_of ℝ)
        (sample.methylene_sites ℝ))).length real_math = 1 ∧
    Vec3.cos_angle real_math
        (secondary_CH2.placed_direction real_math (unit_cell.cubic_unit ℝ)
          (sample.methylene_of ℝ) (sample.methylene_sites ℝ) 0)
        (secondary_CH2.placed_direction real_math (unit_cell.cubic_unit ℝ)
          (sample.methylene_of ℝ) (sample.methylene_sites ℝ) 1)
      = Real.cos (2 * secondary_CH2.theta_of (unit_cell.cubic_unit ℝ) (sample.methylene_of ℝ)
          (sample.methylene_sites ℝ)) := by
  have h := C19_secondary_geometry (unit_cell.cubic_unit ℝ) (sample.methylene_of ℝ)
    (sample.methylene_sites ℝ) (fun _ => rfl) (by decide)
    (by
      intro h
      have hx := congrArg Vec3.x h
      have e : (secondary_CH2.x_pn_1 (unit_cell.cubic_unit ℝ) (sample.methylene_of ℝ)
        (sample.methylene_sites ℝ)).x = -1 := rfl
      have e0 : (secondary_CH2.x_p (unit_cell.cubic_unit ℝ) (sample.methylene_of ℝ)
        (sample.methylene_sites ℝ)).x = 0 := rfl
      rw [e, e0] at hx
      norm_num at hx)
    (by
      intro h
      have hy := congrArg Vec3.y h
      have e : (secondary_CH2.x_pn_2 (unit_cell.cubic_unit ℝ) (sample.methylene_of ℝ)
        (sample.methylene_sites ℝ)).y = -1 := rfl
      have e0 : (secondary_CH2.x_p (unit_cell.cubic_unit ℝ) (sample.methylene_of ℝ)
        (sample.methylene_sites ℝ)).y = 0 := rfl
      rw [e, e0] at hy
      norm_num at hy)
    (by
      rw [methylene_u_pn_1, methylene_u_pn_2]
      intro h
      have hx := congrArg Vec3.x h
      norm_num at hx)
    (by
      rw [methylene_u_pn_1, methylene_u_pn_2]
      intro h
      have hx := congrArg Vec3.x h
      norm_num [Vec3.neg] at hx)
    (by
      show (0 : ℝ) ≤ 1
      norm_num)
  exact ⟨(h.1 0 (by norm_num)).2.1, (h.1 1 (by norm_num)).2.1, h.2.2.1⟩

/-- C20, counterexample: for the methine group `methine` on `methine_sites` (pivot
at the origin, neighbours at `(-1, 0, 0)`, `(0, -1, 0)`, `(0, -3/5, -4/5)`, bond length 1, cubic
cell) the code writes the site `(2/3, 2/3, 1/3)` for the dependent, while `pivot + l * e` with
`e` built on the unit vectors pointing from the pivot toward the neighbours is
`(-2/3, -2/3, -1/3)`, the opposite point. -/
theorem C20_toward_neighbours_is_opposite :
    ((tertiary_CH.place_constrained_scatterers real_math (unit_cell.cubic_unit ℝ)
        (sample.methine ℝ) (sample.methine_sites ℝ)).state.2 4).site = ⟨2 / 3, 2 / 3, 1 / 3⟩ ∧
    (unit_cell.cubic_unit ℝ).fractionalize
      (((unit_cell.cubic_unit ℝ).orthogonalize (sample.methine_sites ℝ 0).site).add
        (Vec3.smul (sample.methine ℝ).l
          (tertiary_CH.direction_toward_neighbours real_math
            ((unit_cell.cubic_unit ℝ).orthogonalize (sample.methine_sites ℝ 0).site)
            ((unit_cell.cubic_unit ℝ).orthogonalize (sample.methine_sites ℝ 1).site)
            ((unit_cell.cubic_unit ℝ).orthogonalize (sample.methine_sites ℝ 2).site)
            ((unit_cell.cubic_unit ℝ).orthogonalize (sample.methine_sites ℝ 3).site))))
      = ⟨-2 / 3, -2 / 3, -1 / 3⟩ ∧
    ((tertiary_CH.place_constrained_scatterers real_math (unit_cell.cubic_unit ℝ)
        (sample.methine ℝ) (sample.methine_sites ℝ)).state.2 4).site
      ≠ (unit_cell.cubic_unit ℝ).fractionalize
        (((unit_cell.cubic_unit ℝ).orthogonalize (sample.methine_sites ℝ 0).site).add
          (Vec3.smul (sample.methine ℝ).l
            (tertiary_CH.direction_toward_neighbours real_math
              ((unit_cell.cubic_unit ℝ).orthogonalize (sample.methine_sites ℝ 0).site)
              ((unit_cell.cubic_unit ℝ).orthogonalize (sample.methine_sites ℝ 1).site)
              ((unit_cell.cubic_unit ℝ).orthogonalize (sample.methine_sites ℝ 2).site)
              ((unit_cell.cubic_unit ℝ).orthogonalize (sample.methine_sites ℝ 3).site)))) := by
  have hcode : ((tertiary_CH.place_constrained_scatterers real_math (unit_cell.cubic_unit ℝ)
      (sample.methine ℝ) (sample.methine_sites ℝ)).state.2 4).site = ⟨2 / 3, 2 / 3, 1 / 3⟩ := by
    have h := (tertiary_place_direction real_math (unit_cell.cubic_unit ℝ) (sample.methine ℝ)
      (sample.methine_sites ℝ)).2.1
    have h4 : (sample.methine ℝ).i_hydrogens.getD 0 0 = 4 := rfl
    rw [h4] at h
    rw [h]
    have e0 : (unit_cell.cubic_unit ℝ).orthogonalize
        (sample.methine_sites ℝ (sample.methine ℝ).i_pivot).site = ⟨0, 0, 0⟩ := rfl
    have e1 : (unit_cell.cubic_unit ℝ).orthogonalize
        (sample.methine_sites ℝ (sample.methine ℝ).i_pivot_neighbours.1).site = ⟨-1, 0, 0⟩ := rfl
    have e2 : (unit_cell.cubic_unit ℝ).orthogonalize
        (sample.methine_sites ℝ (sample.methine ℝ).i_pivot_neighbours.2.1).site
          = ⟨0, -1, 0⟩ := rfl
    have e3 : (unit_cell.cubic_unit ℝ).orthogonalize
        (sample.methine_sites ℝ (sample.methine ℝ).i_pivot_neighbours.2.2).site
          = ⟨0, -3 / 5, -4 / 5⟩ := rfl
    have el : (sample.methine ℝ).l = 1 := rfl
    rw [e0, e1, e2, e3, el, methine_code_direction]
    norm_num [unit_cell.cubic_unit, Vec3.add, Vec3.smul]
  have hspec : (unit_cell.cubic_unit ℝ).fractionalize
      (((unit_cell.cubic_unit ℝ).orthogonalize (sample.methine_sites ℝ 0).site).add
        (Vec3.smul (sample.methine ℝ).l
          (tertiary_CH.direction_toward_neighbours real_math
            ((unit_cell.cubic_unit ℝ).orthogonalize (sample.methine_sites ℝ 0).site)
            ((unit_cell.cubic_unit ℝ).orthogonalize (sample.methine_sites ℝ 1).site)
            ((unit_cell.cubic_unit ℝ).orthogonalize (sample.methine_sites ℝ 2).site)
            ((unit_cell.cubic_unit ℝ).orthogonalize (sample.methine_sites ℝ 3).site))))
      = ⟨-2 / 3, -2 / 3, -1 / 3⟩ := by
    have e0 : (unit_cell.cubic_unit ℝ).orthogonalize (sample.methine_sites ℝ 0).site
        = ⟨0, 0, 0⟩ := rfl
    have e1 : (unit_cell.cubic_unit ℝ).orthogonalize (sample.methine_sites ℝ 1).site
        = ⟨-1, 0, 0⟩ := rfl
    have e2 : (unit_cell.cubic_unit ℝ).orthogonalize (sample.methine_sites ℝ 2).site
        = ⟨0, -1, 0⟩ := rfl
    have e3 : (unit_cell.cubic_unit ℝ).orthogonalize (sample.methine_sites ℝ 3).site
        = ⟨0, -3 / 5, -4 / 5⟩ := rfl
    have el : (sample.methine ℝ).l = 1 := rfl
    rw [e0, e1, e2, e3, el, methine_spec_direction]
    norm_num [unit_cell.cubic_unit, Vec3.add, Vec3.smul]
  refine ⟨hcode, hspec, ?_⟩
  rw [hcode, hspec]
  intro h
  have hx := congrArg Vec3.x h
  norm_num at hx

/-- C20, amended: `tertiary_CH::place_constrained_scatterers` returns normally and writes for
its dependent the site `fractionalize (pivot + l * e)`, and stores `e` in `dx_over_dl[0]`,
where, with `u1`, `u2`, `u3` the unit vectors pointing from each of the three neighbours toward
the pivot, `e` is the normalised `(u1 - u2) × (u2 - u3)`, negated when its dot product with the
resultant `u1 + u2 + u3` is negative; and whenever that dot product is not zero the direction
built on the unit vectors from the pivot toward the neighbours is the opposite `-e`. -/
theorem C20_direction_from_neighbours {R : Type} [LinearOrderedField R] (m : std_math R)
    (uc : unit_cell R) (t : tertiary_CH R) (sc : Nat → scatterer R) :
    (tertiary_CH.place_constrained_scatterers m uc t sc).thrown = none ∧
    ((tertiary_CH.place_constrained_scatterers m uc t sc).state.2
        (t.i_hydrogens.getD 0 0)).site
      = uc.fractionalize ((uc.orthogonalize (sc t.i_pivot).site).add (Vec3.smul t.l
          (tertiary_CH.direction_from_neighbours m (uc.orthogonalize (sc t.i_pivot).site)
            (uc.orthogonalize (sc t.i_pivot_neighbours.1).site)
            (uc.orthogonalize (sc t.i_pivot_neighbours.2.1).site)
            (uc.orthogonalize (sc t.i_pivot_neighbours.2.2).site)))) ∧
    (tertiary_CH.place_constrained_scatterers m uc t sc).state.1.dx_over_dl 0
      = tertiary_CH.direction_from_neighbours m (uc.orthogonalize (sc t.i_pivot).site)
          (uc.orthogonalize (sc t.i_pivot_neighbours.1).site)
          (uc.orthogonalize (sc t.i_pivot_neighbours.2.1).site)
          (uc.orthogonalize (sc t.i_pivot_neighbours.2.2).site) ∧
    (∀ x_p x_X x_Y x_Z : Vec3 R,
      (((((x_p.sub x_X).normalize m).sub ((x_p.sub x_Y).normalize m)).cross
          (((x_p.sub x_Y).normalize m).sub ((x_p.sub x_Z).normalize m))).normalize m).dot
        ((((x_p.sub x_X).normalize m).add ((x_p.sub x_Y).normalize m)).add
          ((x_p.sub x_Z).normalize m)) ≠ 0 →
      tertiary_CH.direction_toward_neighbours m x_p x_X x_Y x_Z
        = (tertiary_CH.direction_from_neighbours m x_p x_X x_Y x_Z).neg) :=
  ⟨(tertiary_place_direction m uc t sc).1, (tertiary_place_direction m uc t sc).2.1,
    (tertiary_place_direction m uc t sc).2.2, tertiary_directions_opposite m⟩

/-- C21.  A `tertiary_CH` over the reals is placed in a cell whose `orthogonalize` undoes
`fractionalize`, the three neighbours being away from the pivot, the cross product
`(u_XC - u_YC) × (u_YC - u_ZC)` being non-zero, and `0 ≤ l`.  Then the dependent is at
`pivot + l * dx_over_dl[0]`, `dx_over_dl[0]` has unit length, the dependent is at distance
exactly `l` from the pivot, and the cosines of the three angles H-pivot-X, H-pivot-Y and
H-pivot-Z are equal (for `0 < l` their common value is minus the dot product of the direction
with `u_XC`). -/
theorem C21_tertiary_geometry (uc : unit_cell ℝ) (t : tertiary_CH ℝ) (sc : Nat → scatterer ℝ)
    (h_rt : ∀ x, uc.orthogonalize (uc.fractionalize x) = x)
    (h_X : tertiary_CH.x_p uc t sc ≠ tertiary_CH.x_X uc t sc)
    (h_Y : tertiary_CH.x_p uc t sc ≠ tertiary_CH.x_Y uc t sc)
    (h_Z : tertiary_CH.x_p uc t sc ≠ tertiary_CH.x_Z uc t sc)
    (h_cross : ((tertiary_CH.u_XC real_math uc t sc).sub (tertiary_CH.u_YC real_math uc t sc)).cross
      ((tertiary_CH.u_YC real_math uc t sc).sub (tertiary_CH.u_ZC real_math uc t sc))
        ≠ ⟨0, 0, 0⟩)
    (h_l : 0 ≤ t.l) :
    tertiary_CH.placed_site real_math uc t sc
      = (tertiary_CH.x_p uc t sc).add
          (Vec3.smul t.l (tertiary_CH.placed_direction real_math uc t sc)) ∧
    (tertiary_CH.placed_direction real_math uc t sc).length real_math = 1 ∧
    ((tertiary_CH.placed_site real_math uc t sc).sub (tertiary_CH.x_p uc t sc)).length real_math
      = t.l ∧
    Vec3.cos_angle real_math
        ((tertiary_CH.placed_site real_math uc t sc).sub (tertiary_CH.x_p uc t sc))
        ((tertiary_CH.x_X uc t sc).sub (tertiary_CH.x_p uc t sc))
      = Vec3.cos_angle real_math
        ((tertiary_CH.placed_site real_math uc t sc).sub (tertiary_CH.x_p uc t sc))
        ((tertiary_CH.x_Y uc t sc).sub (tertiary_CH.x_p uc t sc)) ∧
    Vec3.cos_angle real_math
        ((tertiary_CH.placed_site real_math uc t sc).sub (tertiary_CH.x_p uc t sc))
        ((tertiary_CH.x_Y uc t sc).sub (tertiary_CH.x_p uc t sc))
      = Vec3.cos_angle real_math
        ((tertiary_CH.placed_site real_math uc t sc).sub (tertiary_CH.x_p uc t sc))
        ((tertiary_CH.x_Z uc t sc).sub (tertiary_CH.x_p uc t sc)) ∧
    (0 < t.l → Vec3.cos_angle real_math
        ((tertiary_CH.placed_site real_math uc t sc).sub (tertiary_CH.x_p uc t sc))
        ((tertiary_CH.x_X uc t sc).sub (tertiary_CH.x_p uc t sc))
      = -((tertiary_CH.placed_direction real_math uc t sc).dot
          (tertiary_CH.u_XC real_math uc t sc))) := by
  obtain ⟨_, hsite, hdir⟩ := tertiary_place_direction real_math uc t sc
  have hcl : (((tertiary_CH.u_XC real_math uc t sc).sub
      (tertiary_CH.u_YC real_math uc t sc)).cross
      ((tertiary_CH.u_YC real_math uc t sc).sub
        (tertiary_CH.u_ZC real_math uc t sc))).length_sq ≠ 0 := by
    intro hz
    exact h_cross (real_length_sq_eq_zero _ hz)
  obtain ⟨dd, d12, d23⟩ := real_direction_of_units _ _ _ hcl
  have hd : tertiary_CH.placed_direction real_math uc t sc
      = tertiary_CH.direction_of_units real_math (tertiary_CH.u_XC real_math uc t sc)
          (tertiary_CH.u_YC real_math uc t sc) (tertiary_CH.u_ZC real_math uc t sc) := hdir
  have hs : tertiary_CH.placed_site real_math uc t sc
      = (tertiary_CH.x_p uc t sc).add
          (Vec3.smul t.l (tertiary_CH.placed_direction real_math uc t sc)) := by
    unfold tertiary_CH.placed_site
    rw [hsite, h_rt, hd]
    rfl
  rw [← hd] at dd d12 d23
  have hlen : (Vec3.smul t.l (tertiary_CH.placed_direction real_math uc t sc)).length real_math
      = t.l :=
    real_length_of_sq _ t.l h_l (by rw [smul_length_sq, Vec3.length_sq, dd]; ring)
  refine ⟨hs, ?_, ?_, ?_, ?_, ?_⟩
  · exact real_length_of_sq _ 1 (by norm_num) (by rw [Vec3.length_sq, dd]; norm_num)
  · rw [hs, add_smul_sub]
    exact hlen
  · rw [hs, add_smul_sub, real_cos_angle_to_neighbour _ _ _ h_X,
      real_cos_angle_to_neighbour _ _ _ h_Y, smul_dot, smul_dot]
    show -(t.l * (tertiary_CH.placed_direction real_math uc t sc).dot
        (tertiary_CH.u_XC real_math uc t sc)) / _
      = -(t.l * (tertiary_CH.placed_direction real_math uc t sc).dot
        (tertiary_CH.u_YC real_math uc t sc)) / _
    rw [d12]
  · rw [hs, add_smul_sub, real_cos_angle_to_neighbour _ _ _ h_Y,
      real_cos_angle_to_neighbour _ _ _ h_Z, smul_dot, smul_dot]
    show -(t.l * (tertiary_CH.placed_direction real_math uc t sc).dot
        (tertiary_CH.u_YC real_math uc t sc)) / _
      = -(t.l * (tertiary_CH.placed_direction real_math uc t sc).dot
        (tertiary_CH.u_ZC real_math uc t sc)) / _
    rw [d23]
  · intro hl
    rw [hs, add_smul_sub, real_cos_angle_to_neighbour _ _ _ h_X, smul_dot, hlen]
    have hne : t.l ≠ 0 := hl.ne.symm
    show -(t.l * (tertiary_CH.placed_direction real_math uc t sc).dot
        (tertiary_CH.u_XC real_math uc t sc)) / t.l = _
    field_simp
    ring

/-- C21, worked instance: `methine` on `methine_sites` (pivot at the origin, neighbours at
`(-1, 0, 0)`, `(0, -1, 0)`, `(0, -3/5, -4/5)`, bond length 1, cubic cell): the dependent is at
distance 1 from the pivot and the cosines of the three angles are equal. -/
theorem C21_tertiary_geometry_witness :
    ((tertiary_CH.placed_site real_math (unit_cell.cubic_unit ℝ) (sample.methine ℝ)
        (sample.methine_sites ℝ)).sub
      (tertiary_CH.x_p (unit_cell.cubic_unit ℝ) (sample.methine ℝ)
        (sample.methine_sites ℝ))).length real_math = 1 ∧
    Vec3.cos_angle real_math
        ((tertiary_CH.placed_site real_math (unit_cell.cubic_unit ℝ) (sample.methine ℝ)
          (sample.methine_sites ℝ)).sub
        (tertiary_CH.x_p (unit_cell.cubic_unit ℝ) (sample.methine ℝ) (sample.methine_sites ℝ)))
        ((tertiary_CH.x_X (unit_cell.cubic_unit ℝ) (sample.methine ℝ)
          (sample.methine_sites ℝ)).sub
        (tertiary_CH.x_p (unit_cell.cubic_unit ℝ) (sample.methine ℝ) (sample.methine_sites ℝ)))
      = Vec3.cos_angle real_math
        ((tertiary_CH.placed_site real_math (unit_cell.cubic_unit ℝ) (sample.methine ℝ)
          (sample.methine_sites ℝ)).sub
        (tertiary_CH.x_p (unit_cell.cubic_unit ℝ) (sample.methine ℝ) (sample.methine_sites ℝ)))
        ((tertiary_CH.x_Y (unit_cell.cubic_unit ℝ) (sample.methine ℝ)
          (sample.methine_sites ℝ)).sub
        (tertiary_CH.x_p (unit_cell.cubic_unit ℝ) (sample.methine ℝ)
          (sample.methine_sites ℝ))) ∧
    Vec3.cos_angle real_math
        ((tertiary_CH.placed_site real_math (unit_cell.cubic_unit ℝ) (sample.methine ℝ)
          (sample.methine_sites ℝ)).sub
        (tertiary_CH.x_p (unit_cell.cubic_unit ℝ) (sample.methine ℝ) (sample.methine_sites ℝ)))
        ((tertiary_CH.x_Y (unit_cell.cubic_unit ℝ) (sample.methine ℝ)
          (sample.methine_sites ℝ)).sub
        (tertiary_CH.x_p (unit_cell.cubic_unit ℝ) (sample.methine ℝ) (sample.methine_sites ℝ)))
      = Vec3.cos_angle real_math
        ((tertiary_CH.placed_site real_math (unit_cell.cubic_unit ℝ) (sample.methine ℝ)
          (sample.methine_sites ℝ)).sub
        (tertiary_CH.x_p (unit_cell.cubic_unit ℝ) (sample.methine ℝ) (sample.methine_sites ℝ)))
        ((tertiary_CH.x_Z (unit_cell.cubic_unit ℝ) (sample.methine ℝ)
          (sample.methine_sites ℝ)).sub
        (tertiary_CH.x_p (unit_cell.cubic_unit ℝ) (sample.methine ℝ)
          (sample.methine_sites ℝ))) := by
  have hx : ∀ v : Vec3 ℝ, (⟨0, 0, 0⟩ : Vec3 ℝ) = v → v.x ≠ 0 → False := by
    intro v h hv
    exact hv (congrArg Vec3.x h).symm
  have hy : ∀ v : Vec3 ℝ, (⟨0, 0, 0⟩ : Vec3 ℝ) = v → v.y ≠ 0 → False := by
    intro v h hv
    exact hv (congrArg Vec3.y h).symm
  have h := C21_tertiary_geometry (unit_cell.cubic_unit ℝ) (sample.methine ℝ)
    (sample.methine_sites ℝ) (fun _ => rfl)
    (fun h => hx ⟨-1, 0, 0⟩ h (by norm_num))
    (fun h => hy ⟨0, -1, 0⟩ h (by norm_num))
    (fun h => hy ⟨0, -3 / 5, -4 / 5⟩ h (by norm_num))
    (by
      rw [methine_u_XC, methine_u_YC, methine_u_ZC]
      intro h
      have h1 := congrArg Vec3.x h
      norm_num [Vec3.cross, Vec3.sub] at h1)
    (by
      show (0 : ℝ) ≤ 1
      norm_num)
  exact ⟨h.2.2.1, h.2.2.2.1, h.2.2.2.2.1⟩

/-- C22, counterexample: for the amide group `amide` on `amide_sites` (pivot at the origin,
neighbours at `(-3/5, -4/5, 0)` and `(-3/5, 4/5, 0)`, bond length 1, cubic cell) the code writes
the site `(1, 0, 0)` for the dependent, while `pivot + l * e` with `e` the normalised sum of the
unit vectors pointing from the pivot toward the neighbours is `(-1, 0, 0)`, the opposite
point. -/
theorem C22_toward_neighbours_is_opposite :
    ((aromatic_CH_or_amide_NH.place_constrained_scatterers real_math (unit_cell.cubic_unit ℝ)
        (sample.amide ℝ) (sample.amide_sites ℝ)).state.2 3).site = ⟨1, 0, 0⟩ ∧
    (unit_cell.cubic_unit ℝ).fractionalize
      ((aromatic_CH_or_amide_NH.x_p (unit_cell.cubic_unit ℝ) (sample.amide ℝ)
          (sample.amide_sites ℝ)).add
        (Vec3.smul (sample.amide ℝ).l
          (aromatic_CH_or_amide_NH.direction_toward_neighbours real_math
            (aromatic_CH_or_amide_NH.x_p (unit_cell.cubic_unit ℝ) (sample.amide ℝ)
              (sample.amide_sites ℝ))
            (aromatic_CH_or_amide_NH.x_X (unit_cell.cubic_unit ℝ) (sample.amide ℝ)
              (sample.amide_sites ℝ))
            (aromatic_CH_or_amide_NH.x_Y (unit_cell.cubic_unit ℝ) (sample.amide ℝ)
              (sample.amide_sites ℝ)))))
      = ⟨-1, 0, 0⟩ ∧
    ((aromatic_CH_or_amide_NH.place_constrained_scatterers real_math (unit_cell.cubic_unit ℝ)
        (sample.amide ℝ) (sample.amide_sites ℝ)).state.2 3).site
      ≠ (unit_cell.cubic_unit ℝ).fractionalize
        ((aromatic_CH_or_amide_NH.x_p (unit_cell.cubic_unit ℝ) (sample.amide ℝ)
            (sample.amide_sites ℝ)).add
          (Vec3.smul (sample.amide ℝ).l
            (aromatic_CH_or_amide_NH.direction_toward_neighbours real_math
              (aromatic_CH_or_amide_NH.x_p (unit_cell.cubic_unit ℝ) (sample.amide ℝ)
                (sample.amide_sites ℝ))
              (aromatic_CH_or_amide_NH.x_X (unit_cell.cubic_unit ℝ) (sample.amide ℝ)
                (sample.amide_sites ℝ))
              (aromatic_CH_or_amide_NH.x_Y (unit_cell.cubic_unit ℝ) (sample.amide ℝ)
                (sample.amide_sites ℝ))))) := by
  have e0 : aromatic_CH_or_amide_NH.x_p (unit_cell.cubic_unit ℝ) (sample.amide ℝ)
      (sample.amide_sites ℝ) = ⟨0, 0, 0⟩ := rfl
  have e1 : aromatic_CH_or_amide_NH.x_X (unit_cell.cubic_unit ℝ) (sample.amide ℝ)
      (sample.amide_sites ℝ) = ⟨-3 / 5, -4 / 5, 0⟩ := rfl
  have e2 : aromatic_CH_or_amide_NH.x_Y (unit_cell.cubic_unit ℝ) (sample.amide ℝ)
      (sample.amide_sites ℝ) = ⟨-3 / 5, 4 / 5, 0⟩ := rfl
  have el : (sample.amide ℝ).l = 1 := rfl
  have hcode : ((aromatic_CH_or_amide_NH.place_constrained_scatterers real_math
      (unit_cell.cubic_unit ℝ) (sample.amide ℝ) (sample.amide_sites ℝ)).state.2 3).site
      = ⟨1, 0, 0⟩ := by
    have h := (aromatic_place_direction real_math (unit_cell.cubic_unit ℝ) (sample.amide ℝ)
      (sample.amide_sites ℝ)).2.1
    have h3 : (sample.amide ℝ).i_hydrogens.getD 0 0 = 3 := rfl
    rw [h3] at h
    rw [h, e0, e1, e2, el, amide_code_direction]
    norm_num [unit_cell.cubic_unit, Vec3.add, Vec3.smul]
  have hspec : (unit_cell.cubic_unit ℝ).fractionalize
      ((aromatic_CH_or_amide_NH.x_p (unit_cell.cubic_unit ℝ) (sample.amide ℝ)
          (sample.amide_sites ℝ)).add
        (Vec3.smul (sample.amide ℝ).l
          (aromatic_CH_or_amide_NH.direction_toward_neighbours real_math
            (aromatic_CH_or_amide_NH.x_p (unit_cell.cubic_unit ℝ) (sample.amide ℝ)
              (sample.amide_sites ℝ))
            (aromatic_CH_or_amide_NH.x_X (unit_cell.cubic_unit ℝ) (sample.amide ℝ)
              (sample.amide_sites ℝ))
            (aromatic_CH_or_amide_NH.x_Y (unit_cell.cubic_unit ℝ) (sample.amide ℝ)
              (sample.amide_sites ℝ)))))
      = ⟨-1, 0, 0⟩ := by
    rw [e0, e1, e2, el, aromatic_directions_opposite, amide_code_direction]
    norm_num [unit_cell.cubic_unit, Vec3.add, Vec3.smul, Vec3.neg]
  refine ⟨hcode, hspec, ?_⟩
  rw [hcode, hspec]
  intro h
  have hx := congrArg Vec3.x h
  norm_num at hx

/-- C22, amended.  `aromatic_CH_or_amide_NH::place_constrained_scatterers` over the reals, in a
cell whose `orthogonalize` undoes `fractionalize`, both neighbours being away from the pivot and
the unit vectors `u_XC`, `u_YC` not opposite (the pivot is not on the segment joining the two
neighbours, so that no vector of zero length is normalised), returns normally and places its
dependent at `pivot + l * e`, where `e` is the normalised sum of the two unit vectors pointing
from each neighbour toward the pivot; `e` has unit length and the dependent is at distance `|l|`
from the pivot; the dependent lies in the plane of X, pivot, Y (its offset from the pivot is
orthogonal to the normal `(X - pivot) × (Y - pivot)`); for `l ≠ 0` the cosines of its angles with
the two pivot-neighbour bonds are equal; the normalised sum of the unit vectors from the pivot
toward the neighbours is the opposite direction `-e`. -/
theorem C22_direction_from_neighbours (uc : unit_cell ℝ) (t : aromatic_CH_or_amide_NH ℝ)
    (sc : Nat → scatterer ℝ)
    (h_rt : ∀ x, uc.orthogonalize (uc.fractionalize x) = x)
    (h_X : aromatic_CH_or_amide_NH.x_p uc t sc ≠ aromatic_CH_or_amide_NH.x_X uc t sc)
    (h_Y : aromatic_CH_or_amide_NH.x_p uc t sc ≠ aromatic_CH_or_amide_NH.x_Y uc t sc)
    (h_opp : aromatic_CH_or_amide_NH.u_XC real_math uc t sc
      ≠ (aromatic_CH_or_amide_NH.u_YC real_math uc t sc).neg) :
    (aromatic_CH_or_amide_NH.place_constrained_scatterers real_math uc t sc).thrown = none ∧
    ((aromatic_CH_or_amide_NH.place_constrained_scatterers real_math uc t sc).state.2
        (t.i_hydrogens.getD 0 0)).site
      = uc.fractionalize ((aromatic_CH_or_amide_NH.x_p uc t sc).add (Vec3.smul t.l
          (aromatic_CH_or_amide_NH.direction_from_neighbours real_math
            (aromatic_CH_or_amide_NH.x_p uc t sc) (aromatic_CH_or_amide_NH.x_X uc t sc)
            (aromatic_CH_or_amide_NH.x_Y uc t sc)))) ∧
    aromatic_CH_or_amide_NH.placed_site real_math uc t sc
      = (aromatic_CH_or_amide_NH.x_p uc t sc).add (Vec3.smul t.l
          (aromatic_CH_or_amide_NH.direction_from_neighbours real_math
            (aromatic_CH_or_amide_NH.x_p uc t sc) (aromatic_CH_or_amide_NH.x_X uc t sc)
            (aromatic_CH_or_amide_NH.x_Y uc t sc))) ∧
    aromatic_CH_or_amide_NH.direction_from_neighbours real_math
        (aromatic_CH_or_amide_NH.x_p uc t sc) (aromatic_CH_or_amide_NH.x_X uc t sc)
        (aromatic_CH_or_amide_NH.x_Y uc t sc)
      = ((aromatic_CH_or_amide_NH.u_XC real_math uc t sc).add
          (aromatic_CH_or_amide_NH.u_YC real_math uc t sc)).normalize real_math ∧
    (aromatic_CH_or_amide_NH.direction_from_neighbours real_math
        (aromatic_CH_or_amide_NH.x_p uc t sc) (aromatic_CH_or_amide_NH.x_X uc t sc)
        (aromatic_CH_or_amide_NH.x_Y uc t sc)).length_sq = 1 ∧
    ((aromatic_CH_or_amide_NH.placed_site real_math uc t sc).sub
        (aromatic_CH_or_amide_NH.x_p uc t sc)).length real_math = |t.l| ∧
    ((aromatic_CH_or_amide_NH.placed_site real_math uc t sc).sub
        (aromatic_CH_or_amide_NH.x_p uc t sc)).dot
      (((aromatic_CH_or_amide_NH.x_X uc t sc).sub (aromatic_CH_or_amide_NH.x_p uc t sc)).cross
        ((aromatic_CH_or_amide_NH.x_Y uc t sc).sub (aromatic_CH_or_amide_NH.x_p uc t sc)))
      = 0 ∧
    (t.l ≠ 0 →
      Vec3.cos_angle real_math
          ((aromatic_CH_or_amide_NH.placed_site real_math uc t sc).sub
            (aromatic_CH_or_amide_NH.x_p uc t sc))
          ((aromatic_CH_or_amide_NH.x_X uc t sc).sub (aromatic_CH_or_amide_NH.x_p uc t sc))
        = Vec3.cos_angle real_math
          ((aromatic_CH_or_amide_NH.placed_site real_math uc t sc).sub
            (aromatic_CH_or_amide_NH.x_p uc t sc))
          ((aromatic_CH_or_amide_NH.x_Y uc t sc).sub (aromatic_CH_or_amide_NH.x_p uc t sc))) ∧
    aromatic_CH_or_amide_NH.direction_toward_neighbours real_math
        (aromatic_CH_or_amide_NH.x_p uc t sc) (aromatic_CH_or_amide_NH.x_X uc t sc)
        (aromatic_CH_or_amide_NH.x_Y uc t sc)
      = (aromatic_CH_or_amide_NH.direction_from_neighbours real_math
        (aromatic_CH_or_amide_NH.x_p uc t sc) (aromatic_CH_or_amide_NH.x_X uc t sc)
        (aromatic_CH_or_amide_NH.x_Y uc t sc)).neg := by
  obtain ⟨hthr, hsite, _⟩ := aromatic_place_direction real_math uc t sc
  have hs : aromatic_CH_or_amide_NH.placed_site real_math uc t sc
      = (aromatic_CH_or_amide_NH.x_p uc t sc).add (Vec3.smul t.l
          (aromatic_CH_or_amide_NH.direction_from_neighbours real_math
            (aromatic_CH_or_amide_NH.x_p uc t sc) (aromatic_CH_or_amide_NH.x_X uc t sc)
            (aromatic_CH_or_amide_NH.x_Y uc t sc))) := by
    unfold aromatic_CH_or_amide_NH.placed_site
    rw [hsite, h_rt]
  have hu1 := real_normalize_unit_length _ (real_sub_length_sq_ne _ _ h_X)
  have hu2 := real_normalize_unit_length _ (real_sub_length_sq_ne _ _ h_Y)
  have hunit : (aromatic_CH_or_amide_NH.direction_from_neighbours real_math
      (aromatic_CH_or_amide_NH.x_p uc t sc) (aromatic_CH_or_amide_NH.x_X uc t sc)
      (aromatic_CH_or_amide_NH.x_Y uc t sc)).length_sq = 1 :=
    real_normalize_unit_length _ (real_add_length_sq_ne _ _ h_opp)
  refine ⟨hthr, hsite, hs, rfl, hunit, ?_, ?_, ?_,
    aromatic_directions_opposite real_math _ _ _⟩
  · rw [hs, add_smul_sub]
    show Real.sqrt _ = _
    rw [smul_length_sq, hunit, mul_one]
    exact Real.sqrt_mul_self_eq_abs t.l
  · rw [hs, add_smul_sub]
    unfold aromatic_CH_or_amide_NH.direction_from_neighbours
    rw [real_normalize_smul (Vec3.add _ _), real_normalize_smul (Vec3.sub _ _),
      real_normalize_smul (Vec3.sub _ (aromatic_CH_or_amide_NH.x_Y uc t sc))]
    simp only [Vec3.dot, Vec3.cross, Vec3.smul, Vec3.add, Vec3.sub]
    ring
  · intro _
    rw [hs, add_smul_sub, real_cos_angle_to_neighbour _ _ _ h_X,
      real_cos_angle_to_neighbour _ _ _ h_Y, smul_dot, smul_dot]
    unfold aromatic_CH_or_amide_NH.direction_from_neighbours
    rw [real_normalize_smul (Vec3.add _ _), smul_dot, smul_dot]
    have hsplit : ∀ a b c : Vec3 ℝ, (a.add b).dot c = a.dot c + b.dot c := by
      intro a b c
      simp only [Vec3.dot, Vec3.add]
      ring
    rw [hsplit, hsplit, hu1, hu2,
      dot_comm (Vec3.normalize real_math ((aromatic_CH_or_amide_NH.x_p uc t sc).sub
        (aromatic_CH_or_amide_NH.x_Y uc t sc)))]
    ring

/-- C22, worked instance of the amended statement: `amide` on `amide_sites` (pivot at the
origin, neighbours at `(-3/5, -4/5, 0)` and `(-3/5, 4/5, 0)`, so `u_XC = (3/5, 4/5, 0)` and
`u_YC = (3/5, -4/5, 0)`, bond length 1): the dependent is placed at `(1, 0, 0)`, at distance 1
from the pivot, in the plane of the two neighbours and the pivot, and the cosine of its angle
with either bond is `-3/5`. -/
theorem C22_direction_from_neighbours_witness :
    aromatic_CH_or_amide_NH.placed_site real_math (unit_cell.cubic_unit ℝ) (sample.amide ℝ)
        (sample.amide_sites ℝ) = ⟨1, 0, 0⟩ ∧
    ((aromatic_CH_or_amide_NH.placed_site real_math (unit_cell.cubic_unit ℝ) (sample.amide ℝ)
        (sample.amide_sites ℝ)).sub
        (aromatic_CH_or_amide_NH.x_p (unit_cell.cubic_unit ℝ) (sample.amide ℝ)
          (sample.amide_sites ℝ))).length real_math = 1 ∧
    ((aromatic_CH_or_amide_NH.placed_site real_math (unit_cell.cubic_unit ℝ) (sample.amide ℝ)
        (sample.amide_sites ℝ)).sub
        (aromatic_CH_or_amide_NH.x_p (unit_cell.cubic_unit ℝ) (sample.amide ℝ)
          (sample.amide_sites ℝ))).dot
      (((aromatic_CH_or_amide_NH.x_X (unit_cell.cubic_unit ℝ) (sample.amide ℝ)
          (sample.amide_sites ℝ)).sub
        (aromatic_CH_or_amide_NH.x_p (unit_cell.cubic_unit ℝ) (sample.amide ℝ)
          (sample.amide_sites ℝ))).cross
        ((aromatic_CH_or_amide_NH.x_Y (unit_cell.cubic_unit ℝ) (sample.amide ℝ)
          (sample.amide_sites ℝ)).sub
        (aromatic_CH_or_amide_NH.x_p (unit_cell.cubic_unit ℝ) (sample.amide ℝ)
          (sample.amide_sites ℝ))))
      = 0 ∧
    Vec3.cos_angle real_math
        ((aromatic_CH_or_amide_NH.placed_site real_math (unit_cell.cubic_unit ℝ)
          (sample.amide ℝ) (sample.amide_sites ℝ)).sub
          (aromatic_CH_or_amide_NH.x_p (unit_cell.cubic_unit ℝ) (sample.amide ℝ)
            (sample.amide_sites ℝ)))
        ((aromatic_CH_or_amide_NH.x_X (unit_cell.cubic_unit ℝ) (sample.amide ℝ)
          (sample.amide_sites ℝ)).sub
          (aromatic_CH_or_amide_NH.x_p (unit_cell.cubic_unit ℝ) (sample.amide ℝ)
            (sample.amide_sites ℝ)))
      = -3 / 5 ∧
    Vec3.cos_angle real_math
        ((aromatic_CH_or_amide_NH.placed_site real_math (unit_cell.cubic_unit ℝ)
          (sample.amide ℝ) (sample.amide_sites ℝ)).sub
          (aromatic_CH_or_amide_NH.x_p (unit_cell.cubic_unit ℝ) (sample.amide ℝ)
            (sample.amide_sites ℝ)))
        ((aromatic_CH_or_amide_NH.x_Y (unit_cell.cubic_unit ℝ) (sample.amide ℝ)
          (sample.amide_sites ℝ)).sub
          (aromatic_CH_or_amide_NH.x_p (unit_cell.cubic_unit ℝ) (sample.amide ℝ)
            (sample.amide_sites ℝ)))
      = -3 / 5 := by
  have hx : ∀ v : Vec3 ℝ, (⟨0, 0, 0⟩ : Vec3 ℝ) = v → v.x ≠ 0 → False := by
    intro v h hv
    exact hv (congrArg Vec3.x h).symm
  have e0 : aromatic_CH_or_amide_NH.x_p (unit_cell.cubic_unit ℝ) (sample.amide ℝ)
      (sample.amide_sites ℝ) = ⟨0, 0, 0⟩ := rfl
  have e1 : aromatic_CH_or_amide_NH.x_X (unit_cell.cubic_unit ℝ) (sample.amide ℝ)
      (sample.amide_sites ℝ) = ⟨-3 / 5, -4 / 5, 0⟩ := rfl
  have e2 : aromatic_CH_or_amide_NH.x_Y (unit_cell.cubic_unit ℝ) (sample.amide ℝ)
      (sample.amide_sites ℝ) = ⟨-3 / 5, 4 / 5, 0⟩ := rfl
  have el : (sample.amide ℝ).l = 1 := rfl
  have u1 : aromatic_CH_or_amide_NH.u_XC real_math (unit_cell.cubic_unit ℝ) (sample.amide ℝ)
      (sample.amide_sites ℝ) = ⟨3 / 5, 4 / 5, 0⟩ := real_normalize_from_amide_1
  have u2 : aromatic_CH_or_amide_NH.u_YC real_math (unit_cell.cubic_unit ℝ) (sample.amide ℝ)
      (sample.amide_sites ℝ) = ⟨3 / 5, -4 / 5, 0⟩ := real_normalize_from_amide_2
  have h := C22_direction_from_neighbours (unit_cell.cubic_unit ℝ) (sample.amide ℝ)
    (sample.amide_sites ℝ) (fun _ => rfl)
    (fun h => hx ⟨-3 / 5, -4 / 5, 0⟩ h (by norm_num))
    (fun h => hx ⟨-3 / 5, 4 / 5, 0⟩ h (by norm_num))
    (by
      rw [u1, u2]
      intro h
      have h1 := congrArg Vec3.x h
      norm_num [Vec3.neg] at h1)
  obtain ⟨_, _, hs, _, _, hlen, hplane, hcos, _⟩ := h
  have hsite : aromatic_CH_or_amide_NH.placed_site real_math (unit_cell.cubic_unit ℝ)
      (sample.amide ℝ) (sample.amide_sites ℝ) = ⟨1, 0, 0⟩ := by
    rw [hs, e0, e1, e2, el, amide_code_direction]
    norm_num [Vec3.add, Vec3.smul]
  have hl1 : (sample.amide ℝ).l ≠ 0 := by
    rw [el]
    norm_num
  have hc := hcos hl1
  have hcx : Vec3.cos_angle real_math
      ((aromatic_CH_or_amide_NH.placed_site real_math (unit_cell.cubic_unit ℝ)
        (sample.amide ℝ) (sample.amide_sites ℝ)).sub
        (aromatic_CH_or_amide_NH.x_p (unit_cell.cubic_unit ℝ) (sample.amide ℝ)
          (sample.amide_sites ℝ)))
      ((aromatic_CH_or_amide_NH.x_X (unit_cell.cubic_unit ℝ) (sample.amide ℝ)
        (sample.amide_sites ℝ)).sub
        (aromatic_CH_or_amide_NH.x_p (unit_cell.cubic_unit ℝ) (sample.amide ℝ)
          (sample.amide_sites ℝ)))
      = -3 / 5 := by
    rw [hsite, e0, e1]
    unfold Vec3.cos_angle
    rw [real_length_of_sq _ 1 (by norm_num) (by norm_num [Vec3.length_sq, Vec3.dot, Vec3.sub]),
      real_length_of_sq _ 1 (by norm_num) (by norm_num [Vec3.length_sq, Vec3.dot, Vec3.sub])]
    norm_num [Vec3.dot, Vec3.sub]
  refine ⟨hsite, ?_, hplane, hcx, ?_⟩
  · rw [hlen, el]
    norm_num
  · rw [← hc]
    exact hcx

/-- C23.  Two Active constraints `a` and `b` of any variants share a pivot; their dependents
carry the `grad_site` flag and have site slots that do not overlap those of the pivot (none of
them is the pivot).  Then `compute_gradients` returns normally on `a` then `b` and on `b` then
`a`, both orders leave the same crystallographic gradients, each site slot of the pivot has
gained the sum of the matching components of the dependents of `a` and of those of `b`, and
every other entry is unchanged.  The reparametrization gradients passed to the four calls are
arbitrary, so the constraints need not be riding-only. -/
theorem C23_pivot_accumulation_commutes {R : Type} [LinearOrderedField R] (m : std_math R)
    (a b : any_hydrogens R) (uc : unit_cell R) (scatterers : Nat → scatterer R)
    (pm : Nat → parameter_indices) (g : Nat → R) (rg1 rg2 rg3 rg4 : List R)
    (h_onA : (heir.base a).on_ = true) (h_onB : (heir.base b).on_ = true)
    (h_pivot : (heir.base b).i_pivot = (heir.base a).i_pivot)
    (h_flagsA : ∀ i_h ∈ (heir.base a).i_hydrogens, (scatterers i_h).flags.grad_site = true)
    (h_flagsB : ∀ i_h ∈ (heir.base b).i_hydrogens, (scatterers i_h).flags.grad_site = true)
    (h_slotsA : ∀ i_h ∈ (heir.base a).i_hydrogens,
      (pm i_h).site + 3 ≤ (pm (heir.base a).i_pivot).site ∨
        (pm (heir.base a).i_pivot).site + 3 ≤ (pm i_h).site)
    (h_slotsB : ∀ i_h ∈ (heir.base b).i_hydrogens,
      (pm i_h).site + 3 ≤ (pm (heir.base a).i_pivot).site ∨
        (pm (heir.base a).i_pivot).site + 3 ≤ (pm i_h).site) :
    (compute_gradients m a uc scatterers pm g rg1).thrown = none ∧
    (compute_gradients m b uc scatterers pm
      (compute_gradients m a uc scatterers pm g rg1).state.2.1 rg2).thrown = none ∧
    (compute_gradients m b uc scatterers pm g rg3).thrown = none ∧
    (compute_gradients m a uc scatterers pm
      (compute_gradients m b uc scatterers pm g rg3).state.2.1 rg4).thrown = none ∧
    (compute_gradients m b uc scatterers pm
        (compute_gradients m a uc scatterers pm g rg1).state.2.1 rg2).state.2.1
      = (compute_gradients m a uc scatterers pm
        (compute_gradients m b uc scatterers pm g rg3).state.2.1 rg4).state.2.1 ∧
    (∀ j, j < 3 →
      (compute_gradients m b uc scatterers pm
          (compute_gradients m a uc scatterers pm g rg1).state.2.1 rg2).state.2.1
          ((pm (heir.base a).i_pivot).site + j)
        = g ((pm (heir.base a).i_pivot).site + j)
          + ((heir.base a).i_hydrogens.map (fun i_h => g ((pm i_h).site + j))).sum
          + ((heir.base b).i_hydrogens.map (fun i_h => g ((pm i_h).site + j))).sum) ∧
    (∀ k, k < (pm (heir.base a).i_pivot).site ∨ (pm (heir.base a).i_pivot).site + 3 ≤ k →
      (compute_gradients m b uc scatterers pm
          (compute_gradients m a uc scatterers pm g rg1).state.2.1 rg2).state.2.1 k = g k) := by
  have h_slotsB1 : ∀ i_h ∈ (heir.base b).i_hydrogens,
      (pm i_h).site + 3 ≤ (pm (heir.base b).i_pivot).site ∨
        (pm (heir.base b).i_pivot).site + 3 ≤ (pm i_h).site := by
    rw [h_pivot]; exact h_slotsB
  obtain ⟨a1, a2, a3⟩ := compute_gradients_riding_spec m a uc scatterers pm g rg1 h_onA h_flagsA
    h_slotsA
  obtain ⟨b1, b2, b3⟩ := compute_gradients_riding_spec m b uc scatterers pm g rg3 h_onB h_flagsB
    h_slotsB1
  obtain ⟨ab1, ab2, ab3⟩ := compute_gradients_riding_spec m b uc scatterers pm
    (compute_gradients m a uc scatterers pm g rg1).state.2.1 rg2 h_onB h_flagsB h_slotsB1
  obtain ⟨ba1, ba2, ba3⟩ := compute_gradients_riding_spec m a uc scatterers pm
    (compute_gradients m b uc scatterers pm g rg3).state.2.1 rg4 h_onA h_flagsA h_slotsA
  rw [h_pivot] at b2 b3 ab2 ab3
  have hAB : ∀ j, j < 3 →
      (compute_gradients m b uc scatterers pm
          (compute_gradients m a uc scatterers pm g rg1).state.2.1 rg2).state.2.1
          ((pm (heir.base a).i_pivot).site + j)
        = g ((pm (heir.base a).i_pivot).site + j)
          + ((heir.base a).i_hydrogens.map (fun i_h => g ((pm i_h).site + j))).sum
          + ((heir.base b).i_hydrogens.map (fun i_h => g ((pm i_h).site + j))).sum := by
    intro j hj
    rw [ab2 j hj, a2 j hj]
    congr 1
    apply map_sum_congr_mem
    intro i_h hi
    have := h_slotsB i_h hi
    exact a3 _ (by omega)
  have hBA : ∀ j, j < 3 →
      (compute_gradients m a uc scatterers pm
          (compute_gradients m b uc scatterers pm g rg3).state.2.1 rg4).state.2.1
          ((pm (heir.base a).i_pivot).site + j)
        = g ((pm (heir.base a).i_pivot).site + j)
          + ((heir.base a).i_hydrogens.map (fun i_h => g ((pm i_h).site + j))).sum
          + ((heir.base b).i_hydrogens.map (fun i_h => g ((pm i_h).site + j))).sum := by
    intro j hj
    rw [ba2 j hj, b2 j hj]
    have hmap : ((heir.base a).i_hydrogens.map (fun i_h =>
        (compute_gradients m b uc scatterers pm g rg3).state.2.1 ((pm i_h).site + j))).sum
        = ((heir.base a).i_hydrogens.map (fun i_h => g ((pm i_h).site + j))).sum := by
      apply map_sum_congr_mem
      intro i_h hi
      have := h_slotsA i_h hi
      exact b3 _ (by omega)
    rw [hmap]
    ring
  have hABo : ∀ k, k < (pm (heir.base a).i_pivot).site ∨ (pm (heir.base a).i_pivot).site + 3 ≤ k →
      (compute_gradients m b uc scatterers pm
          (compute_gradients m a uc scatterers pm g rg1).state.2.1 rg2).state.2.1 k = g k := by
    intro k hk
    rw [ab3 k hk, a3 k hk]
  refine ⟨a1, ab1, b1, ba1, ?_, hAB, hABo⟩
  funext k
  rcases slot_cases (pm (heir.base a).i_pivot).site k with ⟨j, hj, rfl⟩ | hk
  · rw [hAB j hj, hBA j hj]
  · rw [hABo k hk, ba3 k hk, b3 k hk]

/-- C23, worked instance: `methyl_riding` (dependents 1, 2, 3) and `sibling` (dependents 5, 6)
on the pivot 0, gradients `ramp`: both orders give the same gradients, and entry 0 is
`1 + (4 + 7 + 10) + (16 + 19) = 57`. -/
theorem C23_pivot_accumulation_commutes_witness :
    (compute_gradients sample.no_math (any_hydrogens.terminal sample.sibling)
        (unit_cell.cubic_unit ℚ) (sample.free_scatterers ℚ) sample.packed_map
        (compute_gradients sample.no_math (any_hydrogens.terminal sample.methyl_riding)
          (unit_cell.cubic_unit ℚ) (sample.free_scatterers ℚ) sample.packed_map sample.ramp
          []).state.2.1 []).state.2.1
      = (compute_gradients sample.no_math (any_hydrogens.terminal sample.methyl_riding)
        (unit_cell.cubic_unit ℚ) (sample.free_scatterers ℚ) sample.packed_map
        (compute_gradients sample.no_math (any_hydrogens.terminal sample.sibling)
          (unit_cell.cubic_unit ℚ) (sample.free_scatterers ℚ) sample.packed_map sample.ramp
          []).state.2.1 []).state.2.1 ∧
    (compute_gradients sample.no_math (any_hydrogens.terminal sample.sibling)
        (unit_cell.cubic_unit ℚ) (sample.free_scatterers ℚ) sample.packed_map
        (compute_gradients sample.no_math (any_hydrogens.terminal sample.methyl_riding)
          (unit_cell.cubic_unit ℚ) (sample.free_scatterers ℚ) sample.packed_map sample.ramp
          []).state.2.1 []).state.2.1 0 = 57 := by
  obtain ⟨_, _, _, _, h5, h6, _⟩ :=
    C23_pivot_accumulation_commutes sample.no_math (any_hydrogens.terminal sample.methyl_riding)
      (any_hydrogens.terminal sample.sibling) (unit_cell.cubic_unit ℚ)
      (sample.free_scatterers ℚ) sample.packed_map sample.ramp [] [] [] [] rfl rfl rfl
      (by intro i_h _; rfl) (by intro i_h _; rfl)
      (by
        intro i_h hi
        have h3 : i_h ∈ [1, 2, 3] := hi
        simp only [List.mem_cons, List.mem_singleton, List.not_mem_nil, or_false] at h3
        right
        show 3 * 0 + 3 ≤ 3 * i_h
        omega)
      (by
        intro i_h hi
        have h3 : i_h ∈ [5, 6] := hi
        simp only [List.mem_cons, List.mem_singleton, List.not_mem_nil, or_false] at h3
        right
        show 3 * 0 + 3 ≤ 3 * i_h
        omega)
  refine ⟨h5, ?_⟩
  have h := h6 0 (by norm_num)
  rw [show (0 : Nat) = (sample.packed_map
    (heir.base (any_hydrogens.terminal sample.methyl_riding)).i_pivot).site + 0 from rfl, h]
  show sample.ramp 0 + ([1, 2, 3].map (fun i_h => sample.ramp ((sample.packed_map i_h).site + 0))).sum
    + ([5, 6].map (fun i_h => sample.ramp ((sample.packed_map i_h).site + 0))).sum = 57
  norm_num [sample.ramp, sample.packed_map]

/-- C24.  Cascaded Active constraints `a` (pivot `P`, dependent `Q`) and `b` (pivot `Q`,
dependent `H`), the site slots of `P`, `Q`, `H` pairwise disjoint, `Q` and `H` carrying the
`grad_site` flag.  All four calls return normally.  With `b` before `a`, each site slot of `P`
gains the original gradient of `Q` plus that of `H`; with `a` before `b` it gains the original
gradient of `Q` only; in both orders the slot of `Q` gains the gradient of `H`; so the two
orders differ at the slot of `P` whenever the matching component of the gradient of `H` is not
zero. -/
theorem C24_cascade_order_matters {R : Type} [LinearOrderedField R] (m : std_math R)
    (a b : any_hydrogens R) (uc : unit_cell R) (scatterers : Nat → scatterer R)
    (pm : Nat → parameter_indices) (g : Nat → R) (rg1 rg2 rg3 rg4 : List R) (P Q H : Nat)
    (h_onA : (heir.base a).on_ = true) (h_onB : (heir.base b).on_ = true)
    (h_pivotA : (heir.base a).i_pivot = P) (h_hydA : (heir.base a).i_hydrogens = [Q])
    (h_pivotB : (heir.base b).i_pivot = Q) (h_hydB : (heir.base b).i_hydrogens = [H])
    (h_flagQ : (scatterers Q).flags.grad_site = true)
    (h_flagH : (scatterers H).flags.grad_site = true)
    (h_PQ : (pm P).site + 3 ≤ (pm Q).site ∨ (pm Q).site + 3 ≤ (pm P).site)
    (h_PH : (pm P).site + 3 ≤ (pm H).site ∨ (pm H).site + 3 ≤ (pm P).site)
    (h_QH : (pm Q).site + 3 ≤ (pm H).site ∨ (pm H).site + 3 ≤ (pm Q).site) :
    (compute_gradients m b uc scatterers pm g rg1).thrown = none ∧
    (compute_gradients m a uc scatterers pm
      (compute_gradients m b uc scatterers pm g rg1).state.2.1 rg2).thrown = none ∧
    (compute_gradients m a uc scatterers pm g rg3).thrown = none ∧
    (compute_gradients m b uc scatterers pm
      (compute_gradients m a uc scatterers pm g rg3).state.2.1 rg4).thrown = none ∧
    (∀ j, j < 3 →
      (compute_gradients m a uc scatterers pm
          (compute_gradients m b uc scatterers pm g rg1).state.2.1 rg2).state.2.1
          ((pm P).site + j)
        = g ((pm P).site + j) + (g ((pm Q).site + j) + g ((pm H).site + j)) ∧
      (compute_gradients m b uc scatterers pm
          (compute_gradients m a uc scatterers pm g rg3).state.2.1 rg4).state.2.1
          ((pm P).site + j)
        = g ((pm P).site + j) + g ((pm Q).site + j) ∧
      (compute_gradients m a uc scatterers pm
          (compute_gradients m b uc scatterers pm g rg1).state.2.1 rg2).state.2.1
          ((pm Q).site + j)
        = g ((pm Q).site + j) + g ((pm H).site + j) ∧
      (compute_gradients m b uc scatterers pm
          (compute_gradients m a uc scatterers pm g rg3).state.2.1 rg4).state.2.1
          ((pm Q).site + j)
        = g ((pm Q).site + j) + g ((pm H).site + j) ∧
      (g ((pm H).site + j) ≠ 0 →
        (compute_gradients m b uc scatterers pm
            (compute_gradients m a uc scatterers pm g rg3).state.2.1 rg4).state.2.1
            ((pm P).site + j)
          ≠ (compute_gradients m a uc scatterers pm
            (compute_gradients m b uc scatterers pm g rg1).state.2.1 rg2).state.2.1
            ((pm P).site + j))) := by
  have fA : ∀ i_h ∈ (heir.base a).i_hydrogens, (scatterers i_h).flags.grad_site = true := by
    intro i_h hi
    rw [h_hydA, List.mem_singleton] at hi
    rw [hi]; exact h_flagQ
  have fB : ∀ i_h ∈ (heir.base b).i_hydrogens, (scatterers i_h).flags.grad_site = true := by
    intro i_h hi
    rw [h_hydB, List.mem_singleton] at hi
    rw [hi]; exact h_flagH
  have sA : ∀ i_h ∈ (heir.base a).i_hydrogens,
      (pm i_h).site + 3 ≤ (pm (heir.base a).i_pivot).site ∨
        (pm (heir.base a).i_pivot).site + 3 ≤ (pm i_h).site := by
    intro i_h hi
    rw [h_hydA, List.mem_singleton] at hi
    rw [hi, h_pivotA]
    omega
  have sB : ∀ i_h ∈ (heir.base b).i_hydrogens,
      (pm i_h).site + 3 ≤ (pm (heir.base b).i_pivot).site ∨
        (pm (heir.base b).i_pivot).site + 3 ≤ (pm i_h).site := by
    intro i_h hi
    rw [h_hydB, List.mem_singleton] at hi
    rw [hi, h_pivotB]
    omega
  obtain ⟨b1, b2, b3⟩ := compute_gradients_riding_spec m b uc scatterers pm g rg1 h_onB fB sB
  obtain ⟨ba1, ba2, ba3⟩ := compute_gradients_riding_spec m a uc scatterers pm
    (compute_gradients m b uc scatterers pm g rg1).state.2.1 rg2 h_onA fA sA
  obtain ⟨a1, a2, a3⟩ := compute_gradients_riding_spec m a uc scatterers pm g rg3 h_onA fA sA
  obtain ⟨ab1, ab2, ab3⟩ := compute_gradients_riding_spec m b uc scatterers pm
    (compute_gradients m a uc scatterers pm g rg3).state.2.1 rg4 h_onB fB sB
  rw [h_pivotA] at a2 a3 ba2 ba3
  rw [h_pivotB] at b2 b3 ab2 ab3
  rw [h_hydA] at a2 ba2
  rw [h_hydB] at b2 ab2
  simp only [List.map_cons, List.map_nil, List.sum_cons, List.sum_nil, add_zero] at a2 b2 ba2 ab2
  refine ⟨b1, ba1, a1, ab1, ?_⟩
  intro j hj
  have e1 : (compute_gradients m a uc scatterers pm
      (compute_gradients m b uc scatterers pm g rg1).state.2.1 rg2).state.2.1 ((pm P).site + j)
      = g ((pm P).site + j) + (g ((pm Q).site + j) + g ((pm H).site + j)) := by
    rw [ba2 j hj, b2 j hj, b3 _ (by omega)]
  have e2 : (compute_gradients m b uc scatterers pm
      (compute_gradients m a uc scatterers pm g rg3).state.2.1 rg4).state.2.1 ((pm P).site + j)
      = g ((pm P).site + j) + g ((pm Q).site + j) := by
    rw [ab3 _ (by omega), a2 j hj]
  have e3 : (compute_gradients m a uc scatterers pm
      (compute_gradients m b uc scatterers pm g rg1).state.2.1 rg2).state.2.1 ((pm Q).site + j)
      = g ((pm Q).site + j) + g ((pm H).site + j) := by
    rw [ba3 _ (by omega), b2 j hj]
  have e4 : (compute_gradients m b uc scatterers pm
      (compute_gradients m a uc scatterers pm g rg3).state.2.1 rg4).state.2.1 ((pm Q).site + j)
      = g ((pm Q).site + j) + g ((pm H).site + j) := by
    rw [ab2 j hj, a3 _ (by omega), a3 _ (by omega)]
  refine ⟨e1, e2, e3, e4, ?_⟩
  intro hne hcon
  rw [e1, e2] at hcon
  apply hne
  linear_combination -hcon

/-- C24, worked instance: `cascade_upper` (pivot 0, dependent 1) and `cascade_lower` (pivot 1,
dependent 2) on the gradients `ramp`: entry 0 is `1 + (4 + 7)` when the lower constraint runs
first and `1 + 4` when the upper one runs first. -/
theorem C24_cascade_order_matters_witness :
    (compute_gradients sample.no_math (any_hydrogens.terminal sample.cascade_upper)
        (unit_cell.cubic_unit ℚ) (sample.free_scatterers ℚ) sample.packed_map
        (compute_gradients sample.no_math (any_hydrogens.terminal sample.cascade_lower)
          (unit_cell.cubic_unit ℚ) (sample.free_scatterers ℚ) sample.packed_map sample.ramp
          []).state.2.1 []).state.2.1 0 = 1 + (4 + 7) ∧
    (compute_gradients sample.no_math (any_hydrogens.terminal sample.cascade_lower)
        (unit_cell.cubic_unit ℚ) (sample.free_scatterers ℚ) sample.packed_map
        (compute_gradients sample.no_math (any_hydrogens.terminal sample.cascade_upper)
          (unit_cell.cubic_unit ℚ) (sample.free_scatterers ℚ) sample.packed_map sample.ramp
          []).state.2.1 []).state.2.1 0 = 1 + 4 := by
  obtain ⟨_, _, _, _, h5⟩ :=
    C24_cascade_order_matters sample.no_math (any_hydrogens.terminal sample.cascade_upper)
      (any_hydrogens.terminal sample.cascade_lower) (unit_cell.cubic_unit ℚ)
      (sample.free_scatterers ℚ) sample.packed_map sample.ramp [] [] [] [] 0 1 2
      rfl rfl rfl rfl rfl rfl rfl rfl (by decide) (by decide) (by decide)
  obtain ⟨e1, e2, _⟩ := h5 0 (by norm_num)
  constructor
  · have h : (sample.packed_map 0).site + 0 = 0 := rfl
    rw [h] at e1
    rw [e1]
    norm_num [sample.ramp, sample.packed_map]
  · have h : (sample.packed_map 0).site + 0 = 0 := rfl
    rw [h] at e2
    rw [e2]
    norm_num [sample.ramp, sample.packed_map]

/-- C26.  After `terminal_X_Hn::place_constrained_scatterers` over the reals, thrown or not, with
the pivot and the neighbour at different positions: `e2` is the vector from the neighbour to the
pivot divided by its (positive) length, and has unit length; `e0`, `e1`, `e2` are mutually
orthogonal; `e1 = e2 × e0_old` with `e0_old` the axis before the call; `|e0| = |e1| ≤ |e0_old|`,
with equality when `e0_old` is orthogonal to the new `e2` and strict inequality otherwise. -/
theorem C26_frame_after_placement (uc : unit_cell ℝ) (t : terminal_X_Hn ℝ)
    (sc : Nat → scatterer ℝ)
    (h_pos : uc.orthogonalize (sc t.i_pivot).site
      ≠ uc.orthogonalize (sc t.i_pivot_neighbour).site) :
    (terminal_X_Hn.place_constrained_scatterers real_math uc t sc).state.1.e2
      = ((uc.orthogonalize (sc t.i_pivot).site).sub
          (uc.orthogonalize (sc t.i_pivot_neighbour).site)).div
        (((uc.orthogonalize (sc t.i_pivot).site).sub
          (uc.orthogonalize (sc t.i_pivot_neighbour).site)).length real_math) ∧
    0 < ((uc.orthogonalize (sc t.i_pivot).site).sub
      (uc.orthogonalize (sc t.i_pivot_neighbour).site)).length real_math ∧
    (terminal_X_Hn.place_constrained_scatterers real_math uc t sc).state.1.e2.length real_math
      = 1 ∧
    (terminal_X_Hn.place_constrained_scatterers real_math uc t sc).state.1.e0.dot
      (terminal_X_Hn.place_constrained_scatterers real_math uc t sc).state.1.e1 = 0 ∧
    (terminal_X_Hn.place_constrained_scatterers real_math uc t sc).state.1.e0.dot
      (terminal_X_Hn.place_constrained_scatterers real_math uc t sc).state.1.e2 = 0 ∧
    (terminal_X_Hn.place_constrained_scatterers real_math uc t sc).state.1.e1.dot
      (terminal_X_Hn.place_constrained_scatterers real_math uc t sc).state.1.e2 = 0 ∧
    (terminal_X_Hn.place_constrained_scatterers real_math uc t sc).state.1.e1
      = (terminal_X_Hn.place_constrained_scatterers real_math uc t sc).state.1.e2.cross t.e0 ∧
    (terminal_X_Hn.place_constrained_scatterers real_math uc t sc).state.1.e0.length real_math
      = (terminal_X_Hn.place_constrained_scatterers real_math uc t sc).state.1.e1.length
          real_math ∧
    (terminal_X_Hn.place_constrained_scatterers real_math uc t sc).state.1.e1.length real_math
      ≤ t.e0.length real_math ∧
    (t.e0.dot (terminal_X_Hn.place_constrained_scatterers real_math uc t sc).state.1.e2 = 0 →
      (terminal_X_Hn.place_constrained_scatterers real_math uc t sc).state.1.e1.length real_math
        = t.e0.length real_math) ∧
    (t.e0.dot (terminal_X_Hn.place_constrained_scatterers real_math uc t sc).state.1.e2 ≠ 0 →
      (terminal_X_Hn.place_constrained_scatterers real_math uc t sc).state.1.e1.length real_math
        < t.e0.length real_math) := by
  obtain ⟨f2, f1, f0⟩ := terminal_place_frame real_math uc t sc
  have hne := real_sub_length_sq_ne _ _ h_pos
  have hu : (((uc.orthogonalize (sc t.i_pivot).site).sub
      (uc.orthogonalize (sc t.i_pivot_neighbour).site)).normalize real_math).dot
      (((uc.orthogonalize (sc t.i_pivot).site).sub
        (uc.orthogonalize (sc t.i_pivot_neighbour).site)).normalize real_math) = 1 :=
    real_normalize_unit_length _ hne
  rw [f0, f1, f2]
  have hsq1 : ((((uc.orthogonalize (sc t.i_pivot).site).sub
      (uc.orthogonalize (sc t.i_pivot_neighbour).site)).normalize real_math).cross
        t.e0).length_sq
      = t.e0.length_sq - (t.e0.dot (((uc.orthogonalize (sc t.i_pivot).site).sub
          (uc.orthogonalize (sc t.i_pivot_neighbour).site)).normalize real_math))
        * (t.e0.dot (((uc.orthogonalize (sc t.i_pivot).site).sub
          (uc.orthogonalize (sc t.i_pivot_neighbour).site)).normalize real_math)) := by
    rw [Vec3.length_sq, cross_lagrange, hu,
      dot_comm t.e0 (((uc.orthogonalize (sc t.i_pivot).site).sub
        (uc.orthogonalize (sc t.i_pivot_neighbour).site)).normalize real_math), Vec3.length_sq]
    ring
  have hsq0 : (((((uc.orthogonalize (sc t.i_pivot).site).sub
      (uc.orthogonalize (sc t.i_pivot_neighbour).site)).normalize real_math).cross
        t.e0).cross (((uc.orthogonalize (sc t.i_pivot).site).sub
      (uc.orthogonalize (sc t.i_pivot_neighbour).site)).normalize real_math)).length_sq
      = ((((uc.orthogonalize (sc t.i_pivot).site).sub
      (uc.orthogonalize (sc t.i_pivot_neighbour).site)).normalize real_math).cross
        t.e0).length_sq := by
    rw [Vec3.length_sq, cross_lagrange, hu, cross_dot_left, Vec3.length_sq]
    ring
  refine ⟨rfl, real_sqrt_length_pos _ hne, ?_, cross_dot_left _ _, cross_dot_right _ _,
    cross_dot_left _ _, rfl, ?_, ?_, ?_, ?_⟩
  · exact real_length_of_sq _ 1 (by norm_num) (by rw [Vec3.length_sq, hu]; norm_num)
  · simp only [Vec3.length, hsq0]
  · show Real.sqrt _ ≤ Real.sqrt _
    rw [hsq1]
    apply Real.sqrt_le_sqrt
    have := mul_self_nonneg (t.e0.dot (((uc.orthogonalize (sc t.i_pivot).site).sub
      (uc.orthogonalize (sc t.i_pivot_neighbour).site)).normalize real_math))
    linarith
  · intro h0
    simp only [Vec3.length, hsq1, h0, mul_zero, sub_zero]
  · intro h0
    show Real.sqrt _ < Real.sqrt _
    apply Real.sqrt_lt_sqrt (real_length_sq_nonneg _)
    rw [hsq1]
    have := mul_self_pos.mpr h0
    linarith

/-- C26, worked instance: `methyl_initialised` placed on `axis_sites` (pivot at the origin,
neighbour at `(0, 0, -1)`): `e2` has unit length, `e0` and `e1` have the same length, which is
at most that of the previous `e0`. -/
theorem C26_frame_after_placement_witness :
    (terminal_X_Hn.place_constrained_scatterers real_math (unit_cell.cubic_unit ℝ)
      (sample.methyl_initialised real_math) (sample.axis_sites ℝ)).state.1.e2.length real_math
      = 1 ∧
    (terminal_X_Hn.place_constrained_scatterers real_math (unit_cell.cubic_unit ℝ)
      (sample.methyl_initialised real_math) (sample.axis_sites ℝ)).state.1.e0.length real_math
      = (terminal_X_Hn.place_constrained_scatterers real_math (unit_cell.cubic_unit ℝ)
        (sample.methyl_initialised real_math) (sample.axis_sites ℝ)).state.1.e1.length
          real_math ∧
    (terminal_X_Hn.place_constrained_scatterers real_math (unit_cell.cubic_unit ℝ)
      (sample.methyl_initialised real_math) (sample.axis_sites ℝ)).state.1.e1.length real_math
      ≤ (sample.methyl_initialised real_math).e0.length real_math := by
  have h := C26_frame_after_placement (unit_cell.cubic_unit ℝ)
    (sample.methyl_initialised real_math) (sample.axis_sites ℝ)
    (by
      intro h
      have hz := congrArg Vec3.z h
      have e0 : ((unit_cell.cubic_unit ℝ).orthogonalize (sample.axis_sites ℝ
        (sample.methyl_initialised real_math).i_pivot).site).z = 0 := rfl
      have e1 : ((unit_cell.cubic_unit ℝ).orthogonalize (sample.axis_sites ℝ
        (sample.methyl_initialised real_math).i_pivot_neighbour).site).z = -1 := rfl
      rw [e0, e1] at hz
      norm_num at hz)
  exact ⟨h.2.2.1, h.2.2.2.2.2.2.2.1, h.2.2.2.2.2.2.2.2.1⟩

/-- C27.  For a constraint of any variant and every input (Active or not, any modes enabled,
the riding assertion failing or not), `compute_gradients` leaves every entry of the
crystallographic gradients outside the three site slots of the pivot equal to its value before
the call; in particular the three site-gradient components of a dependent whose slots do not
overlap those of the pivot are what they were. -/
theorem C27_only_pivot_slots_written {R : Type} [LinearOrderedField R] (m : std_math R)
    (c : any_hydrogens R) (uc : unit_cell R) (scatterers : Nat → scatterer R)
    (pm : Nat → parameter_indices) (g : Nat → R) (rg : List R) (k : Nat) :
    (k < (pm (heir.base c).i_pivot).site ∨ (pm (heir.base c).i_pivot).site + 3 ≤ k →
      (compute_gradients m c uc scatterers pm g rg).state.2.1 k = g k) ∧
    (∀ i_h ∈ (heir.base c).i_hydrogens,
      (pm i_h).site + 3 ≤ (pm (heir.base c).i_pivot).site ∨
        (pm (heir.base c).i_pivot).site + 3 ≤ (pm i_h).site →
      gradient_at (compute_gradients m c uc scatterers pm g rg).state.2.1 (pm i_h).site
        = gradient_at g (pm i_h).site) := by
  have key : ∀ j, j < (pm (heir.base c).i_pivot).site ∨ (pm (heir.base c).i_pivot).site + 3 ≤ j →
      (compute_gradients m c uc scatterers pm g rg).state.2.1 j = g j := by
    intro j hj
    rw [compute_gradients_gradients]
    by_cases hon : (heir.base c).on_ = true
    · simp only [hon, if_true]
      exact riding_other scatterers pm _ _ g j hj
    · simp only [hon, Bool.false_eq_true, if_false]
  refine ⟨key k, ?_⟩
  intro i_h _ hd
  simp only [gradient_at]
  rw [key _ (by omega), key _ (by omega), key _ (by omega)]

/-- C28.  For a `bond` over the reals constructed on the sites `s0 ≠ s1`: `residual()` is
`weight * (distance_ideal - |s0 - s1|)²`; `gradient_0()` is
`-2 * weight * (distance_ideal - |s0 - s1|) / |s0 - s1| * (s0 - s1)`; and each component of
`gradient_0()` is the derivative of the residual with respect to the matching coordinate of
`s0`, the other coordinates and `s1` being fixed. -/
theorem C28_bond_residual_gradient (garbage : cctbx.restraints.bond ℝ) (s0 s1 : Vec3 ℝ)
    (distance_ideal weight : ℝ) (h : s0 ≠ s1) :
    (cctbx.restraints.bond.mk_ctor real_math garbage (s0, s1) distance_ideal weight).residual
      = weight * (distance_ideal - (s0.sub s1).length real_math) ^ 2 ∧
    (cctbx.restraints.bond.mk_ctor real_math garbage (s0, s1) distance_ideal weight).gradient_0
      = Vec3.smul (-2 * weight * (distance_ideal - (s0.sub s1).length real_math)
          / (s0.sub s1).length real_math) (s0.sub s1) ∧
    HasDerivAt
      (fun x => (cctbx.restraints.bond.mk_ctor real_math garbage (⟨x, s0.y, s0.z⟩, s1) distance_ideal
        weight).residual)
      (cctbx.restraints.bond.mk_ctor real_math garbage (s0, s1) distance_ideal weight).gradient_0.x s0.x ∧
    HasDerivAt
      (fun y => (cctbx.restraints.bond.mk_ctor real_math garbage (⟨s0.x, y, s0.z⟩, s1) distance_ideal
        weight).residual)
      (cctbx.restraints.bond.mk_ctor real_math garbage (s0, s1) distance_ideal weight).gradient_0.y s0.y ∧
    HasDerivAt
      (fun z => (cctbx.restraints.bond.mk_ctor real_math garbage (⟨s0.x, s0.y, z⟩, s1) distance_ideal
        weight).residual)
      (cctbx.restraints.bond.mk_ctor real_math garbage (s0, s1) distance_ideal weight).gradient_0.z s0.z := by
  have hne : (s0.sub s1).length_sq ≠ 0 := real_sub_length_sq_ne s0 s1 h
  obtain ⟨x0, y0, z0⟩ := s0
  obtain ⟨x1, y1, z1⟩ := s1
  simp only [Vec3.length_sq, Vec3.dot, Vec3.sub] at hne
  refine ⟨?_, ?_, ?_, ?_, ?_⟩
  · simp only [cctbx.restraints.bond.residual, cctbx.restraints.bond.mk_ctor, cctbx.restraints.bond.init_distance_model, cctbx.restraints.pow2]
    ring
  · simp only [cctbx.restraints.bond.gradient_0, cctbx.restraints.bond.mk_ctor, cctbx.restraints.bond.init_distance_model]
    congr 1
    ring
  · have hd := real_bond_residual_deriv x1 (y0 - y1) (z0 - z1) distance_ideal weight x0 hne
    exact hd
  · have hd := real_bond_residual_deriv y1 (x0 - x1) (z0 - z1) distance_ideal weight y0
      (by intro h0; apply hne; linarith)
    have e : ∀ y : ℝ, (x0 - x1) * (x0 - x1) + (y - y1) * (y - y1) + (z0 - z1) * (z0 - z1)
        = (y - y1) * (y - y1) + (x0 - x1) * (x0 - x1) + (z0 - z1) * (z0 - z1) := by
      intro y; ring
    simp only [cctbx.restraints.bond.residual, cctbx.restraints.bond.gradient_0, cctbx.restraints.bond.mk_ctor, cctbx.restraints.bond.init_distance_model,
      Vec3.length, Vec3.length_sq, Vec3.dot, Vec3.sub, Vec3.smul, real_math, e]
    exact hd
  · have hd := real_bond_residual_deriv z1 (x0 - x1) (y0 - y1) distance_ideal weight z0
      (by intro h0; apply hne; linarith)
    have e : ∀ z : ℝ, (x0 - x1) * (x0 - x1) + (y0 - y1) * (y0 - y1) + (z - z1) * (z - z1)
        = (z - z1) * (z - z1) + (x0 - x1) * (x0 - x1) + (y0 - y1) * (y0 - y1) := by
      intro z; ring
    simp only [cctbx.restraints.bond.residual, cctbx.restraints.bond.gradient_0, cctbx.restraints.bond.mk_ctor, cctbx.restraints.bond.init_distance_model,
      Vec3.length, Vec3.length_sq, Vec3.dot, Vec3.sub, Vec3.smul, real_math, e]
    exact hd

/-- C28, worked instance: sites `(0, 0, 0)` and `(3, 4, 0)`, ideal distance 6, weight 2: the
model distance is 5, the residual is 2 and `gradient_0()` is `(12/5, 16/5, 0)`. -/
theorem C28_bond_residual_gradient_witness :
    (cctbx.restraints.bond.mk_ctor real_math (cctbx.restraints.bond.garbage_bond ℝ)
        (⟨0, 0, 0⟩, ⟨3, 4, 0⟩) 6 2).residual = 2 ∧
    (cctbx.restraints.bond.mk_ctor real_math (cctbx.restraints.bond.garbage_bond ℝ)
        (⟨0, 0, 0⟩, ⟨3, 4, 0⟩) 6 2).gradient_0 = ⟨12 / 5, 16 / 5, 0⟩ := by
  obtain ⟨h1, h2, _⟩ := C28_bond_residual_gradient (cctbx.restraints.bond.garbage_bond ℝ)
    ⟨0, 0, 0⟩ ⟨3, 4, 0⟩ 6 2
    (by
      intro h
      have hx := congrArg Vec3.x h
      norm_num at hx)
  have hl : (Vec3.sub (⟨0, 0, 0⟩ : Vec3 ℝ) ⟨3, 4, 0⟩).length real_math = 5 :=
    real_length_of_sq _ 5 (by norm_num) (by norm_num [Vec3.length_sq, Vec3.dot, Vec3.sub])
  rw [hl] at h1 h2
  constructor
  · rw [h1]; norm_num
  · rw [h2]; norm_num [Vec3.smul, Vec3.sub]

/-- C29.  For every `bond` whose `distance_model` is not zero (the two sites do not coincide, so
the division in `gradient_0()` is defined): `gradients()[0]` is `gradient_0()` and
`gradients()[1]` is its negative, and `distance_model * gradient_0()` is
`-2 * weight * delta * (sites[0] - sites[1])`.  `add_gradients(gradient_array, i_seqs)` with
distinct indices adds `gradient_0()` to the entry at `i_seqs[0]` and `-gradient_0()` to the
entry at `i_seqs[1]`; with coinciding indices it leaves that entry as it was; it changes no
other entry; and, both indices being within the first `n` entries, the vector sum of the first
`n` entries is the same before and after the call. -/
theorem C29_bond_gradients_opposite {R : Type} [LinearOrderedField R]
    (b : cctbx.restraints.bond R) (gradient_array : Nat → Vec3 R) (i j : Nat)
    (h_dist : b.distance_model ≠ 0) :
    b.gradients.1 = b.gradient_0 ∧
    b.gradients.2 = b.gradients.1.neg ∧
    Vec3.smul b.distance_model b.gradient_0
      = Vec3.smul (-b.weight * 2 * b.delta) (b.sites.1.sub b.sites.2) ∧
    (i ≠ j →
      b.add_gradients gradient_array (i, j) i = (gradient_array i).add b.gradient_0 ∧
      b.add_gradients gradient_array (i, j) j = (gradient_array j).add b.gradient_0.neg) ∧
    (i = j → b.add_gradients gradient_array (i, j) i = gradient_array i) ∧
    (∀ k, k ≠ i → k ≠ j → b.add_gradients gradient_array (i, j) k = gradient_array k) ∧
    (∀ n, i < n → j < n →
      cctbx.restraints.bond.array_sum (b.add_gradients gradient_array (i, j)) n
        = cctbx.restraints.bond.array_sum gradient_array n) := by
  have hzero : ∀ v : Vec3 R, v.add ((⟨0, 0, 0⟩ : Vec3 R).add ⟨0, 0, 0⟩) = v := by
    intro v
    simp [Vec3.add]
  refine ⟨rfl, rfl, ?_, ?_, ?_, ?_, ?_⟩
  · simp only [cctbx.restraints.bond.gradient_0, Vec3.smul, Vec3.sub, Vec3.mk.injEq]
    refine ⟨?_, ?_, ?_⟩ <;> field_simp <;> ring
  · intro hij
    have hji : j ≠ i := fun h => hij h.symm
    constructor
    · rw [bond_add_gradients_entry]
      simp only [if_true, hij, if_false, Vec3.add, Vec3.mk.injEq]
      refine ⟨by ring, by ring, by ring⟩
    · rw [bond_add_gradients_entry]
      simp only [if_true, hji, if_false, Vec3.add, Vec3.mk.injEq]
      refine ⟨by ring, by ring, by ring⟩
  · intro hij
    subst hij
    rw [bond_add_gradients_entry]
    simp only [if_true, Vec3.add, Vec3.neg]
    obtain ⟨x, y, z⟩ := gradient_array i
    simp only [Vec3.mk.injEq]
    refine ⟨by ring, by ring, by ring⟩
  · intro k hi hj
    rw [bond_add_gradients_entry]
    simp only [hi, hj, if_false]
    exact hzero _
  · intro n hi hj
    have hx : ∀ k, (b.add_gradients gradient_array (i, j) k).x
        = (gradient_array k).x
          + ((if k = i then b.gradient_0.x else 0) + (if k = j then -b.gradient_0.x else 0)) := by
      intro k
      rw [bond_add_gradients_entry]
      simp only [Vec3.add, Vec3.neg, apply_ite Vec3.x]
    have hy : ∀ k, (b.add_gradients gradient_array (i, j) k).y
        = (gradient_array k).y
          + ((if k = i then b.gradient_0.y else 0) + (if k = j then -b.gradient_0.y else 0)) := by
      intro k
      rw [bond_add_gradients_entry]
      simp only [Vec3.add, Vec3.neg, apply_ite Vec3.y]
    have hz : ∀ k, (b.add_gradients gradient_array (i, j) k).z
        = (gradient_array k).z
          + ((if k = i then b.gradient_0.z else 0) + (if k = j then -b.gradient_0.z else 0)) := by
      intro k
      rw [bond_add_gradients_entry]
      simp only [Vec3.add, Vec3.neg, apply_ite Vec3.z]
    simp only [cctbx.restraints.bond.array_sum, hx, hy, hz, sum_range_shift_pair _ _ i j n hi hj]

/-- C29, worked instance: the bond on the sites `(0, 0, 0)` and `(3, 4, 0)` with ideal distance
6 and weight 2, whose model distance is 5 and whose `gradient_0()` is `(12/5, 16/5, 0)`, and
the gradient array whose every entry is `(1, 2, 3)`, with `i_seqs = (0, 2)`: `gradients()` is
`((12/5, 16/5, 0), (-12/5, -16/5, 0))`, entry 0 becomes `(17/5, 26/5, 3)`, entry 2 becomes
`(-7/5, -6/5, 3)`, entry 1 stays `(1, 2, 3)`, and the sum of the first three entries is still
`(3, 6, 9)`. -/
theorem C29_bond_gradients_opposite_witness :
    (cctbx.restraints.bond.mk_ctor real_math (cctbx.restraints.bond.garbage_bond ℝ)
        (⟨0, 0, 0⟩, ⟨3, 4, 0⟩) 6 2).distance_model = 5 ∧
    (cctbx.restraints.bond.mk_ctor real_math (cctbx.restraints.bond.garbage_bond ℝ)
        (⟨0, 0, 0⟩, ⟨3, 4, 0⟩) 6 2).gradients
      = (⟨12 / 5, 16 / 5, 0⟩, ⟨-12 / 5, -16 / 5, 0⟩) ∧
    (cctbx.restraints.bond.mk_ctor real_math (cctbx.restraints.bond.garbage_bond ℝ)
        (⟨0, 0, 0⟩, ⟨3, 4, 0⟩) 6 2).add_gradients (fun _ => ⟨1, 2, 3⟩) (0, 2) 0
      = ⟨17 / 5, 26 / 5, 3⟩ ∧
    (cctbx.restraints.bond.mk_ctor real_math (cctbx.restraints.bond.garbage_bond ℝ)
        (⟨0, 0, 0⟩, ⟨3, 4, 0⟩) 6 2).add_gradients (fun _ => ⟨1, 2, 3⟩) (0, 2) 2
      = ⟨-7 / 5, -6 / 5, 3⟩ ∧
    (cctbx.restraints.bond.mk_ctor real_math (cctbx.restraints.bond.garbage_bond ℝ)
        (⟨0, 0, 0⟩, ⟨3, 4, 0⟩) 6 2).add_gradients (fun _ => ⟨1, 2, 3⟩) (0, 2) 1
      = ⟨1, 2, 3⟩ ∧
    cctbx.restraints.bond.array_sum
        ((cctbx.restraints.bond.mk_ctor real_math (cctbx.restraints.bond.garbage_bond ℝ)
          (⟨0, 0, 0⟩, ⟨3, 4, 0⟩) 6 2).add_gradients (fun _ => ⟨1, 2, 3⟩) (0, 2)) 3
      = ⟨3, 6, 9⟩ := by
  have hl : (Vec3.sub (⟨0, 0, 0⟩ : Vec3 ℝ) ⟨3, 4, 0⟩).length real_math = 5 :=
    real_length_of_sq _ 5 (by norm_num) (by norm_num [Vec3.length_sq, Vec3.dot, Vec3.sub])
  have hd : (cctbx.restraints.bond.mk_ctor real_math (cctbx.restraints.bond.garbage_bond ℝ)
      (⟨0, 0, 0⟩, ⟨3, 4, 0⟩) 6 2).distance_model = 5 := hl
  have hg : (cctbx.restraints.bond.mk_ctor real_math (cctbx.restraints.bond.garbage_bond ℝ)
      (⟨0, 0, 0⟩, ⟨3, 4, 0⟩) 6 2).gradient_0 = ⟨12 / 5, 16 / 5, 0⟩ := by
    show Vec3.smul (-2 * 2 * (6 - (Vec3.sub (⟨0, 0, 0⟩ : Vec3 ℝ) ⟨3, 4, 0⟩).length real_math)
      / (Vec3.sub (⟨0, 0, 0⟩ : Vec3 ℝ) ⟨3, 4, 0⟩).length real_math)
      (Vec3.sub (⟨0, 0, 0⟩ : Vec3 ℝ) ⟨3, 4, 0⟩) = _
    rw [hl]
    norm_num [Vec3.smul, Vec3.sub]
  obtain ⟨h1, h2, _, h4, _, h6, h7⟩ :=
    C29_bond_gradients_opposite
      (cctbx.restraints.bond.mk_ctor real_math (cctbx.restraints.bond.garbage_bond ℝ)
        (⟨0, 0, 0⟩, ⟨3, 4, 0⟩) 6 2)
      (fun _ => (⟨1, 2, 3⟩ : Vec3 ℝ)) 0 2
      (by
        rw [hd]
        norm_num)
  obtain ⟨h4a, h4b⟩ := h4 (by decide)
  refine ⟨hd, ?_, ?_, ?_, ?_, ?_⟩
  · rw [Prod.ext_iff]
    refine ⟨?_, ?_⟩
    · rw [h1, hg]
    · rw [h2, h1, hg]
      norm_num [Vec3.neg]
  · rw [h4a, hg]
    norm_num [Vec3.add]
  · rw [h4b, hg]
    norm_num [Vec3.add, Vec3.neg]
  · exact h6 1 (by decide) (by decide)
  · rw [h7 3 (by decide) (by decide)]
    simp only [cctbx.restraints.bond.array_sum, Finset.sum_const, Finset.card_range,
      Vec3.mk.injEq]
    refine ⟨by norm_num, by norm_num, by norm_num⟩

end claims

end smtbx
